import Mathlib

/-!
# Lazy micro-hierarchy construction over tessellated subdivision patches

A shallow embedding of `kernels/xeonphi/bvh4i/bvh4i_intersector16_subdiv.cpp`
(the grid partitioner `createSubTree`, the lazy build coordinator
`initLazySubdivTree`, the arena counter they share, and the packet and single-ray
traversal engines) and of `select` and `store_uint8` of
`common/simd/vuint4_sse2.h`, followed by the theorems that settle the
specification's claims about them.

Conventions of the embedding:

* `unsigned int` values are natural numbers below `2^32`; every arithmetic
  operation the source performs on them is wrapped explicitly (`u32`, `u32sub`).
  `size_t` counters count 64-byte blocks of an arena and are unbounded naturals.
* a `float` is an element of an arbitrary type `α`; a `mic_f` is a map from
  lane numbers to `α`. Evaluated coordinates live in an ordered type `γ`
  (a lattice whose top and bottom stand for the two infinities).
* `assert` is compiled out (release build); the asserted conditions are stated
  as theorems where a claim refers to them.
* `lazymem` is a map from block numbers to block contents.
-/

namespace embree

/-! ## Machine integers -/

/-- Wrap of a value into the range of `unsigned int`. -/
def u32 (n : Nat) : Nat := n % 4294967296

/-- Subtraction `a - b` of two `unsigned int` values. -/
def u32sub (a b : Nat) : Nat := (a + 4294967296 - b % 4294967296) % 4294967296

/-! ## Data model -/

/-- A 16-wide float vector (`mic_f`): lane number to lane value. -/
abbrev mic_f (α : Type) := Nat → α

/-- A point or vector with three coordinates (`Vec3fa`, one lane of a `mic3f`). -/
abbrev Vec3 (γ : Type) := Fin 3 → γ

/-- Axis-aligned bounding box `BBox3fa`. -/
structure BBox3fa (γ : Type) where
  lower : Vec3 γ
  upper : Vec3 γ

/-- Modelled from the spec: `BBox3fa(empty)` (common/math/bbox.h is not among the
sources): the box whose lower corner is `+inf` and whose upper corner is `-inf`. -/
def BBox3fa.empty {γ : Type} [Lattice γ] [BoundedOrder γ] : BBox3fa γ :=
  { lower := ⊤, upper := ⊥ }

/-- Modelled from the spec: `BBox3fa::extend(other)`, the union of two boxes
(componentwise minimum of the lower and maximum of the upper corners). -/
def BBox3fa.extend {γ : Type} [Lattice γ] (b c : BBox3fa γ) : BBox3fa γ :=
  { lower := b.lower ⊓ c.lower, upper := b.upper ⊔ c.upper }

/-- Modelled from the spec: a box extended by one point. -/
def BBox3fa.extendPoint {γ : Type} [Lattice γ] (b : BBox3fa γ) (p : Vec3 γ) : BBox3fa γ :=
  { lower := b.lower ⊓ p, upper := b.upper ⊔ p }

/-- The point `p` lies in the box `b`. -/
def BBox3fa.contains {γ : Type} [Lattice γ] (b : BBox3fa γ) (p : Vec3 γ) : Prop :=
  b.lower ≤ p ∧ p ≤ b.upper

/-- The box `b` lies in the box `c`. -/
def BBox3fa.subset {γ : Type} [Lattice γ] (b c : BBox3fa γ) : Prop :=
  c.lower ≤ b.lower ∧ b.upper ≤ c.upper

/-- Modelled from the spec: `getBBox3fa(vtx, mask)` (absent from the sources): the
bounding box of the lanes of `vtx` selected by the 16-bit `mask`. -/
def getBBox3fa {γ : Type} [Lattice γ] [BoundedOrder γ] (vtx : Nat → Vec3 γ) (mask : Nat) :
    BBox3fa γ :=
  (List.range 16).foldl
    (fun b i => if mask.testBit i then b.extendPoint (vtx i) else b) BBox3fa.empty

/-- Modelled from the spec: a `BVH4i::Node` (bvh4i.h is not among the sources): four
child slots, each holding a node reference and a bounding box. -/
structure Node (γ : Type) where
  child : Nat → Nat
  bounds : Nat → BBox3fa γ

/-- Contents of one 64-byte block of `bvh->lazymem`. A leaf occupies two blocks
(its u and its v lanes); a node occupies two blocks, modelled as the node record in
the first and a tail marker in the second. -/
inductive Block (α γ : Type) where
  | unused : Block α γ
  | lanes (v : mic_f α) : Block α γ
  | node (n : Node γ) : Block α γ
  | nodeTail : Block α γ

/-- The fields of `SubdivPatch1` the build and the traversal read or write, the
surface evaluator `SubdivPatch1::eval16` of the patch (subdivpatch1.h is not among
the sources): 16 parameter pairs to 16 positions, and its normal evaluator
`SubdivPatch1::normal`. The ranges `u_range`, `v_range` are pairs `(x, y)`. -/
structure SubdivPatch1 (α γ : Type) where
  eval16 : mic_f α → mic_f α → Nat → Vec3 γ
  level : Nat → α
  grid_u_res : Nat
  grid_v_res : Nat
  grid_size_64b_blocks : Nat
  bvh4i_subtree_root : Nat
  under_construction : Int
  normal : α → α → Vec3 α
  u_range : α × α
  v_range : α × α
  primID : Nat
  geomID : Nat
  grid_mask : Nat

/-- Modelled from the spec: the reference encoding of `BVH4i` (bvh4i.h is not among
the sources). The constants `encodingBits`, `leaf_mask`, `invalidNode`, the
reference `emptyChild` that `Node::setInvalid` leaves in a child slot and the helper
`createBVH4iNode<2>` are parameters. -/
structure BVH4iEncoding where
  encodingBits : Nat
  leaf_mask : Nat
  invalidNode : Nat
  emptyChild : Nat
  createBVH4iNode : Nat → Nat

/-- The external collaborators of the build: the lane value of `mic_f::inf()` and
the tessellator `gridUVTessellator`, which yields the u and the v sample array. -/
structure Externals (α : Type) where
  inf : α
  gridUVTessellator : (Nat → α) → Nat → Nat → (Nat → α) × (Nat → α)

/-- The part of `BVH4i` the build and the traversal use: the block pool, its two
counters, and the reference `root` of the top-level hierarchy. -/
structure BVH4i (α γ : Type) where
  lazymem : Nat → Block α γ
  lazyMemUsed64BytesBlocks : Nat
  lazyMemAllocated64BytesBlocks : Nat
  root : Nat := 0

/-! ## Grid partitioner -/

/-- `createSubPatchBVH4iLeaf`: the 32-bit value stored into the reference. -/
def createSubPatchBVH4iLeaf (K : BVH4iEncoding) (patchIndex : Nat) : Nat :=
  u32 (patchIndex <<< K.encodingBits) ||| K.leaf_mask

/-- The copy loops of lines 74-75 come to an end. Their counters are `unsigned int`
and their tests are `v <= v_end` and `u <= u_end`: the outer loop ends only if `v_end`
is not the largest `unsigned int`, and the inner loop, which is entered when
`v_start <= v_end`, only if `u_end` is not. -/
def copyLoopsEnd (u_end v_start v_end : Nat) : Prop :=
  v_end < 4294967295 ∧ (v_end < v_start ∨ u_end < 4294967295)

instance (u_end v_start v_end : Nat) : Decidable (copyLoopsEnd u_end v_start v_end) := by
  unfold copyLoopsEnd; infer_instance

/-- Lines 74-81 of `createSubTree`, for one of the two leaf arrays: copy the grid
samples of the range into the lanes `4 * local_v + local_u`. This is what the two
loops leave when they end (`copyLoopsEnd`): the counters then run through
`v_start, ..., v_end` and `u_start, ..., u_end` without wrap, or not at all where the
start lies above the end. -/
def fillLeaf {α : Type} (grid : Nat → α) (grid_u_res u_start u_end v_start v_end : Nat)
    (leaf : mic_f α) : mic_f α :=
  (List.range' v_start (v_end + 1 - v_start)).foldl
    (fun leaf v =>
      (List.range' u_start (u_end + 1 - u_start)).foldl
        (fun leaf u =>
          let local_v := u32sub v v_start
          let local_u := u32sub u u_start
          Function.update leaf (u32 (4 * local_v + local_u)) (grid (u32 (v * grid_u_res + u))))
        leaf)
    leaf

/-- Lines 85-90: in each of the four rows, the lanes from column `u_size-1` on
receive the value of column `u_size-1`. -/
def replicateColumns {α : Type} (u_size : Nat) (leaf : mic_f α) : mic_f α :=
  (List.range 4).foldl
    (fun leaf y =>
      (List.range' (u32sub u_size 1) (4 - u32sub u_size 1)).foldl
        (fun leaf x =>
          Function.update leaf (u32 (4 * y + x)) (leaf (u32sub (u32 (4 * y + u_size)) 1)))
        leaf)
    leaf

/-- Lines 92-97: in each of the four columns, the lanes from row `v_size-1` on
receive the value of row `v_size-1`. -/
def replicateRows {α : Type} (v_size : Nat) (leaf : mic_f α) : mic_f α :=
  (List.range 4).foldl
    (fun leaf x =>
      (List.range' (u32sub v_size 1) (4 - u32sub v_size 1)).foldl
        (fun leaf y =>
          Function.update leaf (u32 (4 * y + x)) (leaf (u32 (4 * u32sub v_size 1 + x))))
        leaf)
    leaf

/-- Lines 71-97 for one leaf array: fill with `inf`, copy the range, replicate the
border. The source runs the same statements on `leaf_u_array` and `leaf_v_array`. -/
def packLeaf {α : Type} (inf : α) (grid : Nat → α)
    (grid_u_res u_start u_end v_start v_end u_size v_size : Nat) : mic_f α :=
  replicateRows v_size
    (replicateColumns u_size
      (fillLeaf grid grid_u_res u_start u_end v_start v_end (fun _ => inf)))

/-- The record of one run of `createSubTree`: for every call its cursor value at
creation, its sample range, the reference it wrote and the box it returned. -/
inductive SubTree (γ : Type) where
  | leaf (index u_start u_end v_start v_end : Nat) (ref : Nat) (bounds : BBox3fa γ) :
      SubTree γ
  | node (index u_start u_end v_start v_end : Nat) (ref : Nat)
      (c0 c1 c2 c3 : SubTree γ) (bounds : BBox3fa γ) : SubTree γ

/-- What a call of `createSubTree` leaves behind: the reference written to
`curNode`, the returned box, the block pool, the cursor, and the call record. -/
structure SubTreeResult (α γ : Type) where
  curNode : Nat
  bounds : BBox3fa γ
  lazymem : Nat → Block α γ
  localCounter : Nat
  tree : SubTree γ

/-- Modelled from the spec: `Node::setInvalid`, all four child slots empty. -/
def Node.setInvalid {γ : Type} [Lattice γ] [BoundedOrder γ] (K : BVH4iEncoding) : Node γ :=
  { child := fun _ => K.emptyChild, bounds := fun _ => BBox3fa.empty }

/-- The two writes of one loop round into child slot `i`: the reference the callee
stores through `node.child(i)` and `node.setBounds(i, bounds_subtree)`. -/
def Node.setSlot {γ : Type} (n : Node γ) (i : Nat) (ref : Nat) (b : BBox3fa γ) : Node γ :=
  { child := Function.update n.child i ref, bounds := Function.update n.bounds i b }

/-- The node record after the loop rounds whose callee results are `rs` (lines
122 and 138-152): round `i` fills child slot `i`. -/
def nodeAfter {α γ : Type} [Lattice γ] [BoundedOrder γ] (K : BVH4iEncoding)
    (rs : List (SubTreeResult α γ)) : Node γ :=
  rs.enum.foldl (fun n ir => n.setSlot ir.1 ir.2.curNode ir.2.bounds) (Node.setInvalid K)

/-- The block pool after a loop round: what the callee `r` left, with the node
record at block `currentIndex` updated. -/
def memAfter {α γ : Type} [Lattice γ] [BoundedOrder γ] (K : BVH4iEncoding)
    (currentIndex : Nat) (rs : List (SubTreeResult α γ)) (r : SubTreeResult α γ) :
    Nat → Block α γ :=
  Function.update r.lazymem currentIndex (Block.node (nodeAfter K rs))

/-- The value of `bounds` after the loop rounds whose callee results are `rs`:
`bounds.extend(bounds_subtree)` from `BBox3fa bounds(empty)`. -/
def boundsAfter {α γ : Type} [Lattice γ] [BoundedOrder γ]
    (rs : List (SubTreeResult α γ)) : BBox3fa γ :=
  rs.foldl (fun b r => b.extend r.bounds) BBox3fa.empty

/-- The leaf branch of `createSubTree` (lines 60-111), for a range on which the copy
loops end. -/
def createLeaf {α γ : Type} [Lattice γ] [BoundedOrder γ]
    (K : BVH4iEncoding) (E : Externals α) (patch : SubdivPatch1 α γ)
    (grid_u_array grid_v_array : Nat → α) (u_start u_end v_start v_end : Nat)
    (lazymem : Nat → Block α γ) (localCounter : Nat) : SubTreeResult α γ :=
  let u_size := u32 (u32sub u_end u_start + 1)
  let v_size := u32 (u32sub v_end v_start + 1)
  let currentIndex := u32 localCounter
  let leaf_u_array :=
    packLeaf E.inf grid_u_array patch.grid_u_res u_start u_end v_start v_end u_size v_size
  let leaf_v_array :=
    packLeaf E.inf grid_v_array patch.grid_u_res u_start u_end v_start v_end u_size v_size
  let leafGridBounds := getBBox3fa (patch.eval16 leaf_u_array leaf_v_array) 0xffff
  { curNode := createSubPatchBVH4iLeaf K currentIndex
    bounds := leafGridBounds
    lazymem :=
      Function.update
        (Function.update lazymem (u32 (currentIndex + 0)) (Block.lanes leaf_u_array))
        (u32 (currentIndex + 1)) (Block.lanes leaf_v_array)
    localCounter := localCounter + 2
    tree := SubTree.leaf currentIndex u_start u_end v_start v_end
      (createSubPatchBVH4iLeaf K currentIndex) leafGridBounds }

/-- The block pool a fresh node hands to its first callee (lines 113-122): the
node record, all slots invalid, in the two blocks at `currentIndex`, which is where
`curNode.node(bvh->lazymem)` points after `createBVH4iNode<2>(curNode, currentIndex)`. -/
def memNode {α γ : Type} [Lattice γ] [BoundedOrder γ] (K : BVH4iEncoding)
    (lazymem : Nat → Block α γ) (currentIndex : Nat) : Nat → Block α γ :=
  Function.update (Function.update lazymem currentIndex (Block.node (Node.setInvalid K)))
    (currentIndex + 1) Block.nodeTail

/-- What the node branch returns after its four loop rounds (lines 150-154). -/
def createNode {α γ : Type} [Lattice γ] [BoundedOrder γ] (K : BVH4iEncoding)
    (u_start u_end v_start v_end currentIndex : Nat) (r0 r1 r2 r3 : SubTreeResult α γ) :
    SubTreeResult α γ :=
  { curNode := K.createBVH4iNode currentIndex
    bounds := boundsAfter [r0, r1, r2, r3]
    lazymem := memAfter K currentIndex [r0, r1, r2, r3] r3
    localCounter := r3.localCounter
    tree := SubTree.node currentIndex u_start u_end v_start v_end
      (K.createBVH4iNode currentIndex) r0.tree r1.tree r2.tree r3.tree
      (boundsAfter [r0, r1, r2, r3]) }

/-- `createSubTree`. The recursion of the source is bounded by `fuel`; `none` means
that the call does not return: the fuel ran out, or the copy loops of a leaf never
end (`copyLoopsEnd`). The four loop rounds `i = 0, 1, 2, 3` are written out, with the
ranges of `subtree_u_start`, `subtree_u_end`, `subtree_v_start`, `subtree_v_end`. -/
def createSubTree {α γ : Type} [Lattice γ] [BoundedOrder γ]
    (K : BVH4iEncoding) (E : Externals α) (patch : SubdivPatch1 α γ)
    (grid_u_array grid_v_array : Nat → α) :
    Nat → Nat → Nat → Nat → Nat → (Nat → Block α γ) → Nat → Option (SubTreeResult α γ)
  | 0, _, _, _, _, _, _ => none
  | fuel + 1, u_start, u_end, v_start, v_end, lazymem, localCounter =>
    let u_size := u32 (u32sub u_end u_start + 1)
    let v_size := u32 (u32sub v_end v_start + 1)
    if u_size ≤ 4 ∧ v_size ≤ 4 then
      if copyLoopsEnd u_end v_start v_end then
        some (createLeaf K E patch grid_u_array grid_v_array u_start u_end v_start v_end
          lazymem localCounter)
      else none
    else
      let currentIndex := localCounter
      let u_mid := u32 (u_start + u_end) / 2
      let v_mid := u32 (v_start + v_end) / 2
      match createSubTree K E patch grid_u_array grid_v_array fuel
          u_start u_mid v_start v_mid (memNode K lazymem currentIndex) (localCounter + 2) with
      | none => none
      | some r0 =>
        match createSubTree K E patch grid_u_array grid_v_array fuel
            u_mid u_end v_start v_mid (memAfter K currentIndex [r0] r0) r0.localCounter with
        | none => none
        | some r1 =>
          match createSubTree K E patch grid_u_array grid_v_array fuel
              u_mid u_end v_mid v_end (memAfter K currentIndex [r0, r1] r1)
              r1.localCounter with
          | none => none
          | some r2 =>
            match createSubTree K E patch grid_u_array grid_v_array fuel
                u_start u_mid v_mid v_end (memAfter K currentIndex [r0, r1, r2] r2)
                r2.localCounter with
            | none => none
            | some r3 =>
              some (createNode K u_start u_end v_start v_end currentIndex r0 r1 r2 r3)

/-- Number of internal nodes on the longest path from the root to a leaf. -/
def SubTree.depth {γ : Type} : SubTree γ → Nat
  | .leaf _ _ _ _ _ _ _ => 0
  | .node _ _ _ _ _ _ c0 c1 c2 c3 _ => 1 + max (max c0.depth c1.depth) (max c2.depth c3.depth)

/-- Number of internal nodes on the shortest path from the root to a leaf. -/
def SubTree.minDepth {γ : Type} : SubTree γ → Nat
  | .leaf _ _ _ _ _ _ _ => 0
  | .node _ _ _ _ _ _ c0 c1 c2 c3 _ =>
    1 + min (min c0.minDepth c1.minDepth) (min c2.minDepth c3.minDepth)

/-- All leaves of the tree are at the same depth. -/
def SubTree.balanced {γ : Type} (t : SubTree γ) : Prop := t.minDepth = t.depth

/-- The box a call returned. -/
def SubTree.bounds {γ : Type} : SubTree γ → BBox3fa γ
  | .leaf _ _ _ _ _ _ b => b
  | .node _ _ _ _ _ _ _ _ _ _ b => b

/-- The reference a call wrote to its `curNode`. -/
def SubTree.ref {γ : Type} : SubTree γ → Nat
  | .leaf _ _ _ _ _ r _ => r
  | .node _ _ _ _ _ r _ _ _ _ _ => r

/-- Every node of the call record has its two blocks inside `[lo, hi)`. -/
def SubTree.InBlocks {γ : Type} (lo hi : Nat) : SubTree γ → Prop
  | .leaf index _ _ _ _ _ _ => lo ≤ index ∧ index + 2 ≤ hi
  | .node index _ _ _ _ _ c0 c1 c2 c3 _ =>
    lo ≤ index ∧ index + 2 ≤ hi ∧ c0.InBlocks lo hi ∧ c1.InBlocks lo hi ∧
      c2.InBlocks lo hi ∧ c3.InBlocks lo hi

/-- What the block pool holds for a call record, box by box: the two blocks of a leaf
hold its u and v lanes and the box the leaf call returned is `getBBox3fa` of the 16
positions evaluated at these lanes; the block of a node holds a node record whose
child slot `i` stores the reference and the box that the call for child `i`
produced, and the box the node call returned is the union, from the empty box, of
the boxes of its four children; and so on in the four subtrees. -/
def BoxesStored {α γ : Type} [Lattice γ] [BoundedOrder γ] (patch : SubdivPatch1 α γ)
    (mem : Nat → Block α γ) : SubTree γ → Prop
  | .leaf index _ _ _ _ _ b =>
    ∃ u v, mem index = Block.lanes u ∧ mem (index + 1) = Block.lanes v ∧
      b = getBBox3fa (patch.eval16 u v) 0xffff
  | .node index _ _ _ _ _ c0 c1 c2 c3 b =>
    (∃ n, mem index = Block.node n ∧
      n.bounds 0 = c0.bounds ∧ n.bounds 1 = c1.bounds ∧
      n.bounds 2 = c2.bounds ∧ n.bounds 3 = c3.bounds ∧
      n.child 0 = c0.ref ∧ n.child 1 = c1.ref ∧ n.child 2 = c2.ref ∧ n.child 3 = c3.ref) ∧
    b = (((BBox3fa.empty.extend c0.bounds).extend c1.bounds).extend c2.bounds).extend
      c3.bounds ∧
    BoxesStored patch mem c0 ∧ BoxesStored patch mem c1 ∧
    BoxesStored patch mem c2 ∧ BoxesStored patch mem c3

/-- The point `p` is a position evaluated at one of the 16 lanes of a leaf of the
subtree. -/
def SubTree.positions {α γ : Type} (patch : SubdivPatch1 α γ) (mem : Nat → Block α γ) :
    SubTree γ → Vec3 γ → Prop
  | .leaf index _ _ _ _ _ _, p =>
    ∃ u v lane, mem index = Block.lanes u ∧ mem (index + 1) = Block.lanes v ∧ lane < 16 ∧
      p = patch.eval16 u v lane
  | .node _ _ _ _ _ _ c0 c1 c2 c3 _, p =>
    c0.positions patch mem p ∨ c1.positions patch mem p ∨
      c2.positions patch mem p ∨ c3.positions patch mem p

/-- Bounding-box soundness of a call record: the box each call returned contains
every position of its subtree, and the box stored in child slot `i` of each node
contains every position of the subtree of child `i`. -/
def SubTree.Sound {α γ : Type} [Lattice γ] (patch : SubdivPatch1 α γ)
    (mem : Nat → Block α γ) : SubTree γ → Prop
  | .leaf index us ue vs ve ref b =>
    ∀ p, (SubTree.leaf index us ue vs ve ref b).positions patch mem p → b.contains p
  | .node index us ue vs ve ref c0 c1 c2 c3 b =>
    (∀ p, (SubTree.node index us ue vs ve ref c0 c1 c2 c3 b).positions patch mem p →
      b.contains p) ∧
    (∃ n, mem index = Block.node n ∧
      ∀ p, (c0.positions patch mem p → (n.bounds 0).contains p) ∧
        (c1.positions patch mem p → (n.bounds 1).contains p) ∧
        (c2.positions patch mem p → (n.bounds 2).contains p) ∧
        (c3.positions patch mem p → (n.bounds 3).contains p)) ∧
    c0.Sound patch mem ∧ c1.Sound patch mem ∧ c2.Sound patch mem ∧ c3.Sound patch mem

/-- What a call of `createSubTree` entered with block pool `mem` and cursor `c`
leaves: the cursor has advanced by at least one node; the returned box and the
written reference are the ones of the call record; and, when the cursor has stayed
within 32 bits, only blocks of `[c, localCounter)` were written, the call record
lies in these blocks, and the pool stores the record box by box. -/
def StoredSpec {α γ : Type} [Lattice γ] [BoundedOrder γ] (patch : SubdivPatch1 α γ)
    (mem : Nat → Block α γ) (c : Nat) (r : SubTreeResult α γ) : Prop :=
  c + 2 ≤ r.localCounter ∧ r.bounds = r.tree.bounds ∧ r.curNode = r.tree.ref ∧
    (r.localCounter ≤ 4294967296 →
      (∀ i, i < c ∨ r.localCounter ≤ i → r.lazymem i = mem i) ∧
        r.tree.InBlocks c r.localCounter ∧ BoxesStored patch r.lazymem r.tree)

/-- The depth formula as the specification words it, `ceil(log4(u_size*v_size/16))`:
the least `d` with `u_size * v_size <= 16 * 4^d`. -/
def specDepth (u_size v_size : Nat) : Nat := Nat.clog 4 ((u_size * v_size + 15) / 16)

/-! ## Arena counter and lazy build coordinator -/

/-- Modelled from the spec: `AtomicCounter::add` (sys/sync/atomic.h is not among
the sources), a fetch-and-add: the value returned and the new counter. -/
def AtomicCounter.add (counter n : Nat) : Nat × Nat := (counter, counter + n)

/-- Modelled from the spec: `atomic_add(&x, d)` on the build counter, a
fetch-and-add: the prior value and the new value. -/
def atomic_add (x d : Int) : Int × Int := (x, x + d)

/-- The successive reservations `add(n_1), ..., add(n_k)` on a counter holding
`used`: the bases returned, and the final counter. -/
def reserveAll (used : Nat) : List Nat → List Nat × Nat
  | [] => ([], used)
  | n :: ns =>
    ((AtomicCounter.add used n).1 :: (reserveAll (AtomicCounter.add used n).2 ns).1,
      (reserveAll (AtomicCounter.add used n).2 ns).2)

/-- How a sequential call of `initLazySubdivTree` ends. `returned` carries the record
of the `createSubTree` run the call made, if it made one; `fatal` is `FATAL("alloc")`;
`spinning` is the wait loop of line 163 with no other thread to end it; `outOfFuel`
is a call of `createSubTree` that does not return: a recursion the fuel does not
cover, or copy loops of a leaf that never end. -/
inductive Outcome (α γ : Type) where
  | returned (patch : SubdivPatch1 α γ) (bvh : BVH4i α γ)
      (built : Option (SubTreeResult α γ)) : Outcome α γ
  | fatal (patch : SubdivPatch1 α γ) (bvh : BVH4i α γ) : Outcome α γ
  | spinning (patch : SubdivPatch1 α γ) (bvh : BVH4i α γ) : Outcome α γ
  | outOfFuel (patch : SubdivPatch1 α γ) (bvh : BVH4i α γ) : Outcome α γ

/-- The patch as the call left it. -/
def Outcome.patch {α γ : Type} : Outcome α γ → SubdivPatch1 α γ
  | .returned p _ _ => p
  | .fatal p _ => p
  | .spinning p _ => p
  | .outOfFuel p _ => p

/-- The arena as the call left it. -/
def Outcome.bvh {α γ : Type} : Outcome α γ → BVH4i α γ
  | .returned _ b _ => b
  | .fatal _ b => b
  | .spinning _ b => b
  | .outOfFuel _ b => b

/-- The record of the `createSubTree` run the call made, if it made one. -/
def Outcome.built {α γ : Type} : Outcome α γ → Option (SubTreeResult α γ)
  | .returned _ _ built => built
  | _ => none

/-- The call came back to its caller. -/
def Outcome.isReturned {α γ : Type} : Outcome α γ → Bool
  | .returned _ _ _ => true
  | _ => false

/-- The call ended in `FATAL`. -/
def Outcome.isFatal {α γ : Type} : Outcome α γ → Bool
  | .fatal _ _ => true
  | _ => false

/-- The builder part of `initLazySubdivTree` (lines 172-229), entered with the root
still invalid. -/
def buildLazySubdivTree {α γ : Type} [Lattice γ] [BoundedOrder γ]
    (K : BVH4iEncoding) (E : Externals α) (fuel : Nat)
    (patch : SubdivPatch1 α γ) (bvh : BVH4i α γ) : Outcome α γ :=
  let u_array := (E.gridUVTessellator patch.level patch.grid_u_res patch.grid_v_res).1
  let v_array := (E.gridUVTessellator patch.level patch.grid_u_res patch.grid_v_res).2
  let localCounter := (AtomicCounter.add bvh.lazyMemUsed64BytesBlocks patch.grid_size_64b_blocks).1
  let bvh1 : BVH4i α γ :=
    { bvh with
      lazyMemUsed64BytesBlocks :=
        (AtomicCounter.add bvh.lazyMemUsed64BytesBlocks patch.grid_size_64b_blocks).2 }
  if localCounter + patch.grid_size_64b_blocks > bvh1.lazyMemAllocated64BytesBlocks then
    Outcome.fatal patch bvh1
  else
    match createSubTree K E patch u_array v_array fuel
        0 (u32sub patch.grid_u_res 1) 0 (u32sub patch.grid_v_res 1)
        bvh1.lazymem localCounter with
    | none => Outcome.outOfFuel patch bvh1
    | some r =>
      Outcome.returned
        { patch with
          bvh4i_subtree_root := r.curNode
          under_construction := (atomic_add patch.under_construction (-1)).2 }
        { bvh1 with lazymem := r.lazymem }
        (some r)

/-- `initLazySubdivTree`, run by one thread with no other thread active. -/
def initLazySubdivTree {α γ : Type} [Lattice γ] [BoundedOrder γ]
    (K : BVH4iEncoding) (E : Externals α) (fuel : Nat)
    (patch : SubdivPatch1 α γ) (bvh : BVH4i α γ) : Outcome α γ :=
  let build_state := (atomic_add patch.under_construction 1).1
  let patch1 : SubdivPatch1 α γ :=
    { patch with under_construction := (atomic_add patch.under_construction 1).2 }
  if build_state ≠ 0 then
    if patch1.bvh4i_subtree_root = K.invalidNode then
      Outcome.spinning patch1 bvh
    else
      let patch2 : SubdivPatch1 α γ :=
        { patch1 with under_construction := (atomic_add patch1.under_construction (-1)).2 }
      if patch2.bvh4i_subtree_root ≠ K.invalidNode then
        Outcome.returned patch2 bvh none
      else
        buildLazySubdivTree K E fuel patch2 bvh
  else
    if patch1.bvh4i_subtree_root ≠ K.invalidNode then
      Outcome.returned patch1 bvh none
    else
      buildLazySubdivTree K E fuel patch1 bvh

/-! ## Concurrent callers of the lazy build coordinator -/

/-- Where a thread stands inside `initLazySubdivTree`; each step from one point to
the next contains one access to shared memory. -/
inductive PC where
  | start : PC
  | spin : PC
  | waiterRelease : PC
  | check : PC
  | reserve : PC
  | build (localCounter : Nat) : PC
  | publish (subtree_root : Nat) : PC
  | release : PC
  | returned : PC
  | fatal : PC
  | outOfFuel : PC
  deriving DecidableEq

/-- The memory shared by the callers (the patch and the arena), the number of
`createSubTree` runs made for the patch so far, and where each thread stands. -/
structure Config (α γ : Type) where
  patch : SubdivPatch1 α γ
  bvh : BVH4i α γ
  builds : Nat
  pc : Nat → PC

/-- All callers are about to enter `initLazySubdivTree`. -/
def Config.init {α γ : Type} (patch : SubdivPatch1 α γ) (bvh : BVH4i α γ) : Config α γ :=
  { patch := patch, bvh := bvh, builds := 0, pc := fun _ => PC.start }

/-- One step of thread `t`. -/
def stepThread {α γ : Type} [Lattice γ] [BoundedOrder γ]
    (K : BVH4iEncoding) (E : Externals α) (fuel : Nat) (s : Config α γ) (t : Nat) :
    Config α γ :=
  match s.pc t with
  | PC.start =>
    -- line 160: atomic_add(&patch.under_construction, +1), then the test of line 161
    { s with
      patch :=
        { s.patch with under_construction := (atomic_add s.patch.under_construction 1).2 }
      pc := Function.update s.pc t
        (if (atomic_add s.patch.under_construction 1).1 ≠ 0 then PC.spin else PC.check) }
  | PC.spin =>
    -- line 163: one read of the root by the wait loop
    if s.patch.bvh4i_subtree_root = K.invalidNode then s
    else { s with pc := Function.update s.pc t PC.waiterRelease }
  | PC.waiterRelease =>
    -- line 166
    { s with
      patch :=
        { s.patch with under_construction := (atomic_add s.patch.under_construction (-1)).2 }
      pc := Function.update s.pc t PC.check }
  | PC.check =>
    -- line 170
    if s.patch.bvh4i_subtree_root ≠ K.invalidNode then
      { s with pc := Function.update s.pc t PC.returned }
    else { s with pc := Function.update s.pc t PC.reserve }
  | PC.reserve =>
    -- lines 176-186: tessellation into thread-local arrays, then the reservation
    { s with
      bvh :=
        { s.bvh with
          lazyMemUsed64BytesBlocks :=
            (AtomicCounter.add s.bvh.lazyMemUsed64BytesBlocks
              s.patch.grid_size_64b_blocks).2 }
      pc := Function.update s.pc t
        (PC.build
          (AtomicCounter.add s.bvh.lazyMemUsed64BytesBlocks s.patch.grid_size_64b_blocks).1) }
  | PC.build localCounter =>
    -- lines 188-206: the capacity check, then createSubTree on the reserved blocks
    if localCounter + s.patch.grid_size_64b_blocks > s.bvh.lazyMemAllocated64BytesBlocks then
      { s with pc := Function.update s.pc t PC.fatal }
    else
      match createSubTree K E s.patch
          (E.gridUVTessellator s.patch.level s.patch.grid_u_res s.patch.grid_v_res).1
          (E.gridUVTessellator s.patch.level s.patch.grid_u_res s.patch.grid_v_res).2
          fuel 0 (u32sub s.patch.grid_u_res 1) 0 (u32sub s.patch.grid_v_res 1)
          s.bvh.lazymem localCounter with
      | none => { s with pc := Function.update s.pc t PC.outOfFuel }
      | some r =>
        { s with
          bvh := { s.bvh with lazymem := r.lazymem }
          builds := s.builds + 1
          pc := Function.update s.pc t (PC.publish r.curNode) }
  | PC.publish subtree_root =>
    -- line 225
    { s with
      patch := { s.patch with bvh4i_subtree_root := subtree_root }
      pc := Function.update s.pc t PC.release }
  | PC.release =>
    -- line 228
    { s with
      patch :=
        { s.patch with under_construction := (atomic_add s.patch.under_construction (-1)).2 }
      pc := Function.update s.pc t PC.returned }
  | PC.returned => s
  | PC.fatal => s
  | PC.outOfFuel => s

/-- One step of an execution of `N` concurrent callers: the scheduler picks `t`. -/
def step {α γ : Type} [Lattice γ] [BoundedOrder γ]
    (K : BVH4iEncoding) (E : Externals α) (fuel N : Nat) (s : Config α γ) (t : Nat) :
    Config α γ :=
  if t < N then stepThread K E fuel s t else s

/-- An interleaving: the threads step in the order the schedule lists them. -/
def run {α γ : Type} [Lattice γ] [BoundedOrder γ]
    (K : BVH4iEncoding) (E : Externals α) (fuel N : Nat) (s : Config α γ)
    (schedule : List Nat) : Config α γ :=
  schedule.foldl (step K E fuel N) s

/-- The thread holds the claim to build: it obtained `prior = 0` and has not yet
published a root. -/
def PC.claimed : PC → Bool
  | .check => true
  | .reserve => true
  | .build _ => true
  | .publish _ => true
  | .fatal => true
  | .outOfFuel => true
  | _ => false

/-- The invariant of the executions of the concurrent callers. -/
def Inv {α γ : Type} (K : BVH4iEncoding) (s : Config α γ) : Prop :=
  (s.patch.bvh4i_subtree_root = K.invalidNode →
      0 ≤ s.patch.under_construction ∧
      ((∃ t, s.pc t ≠ PC.start) → 1 ≤ s.patch.under_construction) ∧
      (∀ t, s.pc t ≠ PC.waiterRelease ∧ s.pc t ≠ PC.release ∧ s.pc t ≠ PC.returned) ∧
      (∀ t t', (s.pc t).claimed = true → (s.pc t').claimed = true → t = t') ∧
      ((∀ t r, s.pc t ≠ PC.publish r) → s.builds = 0) ∧
      (∀ t r, s.pc t = PC.publish r → s.builds = 1 ∧ r ≠ K.invalidNode)) ∧
    (s.patch.bvh4i_subtree_root ≠ K.invalidNode →
      s.builds = 1 ∧
      ∀ t, s.pc t ≠ PC.reserve ∧ (∀ c, s.pc t ≠ PC.build c) ∧ (∀ r, s.pc t ≠ PC.publish r))

/-- The cursor value at which the root of the call record was created. -/
def SubTree.index {γ : Type} : SubTree γ → Nat
  | .leaf index _ _ _ _ _ _ => index
  | .node index _ _ _ _ _ _ _ _ _ _ => index

/-- The sample range `(u_start, u_end, v_start, v_end)` of the call. -/
def SubTree.range {γ : Type} : SubTree γ → Nat × Nat × Nat × Nat
  | .leaf _ us ue vs ve _ _ => (us, ue, vs, ve)
  | .node _ us ue vs ve _ _ _ _ _ _ => (us, ue, vs, ve)

/-! ## Rays, packets and the traversal engines -/

/-- The 32-bit pattern of the integer `-1`, the "no hit" value of `primID` and
`geomID` (identifiers are kept as 32-bit patterns). -/
def minusOne : Nat := 4294967295

/-- A single ray (`Ray`). -/
structure Ray (α : Type) where
  org : Vec3 α
  dir : Vec3 α
  tnear : α
  tfar : α
  u : α
  v : α
  Ng : Vec3 α
  geomID : Nat
  primID : Nat

/-- A packet of 16 rays (`Ray16`), each field a map from lane numbers. -/
structure Ray16 (α : Type) where
  org : Nat → Vec3 α
  dir : Nat → Vec3 α
  tnear : Nat → α
  tfar : Nat → α
  u : Nat → α
  v : Nat → α
  Ng : Nat → Vec3 α
  geomID : Nat → Nat
  primID : Nat → Nat

/-- The ray in lane `l` of a packet. -/
def Ray16.lane {α : Type} (r : Ray16 α) (l : Nat) : Ray α :=
  { org := r.org l, dir := r.dir l, tnear := r.tnear l, tfar := r.tfar l, u := r.u l,
    v := r.v l, Ng := r.Ng l, geomID := r.geomID l, primID := r.primID l }

/-- The packet `base` with the ray `ray` in lane `l`. -/
def Ray16.setLane {α : Type} (base : Ray16 α) (l : Nat) (ray : Ray α) : Ray16 α :=
  { org := Function.update base.org l ray.org
    dir := Function.update base.dir l ray.dir
    tnear := Function.update base.tnear l ray.tnear
    tfar := Function.update base.tfar l ray.tfar
    u := Function.update base.u l ray.u
    v := Function.update base.v l ray.v
    Ng := Function.update base.Ng l ray.Ng
    geomID := Function.update base.geomID l ray.geomID
    primID := Function.update base.primID l ray.primID }

/-- What the stack-traversal primitive hands back: the reference it stopped at (a
leaf, or the sentinel popped from the bottom of the stack) and the stack. -/
structure TravResult (α : Type) where
  curNode : Nat
  sindex : Nat
  stack_node : Nat → Nat
  stack_dist : Nat → α

/-- The node array a traversal walks: the top-level hierarchy `bvh->nodePtr()`,
read-only during traversal, or the arena `bvh->lazymem` with its current contents. -/
inductive NodeBase (α γ : Type) where
  | top : NodeBase α γ
  | lazy (lazymem : Nat → Block α γ) : NodeBase α γ

/-- The collaborators of the traversal engines that are not among the sources
(bvh4i_traversal.h, the quad intersector): the stack-traversal primitives
`traverse_single_intersect` and `traverse_single_occluded` (given the origin and
direction of the ray in place of the vectors `rdir_xyz`, `org_rdir_xyz` computed
from them), `compactStack`, the leaf test `intersect1_quad16`, and what a block
that holds no sample vector reads as when it is loaded as one. -/
structure Traversal (α γ : Type) where
  traverse_single_intersect : NodeBase α γ → Nat → Nat → Vec3 α → Vec3 α → α → α →
    (Nat → Nat) → (Nat → α) → Nat → TravResult α
  traverse_single_occluded : NodeBase α γ → Nat → Nat → Vec3 α → Vec3 α → α → α →
    (Nat → Nat) → Nat → Nat × Nat × (Nat → Nat)
  compactStack : (Nat → Nat) → (Nat → α) → Nat → α → (Nat → Nat) × (Nat → α) × Nat
  intersect1_quad16 : Nat → Vec3 α → Vec3 α → Ray16 α → (Nat → Vec3 γ) → mic_f α → mic_f α →
    Nat → Nat → Nat → Ray16 α
  loadRaw : Block α γ → mic_f α

/-- The contents of the local arrays a traversal function declares without
initialising them. -/
structure Uninit (α : Type) where
  stack_node : Nat → Nat
  stack_dist : Nat → α
  sub_stack_node : Nat → Nat
  sub_stack_dist : Nat → α

/-- How a traversal function ends. -/
inductive Status where
  | returned : Status
  | fatal : Status
  | spinning : Status
  | outOfFuel : Status
  deriving DecidableEq

/-- What a packet traversal did, in order: a call of the stack-traversal primitive
(on the top-level hierarchy or on a patch's sub-stack) with the far bound it was
handed, the ray's `tfar` at that moment and the reference it yielded; a call of
`initLazySubdivTree` for a patch; a leaf test with the packet before and after it
(`grid1`: the test is the one of `intersectEvalGrid1`). -/
inductive TravEvent (α : Type) where
  | pop (sub : Bool) (rayIndex : Nat) (max_dist_xyz tfar : α) (yield : Nat) : TravEvent α
  | build (patchIndex : Nat) : TravEvent α
  | leafTest (grid1 : Bool) (rayIndex patchIndex : Nat) (before after : Ray16 α) :
      TravEvent α

/-- Modelled from the spec: `NodeRef::offsetIndex()` (bvh4i.h is not among the
sources), the block or patch index of a reference: the bits above the encoding
bits. -/
def offsetIndex (K : BVH4iEncoding) (ref : Nat) : Nat := ref >>> K.encodingBits

/-- A block of the arena loaded as a 16-wide vector (`lazymem[uvIndex]`). -/
def loadBlock {α γ : Type} (X : Traversal α γ) (b : Block α γ) : mic_f α :=
  match b with
  | Block.lanes v => v
  | _ => X.loadRaw b

/-- `store16f(stack_dist, inf)`: the first 16 entries become `inf`. -/
def store16f {α : Type} (a : Nat → α) (x : α) : Nat → α := fun i => if i < 16 then x else a i

/-- The lanes of a 16-bit mask, in the order `bitscan64` visits them. -/
def maskLanes (m : Nat → Bool) : List Nat := (List.range 16).filter m

/-- `intersectEvalGrid1`; `none` is the `FATAL("HERE")` of the branch for grids of
more than one block. -/
def intersectEvalGrid1 {α γ : Type} (X : Traversal α γ) (E : Externals α)
    (rayIndex : Nat) (dir_xyz org_xyz : Vec3 α) (ray16 : Ray16 α)
    (subdiv_patch : SubdivPatch1 α γ) (subdiv_patch_index : Nat) : Option (Bool × Ray16 α) :=
  let u_array :=
    (E.gridUVTessellator subdiv_patch.level subdiv_patch.grid_u_res subdiv_patch.grid_v_res).1
  let v_array :=
    (E.gridUVTessellator subdiv_patch.level subdiv_patch.grid_u_res subdiv_patch.grid_v_res).2
  if subdiv_patch.grid_size_64b_blocks = 1 then
    let m_active := subdiv_patch.grid_mask
    let uu : mic_f α := u_array
    let vv : mic_f α := v_array
    let vtx := subdiv_patch.eval16 uu vv
    some (true,
      X.intersect1_quad16 rayIndex dir_xyz org_xyz ray16 vtx uu vv subdiv_patch.grid_u_res
        m_active subdiv_patch_index)
  else none

/-- The state of the walk of one patch's micro-hierarchy (lines 556-603). -/
structure SubState (α : Type) where
  ray16 : Ray16 α
  sub_stack_node : Nat → Nat
  sub_stack_dist : Nat → α
  sub_sindex : Nat
  log : List (TravEvent α)

/-- The loop of lines 563-603 over the sub-stack of a patch, `fuel` rounds at most. -/
def subWalk {α γ : Type} (K : BVH4iEncoding) (X : Traversal α γ)
    (subdiv_patch : SubdivPatch1 α γ) (patchIndex : Nat) (lazymem : Nat → Block α γ)
    (rayIndex : Nat) (dir_xyz org_xyz : Vec3 α) (min_dist_xyz max_dist_xyz : α) :
    Nat → SubState α → SubState α × Status
  | 0, s => (s, Status.outOfFuel)
  | fuel + 1, s =>
    let t := X.traverse_single_intersect (NodeBase.lazy lazymem)
      (s.sub_stack_node (s.sub_sindex - 1)) (s.sub_sindex - 1) org_xyz dir_xyz
      min_dist_xyz max_dist_xyz s.sub_stack_node s.sub_stack_dist K.leaf_mask
    let s1 : SubState α :=
      { s with
        sub_stack_node := t.stack_node
        sub_stack_dist := t.stack_dist
        sub_sindex := t.sindex
        log := s.log ++
          [TravEvent.pop true rayIndex max_dist_xyz (s.ray16.tfar rayIndex) t.curNode] }
    if t.curNode = K.invalidNode then (s1, Status.returned)
    else
      let uvIndex := offsetIndex K t.curNode
      let uu := loadBlock X (lazymem (uvIndex + 0))
      let vv := loadBlock X (lazymem (uvIndex + 1))
      let vtx := subdiv_patch.eval16 uu vv
      let ray16' := X.intersect1_quad16 rayIndex dir_xyz org_xyz s1.ray16 vtx uu vv 4 0x777
        patchIndex
      subWalk K X subdiv_patch patchIndex lazymem rayIndex dir_xyz org_xyz min_dist_xyz
        max_dist_xyz fuel
        { s1 with
          ray16 := ray16'
          log := s1.log ++ [TravEvent.leafTest false rayIndex patchIndex s1.ray16 ray16'] }

/-- The state of a packet traversal: the patch table `accel`, the arena, the packet,
the top-level stack, and the record of what was done. -/
structure TravState (α γ : Type) where
  accel : Nat → SubdivPatch1 α γ
  bvh : BVH4i α γ
  ray16 : Ray16 α
  stack_node : Nat → Nat
  stack_dist : Nat → α
  sindex : Nat
  log : List (TravEvent α)

/-- Lines 544-548: `initLazySubdivTree` is called for the patch if its root is still
invalid; the status is how that call ended. -/
def ensureBuilt {α γ : Type} [Lattice γ] [BoundedOrder γ]
    (K : BVH4iEncoding) (E : Externals α) (buildFuel : Nat) (patchIndex : Nat)
    (st : TravState α γ) : TravState α γ × Status :=
  if (st.accel patchIndex).bvh4i_subtree_root = K.invalidNode then
    ({ st with
        accel := Function.update st.accel patchIndex
          (initLazySubdivTree K E buildFuel (st.accel patchIndex) st.bvh).patch
        bvh := (initLazySubdivTree K E buildFuel (st.accel patchIndex) st.bvh).bvh
        log := st.log ++ [TravEvent.build patchIndex] },
      match initLazySubdivTree K E buildFuel (st.accel patchIndex) st.bvh with
      | Outcome.returned _ _ _ => Status.returned
      | Outcome.fatal _ _ => Status.fatal
      | Outcome.spinning _ _ => Status.spinning
      | Outcome.outOfFuel _ _ => Status.outOfFuel)
  else (st, Status.returned)

/-- Lines 542-604: the leaf of a patch of more than one block. The micro-hierarchy
is built if its root is still invalid, then walked on a fresh sub-stack. -/
def visitLargePatch {α γ : Type} [Lattice γ] [BoundedOrder γ]
    (K : BVH4iEncoding) (X : Traversal α γ) (E : Externals α) (U : Uninit α)
    (subFuel buildFuel : Nat) (patchIndex rayIndex : Nat) (dir_xyz org_xyz : Vec3 α)
    (min_dist_xyz max_dist_xyz : α) (st : TravState α γ) : TravState α γ × Status :=
  let ensured := ensureBuilt K E buildFuel patchIndex st
  if ensured.2 = Status.returned then
    let st1 := ensured.1
    let subdiv_patch := st1.accel patchIndex
    let sub := subWalk K X subdiv_patch patchIndex st1.bvh.lazymem rayIndex dir_xyz org_xyz
      min_dist_xyz max_dist_xyz subFuel
      { ray16 := st1.ray16
        sub_stack_node :=
          Function.update (Function.update U.sub_stack_node 0 K.invalidNode) 1
            subdiv_patch.bvh4i_subtree_root
        sub_stack_dist := store16f U.sub_stack_dist E.inf
        sub_sindex := 2
        log := st1.log }
    ({ st1 with ray16 := sub.1.ray16, log := sub.1.log }, sub.2)
  else ensured

/-- Lines 528-604: the leaf of patch `patchIndex`, through `intersectEvalGrid1` if the
patch is of one block, through its micro-hierarchy otherwise. -/
def visitLeaf {α γ : Type} [Lattice γ] [BoundedOrder γ]
    (K : BVH4iEncoding) (X : Traversal α γ) (E : Externals α) (U : Uninit α)
    (subFuel buildFuel : Nat) (patchIndex rayIndex : Nat) (dir_xyz org_xyz : Vec3 α)
    (min_dist_xyz max_dist_xyz : α) (st : TravState α γ) : TravState α γ × Status :=
  if (st.accel patchIndex).grid_size_64b_blocks = 1 then
    match intersectEvalGrid1 X E rayIndex dir_xyz org_xyz st.ray16 (st.accel patchIndex)
        patchIndex with
    | none => (st, Status.fatal)
    | some hr =>
      ({ st with
          ray16 := hr.2
          log := st.log ++ [TravEvent.leafTest true rayIndex patchIndex st.ray16 hr.2] },
        Status.returned)
  else
    visitLargePatch K X E U subFuel buildFuel patchIndex rayIndex dir_xyz org_xyz
      min_dist_xyz max_dist_xyz st

/-- The loop of lines 502-612 over the top-level stack for the ray in lane
`rayIndex`, `fuel` rounds at most. -/
def topWalk {α γ : Type} [Lattice γ] [BoundedOrder γ]
    (K : BVH4iEncoding) (X : Traversal α γ) (E : Externals α) (U : Uninit α)
    (subFuel buildFuel : Nat) (rayIndex : Nat) (dir_xyz org_xyz : Vec3 α)
    (min_dist_xyz max_dist_xyz : α) : Nat → TravState α γ → TravState α γ × Status
  | 0, st => (st, Status.outOfFuel)
  | fuel + 1, st =>
    let t := X.traverse_single_intersect NodeBase.top (st.stack_node (st.sindex - 1))
      (st.sindex - 1) org_xyz dir_xyz min_dist_xyz max_dist_xyz st.stack_node st.stack_dist
      K.leaf_mask
    let st1 : TravState α γ :=
      { st with
        stack_node := t.stack_node
        stack_dist := t.stack_dist
        sindex := t.sindex
        log := st.log ++
          [TravEvent.pop false rayIndex max_dist_xyz (st.ray16.tfar rayIndex) t.curNode] }
    if t.curNode = K.invalidNode then (st1, Status.returned)
    else
      let visited := visitLeaf K X E U subFuel buildFuel (offsetIndex K t.curNode) rayIndex
        dir_xyz org_xyz min_dist_xyz max_dist_xyz st1
      if visited.2 = Status.returned then
        let st2 := visited.1
        let cs := X.compactStack st2.stack_node st2.stack_dist st2.sindex
          (st2.ray16.tfar rayIndex)
        topWalk K X E U subFuel buildFuel rayIndex dir_xyz org_xyz min_dist_xyz max_dist_xyz
          fuel { st2 with stack_node := cs.1, stack_dist := cs.2.1, sindex := cs.2.2 }
      else visited

/-- The loop of lines 488-613 over the valid lanes that are still to be walked. -/
def rayLoop {α γ : Type} [Lattice γ] [BoundedOrder γ]
    (K : BVH4iEncoding) (X : Traversal α γ) (E : Externals α) (U : Uninit α)
    (fuel subFuel buildFuel : Nat) : List Nat → TravState α γ → TravState α γ × Status
  | [], st => (st, Status.returned)
  | rayIndex :: rest, st =>
    let st0 : TravState α γ :=
      { st with stack_node := Function.update st.stack_node 1 st.bvh.root, sindex := 2 }
    let walked := topWalk K X E U subFuel buildFuel rayIndex (st0.ray16.dir rayIndex)
      (st0.ray16.org rayIndex) (st0.ray16.tnear rayIndex) (st0.ray16.tfar rayIndex) fuel st0
    if walked.2 = Status.returned then rayLoop K X E U fuel subFuel buildFuel rest walked.1
    else walked

/-- The mask `m_valid` of `valid_i`: the lanes of the packet whose entry is not 0. -/
def validMask (valid_i : Nat → Nat) : Nat → Bool := fun l => decide (l < 16 ∧ valid_i l ≠ 0)

/-- Lines 472-486: the set-up of `intersect`. -/
def setupPacket {α γ : Type} (K : BVH4iEncoding) (E : Externals α) (U : Uninit α)
    (valid_i : Nat → Nat) (accel : Nat → SubdivPatch1 α γ) (bvh : BVH4i α γ)
    (ray16 : Ray16 α) : TravState α γ :=
  { accel := accel
    bvh := bvh
    ray16 :=
      { ray16 with
        primID := fun l => if validMask valid_i l then minusOne else ray16.primID l
        geomID := fun l => if validMask valid_i l then minusOne else ray16.geomID l }
    stack_node := Function.update U.stack_node 0 K.invalidNode
    stack_dist := store16f U.stack_dist E.inf
    sindex := 0
    log := [] }

/-- Lines 472-613 of `intersect`: the set-up and the traversal of every valid lane. -/
def traversePacket {α γ : Type} [Lattice γ] [BoundedOrder γ]
    (K : BVH4iEncoding) (X : Traversal α γ) (E : Externals α) (U : Uninit α)
    (fuel subFuel buildFuel : Nat) (valid_i : Nat → Nat)
    (accel : Nat → SubdivPatch1 α γ) (bvh : BVH4i α γ) (ray16 : Ray16 α) :
    TravState α γ × Status :=
  rayLoop K X E U fuel subFuel buildFuel (maskLanes (validMask valid_i))
    (setupPacket K E U valid_i accel bvh ray16)

/-- One round of the loop of lines 631-643: the hit of lane `rayIndex` is moved
from patch-local to parent parameters and given its identifiers and normal. -/
def postPassLane {α γ : Type} [One α] [Add α] [Sub α] [Mul α]
    (accel : Nat → SubdivPatch1 α γ) (ray16 : Ray16 α) (rayIndex : Nat) : Ray16 α :=
  let subdiv_patch := accel (ray16.primID rayIndex)
  let u := (1 - ray16.u rayIndex) * subdiv_patch.u_range.1 +
    ray16.u rayIndex * subdiv_patch.u_range.2
  let v := (1 - ray16.v rayIndex) * subdiv_patch.v_range.1 +
    ray16.v rayIndex * subdiv_patch.v_range.2
  { ray16 with
    primID := Function.update ray16.primID rayIndex subdiv_patch.primID
    geomID := Function.update ray16.geomID rayIndex subdiv_patch.geomID
    u := Function.update ray16.u rayIndex u
    v := Function.update ray16.v rayIndex v
    Ng := Function.update ray16.Ng rayIndex (subdiv_patch.normal u v) }

/-- Lines 626-644: the post-pass over the lanes of `m_hit`. -/
def postPass {α γ : Type} [One α] [Add α] [Sub α] [Mul α]
    (valid_i : Nat → Nat) (accel : Nat → SubdivPatch1 α γ) (ray16 : Ray16 α) : Ray16 α :=
  (maskLanes (fun l => decide (ray16.primID l ≠ minusOne) && validMask valid_i l)).foldl
    (postPassLane accel) ray16

/-- The state after the post-pass of lines 626-644. -/
def TravState.afterPostPass {α γ : Type} [One α] [Add α] [Sub α] [Mul α]
    (valid_i : Nat → Nat) (st : TravState α γ) : TravState α γ :=
  { st with ray16 := postPass valid_i st.accel st.ray16 }

/-- `BVH4iIntersector16Subdiv::intersect`: the traversal of lines 472-613, then
the post-pass. -/
def BVH4iIntersector16Subdiv.intersect {α γ : Type} [Lattice γ] [BoundedOrder γ]
    [One α] [Add α] [Sub α] [Mul α]
    (K : BVH4iEncoding) (X : Traversal α γ) (E : Externals α) (U : Uninit α)
    (fuel subFuel buildFuel : Nat) (valid_i : Nat → Nat)
    (accel : Nat → SubdivPatch1 α γ) (bvh : BVH4i α γ) (ray16 : Ray16 α) :
    TravState α γ × Status :=
  let walked := traversePacket K X E U fuel subFuel buildFuel valid_i accel bvh ray16
  if walked.2 = Status.returned then (walked.1.afterPostPass valid_i, Status.returned) else walked

/-- The state of a packet occlusion query: the packet, the node stack, the mask
`terminated`, and the record of the calls of the stack-traversal primitive. -/
structure OccState (α : Type) where
  ray16 : Ray16 α
  stack_node : Nat → Nat
  sindex : Nat
  terminated : Nat → Bool
  log : List (TravEvent α)

/-- The loop of lines 681-713 of the packet `occluded`. No round is followed by
another: a round ends in the `break` of line 697 or in `FATAL("NOT YET IMPLEMENTED")`
(line 708); the `break` of line 710 on `hit = false` is dead. -/
def occludedWalk {α γ : Type} (K : BVH4iEncoding) (X : Traversal α γ)
    (rayIndex : Nat) (dir_xyz org_xyz : Vec3 α) (min_dist_xyz max_dist_xyz : α)
    (s : OccState α) : OccState α × Status :=
  let t := X.traverse_single_occluded NodeBase.top (s.stack_node (s.sindex - 1))
    (s.sindex - 1) org_xyz dir_xyz min_dist_xyz max_dist_xyz s.stack_node K.leaf_mask
  let s1 : OccState α :=
    { s with
      stack_node := t.2.2
      sindex := t.2.1
      log := s.log ++
        [TravEvent.pop false rayIndex max_dist_xyz (s.ray16.tfar rayIndex) t.1] }
  if t.1 = K.invalidNode then (s1, Status.returned) else (s1, Status.fatal)

/-- The loop of lines 667-717 over the valid lanes that are still to be walked, with
the early exit of line 716 once every lane of `terminated` is set. -/
def occludedLoop {α γ : Type} (K : BVH4iEncoding) (X : Traversal α γ) (root : Nat) :
    List Nat → OccState α → OccState α × Status
  | [], s => (s, Status.returned)
  | rayIndex :: rest, s =>
    let s0 : OccState α :=
      { s with stack_node := Function.update s.stack_node 1 root, sindex := 2 }
    let walked := occludedWalk K X rayIndex (s0.ray16.dir rayIndex) (s0.ray16.org rayIndex)
      (s0.ray16.tnear rayIndex) (s0.ray16.tfar rayIndex) s0
    if walked.2 = Status.returned then
      if (List.range 16).all walked.1.terminated then (walked.1, Status.returned)
      else occludedLoop K X root rest walked.1
    else walked

/-- `BVH4iIntersector16Subdiv::occluded`. -/
def BVH4iIntersector16Subdiv.occluded {α γ : Type}
    (K : BVH4iEncoding) (X : Traversal α γ) (U : Uninit α) (valid_i : Nat → Nat)
    (bvh : BVH4i α γ) (ray16 : Ray16 α) : OccState α × Status :=
  let looped := occludedLoop K X bvh.root (maskLanes (validMask valid_i))
    { ray16 := ray16
      stack_node := Function.update U.stack_node 0 K.invalidNode
      sindex := 0
      terminated := fun l => !validMask valid_i l
      log := [] }
  if looped.2 = Status.returned then
    ({ looped.1 with
        ray16 :=
          { looped.1.ray16 with
            geomID := fun l =>
              if validMask valid_i l && looped.1.terminated l then 0
              else looped.1.ray16.geomID l } },
      Status.returned)
  else looped

/-- The template parameter `LeafIntersector` of the single-ray engines: its
`intersect` yields the flag `hit`, the far bound `max_dist_xyz` and the ray as it
leaves them, its `occluded` the flag and the ray; `none` is a call that ends in
`FATAL`. The arguments are the leaf reference, `dir_xyz`, `org_xyz`, `min_dist_xyz`,
`max_dist_xyz`, the ray and the patch table. -/
structure LeafIntersector (α γ : Type) where
  intersect : Nat → Vec3 α → Vec3 α → α → α → Ray α → (Nat → SubdivPatch1 α γ) →
    Option (Bool × α × Ray α)
  occluded : Nat → Vec3 α → Vec3 α → α → α → Ray α → (Nat → SubdivPatch1 α γ) →
    Option (Bool × Ray α)

/-- `SubdivLeafIntersector`: both members end in `FATAL("NOT IMPLEMENTED")`. -/
def SubdivLeafIntersector (α γ : Type) : LeafIntersector α γ :=
  { intersect := fun _ _ _ _ _ _ _ => none
    occluded := fun _ _ _ _ _ _ _ => none }

/-- The state of the single-ray `intersect`. -/
structure ScalarState (α : Type) where
  ray : Ray α
  stack_node : Nat → Nat
  stack_dist : Nat → α
  sindex : Nat
  max_dist_xyz : α
  log : List (TravEvent α)

/-- The loop of lines 756-790 of the single-ray `intersect`, `fuel` rounds at most. -/
def scalarWalk {α γ : Type} (K : BVH4iEncoding) (X : Traversal α γ) (L : LeafIntersector α γ)
    (accel : Nat → SubdivPatch1 α γ) (dir_xyz org_xyz : Vec3 α) (min_dist_xyz : α) :
    Nat → ScalarState α → ScalarState α × Status
  | 0, s => (s, Status.outOfFuel)
  | fuel + 1, s =>
    let t := X.traverse_single_intersect NodeBase.top (s.stack_node (s.sindex - 1))
      (s.sindex - 1) org_xyz dir_xyz min_dist_xyz s.max_dist_xyz s.stack_node s.stack_dist
      K.leaf_mask
    let s1 : ScalarState α :=
      { s with
        stack_node := t.stack_node
        stack_dist := t.stack_dist
        sindex := t.sindex
        log := s.log ++ [TravEvent.pop false 0 s.max_dist_xyz s.ray.tfar t.curNode] }
    if t.curNode = K.invalidNode then (s1, Status.returned)
    else
      match L.intersect t.curNode dir_xyz org_xyz min_dist_xyz s1.max_dist_xyz s1.ray accel with
      | none => (s1, Status.fatal)
      | some r =>
        if r.1 then
          let cs := X.compactStack s1.stack_node s1.stack_dist s1.sindex r.2.1
          scalarWalk K X L accel dir_xyz org_xyz min_dist_xyz fuel
            { s1 with
              ray := r.2.2
              max_dist_xyz := r.2.1
              stack_node := cs.1
              stack_dist := cs.2.1
              sindex := cs.2.2 }
        else
          scalarWalk K X L accel dir_xyz org_xyz min_dist_xyz fuel
            { s1 with ray := r.2.2, max_dist_xyz := r.2.1 }

/-- `BVH4iIntersector1Subdiv::intersect`. -/
def BVH4iIntersector1Subdiv.intersect {α γ : Type}
    (K : BVH4iEncoding) (X : Traversal α γ) (E : Externals α) (U : Uninit α)
    (L : LeafIntersector α γ) (fuel : Nat) (accel : Nat → SubdivPatch1 α γ)
    (bvh : BVH4i α γ) (ray : Ray α) : ScalarState α × Status :=
  scalarWalk K X L accel ray.dir ray.org ray.tnear fuel
    { ray := ray
      stack_node := Function.update (Function.update U.stack_node 0 K.invalidNode) 1 bvh.root
      stack_dist := store16f U.stack_dist E.inf
      sindex := 2
      max_dist_xyz := ray.tfar
      log := [] }

/-- The state of the single-ray `occluded`. -/
structure ScalarOccState (α : Type) where
  ray : Ray α
  stack_node : Nat → Nat
  sindex : Nat
  log : List (TravEvent α)

/-- The loop of lines 820-860 of the single-ray `occluded`, `fuel` rounds at most. -/
def scalarOccludedWalk {α γ : Type} (K : BVH4iEncoding) (X : Traversal α γ)
    (L : LeafIntersector α γ) (accel : Nat → SubdivPatch1 α γ) (dir_xyz org_xyz : Vec3 α)
    (min_dist_xyz max_dist_xyz : α) : Nat → ScalarOccState α → ScalarOccState α × Status
  | 0, s => (s, Status.outOfFuel)
  | fuel + 1, s =>
    let t := X.traverse_single_occluded NodeBase.top (s.stack_node (s.sindex - 1))
      (s.sindex - 1) org_xyz dir_xyz min_dist_xyz max_dist_xyz s.stack_node K.leaf_mask
    let s1 : ScalarOccState α :=
      { s with
        stack_node := t.2.2
        sindex := t.2.1
        log := s.log ++ [TravEvent.pop false 0 max_dist_xyz s.ray.tfar t.1] }
    if t.1 = K.invalidNode then (s1, Status.returned)
    else
      match L.occluded t.1 dir_xyz org_xyz min_dist_xyz max_dist_xyz s1.ray accel with
      | none => (s1, Status.fatal)
      | some r =>
        if r.1 then ({ s1 with ray := { r.2 with geomID := 0 } }, Status.returned)
        else
          scalarOccludedWalk K X L accel dir_xyz org_xyz min_dist_xyz max_dist_xyz fuel
            { s1 with ray := r.2 }

/-- `BVH4iIntersector1Subdiv::occluded`. -/
def BVH4iIntersector1Subdiv.occluded {α γ : Type}
    (K : BVH4iEncoding) (X : Traversal α γ) (U : Uninit α)
    (L : LeafIntersector α γ) (fuel : Nat) (accel : Nat → SubdivPatch1 α γ)
    (bvh : BVH4i α γ) (ray : Ray α) : ScalarOccState α × Status :=
  scalarOccludedWalk K X L accel ray.dir ray.org ray.tnear ray.tfar fuel
    { ray := ray
      stack_node := Function.update (Function.update U.stack_node 0 K.invalidNode) 1 bvh.root
      sindex := 2
      log := [] }

/-- The references the stack-traversal primitive yielded, in order. -/
def yields {α : Type} : List (TravEvent α) → List Nat
  | [] => []
  | TravEvent.pop _ _ _ _ y :: rest => y :: yields rest
  | _ :: rest => yields rest

/-- The lanes for which the stack-traversal primitive was called on the top-level
hierarchy, in order. -/
def poppedLanes {α : Type} : List (TravEvent α) → List Nat
  | [] => []
  | TravEvent.pop false i _ _ _ :: rest => i :: poppedLanes rest
  | _ :: rest => poppedLanes rest

/-- A property `I` of the patch table, the arena, the packet and the record of a packet
traversal that every step of the traversal keeps: a call of the traversal primitive, a
call of `initLazySubdivTree` for a patch of more than one block whose root is unbuilt,
and a leaf test (through `intersectEvalGrid1` exactly for the patches of one block). -/
structure TravInv {α γ : Type} [Lattice γ] [BoundedOrder γ] (K : BVH4iEncoding)
    (X : Traversal α γ) (E : Externals α) (buildFuel : Nat)
    (I : (Nat → SubdivPatch1 α γ) → BVH4i α γ → Ray16 α → List (TravEvent α) → Prop) :
    Prop where
  pop : ∀ a b r lg sub i m y, I a b r lg →
    I a b r (lg ++ [TravEvent.pop sub i m (r.tfar i) y])
  build : ∀ a b r lg p, (a p).grid_size_64b_blocks ≠ 1 →
    (a p).bvh4i_subtree_root = K.invalidNode → I a b r lg →
    I (Function.update a p (initLazySubdivTree K E buildFuel (a p) b).patch)
      (initLazySubdivTree K E buildFuel (a p) b).bvh r (lg ++ [TravEvent.build p])
  leaf : ∀ a b r lg g i p d o vtx uu vv res m,
    (g = true ↔ (a p).grid_size_64b_blocks = 1) → I a b r lg →
    I a b (X.intersect1_quad16 i d o r vtx uu vv res m p)
      (lg ++ [TravEvent.leafTest g i p r (X.intersect1_quad16 i d o r vtx uu vv res m p)])

/-- The patches for which `initLazySubdivTree` was called, in order. -/
def builds {α : Type} : List (TravEvent α) → List Nat
  | [] => []
  | TravEvent.build p :: rest => p :: builds rest
  | _ :: rest => builds rest

/-! ## Well-formedness conditions and sample data -/

/-- The sentinel `invalidNode` is not a reference the two encoders produce. -/
def BVH4iEncoding.Valid (K : BVH4iEncoding) : Prop :=
  (∀ i, createSubPatchBVH4iLeaf K i ≠ K.invalidNode) ∧
    (∀ i, K.createBVH4iNode i ≠ K.invalidNode)

/-- A grid the build can run on: at least one sample in each direction, and
resolutions for which `grid_u_res - 1` and the midpoints do not wrap. -/
def SubdivPatch1.GridOK {α γ : Type} (p : SubdivPatch1 α γ) : Prop :=
  1 ≤ p.grid_u_res ∧ p.grid_u_res ≤ 2147483648 ∧ 1 ≤ p.grid_v_res ∧ p.grid_v_res ≤ 2147483648

instance {α γ : Type} (p : SubdivPatch1 α γ) : Decidable p.GridOK := by
  unfold SubdivPatch1.GridOK; infer_instance

/-- A sample range the partitioner can be called on: ordered, and small enough for
`u_start + u_end` and `v_start + v_end` not to wrap. -/
def RangeOK (us ue vs ve : Nat) : Prop :=
  us ≤ ue ∧ vs ≤ ve ∧ ue < 2147483648 ∧ ve < 2147483648

instance (us ue vs ve : Nat) : Decidable (RangeOK us ue vs ve) := by
  unfold RangeOK; infer_instance

/-- An encoding with four encoding bits, leaf bit `8` and the all-ones sentinel. -/
def sampleEncoding : BVH4iEncoding :=
  { encodingBits := 4
    leaf_mask := 8
    invalidNode := 4294967295
    emptyChild := 8
    createBVH4iNode := fun i => u32 ((i * 2) <<< 4) }

/-- A tessellator that numbers the samples. -/
def sampleExternals : Externals Nat :=
  { inf := 1000000, gridUVTessellator := fun _ _ _ => (fun i => i, fun i => 2 * i) }

/-- An unbuilt patch of `u` by `v` samples that asks for `n` blocks; its surface
puts lane `i` at the point whose coordinates are all `u_i + v_i` modulo 4. -/
def samplePatch (u v n : Nat) : SubdivPatch1 Nat (Fin 4) :=
  { eval16 := fun us vs lane _ => Fin.ofNat (us lane + vs lane)
    level := fun _ => 0
    grid_u_res := u
    grid_v_res := v
    grid_size_64b_blocks := n
    bvh4i_subtree_root := 4294967295
    under_construction := 0
    normal := fun a b _ => a + b
    u_range := (10, 20)
    v_range := (30, 50)
    primID := 7 * u + v
    geomID := 3
    grid_mask := 0x777 }

/-- A patch of 5 by 5 samples whose micro-hierarchy has been built: its root holds a
node reference and its build counter is back at 0. -/
def builtPatch : SubdivPatch1 Nat (Fin 4) :=
  { samplePatch 5 5 10 with bvh4i_subtree_root := 0 }

/-- An arena of `capacity` blocks, none of them used. -/
def sampleArena (capacity : Nat) : BVH4i Nat (Fin 4) :=
  { lazymem := fun _ => Block.unused
    lazyMemUsed64BytesBlocks := 0
    lazyMemAllocated64BytesBlocks := capacity }

/-- A stack-traversal primitive that takes every reference for a leaf and yields it
at once, a leaf test that records a hit at distance 5 on the patch it is given if
the ray reaches that far, and a stack compaction that leaves the stack alone. -/
def sampleTraversal : Traversal Nat (Fin 4) :=
  { traverse_single_intersect := fun _ curNode sindex _ _ _ _ stack_node stack_dist _ =>
      { curNode := curNode, sindex := sindex, stack_node := stack_node,
        stack_dist := stack_dist }
    traverse_single_occluded := fun _ curNode sindex _ _ _ _ stack_node _ =>
      (curNode, sindex, stack_node)
    compactStack := fun stack_node stack_dist sindex _ => (stack_node, stack_dist, sindex)
    intersect1_quad16 := fun rayIndex _ _ ray16 _ uu vv _ _ patchIndex =>
      if 5 < ray16.tfar rayIndex then
        { ray16 with
          tfar := Function.update ray16.tfar rayIndex 5
          u := Function.update ray16.u rayIndex (uu 1)
          v := Function.update ray16.v rayIndex (vv 1)
          geomID := Function.update ray16.geomID rayIndex patchIndex
          primID := Function.update ray16.primID rayIndex patchIndex }
      else ray16
    loadRaw := fun _ _ => 0 }

/-- Local arrays that hold zeros before they are written. -/
def sampleUninit : Uninit Nat :=
  { stack_node := fun _ => 0, stack_dist := fun _ => 0, sub_stack_node := fun _ => 0,
    sub_stack_dist := fun _ => 0 }

/-- A ray with far bound `tfar` that enters with identifiers 11 and 12. -/
def sampleRay (tfar : Nat) : Ray Nat :=
  { org := fun _ => 0, dir := fun _ => 1, tnear := 0, tfar := tfar, u := 0, v := 0,
    Ng := fun _ => 0, geomID := 11, primID := 12 }

/-- The packet that holds `sampleRay tfar` in every lane. -/
def samplePacket (tfar : Nat) : Ray16 Nat :=
  { org := fun _ _ => 0, dir := fun _ _ => 1, tnear := fun _ => 0, tfar := fun _ => tfar,
    u := fun _ => 0, v := fun _ => 0, Ng := fun _ _ => 0, geomID := fun _ => 11,
    primID := fun _ => 12 }

/-- The mask whose only valid lane is lane 0. -/
def laneZero : Nat → Nat := fun l => if l = 0 then 1 else 0

/-- A patch table of 4 by 4 patches, one block each. -/
def smallPatches : Nat → SubdivPatch1 Nat (Fin 4) := fun _ => samplePatch 4 4 1

/-- An empty arena of `capacity` blocks under a top-level hierarchy whose root is
`root`. -/
def sampleScene (capacity root : Nat) : BVH4i Nat (Fin 4) :=
  { sampleArena capacity with root := root }

/-- A leaf intersector that finds every ray of far bound above 5 blocked at
distance 5, and leaves the ray alone. -/
def sampleLeafIntersector : LeafIntersector Nat (Fin 4) :=
  { intersect := fun _ _ _ _ max_dist_xyz ray _ =>
      if 5 < max_dist_xyz then some (true, 5, { ray with tfar := 5 })
      else some (false, max_dist_xyz, ray)
    occluded := fun _ _ _ _ max_dist_xyz ray _ => some (decide (5 < max_dist_xyz), ray) }

/-- The sample traversal over the integers: every reference is yielded at once, a leaf
test records a hit at distance 5 if the ray reaches that far, with the parameters of
lane 1 of the grid. -/
def intTraversal : Traversal Int (Fin 4) :=
  { traverse_single_intersect := fun _ curNode sindex _ _ _ _ stack_node stack_dist _ =>
      { curNode := curNode, sindex := sindex, stack_node := stack_node,
        stack_dist := stack_dist }
    traverse_single_occluded := fun _ curNode sindex _ _ _ _ stack_node _ =>
      (curNode, sindex, stack_node)
    compactStack := fun stack_node stack_dist sindex _ => (stack_node, stack_dist, sindex)
    intersect1_quad16 := fun rayIndex _ _ ray16 _ uu vv _ _ patchIndex =>
      if 5 < ray16.tfar rayIndex then
        { ray16 with
          tfar := Function.update ray16.tfar rayIndex 5
          u := Function.update ray16.u rayIndex (uu 1)
          v := Function.update ray16.v rayIndex (vv 1)
          geomID := Function.update ray16.geomID rayIndex patchIndex
          primID := Function.update ray16.primID rayIndex patchIndex }
      else ray16
    loadRaw := fun _ _ => 0 }

/-- A tessellator over the integers that gives every sample the parameters `(1, 0)`. -/
def intExternals : Externals Int :=
  { inf := 1000000, gridUVTessellator := fun _ _ _ => (fun _ => 1, fun _ => 0) }

/-- Local arrays over the integers that hold zeros before they are written. -/
def intUninit : Uninit Int :=
  { stack_node := fun _ => 0, stack_dist := fun _ => 0, sub_stack_node := fun _ => 0,
    sub_stack_dist := fun _ => 0 }

/-- A patch table over the integers: 4 by 4 patches of one block each, with parent
ranges from 10 to 20 in u and from 30 to 50 in v. -/
def intPatches : Nat → SubdivPatch1 Int (Fin 4) := fun _ =>
  { eval16 := fun _ _ _ _ => 0
    level := fun _ => 0
    grid_u_res := 4
    grid_v_res := 4
    grid_size_64b_blocks := 1
    bvh4i_subtree_root := 4294967295
    under_construction := 0
    normal := fun a b _ => a + b
    u_range := (10, 20)
    v_range := (30, 50)
    primID := 32
    geomID := 3
    grid_mask := 0x777 }

/-- An arena of no blocks under a top-level hierarchy whose root is `root`. -/
def intScene (root : Nat) : BVH4i Int (Fin 4) :=
  { lazymem := fun _ => Block.unused
    lazyMemUsed64BytesBlocks := 0
    lazyMemAllocated64BytesBlocks := 0
    root := root }

/-- A packet over the integers whose rays all have far bound `tfar` and enter with
identifiers 11 and 12. -/
def intPacket (tfar : Int) : Ray16 Int :=
  { org := fun _ _ => 0, dir := fun _ _ => 1, tnear := fun _ => 0, tfar := fun _ => tfar,
    u := fun _ => 0, v := fun _ => 0, Ng := fun _ _ => 0, geomID := fun _ => 11,
    primID := fun _ => 12 }

/-! ## Regions of the arena -/

/-- The reference is the reference of a leaf whose two blocks are in `S`. -/
def LeafIn (K : BVH4iEncoding) (S : Nat → Prop) (ref : Nat) : Prop :=
  ∃ i, ref = createSubPatchBVH4iLeaf K i ∧ S i ∧ S (i + 1)

/-- The reference is the sentinel, the reference of a leaf whose two blocks are in `S`,
or the reference of a node whose block is in `S`. -/
def RefIn (K : BVH4iEncoding) (S : Nat → Prop) (ref : Nat) : Prop :=
  ref = K.invalidNode ∨ LeafIn K S ref ∨ ∃ i, ref = K.createBVH4iNode i ∧ S i

/-- The blocks of `S` are closed under following child references: the four child
slots of every node record in a block of `S` refer into `S`. -/
def Closed {α γ : Type} (K : BVH4iEncoding) (m : Nat → Block α γ) (S : Nat → Prop) : Prop :=
  ∀ i n, S i → m i = Block.node n → ∀ k, k < 4 → RefIn K S (n.child k)

/-- What a call of `createSubTree` entered with cursor `c` leaves, when the cursor has
stayed within 32 bits: the reference it wrote and the child slots of every node record
in the blocks `[c, localCounter)` refer into these blocks. -/
def ClosedSpec {α γ : Type} (K : BVH4iEncoding) (c : Nat) (r : SubTreeResult α γ) : Prop :=
  r.localCounter ≤ 4294967296 →
    RefIn K (fun j => c ≤ j ∧ j < r.localCounter) r.curNode ∧
    ∀ i n, c ≤ i → i < r.localCounter → r.lazymem i = Block.node n → ∀ k, k < 4 →
      RefIn K (fun j => c ≤ j ∧ j < r.localCounter) (n.child k)

/-- Modelled from the spec: what the stack-traversal primitive
`traverse_single_intersect` (bvh4i_traversal.h is not among the sources) does on a
micro-hierarchy, as far as the arena is concerned. Called on a set `S` of blocks that
is closed under following child references, with the sentinel at the bottom of the
stack and the popped reference and the stack entries referring into `S`, it reads no
block outside `S` (another arena with the same blocks in `S` gives the same result),
it yields the sentinel or a leaf of `S` (with the sentinel still below on the stack),
and it leaves stack entries that refer into `S`. The blocks of `S` are among the first
`n` of the arena. -/
def Traversal.Local {α γ : Type} (K : BVH4iEncoding) (n : Nat) (X : Traversal α γ) : Prop :=
  ∀ (S : Nat → Prop) (m m' : Nat → Block α γ) (curNode sindex : Nat) (org dir : Vec3 α)
    (mn mx : α) (sn : Nat → Nat) (sd : Nat → α) (lm : Nat),
    (∀ i, S i → i < n) → Closed K m S → (∀ i, S i → m' i = m i) → RefIn K S curNode →
    (1 ≤ sindex ∨ curNode = K.invalidNode) → sn 0 = K.invalidNode →
    (∀ k, k < sindex → RefIn K S (sn k)) →
    X.traverse_single_intersect (NodeBase.lazy m') curNode sindex org dir mn mx sn sd lm =
      X.traverse_single_intersect (NodeBase.lazy m) curNode sindex org dir mn mx sn sd lm ∧
    ((X.traverse_single_intersect (NodeBase.lazy m) curNode sindex org dir mn mx sn sd
          lm).curNode = K.invalidNode ∨
      (LeafIn K S (X.traverse_single_intersect (NodeBase.lazy m) curNode sindex org dir mn
          mx sn sd lm).curNode ∧
        1 ≤ (X.traverse_single_intersect (NodeBase.lazy m) curNode sindex org dir mn mx sn
          sd lm).sindex)) ∧
    (X.traverse_single_intersect (NodeBase.lazy m) curNode sindex org dir mn mx sn sd
      lm).stack_node 0 = K.invalidNode ∧
    ∀ k, k < (X.traverse_single_intersect (NodeBase.lazy m) curNode sindex org dir mn mx sn
        sd lm).sindex →
      RefIn K S ((X.traverse_single_intersect (NodeBase.lazy m) curNode sindex org dir mn mx
        sn sd lm).stack_node k)

/-- The index of a leaf can be read back from its reference, for the blocks below `n`. -/
def BVH4iEncoding.LeafOffsetOK (K : BVH4iEncoding) (n : Nat) : Prop :=
  ∀ i, i < n → offsetIndex K (createSubPatchBVH4iLeaf K i) = i

/-- The two patch records differ in the root and the build counter at most. -/
def SubdivPatch1.SameGrid {α γ : Type} (p p' : SubdivPatch1 α γ) : Prop :=
  ∃ root cnt, p' = { p with bvh4i_subtree_root := root, under_construction := cnt }

/-- A patch the lazy build can be run on: a well-formed grid, fuel for the recursion,
and a block count that covers the blocks the build writes (the assertion of line
206). -/
def BuildOK {α γ : Type} [Lattice γ] [BoundedOrder γ] (K : BVH4iEncoding) (E : Externals α)
    (buildFuel : Nat) (p : SubdivPatch1 α γ) : Prop :=
  p.GridOK ∧ p.grid_u_res + p.grid_v_res ≤ buildFuel ∧
    ∀ (mem : Nat → Block α γ) (c : Nat) (r : SubTreeResult α γ),
      createSubTree K E p (E.gridUVTessellator p.level p.grid_u_res p.grid_v_res).1
        (E.gridUVTessellator p.level p.grid_u_res p.grid_v_res).2 buildFuel
        0 (p.grid_u_res - 1) 0 (p.grid_v_res - 1) mem c = some r →
      r.localCounter ≤ c + p.grid_size_64b_blocks

/-- A well-formed arena under a patch table: the used blocks are within the capacity,
the blocks beyond them are unused, the used blocks are closed under following child
references, and every root refers into them. -/
def ArenaOK {α γ : Type} (K : BVH4iEncoding) (a : Nat → SubdivPatch1 α γ) (b : BVH4i α γ) :
    Prop :=
  b.lazyMemUsed64BytesBlocks ≤ b.lazyMemAllocated64BytesBlocks ∧
    (∀ i, b.lazyMemUsed64BytesBlocks ≤ i → b.lazymem i = Block.unused) ∧
    Closed K b.lazymem (fun i => i < b.lazyMemUsed64BytesBlocks) ∧
    ∀ q, RefIn K (fun i => i < b.lazyMemUsed64BytesBlocks) (a q).bvh4i_subtree_root

/-- The patch table `a'` and the arena `b'` continue `a` and `b`: the capacity and
the top-level root are the same, the used blocks of `b` are used blocks of `b'` with
the same contents, the patch records differ in roots and build counters at most, and
the roots that were valid under `a` are unchanged. -/
def Grows {α γ : Type} (K : BVH4iEncoding) (a : Nat → SubdivPatch1 α γ) (b : BVH4i α γ)
    (a' : Nat → SubdivPatch1 α γ) (b' : BVH4i α γ) : Prop :=
  b'.lazyMemAllocated64BytesBlocks = b.lazyMemAllocated64BytesBlocks ∧ b'.root = b.root ∧
    b.lazyMemUsed64BytesBlocks ≤ b'.lazyMemUsed64BytesBlocks ∧
    (∀ i, i < b.lazyMemUsed64BytesBlocks → b'.lazymem i = b.lazymem i) ∧
    (∀ q, (a q).SameGrid (a' q)) ∧
    ∀ q, (a q).bvh4i_subtree_root ≠ K.invalidNode →
      (a' q).bvh4i_subtree_root = (a q).bvh4i_subtree_root

/-- The two traversal states hold the same packet and the same top-level stack. -/
def SameRays {α γ : Type} (s t : TravState α γ) : Prop :=
  t.ray16 = s.ray16 ∧ t.stack_node = s.stack_node ∧ t.stack_dist = s.stack_dist ∧
    t.sindex = s.sindex

/-- A scene the packet traversal can be repeated on: a well-formed arena of at most
`n` blocks, `n` at most 2^32 and such that the leaf references of the first `n` blocks
can be read back, and patches of more than one block that the lazy build can be run
on. -/
def SceneOK {α γ : Type} [Lattice γ] [BoundedOrder γ] (K : BVH4iEncoding) (E : Externals α)
    (buildFuel n : Nat) (a : Nat → SubdivPatch1 α γ) (b : BVH4i α γ) : Prop :=
  ArenaOK K a b ∧ b.lazyMemAllocated64BytesBlocks ≤ n ∧ n ≤ 4294967296 ∧
    K.LeafOffsetOK n ∧
    ∀ q, (a q).grid_size_64b_blocks ≠ 1 → BuildOK K E buildFuel (a q)

/-- The step `F` of the packet traversal can be repeated from the state `st1`: if it
returns, it leaves a scene that is well-formed and continues the one of `st1`, and
run again from the same packet and stack, on any scene that continues the one it
left, it returns with the same packet and stack and leaves that scene as it is. -/
def Repeatable {α γ : Type} [Lattice γ] [BoundedOrder γ] (K : BVH4iEncoding)
    (E : Externals α) (buildFuel n : Nat) (F : TravState α γ → TravState α γ × Status)
    (st1 : TravState α γ) : Prop :=
  (F st1).2 = Status.returned →
    SceneOK K E buildFuel n (F st1).1.accel (F st1).1.bvh ∧
      Grows K st1.accel st1.bvh (F st1).1.accel (F st1).1.bvh ∧
      ∀ st2 : TravState α γ, SameRays st1 st2 →
        Grows K (F st1).1.accel (F st1).1.bvh st2.accel st2.bvh →
        (F st2).2 = Status.returned ∧ SameRays (F st1).1 (F st2).1 ∧
          (F st2).1.accel = st2.accel ∧ (F st2).1.bvh = st2.bvh

/-! ## Sample data: a traversal primitive that walks the arena -/

/-- The reference a walk down the first child slots from `ref` ends at: the leaf it
reaches, or the sentinel if it meets a block that holds no node record or runs out of
`fuel`. References are read as the sample encoding writes them: a leaf reference is
`16 * index + 8`, a node reference `32 * index`. -/
def firstLeaf (m : Nat → Block Nat (Fin 4)) : Nat → Nat → Nat
  | 0, _ => 4294967295
  | fuel + 1, ref =>
    if ref = 4294967295 then 4294967295
    else if ref % 16 = 8 then ref
    else
      match m (ref / 32) with
      | Block.node n => firstLeaf m fuel (n.child 0)
      | _ => 4294967295

/-- A stack-traversal primitive that yields every reference of the top-level hierarchy
at once and, in a micro-hierarchy, the first leaf below the popped reference; the other
collaborators are those of `sampleTraversal`. -/
def localTraversal : Traversal Nat (Fin 4) :=
  { sampleTraversal with
    traverse_single_intersect := fun base curNode sindex _ _ _ _ stack_node stack_dist _ =>
      match base with
      | NodeBase.top =>
        { curNode := curNode, sindex := sindex, stack_node := stack_node,
          stack_dist := stack_dist }
      | NodeBase.lazy m =>
        { curNode := firstLeaf m 8 curNode, sindex := sindex, stack_node := stack_node,
          stack_dist := stack_dist } }

/-- A patch table of 5 by 5 patches of 10 blocks each, none of them built. -/
def largePatches : Nat → SubdivPatch1 Nat (Fin 4) := fun _ => samplePatch 5 5 10

/-! ## The call record: counts, cursor values, ranges -/

/-- Number of leaf calls of the call record. -/
def SubTree.leaves {γ : Type} : SubTree γ → Nat
  | .leaf _ _ _ _ _ _ _ => 1
  | .node _ _ _ _ _ _ c0 c1 c2 c3 _ => c0.leaves + c1.leaves + c2.leaves + c3.leaves

/-- Number of node calls (internal nodes) of the call record. -/
def SubTree.nodes {γ : Type} : SubTree γ → Nat
  | .leaf _ _ _ _ _ _ _ => 0
  | .node _ _ _ _ _ _ c0 c1 c2 c3 _ => 1 + c0.nodes + c1.nodes + c2.nodes + c3.nodes

/-- The cursor values at which the calls of the record created their leaf or node, in
the order of creation; the call created at `i` was given the blocks `i` and `i + 1`. -/
def SubTree.indices {γ : Type} : SubTree γ → List Nat
  | .leaf index _ _ _ _ _ _ => [index]
  | .node index _ _ _ _ _ c0 c1 c2 c3 _ =>
    index :: (c0.indices ++ c1.indices ++ c2.indices ++ c3.indices)

/-- The sample ranges `(u_start, u_end, v_start, v_end)` of the leaf calls of the
record, in the order of creation. -/
def SubTree.leafRanges {γ : Type} : SubTree γ → List (Nat × Nat × Nat × Nat)
  | .leaf _ us ue vs ve _ _ => [(us, ue, vs, ve)]
  | .node _ _ _ _ _ _ c0 c1 c2 c3 _ =>
    c0.leafRanges ++ c1.leafRanges ++ c2.leafRanges ++ c3.leafRanges

/-- The sample `(u, v)` lies in the range. -/
def inRange (u v : Nat) (range : Nat × Nat × Nat × Nat) : Prop :=
  range.1 ≤ u ∧ u ≤ range.2.1 ∧ range.2.2.1 ≤ v ∧ v ≤ range.2.2.2

instance (u v : Nat) (range : Nat × Nat × Nat × Nat) : Decidable (inRange u v range) := by
  unfold inRange; infer_instance

/-- The range contains the four corners `(u, v)`, `(u+1, v)`, `(u+1, v+1)`, `(u, v+1)`
of the unit cell `(u, v)`. -/
def coversCell (u v : Nat) (range : Nat × Nat × Nat × Nat) : Bool :=
  decide (inRange u v range ∧ inRange (u + 1) v range ∧ inRange (u + 1) (v + 1) range ∧
    inRange u (v + 1) range)

/-! ## The depth formula of the quad-tree -/

/-- The depth formula `D` of the exact-depth claim, as the claim words it:
`D(d) = 0` for `d <= 3` and `D(d) = 1 + D(ceil(d/2))` for `d > 3`. -/
def specD (d : Nat) : Nat :=
  if h : d ≤ 3 then 0 else 1 + specD ((d + 1) / 2)
termination_by d
decreasing_by omega

/-- The companion of `specD` for the shallowest leaf: `0` for `d <= 3` and
`1 + specDmin(floor(d/2))` for `d > 3`. -/
def specDmin (d : Nat) : Nat :=
  if h : d ≤ 3 then 0 else 1 + specDmin (d / 2)
termination_by d
decreasing_by omega

/-! ## Ranges and accesses of the recursion -/

/-- The accesses of the copy loops of lines 74-81 on a range, in loop order: for
every sample `(u, v)` of the range the lane index `4 * local_v + local_u` written in
the leaf arrays and the index `v * grid_u_res + u` read from the grid arrays, both as
the `unsigned int` arithmetic computes them. -/
def leafAccesses (grid_u_res u_start u_end v_start v_end : Nat) : List (Nat × Nat) :=
  ((List.range' v_start (v_end + 1 - v_start)).map (fun v =>
    (List.range' u_start (u_end + 1 - u_start)).map (fun u =>
      (u32 (4 * u32sub v v_start + u32sub u u_start), u32 (v * grid_u_res + u))))).flatten

/-- The range `child` is ordered and lies within the range `parent`. -/
def rangeWithin (parent child : Nat × Nat × Nat × Nat) : Prop :=
  parent.1 ≤ child.1 ∧ child.1 ≤ child.2.1 ∧ child.2.1 ≤ parent.2.1 ∧
    parent.2.2.1 ≤ child.2.2.1 ∧ child.2.2.1 ≤ child.2.2.2 ∧ child.2.2.2 ≤ parent.2.2.2

/-- The sizes `u_size` and `v_size` of lines 54-55 are at least 1 (the two asserts) and
were computed without wrap. -/
def sizesExact (u_start u_end v_start v_end : Nat) : Prop :=
  1 ≤ u32 (u32sub u_end u_start + 1) ∧ 1 ≤ u32 (u32sub v_end v_start + 1) ∧
    u32 (u32sub u_end u_start + 1) = u_end - u_start + 1 ∧
    u32 (u32sub v_end v_start + 1) = v_end - v_start + 1

/-- The range invariant on a call record, for a grid of `grid_u_res` by `grid_v_res`
samples: in every call the sizes are at least 1 and exact; the range of every callee
is ordered and within the range of its caller; every leaf has sizes of at most 4,
writes lanes below 16 only and reads grid indices below `grid_u_res * grid_v_res`
only. -/
def SubTree.RangeInv {γ : Type} (grid_u_res grid_v_res : Nat) : SubTree γ → Prop
  | .leaf _ us ue vs ve _ _ =>
    sizesExact us ue vs ve ∧
    u32 (u32sub ue us + 1) ≤ 4 ∧ u32 (u32sub ve vs + 1) ≤ 4 ∧
    ∀ a, a ∈ leafAccesses grid_u_res us ue vs ve → a.1 < 16 ∧ a.2 < grid_u_res * grid_v_res
  | .node _ us ue vs ve _ c0 c1 c2 c3 _ =>
    sizesExact us ue vs ve ∧
    rangeWithin (us, ue, vs, ve) c0.range ∧ rangeWithin (us, ue, vs, ve) c1.range ∧
    rangeWithin (us, ue, vs, ve) c2.range ∧ rangeWithin (us, ue, vs, ve) c3.range ∧
    c0.RangeInv grid_u_res grid_v_res ∧ c1.RangeInv grid_u_res grid_v_res ∧
    c2.RangeInv grid_u_res grid_v_res ∧ c3.RangeInv grid_u_res grid_v_res

/-- The sum `u_size + v_size` of a range `(u_start, u_end, v_start, v_end)`, with the
two sizes as lines 54-55 compute them. -/
def rangeSize (range : Nat × Nat × Nat × Nat) : Nat :=
  u32 (u32sub range.2.1 range.1 + 1) + u32 (u32sub range.2.2.2 range.2.2.1 + 1)

/-- The ranges of the four recursive calls of a call on `range` (lines 124-132), in the
order of the child slots. -/
def subtreeRanges (range : Nat × Nat × Nat × Nat) : List (Nat × Nat × Nat × Nat) :=
  let u_start := range.1
  let u_end := range.2.1
  let v_start := range.2.2.1
  let v_end := range.2.2.2
  let u_mid := u32 (u_start + u_end) / 2
  let v_mid := u32 (v_start + v_end) / 2
  [(u_start, u_mid, v_start, v_mid), (u_mid, u_end, v_start, v_mid),
    (u_mid, u_end, v_mid, v_end), (u_start, u_mid, v_mid, v_end)]

/-- The call on the range `parent` does not take the leaf branch (line 60) and calls
itself on the range `child`. -/
def Calls (parent child : Nat × Nat × Nat × Nat) : Prop :=
  ¬ (u32 (u32sub parent.2.1 parent.1 + 1) ≤ 4 ∧
      u32 (u32sub parent.2.2.2 parent.2.2.1 + 1) ≤ 4) ∧
    child ∈ subtreeRanges parent

instance (parent child : Nat × Nat × Nat × Nat) : Decidable (Calls parent child) := by
  unfold Calls; infer_instance

/-- In the recursion that starts with a call on `root`, every recursive call is on a
range whose `u_size + v_size` is strictly smaller than that of its caller. -/
def Decreasing (root : Nat × Nat × Nat × Nat) : Prop :=
  ∀ p q, Relation.ReflTransGen Calls root p → Calls p q → rangeSize q < rangeSize p

/-! ## Decoders of a node reference -/

/-- Modelled from the spec: `NodeRef::items()` (bvh4i.h is not among the sources), the
item count a leaf reference encodes: the bits below the leaf bit. -/
def items (K : BVH4iEncoding) (ref : Nat) : Nat := ref &&& (K.leaf_mask - 1)

/-- Modelled from the spec: `NodeRef::isLeaf()` (bvh4i.h is not among the sources): the
leaf bit of the reference, non-zero for a leaf. -/
def isLeaf (K : BVH4iEncoding) (ref : Nat) : Nat := ref &&& K.leaf_mask

/-! ## Scratch arrays and the pops of a record -/

/-- Number of `float` elements of each of the scratch arrays `u_array` and `v_array`
that `intersectEvalGrid1` declares (lines 305-306):
`float u_array[(subdiv_patch.grid_size_64b_blocks+1)]`. -/
def intersectEvalGrid1.arrayElems {α γ : Type} (subdiv_patch : SubdivPatch1 α γ) : Nat :=
  subdiv_patch.grid_size_64b_blocks + 1

/-- Number of `float` elements of each of the scratch arrays `u_array` and `v_array`
that `initLazySubdivTree` declares (lines 176-177):
`float u_array[(patch.grid_size_64b_blocks+1)*16]`. -/
def initLazySubdivTree.arrayElems {α γ : Type} (patch : SubdivPatch1 α γ) : Nat :=
  (patch.grid_size_64b_blocks + 1) * 16

/-- Number of consecutive `float` elements `load16f` reads from its argument: one
16-wide vector. -/
def load16f.elems : Nat := 16

/-- Modelled from the spec: the number of elements `gridUVTessellator` writes into each
of its two output arrays (the tessellator is not among the sources): one per grid
sample. -/
def gridUVTessellator.elems (grid_u_res grid_v_res : Nat) : Nat := grid_u_res * grid_v_res

/-- The pops of a record, in order: whether the pop is one of a patch's sub-stack, the
lane, the far bound handed to the stack-traversal primitive, and the `tfar` of the lane
at that moment. -/
def pops {α : Type} : List (TravEvent α) → List (Bool × Nat × α × α)
  | [] => []
  | TravEvent.pop sub rayIndex max_dist_xyz tfar _ :: rest =>
    (sub, rayIndex, max_dist_xyz, tfar) :: pops rest
  | _ :: rest => pops rest

/-! ## The 4-wide unsigned integer vector `vuint4` -/

/-- The lanes of a 128-bit register seen as `n` unsigned lanes of equal width
(`__m128i`, `uint32x4_t`, `uint16x8_t`, ...): lane number to lane value. A `vuint4`
is `Lanes 4` with 32-bit lanes. -/
abbrev Lanes (n : Nat) := Fin n → Nat

/-- The 32-bit pattern with all bits set, the value of a set lane of a mask. -/
def allOnes : Nat := 4294967295

/-- The intrinsic `_mm_and_si128(a, b)`: the bitwise and of the two registers. -/
def mm_and_si128 (a b : Lanes 4) : Lanes 4 := fun i => a i &&& b i

/-- The intrinsic `_mm_andnot_si128(a, b)`: the bitwise and of the complement of `a`
with `b`; the complement of a 32-bit lane is its exclusive or with all ones. -/
def mm_andnot_si128 (a b : Lanes 4) : Lanes 4 := fun i => (allOnes ^^^ a i) &&& b i

/-- The intrinsic `_mm_or_si128(a, b)`: the bitwise or of the two registers. -/
def mm_or_si128 (a b : Lanes 4) : Lanes 4 := fun i => a i ||| b i

/-- The intrinsic `_mm_blendv_ps(a, b, mask)`: lane `i` of `b` where the sign bit
(bit 31) of lane `i` of `mask` is set, lane `i` of `a` elsewhere. The casts
`_mm_castsi128_ps` and `_mm_castps_si128` around it leave the bits alone. -/
def mm_blendv_ps (a b mask : Lanes 4) : Lanes 4 :=
  fun i => if (mask i).testBit 31 then b i else a i

/-- The intrinsic `_mm_mask_blend_epi32(k, a, b)`: lane `i` of `b` where bit `i` of the
mask register `k` is set, lane `i` of `a` elsewhere. -/
def mm_mask_blend_epi32 (k : Nat) (a b : Lanes 4) : Lanes 4 :=
  fun i => if k.testBit i.val then b i else a i

/-- The intrinsic `_mm_movepi32_mask(a)`: the mask register whose bit `i` is the sign
bit (bit 31) of lane `i` of `a`. -/
def mm_movepi32_mask (a : Lanes 4) : Nat :=
  (if (a 0).testBit 31 then 1 else 0) + (if (a 1).testBit 31 then 2 else 0) +
    (if (a 2).testBit 31 then 4 else 0) + (if (a 3).testBit 31 then 8 else 0)

/-- `asBool(const vuint4&)` under `__AVX512VL__` (line 227): the mask register of a
vector. (Without AVX-512VL, `asBool` is the cast `_mm_castsi128_ps`, which leaves
the four lanes as they are.) -/
def vuint4.asBool_avx512vl (a : Lanes 4) : Nat := mm_movepi32_mask a

/-- `select(m, t, f)` under `__AVX512VL__` (line 213), where a `vboolf4` is a mask
register. -/
def vuint4.select_avx512vl (m : Nat) (t f : Lanes 4) : Lanes 4 := mm_mask_blend_epi32 m f t

/-- `select(m, t, f)` under `__SSE4_1__` (line 215), where a `vboolf4` is a register of
four lanes. -/
def vuint4.select_sse41 (m t f : Lanes 4) : Lanes 4 := mm_blendv_ps f t m

/-- `select(m, t, f)` in the remaining case (line 217). -/
def vuint4.select_sse2 (m t f : Lanes 4) : Lanes 4 :=
  mm_or_si128 (mm_and_si128 m t) (mm_andnot_si128 m f)

/-- The intrinsic `vqmovn_u32` (ARM NEON): each unsigned 32-bit lane narrowed to 16
bits with unsigned saturation. -/
def vqmovn_u32 (x : Lanes 4) : Lanes 4 := fun i => min (x i) 65535

/-- The intrinsic `vcombine_u16(low, high)`: the eight 16-bit lanes of the two
halves. -/
def vcombine_u16 (low high : Lanes 4) : Lanes 8 :=
  fun i => if h : i.val < 4 then low ⟨i.val, h⟩ else high ⟨i.val - 4, by omega⟩

/-- The intrinsic `vqmovn_u16` (ARM NEON): each unsigned 16-bit lane narrowed to 8
bits with unsigned saturation. -/
def vqmovn_u16 (x : Lanes 8) : Lanes 8 := fun i => min (x i) 255

/-- The intrinsic `vst1_lane_u32(ptr, z, 0)` on the eight bytes `z`: the low 32 bits
of the register are stored, that is the byte lanes 0 to 3 in this order. -/
def vst1_lane_u32 (z : Lanes 8) : Lanes 4 := fun i => z ⟨i.val, by omega⟩

/-- Signed saturation of a 32-bit lane to the unsigned 16-bit range: a lane with its
sign bit set is negative and gives 0. -/
def packus32 (x : Nat) : Nat := if 2147483648 ≤ x then 0 else min x 65535

/-- Signed saturation of a 16-bit lane to the unsigned 8-bit range: a lane with its
sign bit set is negative and gives 0. -/
def packus16 (x : Nat) : Nat := if 32768 ≤ x then 0 else min x 255

/-- The intrinsic `_mm_packus_epi32(a, b)`: the lanes of `a`, then those of `b`, as
signed 32-bit integers saturated to unsigned 16-bit lanes. -/
def mm_packus_epi32 (a b : Lanes 4) : Lanes 8 :=
  fun i => if h : i.val < 4 then packus32 (a ⟨i.val, h⟩) else packus32 (b ⟨i.val - 4, by omega⟩)

/-- The intrinsic `_mm_packus_epi16(a, b)`: the lanes of `a`, then those of `b`, as
signed 16-bit integers saturated to unsigned 8-bit lanes. -/
def mm_packus_epi16 (a b : Lanes 8) : Lanes 16 :=
  fun i => if h : i.val < 8 then packus16 (a ⟨i.val, h⟩) else packus16 (b ⟨i.val - 8, by omega⟩)

/-- The store `*(unsigned*)ptr = _mm_cvtsi128_si32(x)` on the sixteen bytes `x`: the
low 32 bits of the register, that is the byte lanes 0 to 3 in this order. -/
def mm_cvtsi128_si32 (x : Lanes 16) : Lanes 4 := fun i => x ⟨i.val, by omega⟩

/-- `vuint4::store_uint8(uint8_t*, v)` on aarch64 / iOS (lines 133-136): the four
bytes written. -/
def vuint4.store_uint8_aarch64 (v : Lanes 4) : Lanes 4 :=
  let x := v
  let y := vqmovn_u32 x
  let z := vqmovn_u16 (vcombine_u16 y y)
  vst1_lane_u32 z

/-- `vuint4::store_uint8(uint8_t*, v)` under `__SSE4_1__` (lines 138-141): the four
bytes written. -/
def vuint4.store_uint8_sse41 (v : Lanes 4) : Lanes 4 :=
  let x := v
  let x1 := mm_packus_epi32 x x
  let x2 := mm_packus_epi16 x1 x1
  mm_cvtsi128_si32 x2

/-- `vuint4::store_uint8(uint8_t*, v)` in the remaining case (lines 143-144): the
cast `(uint8_t)v[i]` keeps the low eight bits of the lane. -/
def vuint4.store_uint8_portable (v : Lanes 4) : Lanes 4 := fun i => v i % 256

/-- A vector given by its four lanes (`vuint4(a, b, c, d)`, line 51). -/
def vuint4.mk4 (a b c d : Nat) : Lanes 4 := ![a, b, c, d]

/-! ## Concurrent callers: the build that is published -/

/-- The run of `createSubTree` that the builder part of `initLazySubdivTree` makes for
`patch` on the arena `bvh` (lines 179-204): over the full grid, on the tessellation of
the patch, with the cursor at the base of the reservation `add(grid_size_64b_blocks)`
on the counter of `bvh`. -/
def theBuild {α γ : Type} [Lattice γ] [BoundedOrder γ]
    (K : BVH4iEncoding) (E : Externals α) (fuel : Nat)
    (patch : SubdivPatch1 α γ) (bvh : BVH4i α γ) : Option (SubTreeResult α γ) :=
  createSubTree K E patch
    (E.gridUVTessellator patch.level patch.grid_u_res patch.grid_v_res).1
    (E.gridUVTessellator patch.level patch.grid_u_res patch.grid_v_res).2
    fuel 0 (u32sub patch.grid_u_res 1) 0 (u32sub patch.grid_v_res 1)
    bvh.lazymem (AtomicCounter.add bvh.lazyMemUsed64BytesBlocks patch.grid_size_64b_blocks).1

/-- The arena `b` and the reference `root` are what one build of `patch` on the arena
`bvh` leaves: the reservation of `grid_size_64b_blocks` blocks on the counter of `bvh`
fits the capacity and is the only one made, the run `theBuild` of `createSubTree`
returned, `root` is the reference it wrote to its `curNode`, and the pool of `b` is
the pool that run left. -/
def Built {α γ : Type} [Lattice γ] [BoundedOrder γ]
    (K : BVH4iEncoding) (E : Externals α) (fuel : Nat)
    (patch : SubdivPatch1 α γ) (bvh b : BVH4i α γ) (root : Nat) : Prop :=
  ∃ r, theBuild K E fuel patch bvh = some r ∧ root = r.curNode ∧ b.lazymem = r.lazymem ∧
    b.lazyMemUsed64BytesBlocks =
      (AtomicCounter.add bvh.lazyMemUsed64BytesBlocks patch.grid_size_64b_blocks).2 ∧
    bvh.lazyMemUsed64BytesBlocks + patch.grid_size_64b_blocks ≤
      bvh.lazyMemAllocated64BytesBlocks ∧
    b.lazyMemAllocated64BytesBlocks = bvh.lazyMemAllocated64BytesBlocks

/-- The thread has neither reserved blocks nor ended in `FATAL` or without fuel. -/
def PC.early : PC → Bool
  | .build _ => false
  | .publish _ => false
  | .fatal => false
  | .outOfFuel => false
  | _ => true

/-- The step of thread `t` runs `createSubTree` to its end: the thread stands before
the capacity check of line 188 with its reserved cursor, the check passes, and the
call of `createSubTree` on the reserved blocks returns. -/
def runsBuild {α γ : Type} [Lattice γ] [BoundedOrder γ]
    (K : BVH4iEncoding) (E : Externals α) (fuel : Nat) (s : Config α γ) (t : Nat) : Bool :=
  match s.pc t with
  | PC.build localCounter =>
    decide (¬ localCounter + s.patch.grid_size_64b_blocks >
        s.bvh.lazyMemAllocated64BytesBlocks) &&
      (createSubTree K E s.patch
        (E.gridUVTessellator s.patch.level s.patch.grid_u_res s.patch.grid_v_res).1
        (E.gridUVTessellator s.patch.level s.patch.grid_u_res s.patch.grid_v_res).2
        fuel 0 (u32sub s.patch.grid_u_res 1) 0 (u32sub s.patch.grid_v_res 1)
        s.bvh.lazymem localCounter).isSome
  | _ => false

/-- The callers that run `createSubTree` to its end in the interleaving `schedule` from
the state `s`, one entry for each such step, in the order of the steps. -/
def builders {α γ : Type} [Lattice γ] [BoundedOrder γ]
    (K : BVH4iEncoding) (E : Externals α) (fuel N : Nat) :
    Config α γ → List Nat → List Nat
  | _, [] => []
  | s, t :: rest =>
    if t < N ∧ runsBuild K E fuel s t = true then
      t :: builders K E fuel N (step K E fuel N s t) rest
    else builders K E fuel N (step K E fuel N s t) rest

/-- The second invariant of the executions of the concurrent callers on the patch
`patch` and the arena `bvh`: the patch record changes in its root and its build
counter only; as long as the root is invalid and no thread has reserved, the counter
and the pool of the arena are those of `bvh`; a thread at the
build point holds the base of the one reservation made, on a pool not yet written; a
thread about to publish a root, and every state with a valid root, hold what one build
leaves. -/
def InvBuild {α γ : Type} [Lattice γ] [BoundedOrder γ]
    (K : BVH4iEncoding) (E : Externals α) (fuel : Nat)
    (patch : SubdivPatch1 α γ) (bvh : BVH4i α γ) (s : Config α γ) : Prop :=
  patch.SameGrid s.patch ∧
    s.bvh.lazyMemAllocated64BytesBlocks = bvh.lazyMemAllocated64BytesBlocks ∧
    (s.patch.bvh4i_subtree_root = K.invalidNode → (∀ t, (s.pc t).early = true) →
      s.bvh.lazyMemUsed64BytesBlocks = bvh.lazyMemUsed64BytesBlocks ∧
        s.bvh.lazymem = bvh.lazymem) ∧
    (∀ t c, s.pc t = PC.build c →
      c = (AtomicCounter.add bvh.lazyMemUsed64BytesBlocks patch.grid_size_64b_blocks).1 ∧
      s.bvh.lazyMemUsed64BytesBlocks =
        (AtomicCounter.add bvh.lazyMemUsed64BytesBlocks patch.grid_size_64b_blocks).2 ∧
      s.bvh.lazymem = bvh.lazymem) ∧
    (∀ t r, s.pc t = PC.publish r → Built K E fuel patch bvh s.bvh r) ∧
    (s.patch.bvh4i_subtree_root ≠ K.invalidNode →
      Built K E fuel patch bvh s.bvh s.patch.bvh4i_subtree_root)

/-! ## The leaf tests of a record -/

/-- The leaf tests of a record carry what `f` reads off the packet from `a` to `b`: the
first leaf test starts from a packet on which `f` reads `a`, every later one from a
packet on which `f` reads what the leaf test before it left, `b` is what the last one
left (`a` itself if the record has no leaf test), and every leaf test is a call of
`intersect1_quad16` for its lane and patch on the packet it started from. -/
def Linked {α γ β : Type} (X : Traversal α γ) (f : Ray16 α → β) :
    β → List (TravEvent α) → β → Prop
  | a, [], b => a = b
  | a, TravEvent.leafTest _ i p bf af :: rest, b =>
    f bf = a ∧
      (∃ d o vtx uu vv res m, af = X.intersect1_quad16 i d o bf vtx uu vv res m p) ∧
      Linked X f (f af) rest b
  | a, TravEvent.pop _ _ _ _ _ :: rest, b => Linked X f a rest b
  | a, TravEvent.build _ :: rest, b => Linked X f a rest b

/-! ## Machine integers: basic facts -/

theorem u32_of_lt {n : Nat} (h : n < 4294967296) : u32 n = n := by
  unfold u32; omega

theorem u32sub_of_le {a b : Nat} (hab : b ≤ a) (ha : a < 4294967296) : u32sub a b = a - b := by
  unfold u32sub; omega

theorem u32sub_add_left {s k : Nat} (h : s + k < 4294967296) : u32sub (s + k) s = k := by
  unfold u32sub; omega

theorem u32sub_self (s : Nat) : u32sub s s = 0 := by
  unfold u32sub; omega

/-! ## Leaf packing -/

theorem replicateColumns_lane {α : Type} (leaf : mic_f α) (a x y : Nat) (ha : a ≤ 3)
    (hx : x ≤ 3) (hy : y ≤ 3) :
    replicateColumns (a + 1) leaf (4 * y + x) = leaf (4 * y + min x a) := by
  interval_cases a <;> interval_cases x <;> interval_cases y <;>
    simp [replicateColumns, u32, u32sub, List.range_succ, List.range'_succ, Function.update_apply]

theorem replicateRows_lane {α : Type} (leaf : mic_f α) (b x y : Nat) (hb : b ≤ 3)
    (hx : x ≤ 3) (hy : y ≤ 3) :
    replicateRows (b + 1) leaf (4 * y + x) = leaf (4 * min y b + x) := by
  interval_cases b <;> interval_cases x <;> interval_cases y <;>
    simp [replicateRows, u32, u32sub, List.range_succ, List.range'_succ, Function.update_apply]

theorem foldl_update_miss {ι α : Type} (key : ι → Nat) (val : ι → α) (l : List ι)
    (leaf : mic_f α) (j : Nat) (h : ∀ i ∈ l, key i ≠ j) :
    (l.foldl (fun f i => Function.update f (key i) (val i)) leaf) j = leaf j := by
  induction l generalizing leaf with
  | nil => rfl
  | cons a l ih =>
    simp only [List.foldl_cons]
    rw [ih _ (fun i hi => h i (List.mem_cons_of_mem _ hi))]
    exact Function.update_noteq (Ne.symm (h a (List.mem_cons_self _ _))) _ _

theorem foldl_update_hit {ι α : Type} (key : ι → Nat) (val : ι → α) (l : List ι) :
    ∀ (leaf : mic_f α) (i : ι), i ∈ l →
      (∀ i' ∈ l, key i' = key i → val i' = val i) →
      (l.foldl (fun f i => Function.update f (key i) (val i)) leaf) (key i) = val i := by
  induction l with
  | nil => intro leaf i hi; cases hi
  | cons a l ih =>
    intro leaf i hi hval
    simp only [List.foldl_cons]
    by_cases hex : ∃ i' ∈ l, key i' = key i
    · obtain ⟨i', hi', hk⟩ := hex
      have h2 : ∀ i'' ∈ l, key i'' = key i' → val i'' = val i' := by
        intro i'' hi'' hk''
        rw [hval i'' (List.mem_cons_of_mem _ hi'') (hk''.trans hk),
          hval i' (List.mem_cons_of_mem _ hi') hk]
      rw [← hk, ih _ i' hi' h2]
      exact hval i' (List.mem_cons_of_mem _ hi') hk
    · have hmiss : ∀ i' ∈ l, key i' ≠ key i := fun i' hi' hk => hex ⟨i', hi', hk⟩
      rw [foldl_update_miss key val l _ _ hmiss]
      rcases List.mem_cons.mp hi with rfl | hil
      · exact Function.update_same _ _ _
      · exact absurd rfl (hmiss i hil)

theorem foldl_nested {ι κ σ : Type} (step : σ → ι × κ → σ) (l1 : List ι) (l2 : List κ)
    (s : σ) :
    l1.foldl (fun s v => l2.foldl (fun s u => step s (v, u)) s) s =
      (l1.flatMap (fun v => l2.map (fun u => (v, u)))).foldl step s := by
  induction l1 generalizing s with
  | nil => rfl
  | cons a l ih =>
    simp only [List.foldl_cons, List.flatMap_cons, List.foldl_append, List.foldl_map]
    exact ih _

theorem fillLeaf_lane {α : Type} (grid : Nat → α) (g us vs a b : Nat) (leaf : mic_f α)
    (ha : a ≤ 3) (hb : b ≤ 3) (hus : us + a < 4294967296) (hvs : vs + b < 4294967296)
    (x y : Nat) (hx : x ≤ a) (hy : y ≤ b) :
    fillLeaf grid g us (us + a) vs (vs + b) leaf (4 * y + x) =
      grid (u32 ((vs + y) * g + (us + x))) := by
  have e1 : us + a + 1 - us = a + 1 := by omega
  have e2 : vs + b + 1 - vs = b + 1 := by omega
  unfold fillLeaf
  rw [e1, e2]
  have hflat := foldl_nested
    (fun (f : mic_f α) (p : Nat × Nat) =>
      Function.update f (u32 (4 * u32sub p.1 vs + u32sub p.2 us)) (grid (u32 (p.1 * g + p.2))))
    (List.range' vs (b + 1)) (List.range' us (a + 1)) leaf
  simp only at hflat
  rw [hflat]
  have hkey : ∀ p : Nat × Nat,
      p ∈ (List.range' vs (b + 1)).flatMap (fun v => (List.range' us (a + 1)).map (fun u => (v, u))) →
      ∃ y' x', y' ≤ b ∧ x' ≤ a ∧ p = (vs + y', us + x') ∧
        u32 (4 * u32sub p.1 vs + u32sub p.2 us) = 4 * y' + x' := by
    intro p hp
    simp only [List.mem_flatMap, List.mem_map, List.mem_range'_1] at hp
    obtain ⟨v, ⟨hv1, hv2⟩, u, ⟨hu1, hu2⟩, rfl⟩ := hp
    refine ⟨v - vs, u - us, by omega, by omega, ?_, ?_⟩
    · simp only [Prod.mk.injEq]; omega
    · simp only [u32, u32sub]; omega
  have hmem : (vs + y, us + x) ∈
      (List.range' vs (b + 1)).flatMap (fun v => (List.range' us (a + 1)).map (fun u => (v, u))) := by
    simp only [List.mem_flatMap, List.mem_map, List.mem_range'_1]
    exact ⟨vs + y, ⟨by omega, by omega⟩, us + x, ⟨by omega, by omega⟩, rfl⟩
  have hk0 : u32 (4 * u32sub (vs + y) vs + u32sub (us + x) us) = 4 * y + x := by
    simp only [u32, u32sub]; omega
  have := foldl_update_hit
    (fun p : Nat × Nat => u32 (4 * u32sub p.1 vs + u32sub p.2 us))
    (fun p : Nat × Nat => grid (u32 (p.1 * g + p.2)))
    _ leaf (vs + y, us + x) hmem (by
      intro p hp hpk
      obtain ⟨y', x', hy', hx', rfl, hk⟩ := hkey p hp
      simp only at hpk hk ⊢
      rw [hk, hk0] at hpk
      have : y' = y := by omega
      have : x' = x := by omega
      subst_vars
      rfl)
  simp only [hk0] at this
  exact this

theorem packLeaf_lane {α : Type} (inf : α) (grid : Nat → α) (g us vs a b : Nat)
    (ha : a ≤ 3) (hb : b ≤ 3) (hus : us + a < 4294967296) (hvs : vs + b < 4294967296)
    (x y : Nat) (hx : x ≤ 3) (hy : y ≤ 3) :
    packLeaf inf grid g us (us + a) vs (vs + b) (a + 1) (b + 1) (4 * y + x) =
      grid (u32 ((vs + min y b) * g + (us + min x a))) := by
  unfold packLeaf
  rw [replicateRows_lane _ b x y hb hx hy,
    replicateColumns_lane _ a x (min y b) ha hx (by omega),
    fillLeaf_lane grid g us vs a b _ ha hb hus hvs (min x a) (min y b) (by omega) (by omega)]

/-! ## Unfolding `createSubTree` on well-formed ranges -/

theorem size_of_range {s e : Nat} (h : s ≤ e) (he : e < 2147483648) :
    u32 (u32sub e s + 1) = e - s + 1 := by
  unfold u32 u32sub; omega

theorem mid_of_range {s e : Nat} (h : s ≤ e) (he : e < 2147483648) :
    u32 (s + e) / 2 = (s + e) / 2 := by
  unfold u32; omega

theorem createSubTree_leaf {α γ : Type} [Lattice γ] [BoundedOrder γ]
    (K : BVH4iEncoding) (E : Externals α) (patch : SubdivPatch1 α γ)
    (gu gv : Nat → α) (fuel us ue vs ve : Nat) (mem : Nat → Block α γ) (c : Nat)
    (h : u32 (u32sub ue us + 1) ≤ 4 ∧ u32 (u32sub ve vs + 1) ≤ 4)
    (he : copyLoopsEnd ue vs ve) :
    createSubTree K E patch gu gv (fuel + 1) us ue vs ve mem c =
      some (createLeaf K E patch gu gv us ue vs ve mem c) := by
  simp only [createSubTree, h, he, and_self, if_true]

theorem createSubTree_leaf_inv {α γ : Type} [Lattice γ] [BoundedOrder γ]
    (K : BVH4iEncoding) (E : Externals α) (patch : SubdivPatch1 α γ)
    (gu gv : Nat → α) (fuel us ue vs ve : Nat) (mem : Nat → Block α γ) (c : Nat)
    (r : SubTreeResult α γ)
    (h : u32 (u32sub ue us + 1) ≤ 4 ∧ u32 (u32sub ve vs + 1) ≤ 4)
    (hr : createSubTree K E patch gu gv (fuel + 1) us ue vs ve mem c = some r) :
    copyLoopsEnd ue vs ve ∧ r = createLeaf K E patch gu gv us ue vs ve mem c := by
  simp only [createSubTree, h, and_self, if_true] at hr
  split at hr
  · rename_i he
    exact ⟨he, (Option.some.inj hr).symm⟩
  · cases hr

/-- On a range of leaf size on which the copy loops do not end, `createSubTree` does not
return, whatever the fuel. -/
theorem createSubTree_leaf_never {α γ : Type} [Lattice γ] [BoundedOrder γ]
    (K : BVH4iEncoding) (E : Externals α) (patch : SubdivPatch1 α γ)
    (gu gv : Nat → α) (fuel us ue vs ve : Nat) (mem : Nat → Block α γ) (c : Nat)
    (h : u32 (u32sub ue us + 1) ≤ 4 ∧ u32 (u32sub ve vs + 1) ≤ 4)
    (he : ¬ copyLoopsEnd ue vs ve) :
    createSubTree K E patch gu gv fuel us ue vs ve mem c = none := by
  cases fuel with
  | zero => rfl
  | succ fuel => simp only [createSubTree, h, he, and_self, if_true, if_false]

theorem copyLoopsEnd_of_lt {ue vs ve : Nat} (hue : ue < 4294967295) (hve : ve < 4294967295) :
    copyLoopsEnd ue vs ve := ⟨hve, Or.inr hue⟩

theorem createSubTree_node {α γ : Type} [Lattice γ] [BoundedOrder γ]
    (K : BVH4iEncoding) (E : Externals α) (patch : SubdivPatch1 α γ)
    (gu gv : Nat → α) (fuel us ue vs ve : Nat) (mem : Nat → Block α γ) (c : Nat)
    (r0 r1 r2 r3 : SubTreeResult α γ)
    (h : ¬ (u32 (u32sub ue us + 1) ≤ 4 ∧ u32 (u32sub ve vs + 1) ≤ 4))
    (h0 : createSubTree K E patch gu gv fuel us (u32 (us + ue) / 2) vs (u32 (vs + ve) / 2)
      (memNode K mem c) (c + 2) = some r0)
    (h1 : createSubTree K E patch gu gv fuel (u32 (us + ue) / 2) ue vs (u32 (vs + ve) / 2)
      (memAfter K c [r0] r0) r0.localCounter = some r1)
    (h2 : createSubTree K E patch gu gv fuel (u32 (us + ue) / 2) ue (u32 (vs + ve) / 2) ve
      (memAfter K c [r0, r1] r1) r1.localCounter = some r2)
    (h3 : createSubTree K E patch gu gv fuel us (u32 (us + ue) / 2) (u32 (vs + ve) / 2) ve
      (memAfter K c [r0, r1, r2] r2) r2.localCounter = some r3) :
    createSubTree K E patch gu gv (fuel + 1) us ue vs ve mem c =
      some (createNode K us ue vs ve c r0 r1 r2 r3) := by
  simp only [createSubTree, h, if_false, h0, h1, h2, h3]

theorem createSubTree_node_inv {α γ : Type} [Lattice γ] [BoundedOrder γ]
    (K : BVH4iEncoding) (E : Externals α) (patch : SubdivPatch1 α γ)
    (gu gv : Nat → α) (fuel us ue vs ve : Nat) (mem : Nat → Block α γ) (c : Nat)
    (r : SubTreeResult α γ)
    (h : ¬ (u32 (u32sub ue us + 1) ≤ 4 ∧ u32 (u32sub ve vs + 1) ≤ 4))
    (hr : createSubTree K E patch gu gv (fuel + 1) us ue vs ve mem c = some r) :
    ∃ r0 r1 r2 r3,
      createSubTree K E patch gu gv fuel us (u32 (us + ue) / 2) vs (u32 (vs + ve) / 2)
        (memNode K mem c) (c + 2) = some r0 ∧
      createSubTree K E patch gu gv fuel (u32 (us + ue) / 2) ue vs (u32 (vs + ve) / 2)
        (memAfter K c [r0] r0) r0.localCounter = some r1 ∧
      createSubTree K E patch gu gv fuel (u32 (us + ue) / 2) ue (u32 (vs + ve) / 2) ve
        (memAfter K c [r0, r1] r1) r1.localCounter = some r2 ∧
      createSubTree K E patch gu gv fuel us (u32 (us + ue) / 2) (u32 (vs + ve) / 2) ve
        (memAfter K c [r0, r1, r2] r2) r2.localCounter = some r3 ∧
      r = createNode K us ue vs ve c r0 r1 r2 r3 := by
  simp only [createSubTree, h, if_false] at hr
  split at hr
  · cases hr
  · rename_i r0 h0
    split at hr
    · cases hr
    · rename_i r1 h1
      split at hr
      · cases hr
      · rename_i r2 h2
        split at hr
        · cases hr
        · rename_i r3 h3
          exact ⟨r0, r1, r2, r3, h0, h1, h2, h3, (Option.some.inj hr).symm⟩

/-- Total correctness scheme for `createSubTree`: a property that holds of every leaf
call and is passed from the four callees to the node call holds of the result of
every call on a well-formed range, and that result exists as soon as the fuel
exceeds `(u_end - u_start) + (v_end - v_start)`. -/
theorem createSubTree_induction {α γ : Type} [Lattice γ] [BoundedOrder γ]
    (K : BVH4iEncoding) (E : Externals α) (patch : SubdivPatch1 α γ) (gu gv : Nat → α)
    (P : Nat → Nat → Nat → Nat → (Nat → Block α γ) → Nat → SubTreeResult α γ → Prop)
    (hleaf : ∀ us ue vs ve mem c, RangeOK us ue vs ve → ue - us ≤ 3 → ve - vs ≤ 3 →
      P us ue vs ve mem c (createLeaf K E patch gu gv us ue vs ve mem c))
    (hnode : ∀ us ue vs ve mem c r0 r1 r2 r3, RangeOK us ue vs ve →
      ¬ (ue - us ≤ 3 ∧ ve - vs ≤ 3) →
      P us ((us + ue) / 2) vs ((vs + ve) / 2) (memNode K mem c) (c + 2) r0 →
      P ((us + ue) / 2) ue vs ((vs + ve) / 2) (memAfter K c [r0] r0) r0.localCounter r1 →
      P ((us + ue) / 2) ue ((vs + ve) / 2) ve (memAfter K c [r0, r1] r1) r1.localCounter r2 →
      P us ((us + ue) / 2) ((vs + ve) / 2) ve (memAfter K c [r0, r1, r2] r2)
        r2.localCounter r3 →
      P us ue vs ve mem c (createNode K us ue vs ve c r0 r1 r2 r3)) :
    ∀ fuel us ue vs ve mem c, RangeOK us ue vs ve → (ue - us) + (ve - vs) < fuel →
      ∃ r, createSubTree K E patch gu gv fuel us ue vs ve mem c = some r ∧
        P us ue vs ve mem c r := by
  intro fuel
  induction fuel with
  | zero => intro us ue vs ve mem c _ h; omega
  | succ fuel ih =>
    intro us ue vs ve mem c hok hfuel
    obtain ⟨hu, hv, hue, hve⟩ := hok
    have hsu := size_of_range hu hue
    have hsv := size_of_range hv hve
    by_cases hl : ue - us ≤ 3 ∧ ve - vs ≤ 3
    · have hl' : u32 (u32sub ue us + 1) ≤ 4 ∧ u32 (u32sub ve vs + 1) ≤ 4 := by
        rw [hsu, hsv]; omega
      exact ⟨_, createSubTree_leaf K E patch gu gv fuel us ue vs ve mem c hl'
          (copyLoopsEnd_of_lt (by omega) (by omega)),
        hleaf us ue vs ve mem c ⟨hu, hv, hue, hve⟩ hl.1 hl.2⟩
    · have hl' : ¬ (u32 (u32sub ue us + 1) ≤ 4 ∧ u32 (u32sub ve vs + 1) ≤ 4) := by
        rw [hsu, hsv]; omega
      have hmu := mid_of_range hu hue
      have hmv := mid_of_range hv hve
      obtain ⟨r0, h0, p0⟩ := ih us ((us + ue) / 2) vs ((vs + ve) / 2) (memNode K mem c) (c + 2)
        ⟨by omega, by omega, by omega, by omega⟩ (by omega)
      obtain ⟨r1, h1, p1⟩ := ih ((us + ue) / 2) ue vs ((vs + ve) / 2) (memAfter K c [r0] r0)
        r0.localCounter ⟨by omega, by omega, by omega, by omega⟩ (by omega)
      obtain ⟨r2, h2, p2⟩ := ih ((us + ue) / 2) ue ((vs + ve) / 2) ve
        (memAfter K c [r0, r1] r1) r1.localCounter
        ⟨by omega, by omega, by omega, by omega⟩ (by omega)
      obtain ⟨r3, h3, p3⟩ := ih us ((us + ue) / 2) ((vs + ve) / 2) ve
        (memAfter K c [r0, r1, r2] r2) r2.localCounter
        ⟨by omega, by omega, by omega, by omega⟩ (by omega)
      refine ⟨_, createSubTree_node K E patch gu gv fuel us ue vs ve mem c r0 r1 r2 r3 hl'
        (by rw [hmu, hmv]; exact h0) (by rw [hmu, hmv]; exact h1)
        (by rw [hmu, hmv]; exact h2) (by rw [hmu, hmv]; exact h3), ?_⟩
      exact hnode us ue vs ve mem c r0 r1 r2 r3 ⟨hu, hv, hue, hve⟩ hl p0 p1 p2 p3

/-! ## Facts about the references and the patch argument -/

theorem sampleEncoding_valid : sampleEncoding.Valid := by
  constructor
  · intro i h
    have h0 : (createSubPatchBVH4iLeaf sampleEncoding i).testBit 0 = false := by
      simp only [createSubPatchBVH4iLeaf, sampleEncoding, u32, Nat.testBit_or,
        Nat.shiftLeft_eq, Nat.testBit_zero]
      have : i * 2 ^ 4 % 4294967296 % 2 = 0 := by omega
      simp only [Nat.reducePow] at this
      simp [this]
    rw [h] at h0
    simp [sampleEncoding] at h0
  · intro i h
    simp only [sampleEncoding, u32, Nat.shiftLeft_eq] at h
    omega

theorem createSubTree_curNode_ne {α γ : Type} [Lattice γ] [BoundedOrder γ]
    (K : BVH4iEncoding) (hK : K.Valid) (E : Externals α) (patch : SubdivPatch1 α γ)
    (gu gv : Nat → α) (fuel us ue vs ve : Nat) (mem : Nat → Block α γ) (c : Nat)
    (r : SubTreeResult α γ)
    (hr : createSubTree K E patch gu gv fuel us ue vs ve mem c = some r) :
    r.curNode ≠ K.invalidNode := by
  cases fuel with
  | zero => simp [createSubTree] at hr
  | succ fuel =>
    by_cases h : u32 (u32sub ue us + 1) ≤ 4 ∧ u32 (u32sub ve vs + 1) ≤ 4
    · obtain ⟨-, rfl⟩ := createSubTree_leaf_inv K E patch gu gv fuel us ue vs ve mem c r h hr
      exact hK.1 _
    · obtain ⟨r0, r1, r2, r3, -, -, -, -, rfl⟩ :=
        createSubTree_node_inv K E patch gu gv fuel us ue vs ve mem c r h hr
      exact hK.2 _

theorem createSubTree_patch_congr {α γ : Type} [Lattice γ] [BoundedOrder γ]
    (K : BVH4iEncoding) (E : Externals α) (p q : SubdivPatch1 α γ)
    (hres : p.grid_u_res = q.grid_u_res) (heval : p.eval16 = q.eval16)
    (gu gv : Nat → α) (fuel : Nat) :
    ∀ us ue vs ve (mem : Nat → Block α γ) c,
      createSubTree K E p gu gv fuel us ue vs ve mem c =
        createSubTree K E q gu gv fuel us ue vs ve mem c := by
  induction fuel with
  | zero => intros; rfl
  | succ fuel ih =>
    intro us ue vs ve mem c
    simp only [createSubTree, createLeaf, hres, heval, ih]

/-! ## The lazy build coordinator, one caller at a time -/

theorem gridOK_range {α γ : Type} (p : SubdivPatch1 α γ) (h : p.GridOK) :
    u32sub p.grid_u_res 1 = p.grid_u_res - 1 ∧ u32sub p.grid_v_res 1 = p.grid_v_res - 1 ∧
      RangeOK 0 (p.grid_u_res - 1) 0 (p.grid_v_res - 1) := by
  obtain ⟨h1, h2, h3, h4⟩ := h
  refine ⟨?_, ?_, ?_⟩
  · unfold u32sub; omega
  · unfold u32sub; omega
  · unfold RangeOK; omega

/-- The builder path on a well-formed grid: the run of `createSubTree` the call
makes, and the outcome of the call in terms of it. -/
theorem buildLazySubdivTree_returns {α γ : Type} [Lattice γ] [BoundedOrder γ]
    (K : BVH4iEncoding) (E : Externals α) (fuel : Nat)
    (patch : SubdivPatch1 α γ) (bvh : BVH4i α γ)
    (hgrid : patch.GridOK) (hfuel : patch.grid_u_res + patch.grid_v_res ≤ fuel)
    (hcap : bvh.lazyMemUsed64BytesBlocks + patch.grid_size_64b_blocks ≤
      bvh.lazyMemAllocated64BytesBlocks) :
    ∃ r,
      createSubTree K E patch
        (E.gridUVTessellator patch.level patch.grid_u_res patch.grid_v_res).1
        (E.gridUVTessellator patch.level patch.grid_u_res patch.grid_v_res).2
        fuel 0 (patch.grid_u_res - 1) 0 (patch.grid_v_res - 1)
        bvh.lazymem bvh.lazyMemUsed64BytesBlocks = some r ∧
      buildLazySubdivTree K E fuel patch bvh =
        Outcome.returned
          { patch with
            bvh4i_subtree_root := r.curNode
            under_construction := patch.under_construction + (-1) }
          { bvh with
            lazymem := r.lazymem
            lazyMemUsed64BytesBlocks :=
              bvh.lazyMemUsed64BytesBlocks + patch.grid_size_64b_blocks }
          (some r) := by
  obtain ⟨e1, e2, hok⟩ := gridOK_range patch hgrid
  obtain ⟨r, hr, -⟩ := createSubTree_induction K E patch
    (E.gridUVTessellator patch.level patch.grid_u_res patch.grid_v_res).1
    (E.gridUVTessellator patch.level patch.grid_u_res patch.grid_v_res).2
    (fun _ _ _ _ _ _ _ => True) (by intros; trivial) (by intros; trivial)
    fuel 0 (patch.grid_u_res - 1) 0 (patch.grid_v_res - 1) bvh.lazymem
    bvh.lazyMemUsed64BytesBlocks hok (by obtain ⟨h1, -, h3, -⟩ := hgrid; omega)
  refine ⟨r, hr, ?_⟩
  have hcap' : ¬ (bvh.lazyMemUsed64BytesBlocks + patch.grid_size_64b_blocks >
      bvh.lazyMemAllocated64BytesBlocks) := by omega
  simp only [buildLazySubdivTree, AtomicCounter.add, atomic_add, hcap', if_false, e1, e2, hr]

/-- Builder path: entered with the counter at 0 and the root invalid. -/
theorem initLazySubdivTree_builder {α γ : Type} [Lattice γ] [BoundedOrder γ]
    (K : BVH4iEncoding) (E : Externals α) (fuel : Nat)
    (patch : SubdivPatch1 α γ) (bvh : BVH4i α γ)
    (hcnt : patch.under_construction = 0)
    (hroot : patch.bvh4i_subtree_root = K.invalidNode) :
    initLazySubdivTree K E fuel patch bvh =
      buildLazySubdivTree K E fuel { patch with under_construction := 1 } bvh := by
  unfold initLazySubdivTree
  dsimp only [atomic_add]
  rw [if_neg (by simp [hcnt]), if_neg (by simp [hroot]), hcnt]
  rfl

/-- Skip path: entered with the counter at 0 and the root already valid. -/
theorem initLazySubdivTree_skip {α γ : Type} [Lattice γ] [BoundedOrder γ]
    (K : BVH4iEncoding) (E : Externals α) (fuel : Nat)
    (patch : SubdivPatch1 α γ) (bvh : BVH4i α γ)
    (hcnt : patch.under_construction = 0)
    (hroot : patch.bvh4i_subtree_root ≠ K.invalidNode) :
    initLazySubdivTree K E fuel patch bvh =
      Outcome.returned { patch with under_construction := 1 } bvh none := by
  unfold initLazySubdivTree
  dsimp only [atomic_add]
  rw [if_neg (by simp [hcnt]), if_pos hroot, hcnt]
  rfl

/-- Waiter path with the root valid: the wait loop ends at once. -/
theorem initLazySubdivTree_waiter {α γ : Type} [Lattice γ] [BoundedOrder γ]
    (K : BVH4iEncoding) (E : Externals α) (fuel : Nat)
    (patch : SubdivPatch1 α γ) (bvh : BVH4i α γ)
    (hcnt : patch.under_construction ≠ 0)
    (hroot : patch.bvh4i_subtree_root ≠ K.invalidNode) :
    initLazySubdivTree K E fuel patch bvh = Outcome.returned patch bvh none := by
  unfold initLazySubdivTree
  dsimp only [atomic_add]
  rw [if_pos hcnt, if_neg hroot, if_pos hroot]
  have : patch.under_construction + 1 + -1 = patch.under_construction := by omega
  rw [this]

/-- Waiter path with the root invalid: the wait loop has nobody to end it. -/
theorem initLazySubdivTree_spin {α γ : Type} [Lattice γ] [BoundedOrder γ]
    (K : BVH4iEncoding) (E : Externals α) (fuel : Nat)
    (patch : SubdivPatch1 α γ) (bvh : BVH4i α γ)
    (hcnt : patch.under_construction ≠ 0)
    (hroot : patch.bvh4i_subtree_root = K.invalidNode) :
    initLazySubdivTree K E fuel patch bvh =
      Outcome.spinning
        { patch with under_construction := patch.under_construction + 1 } bvh := by
  unfold initLazySubdivTree
  dsimp only [atomic_add]
  rw [if_pos hcnt, if_pos hroot]

/-- The builder path of `initLazySubdivTree` on a well-formed grid with room in the
arena. -/
theorem initLazySubdivTree_build_eq {α γ : Type} [Lattice γ] [BoundedOrder γ]
    (K : BVH4iEncoding) (E : Externals α) (fuel : Nat)
    (patch : SubdivPatch1 α γ) (bvh : BVH4i α γ)
    (hgrid : patch.GridOK) (hfuel : patch.grid_u_res + patch.grid_v_res ≤ fuel)
    (hroot : patch.bvh4i_subtree_root = K.invalidNode)
    (hcnt : patch.under_construction = 0)
    (hcap : bvh.lazyMemUsed64BytesBlocks + patch.grid_size_64b_blocks ≤
      bvh.lazyMemAllocated64BytesBlocks) :
    ∃ r,
      createSubTree K E patch
        (E.gridUVTessellator patch.level patch.grid_u_res patch.grid_v_res).1
        (E.gridUVTessellator patch.level patch.grid_u_res patch.grid_v_res).2
        fuel 0 (patch.grid_u_res - 1) 0 (patch.grid_v_res - 1)
        bvh.lazymem bvh.lazyMemUsed64BytesBlocks = some r ∧
      initLazySubdivTree K E fuel patch bvh =
        Outcome.returned
          { patch with bvh4i_subtree_root := r.curNode, under_construction := 0 }
          { bvh with
            lazymem := r.lazymem
            lazyMemUsed64BytesBlocks :=
              bvh.lazyMemUsed64BytesBlocks + patch.grid_size_64b_blocks }
          (some r) := by
  obtain ⟨r, hr, hb⟩ := buildLazySubdivTree_returns K E fuel
    { patch with under_construction := 1 } bvh hgrid hfuel hcap
  rw [createSubTree_patch_congr K E { patch with under_construction := 1 } patch
    rfl rfl] at hr
  refine ⟨r, hr, ?_⟩
  rw [initLazySubdivTree_builder K E fuel patch bvh hcnt hroot, hb]
  rfl

/-- A build that returns leaves a root that is not the sentinel. -/
theorem buildLazySubdivTree_root_valid {α γ : Type} [Lattice γ] [BoundedOrder γ]
    (K : BVH4iEncoding) (hK : K.Valid) (E : Externals α) (fuel : Nat)
    (patch : SubdivPatch1 α γ) (bvh : BVH4i α γ)
    (h : (buildLazySubdivTree K E fuel patch bvh).isReturned = true) :
    (buildLazySubdivTree K E fuel patch bvh).patch.bvh4i_subtree_root ≠ K.invalidNode := by
  unfold buildLazySubdivTree at h ⊢
  dsimp only at h ⊢
  by_cases hc : (AtomicCounter.add bvh.lazyMemUsed64BytesBlocks patch.grid_size_64b_blocks).1 +
      patch.grid_size_64b_blocks > bvh.lazyMemAllocated64BytesBlocks
  · rw [if_pos hc] at h; cases h
  · rw [if_neg hc] at h ⊢
    split
    · rename_i hn; rw [hn] at h; cases h
    · rename_i r hr
      exact createSubTree_curNode_ne K hK E patch _ _ fuel _ _ _ _ _ _ r hr

/-- What a build does to the two arena counters. -/
theorem buildLazySubdivTree_counters {α γ : Type} [Lattice γ] [BoundedOrder γ]
    (K : BVH4iEncoding) (E : Externals α) (fuel : Nat)
    (patch : SubdivPatch1 α γ) (bvh : BVH4i α γ) :
    (buildLazySubdivTree K E fuel patch bvh).bvh.lazyMemAllocated64BytesBlocks =
        bvh.lazyMemAllocated64BytesBlocks ∧
      (buildLazySubdivTree K E fuel patch bvh).bvh.lazyMemUsed64BytesBlocks =
        bvh.lazyMemUsed64BytesBlocks + patch.grid_size_64b_blocks ∧
      ((buildLazySubdivTree K E fuel patch bvh).isFatal = true ↔
        bvh.lazyMemUsed64BytesBlocks + patch.grid_size_64b_blocks >
          bvh.lazyMemAllocated64BytesBlocks) := by
  unfold buildLazySubdivTree
  dsimp only [AtomicCounter.add]
  split
  · rename_i hc; exact ⟨rfl, rfl, by simp [Outcome.isFatal, hc]⟩
  · rename_i hc
    split
    · exact ⟨rfl, rfl, by simp [Outcome.isFatal, hc]⟩
    · exact ⟨rfl, rfl, by simp [Outcome.isFatal, hc]⟩

/-- Every call that returns leaves a root that is not the sentinel: the assert
after the call site in `intersect` holds. -/
theorem initLazySubdivTree_root_valid {α γ : Type} [Lattice γ] [BoundedOrder γ]
    (K : BVH4iEncoding) (hK : K.Valid) (E : Externals α) (fuel : Nat)
    (patch : SubdivPatch1 α γ) (bvh : BVH4i α γ)
    (h : (initLazySubdivTree K E fuel patch bvh).isReturned = true) :
    (initLazySubdivTree K E fuel patch bvh).patch.bvh4i_subtree_root ≠ K.invalidNode := by
  by_cases hcnt : patch.under_construction = 0
  · by_cases hroot : patch.bvh4i_subtree_root = K.invalidNode
    · rw [initLazySubdivTree_builder K E fuel patch bvh hcnt hroot] at h ⊢
      exact buildLazySubdivTree_root_valid K hK E fuel _ bvh h
    · rw [initLazySubdivTree_skip K E fuel patch bvh hcnt hroot]
      exact hroot
  · by_cases hroot : patch.bvh4i_subtree_root = K.invalidNode
    · rw [initLazySubdivTree_spin K E fuel patch bvh hcnt hroot] at h
      cases h
    · rw [initLazySubdivTree_waiter K E fuel patch bvh hcnt hroot]
      exact hroot

/-- A call on a patch whose root is valid returns at once, whatever the counter. -/
theorem initLazySubdivTree_of_valid {α γ : Type} [Lattice γ] [BoundedOrder γ]
    (K : BVH4iEncoding) (E : Externals α) (fuel : Nat)
    (patch : SubdivPatch1 α γ) (bvh : BVH4i α γ)
    (hroot : patch.bvh4i_subtree_root ≠ K.invalidNode) :
    ∃ p', initLazySubdivTree K E fuel patch bvh = Outcome.returned p' bvh none ∧
      p'.bvh4i_subtree_root = patch.bvh4i_subtree_root := by
  by_cases hcnt : patch.under_construction = 0
  · exact ⟨_, initLazySubdivTree_skip K E fuel patch bvh hcnt hroot, rfl⟩
  · exact ⟨_, initLazySubdivTree_waiter K E fuel patch bvh hcnt hroot, rfl⟩

/-- What a call does to the two arena counters. -/
theorem initLazySubdivTree_counters {α γ : Type} [Lattice γ] [BoundedOrder γ]
    (K : BVH4iEncoding) (E : Externals α) (fuel : Nat)
    (patch : SubdivPatch1 α γ) (bvh : BVH4i α γ) :
    (initLazySubdivTree K E fuel patch bvh).bvh.lazyMemAllocated64BytesBlocks =
        bvh.lazyMemAllocated64BytesBlocks ∧
      ((initLazySubdivTree K E fuel patch bvh).isFatal = true →
        (initLazySubdivTree K E fuel patch bvh).bvh.lazyMemUsed64BytesBlocks =
            bvh.lazyMemUsed64BytesBlocks + patch.grid_size_64b_blocks ∧
          bvh.lazyMemUsed64BytesBlocks + patch.grid_size_64b_blocks >
            bvh.lazyMemAllocated64BytesBlocks) ∧
      ((initLazySubdivTree K E fuel patch bvh).isFatal = false →
        (initLazySubdivTree K E fuel patch bvh).bvh.lazyMemUsed64BytesBlocks =
            bvh.lazyMemUsed64BytesBlocks ∨
          (initLazySubdivTree K E fuel patch bvh).bvh.lazyMemUsed64BytesBlocks =
              bvh.lazyMemUsed64BytesBlocks + patch.grid_size_64b_blocks ∧
            bvh.lazyMemUsed64BytesBlocks + patch.grid_size_64b_blocks ≤
              bvh.lazyMemAllocated64BytesBlocks) ∧
      ((initLazySubdivTree K E fuel patch bvh).built.isSome = true →
        (initLazySubdivTree K E fuel patch bvh).bvh.lazyMemUsed64BytesBlocks =
              bvh.lazyMemUsed64BytesBlocks + patch.grid_size_64b_blocks ∧
            bvh.lazyMemUsed64BytesBlocks + patch.grid_size_64b_blocks ≤
              bvh.lazyMemAllocated64BytesBlocks) := by
  have hb : ∀ q : SubdivPatch1 α γ, q.grid_size_64b_blocks = patch.grid_size_64b_blocks →
      (buildLazySubdivTree K E fuel q bvh).bvh.lazyMemAllocated64BytesBlocks =
        bvh.lazyMemAllocated64BytesBlocks ∧
      ((buildLazySubdivTree K E fuel q bvh).isFatal = true →
        (buildLazySubdivTree K E fuel q bvh).bvh.lazyMemUsed64BytesBlocks =
            bvh.lazyMemUsed64BytesBlocks + patch.grid_size_64b_blocks ∧
          bvh.lazyMemUsed64BytesBlocks + patch.grid_size_64b_blocks >
            bvh.lazyMemAllocated64BytesBlocks) ∧
      ((buildLazySubdivTree K E fuel q bvh).isFatal = false →
        (buildLazySubdivTree K E fuel q bvh).bvh.lazyMemUsed64BytesBlocks =
            bvh.lazyMemUsed64BytesBlocks ∨
          (buildLazySubdivTree K E fuel q bvh).bvh.lazyMemUsed64BytesBlocks =
              bvh.lazyMemUsed64BytesBlocks + patch.grid_size_64b_blocks ∧
            bvh.lazyMemUsed64BytesBlocks + patch.grid_size_64b_blocks ≤
              bvh.lazyMemAllocated64BytesBlocks) ∧
      ((buildLazySubdivTree K E fuel q bvh).built.isSome = true →
        (buildLazySubdivTree K E fuel q bvh).bvh.lazyMemUsed64BytesBlocks =
              bvh.lazyMemUsed64BytesBlocks + patch.grid_size_64b_blocks ∧
            bvh.lazyMemUsed64BytesBlocks + patch.grid_size_64b_blocks ≤
              bvh.lazyMemAllocated64BytesBlocks) := by
    intro q hq
    obtain ⟨h1, h2, h3⟩ := buildLazySubdivTree_counters K E fuel q bvh
    rw [hq] at h2 h3
    refine ⟨h1, fun hf => ⟨h2, h3.mp hf⟩, fun hf => Or.inr ⟨h2, ?_⟩, fun hs => ⟨h2, ?_⟩⟩
    · by_contra hc
      have := h3.mpr (by omega)
      rw [this] at hf
      cases hf
    · by_contra hc
      have hfat := h3.mpr (by omega)
      revert hs hfat
      cases buildLazySubdivTree K E fuel q bvh <;> simp [Outcome.built, Outcome.isFatal]
  by_cases hcnt : patch.under_construction = 0
  · by_cases hroot : patch.bvh4i_subtree_root = K.invalidNode
    · rw [initLazySubdivTree_builder K E fuel patch bvh hcnt hroot]
      exact hb _ rfl
    · rw [initLazySubdivTree_skip K E fuel patch bvh hcnt hroot]
      simp [Outcome.bvh, Outcome.isFatal, Outcome.built]
  · by_cases hroot : patch.bvh4i_subtree_root = K.invalidNode
    · rw [initLazySubdivTree_spin K E fuel patch bvh hcnt hroot]
      simp [Outcome.bvh, Outcome.isFatal, Outcome.built]
    · rw [initLazySubdivTree_waiter K E fuel patch bvh hcnt hroot]
      simp [Outcome.bvh, Outcome.isFatal, Outcome.built]

/-- C2. Sequential build postcondition: on an unbuilt patch with build counter 0 and a
grid of more than one block, in an arena with room for the reservation, the call runs
`createSubTree` once, over the full range `[0, grid_u_res-1] x [0, grid_v_res-1]` and
from the block cursor the reservation returned (the old `used`), stores the reference
that run produced as the root of the patch, and returns with a root that is not
`invalidNode`, the build counter back at 0 and `used` grown by exactly
`grid_size_64b_blocks`. -/
theorem initLazySubdivTree_build_postcondition {α γ : Type} [Lattice γ] [BoundedOrder γ]
    (K : BVH4iEncoding) (E : Externals α) (fuel : Nat)
    (patch : SubdivPatch1 α γ) (bvh : BVH4i α γ)
    (hK : K.Valid) (hgrid : patch.GridOK)
    (hfuel : patch.grid_u_res + patch.grid_v_res ≤ fuel)
    (hroot : patch.bvh4i_subtree_root = K.invalidNode)
    (hcnt : patch.under_construction = 0)
    (_hblocks : 1 < patch.grid_size_64b_blocks)
    (hcap : bvh.lazyMemUsed64BytesBlocks + patch.grid_size_64b_blocks ≤
      bvh.lazyMemAllocated64BytesBlocks) :
    ∃ r,
      createSubTree K E patch
        (E.gridUVTessellator patch.level patch.grid_u_res patch.grid_v_res).1
        (E.gridUVTessellator patch.level patch.grid_u_res patch.grid_v_res).2
        fuel 0 (patch.grid_u_res - 1) 0 (patch.grid_v_res - 1)
        bvh.lazymem bvh.lazyMemUsed64BytesBlocks = some r ∧
      initLazySubdivTree K E fuel patch bvh =
        Outcome.returned
          { patch with bvh4i_subtree_root := r.curNode, under_construction := 0 }
          { bvh with
            lazymem := r.lazymem
            lazyMemUsed64BytesBlocks :=
              bvh.lazyMemUsed64BytesBlocks + patch.grid_size_64b_blocks }
          (some r) ∧
      r.curNode ≠ K.invalidNode := by
  obtain ⟨r, hr, hb⟩ :=
    initLazySubdivTree_build_eq K E fuel patch bvh hgrid hfuel hroot hcnt hcap
  exact ⟨r, hr, hb, createSubTree_curNode_ne K hK E patch _ _ fuel _ _ _ _ _ _ r hr⟩

theorem initLazySubdivTree_build_postcondition_witness :
    ∃ r,
      createSubTree sampleEncoding sampleExternals (samplePatch 5 5 10)
        (sampleExternals.gridUVTessellator (samplePatch 5 5 10).level 5 5).1
        (sampleExternals.gridUVTessellator (samplePatch 5 5 10).level 5 5).2
        10 0 (5 - 1) 0 (5 - 1) (sampleArena 16).lazymem 0 = some r ∧
      initLazySubdivTree sampleEncoding sampleExternals 10 (samplePatch 5 5 10)
          (sampleArena 16) =
        Outcome.returned
          { samplePatch 5 5 10 with bvh4i_subtree_root := r.curNode, under_construction := 0 }
          { sampleArena 16 with lazymem := r.lazymem, lazyMemUsed64BytesBlocks := 0 + 10 }
          (some r) ∧
      r.curNode ≠ sampleEncoding.invalidNode :=
  initLazySubdivTree_build_postcondition sampleEncoding sampleExternals 10
    (samplePatch 5 5 10) (sampleArena 16) sampleEncoding_valid (by decide) (by decide)
    rfl rfl (by decide) (by decide)

/-- C3. No rebuild of a built patch: a call on a patch whose root is valid returns
without running the tessellator or `createSubTree` (no build record), and leaves the
root, the `used` counter and the block contents (the whole arena) as they were; hence
a second call after a call that returned yields the same root and the same arena as
the first call alone. -/
theorem initLazySubdivTree_no_rebuild {α γ : Type} [Lattice γ] [BoundedOrder γ]
    (K : BVH4iEncoding) (E : Externals α) (hK : K.Valid) :
    (∀ (fuel : Nat) (patch : SubdivPatch1 α γ) (bvh : BVH4i α γ),
        patch.bvh4i_subtree_root ≠ K.invalidNode →
        ∃ p', initLazySubdivTree K E fuel patch bvh = Outcome.returned p' bvh none ∧
          p'.bvh4i_subtree_root = patch.bvh4i_subtree_root) ∧
      (∀ (fuel fuel' : Nat) (patch : SubdivPatch1 α γ) (bvh : BVH4i α γ),
        (initLazySubdivTree K E fuel patch bvh).isReturned = true →
        ∃ p', initLazySubdivTree K E fuel' (initLazySubdivTree K E fuel patch bvh).patch
              (initLazySubdivTree K E fuel patch bvh).bvh =
            Outcome.returned p' (initLazySubdivTree K E fuel patch bvh).bvh none ∧
          p'.bvh4i_subtree_root =
            (initLazySubdivTree K E fuel patch bvh).patch.bvh4i_subtree_root) := by
  refine ⟨fun fuel patch bvh hroot => initLazySubdivTree_of_valid K E fuel patch bvh hroot, ?_⟩
  intro fuel fuel' patch bvh hret
  exact initLazySubdivTree_of_valid K E fuel' _ _
    (initLazySubdivTree_root_valid K hK E fuel patch bvh hret)

theorem initLazySubdivTree_no_rebuild_witness :
    (∃ p', initLazySubdivTree sampleEncoding sampleExternals 10 builtPatch (sampleArena 16) =
          Outcome.returned p' (sampleArena 16) none ∧
        p'.bvh4i_subtree_root = builtPatch.bvh4i_subtree_root) ∧
      (initLazySubdivTree sampleEncoding sampleExternals 10 (samplePatch 5 5 10)
          (sampleArena 16)).isReturned = true ∧
      ∃ p', initLazySubdivTree sampleEncoding sampleExternals 10
            (initLazySubdivTree sampleEncoding sampleExternals 10 (samplePatch 5 5 10)
              (sampleArena 16)).patch
            (initLazySubdivTree sampleEncoding sampleExternals 10 (samplePatch 5 5 10)
              (sampleArena 16)).bvh =
          Outcome.returned p'
            (initLazySubdivTree sampleEncoding sampleExternals 10 (samplePatch 5 5 10)
              (sampleArena 16)).bvh none ∧
        p'.bvh4i_subtree_root =
          (initLazySubdivTree sampleEncoding sampleExternals 10 (samplePatch 5 5 10)
            (sampleArena 16)).patch.bvh4i_subtree_root :=
  ⟨(initLazySubdivTree_no_rebuild sampleEncoding sampleExternals sampleEncoding_valid).1
      10 builtPatch (sampleArena 16) (by decide),
    by decide,
    (initLazySubdivTree_no_rebuild sampleEncoding sampleExternals sampleEncoding_valid).2
      10 10 (samplePatch 5 5 10) (sampleArena 16) (by decide)⟩

/-- C4 (the code at the failing input). A call entered on a built patch with the build
counter at 0 takes the early return of line 170 after the increment of line 160 and
before any decrement: it returns with the counter at 1, not at 0. -/
theorem initLazySubdivTree_skip_path_counter :
    builtPatch.under_construction = 0 ∧
      builtPatch.bvh4i_subtree_root ≠ sampleEncoding.invalidNode ∧
      initLazySubdivTree sampleEncoding sampleExternals 10 builtPatch (sampleArena 16) =
        Outcome.returned { builtPatch with under_construction := 1 } (sampleArena 16) none ∧
      (initLazySubdivTree sampleEncoding sampleExternals 10 builtPatch
        (sampleArena 16)).patch.under_construction = 1 := by
  have h := initLazySubdivTree_skip sampleEncoding sampleExternals 10 builtPatch
    (sampleArena 16) rfl (by decide)
  exact ⟨rfl, by decide, h, by rw [h]; rfl⟩

/-! ## Arena reservations -/

theorem reserveAll_length (u : Nat) (ns : List Nat) : (reserveAll u ns).1.length = ns.length := by
  induction ns generalizing u with
  | nil => rfl
  | cons n ns ih => simp [reserveAll, ih]

theorem reserveAll_final (u : Nat) (ns : List Nat) : (reserveAll u ns).2 = u + ns.sum := by
  induction ns generalizing u with
  | nil => rfl
  | cons n ns ih => simp [reserveAll, AtomicCounter.add, ih]; omega

theorem reserveAll_base (u : Nat) (ns : List Nat) (i : Nat) (hi : i < ns.length) :
    (reserveAll u ns).1.getD i 0 = u + (ns.take i).sum := by
  induction ns generalizing u i with
  | nil => simp at hi
  | cons n ns ih =>
    cases i with
    | zero => simp [reserveAll, AtomicCounter.add]
    | succ i =>
      simp only [List.length_cons, Nat.add_lt_add_iff_right] at hi
      simp only [reserveAll, AtomicCounter.add, List.getD_cons_succ, List.take_succ_cons,
        List.sum_cons]
      rw [ih (u + n) i hi]
      omega

theorem sum_take_step (ns : List Nat) (i : Nat) (hi : i < ns.length) :
    (ns.take (i + 1)).sum = (ns.take i).sum + ns.getD i 0 := by
  induction ns generalizing i with
  | nil => simp at hi
  | cons n ns ih =>
    cases i with
    | zero => simp
    | succ i =>
      simp only [List.length_cons, Nat.add_lt_add_iff_right] at hi
      simp only [List.take_succ_cons, List.sum_cons, List.getD_cons_succ]
      rw [ih i hi]
      omega

theorem sum_take_mono (ns : List Nat) (i j : Nat) (hij : i ≤ j) :
    (ns.take i).sum ≤ (ns.take j).sum := by
  induction ns generalizing i j with
  | nil => simp
  | cons n ns ih =>
    cases i with
    | zero => simp
    | succ i =>
      cases j with
      | zero => omega
      | succ j =>
        simp only [List.take_succ_cons, List.sum_cons]
        have := ih i j (by omega)
        omega

theorem sum_take_le_sum (ns : List Nat) (i : Nat) : (ns.take i).sum ≤ ns.sum := by
  have h := sum_take_mono ns i (max i ns.length) (le_max_left _ _)
  rwa [List.take_of_length_le (le_max_right _ _)] at h

theorem reserveAll_cover (u : Nat) (ns : List Nat) (b : Nat) (hlo : u ≤ b)
    (hhi : b < u + ns.sum) :
    ∃ i, i < ns.length ∧ u + (ns.take i).sum ≤ b ∧ b < u + (ns.take i).sum + ns.getD i 0 := by
  induction ns generalizing u with
  | nil => simp at hhi; omega
  | cons n ns ih =>
    by_cases hb : b < u + n
    · exact ⟨0, by simp, by simpa using hlo, by simpa using hb⟩
    · simp only [List.sum_cons] at hhi
      obtain ⟨i, hi, h1, h2⟩ := ih (u + n) (by omega) (by omega)
      refine ⟨i + 1, by simpa using hi, ?_, ?_⟩
      · simp only [List.take_succ_cons, List.sum_cons]; omega
      · simp only [List.take_succ_cons, List.sum_cons, List.getD_cons_succ]; omega

/-- C5. Arena disjointness, sequential: from `used = 0`, the successive reservations
`add(n_1), ..., add(n_k)` with `n_1 + ... + n_k <= capacity` return the bases
`base_i = n_1 + ... + n_(i-1)`; each passes the capacity check of the build; the
ranges `[base_i, base_i + n_i)` are pairwise non-overlapping (an earlier range ends
where or before a later one starts) and their union is exactly `[0, n_1 + ... + n_k)`,
which is also where the counter ends. -/
theorem arena_reservations_disjoint (capacity : Nat) (ns : List Nat)
    (hcap : ns.sum ≤ capacity) :
    (reserveAll 0 ns).1.length = ns.length ∧
      (reserveAll 0 ns).2 = ns.sum ∧
      (∀ i, i < ns.length →
        (reserveAll 0 ns).1.getD i 0 = (ns.take i).sum ∧
          ¬ ((reserveAll 0 ns).1.getD i 0 + ns.getD i 0 > capacity)) ∧
      (∀ i j, i < j → j < ns.length →
        (reserveAll 0 ns).1.getD i 0 + ns.getD i 0 ≤ (reserveAll 0 ns).1.getD j 0) ∧
      (∀ b, b < ns.sum ↔
        ∃ i, i < ns.length ∧ (reserveAll 0 ns).1.getD i 0 ≤ b ∧
          b < (reserveAll 0 ns).1.getD i 0 + ns.getD i 0) := by
  refine ⟨reserveAll_length 0 ns, by simp [reserveAll_final], ?_, ?_, ?_⟩
  · intro i hi
    rw [reserveAll_base 0 ns i hi]
    refine ⟨by simp, ?_⟩
    have h1 := sum_take_step ns i hi
    have h2 := sum_take_le_sum ns (i + 1)
    omega
  · intro i j hij hj
    rw [reserveAll_base 0 ns i (by omega), reserveAll_base 0 ns j hj]
    have h1 := sum_take_step ns i (by omega)
    have h2 := sum_take_mono ns (i + 1) j (by omega)
    omega
  · intro b
    constructor
    · intro hb
      obtain ⟨i, hi, h1, h2⟩ := reserveAll_cover 0 ns b (Nat.zero_le _) (by omega)
      exact ⟨i, hi, by rw [reserveAll_base 0 ns i hi]; exact h1,
        by rw [reserveAll_base 0 ns i hi]; exact h2⟩
    · rintro ⟨i, hi, -, h2⟩
      rw [reserveAll_base 0 ns i hi] at h2
      have h3 := sum_take_step ns i hi
      have h4 := sum_take_le_sum ns (i + 1)
      omega

theorem arena_reservations_disjoint_witness :
    (reserveAll 0 [10, 34, 2]).1.length = [10, 34, 2].length ∧
      (reserveAll 0 [10, 34, 2]).2 = [10, 34, 2].sum ∧
      (∀ i, i < [10, 34, 2].length →
        (reserveAll 0 [10, 34, 2]).1.getD i 0 = ([10, 34, 2].take i).sum ∧
          ¬ ((reserveAll 0 [10, 34, 2]).1.getD i 0 + [10, 34, 2].getD i 0 > 46)) ∧
      (∀ i j, i < j → j < [10, 34, 2].length →
        (reserveAll 0 [10, 34, 2]).1.getD i 0 + [10, 34, 2].getD i 0 ≤
          (reserveAll 0 [10, 34, 2]).1.getD j 0) ∧
      (∀ b, b < [10, 34, 2].sum ↔
        ∃ i, i < [10, 34, 2].length ∧ (reserveAll 0 [10, 34, 2]).1.getD i 0 ≤ b ∧
          b < (reserveAll 0 [10, 34, 2]).1.getD i 0 + [10, 34, 2].getD i 0) :=
  arena_reservations_disjoint 46 [10, 34, 2] (by decide)

/-- C6. Arena exhaustion at the capacity boundary: a build (a call entered with the
counter at 0 on an unbuilt patch) ends in `FATAL` if and only if
`base + grid_size_64b_blocks > lazyMemAllocated64BytesBlocks`, `base` being `used`
before the reservation, so a reservation that ends exactly at capacity is not fatal.
With capacity exactly `n1 + n2`, the builds of two well-formed patches of `n1` and
`n2` blocks return, and the build of a third unbuilt patch (of at least one block)
after them ends in `FATAL`. -/
theorem arena_exhaustion_boundary {α γ : Type} [Lattice γ] [BoundedOrder γ]
    (K : BVH4iEncoding) (E : Externals α) (fuel : Nat)
    (p1 p2 p3 : SubdivPatch1 α γ) (bvh : BVH4i α γ)
    (hroot1 : p1.bvh4i_subtree_root = K.invalidNode) (hcnt1 : p1.under_construction = 0)
    (hroot2 : p2.bvh4i_subtree_root = K.invalidNode) (hcnt2 : p2.under_construction = 0)
    (hroot3 : p3.bvh4i_subtree_root = K.invalidNode) (hcnt3 : p3.under_construction = 0)
    (hgrid1 : p1.GridOK) (hfuel1 : p1.grid_u_res + p1.grid_v_res ≤ fuel)
    (hgrid2 : p2.GridOK) (hfuel2 : p2.grid_u_res + p2.grid_v_res ≤ fuel)
    (hblocks3 : 0 < p3.grid_size_64b_blocks) :
    (∀ b : BVH4i α γ,
        (initLazySubdivTree K E fuel p1 b).isFatal = true ↔
          b.lazyMemUsed64BytesBlocks + p1.grid_size_64b_blocks >
            b.lazyMemAllocated64BytesBlocks) ∧
      (bvh.lazyMemUsed64BytesBlocks = 0 →
        bvh.lazyMemAllocated64BytesBlocks = p1.grid_size_64b_blocks + p2.grid_size_64b_blocks →
        (initLazySubdivTree K E fuel p1 bvh).isReturned = true ∧
          (initLazySubdivTree K E fuel p2 (initLazySubdivTree K E fuel p1 bvh).bvh).isReturned
            = true ∧
          (initLazySubdivTree K E fuel p3
            (initLazySubdivTree K E fuel p2
              (initLazySubdivTree K E fuel p1 bvh).bvh).bvh).isFatal = true) := by
  constructor
  · intro b
    rw [initLazySubdivTree_builder K E fuel p1 b hcnt1 hroot1]
    exact (buildLazySubdivTree_counters K E fuel _ b).2.2
  · intro hused hall
    obtain ⟨r1, -, e1⟩ := initLazySubdivTree_build_eq K E fuel p1 bvh hgrid1 hfuel1 hroot1
      hcnt1 (by omega)
    rw [e1]
    obtain ⟨r2, -, e2⟩ := initLazySubdivTree_build_eq K E fuel p2
      (Outcome.returned
        { p1 with bvh4i_subtree_root := r1.curNode, under_construction := 0 }
        { bvh with
          lazymem := r1.lazymem
          lazyMemUsed64BytesBlocks := bvh.lazyMemUsed64BytesBlocks + p1.grid_size_64b_blocks }
        (some r1)).bvh hgrid2 hfuel2 hroot2 hcnt2 (by simp only [Outcome.bvh]; omega)
    rw [e2]
    refine ⟨rfl, rfl, ?_⟩
    rw [initLazySubdivTree_builder K E fuel p3 _ hcnt3 hroot3]
    refine (buildLazySubdivTree_counters K E fuel _ _).2.2.mpr ?_
    simp only [Outcome.bvh]
    omega

theorem arena_exhaustion_boundary_witness :
    (∀ b : BVH4i Nat (Fin 4),
        (initLazySubdivTree sampleEncoding sampleExternals 20 (samplePatch 5 5 10) b).isFatal
            = true ↔
          b.lazyMemUsed64BytesBlocks + (samplePatch 5 5 10).grid_size_64b_blocks >
            b.lazyMemAllocated64BytesBlocks) ∧
      ((sampleArena 44).lazyMemUsed64BytesBlocks = 0 →
        (sampleArena 44).lazyMemAllocated64BytesBlocks =
          (samplePatch 5 5 10).grid_size_64b_blocks +
            (samplePatch 8 8 34).grid_size_64b_blocks →
        (initLazySubdivTree sampleEncoding sampleExternals 20 (samplePatch 5 5 10)
            (sampleArena 44)).isReturned = true ∧
          (initLazySubdivTree sampleEncoding sampleExternals 20 (samplePatch 8 8 34)
            (initLazySubdivTree sampleEncoding sampleExternals 20 (samplePatch 5 5 10)
              (sampleArena 44)).bvh).isReturned = true ∧
          (initLazySubdivTree sampleEncoding sampleExternals 20 (samplePatch 5 4 2)
            (initLazySubdivTree sampleEncoding sampleExternals 20 (samplePatch 8 8 34)
              (initLazySubdivTree sampleEncoding sampleExternals 20 (samplePatch 5 5 10)
                (sampleArena 44)).bvh).bvh).isFatal = true) :=
  arena_exhaustion_boundary sampleEncoding sampleExternals 20 (samplePatch 5 5 10)
    (samplePatch 8 8 34) (samplePatch 5 4 2) (sampleArena 44) rfl rfl rfl rfl rfl rfl
    (by decide) (by decide) (by decide) (by decide) (by decide)

/-- C7 (counterexample). In an arena of 12 blocks a first build reserves 10 blocks and
passes the capacity check, so `used <= capacity` holds; the next build attempt adds
its 10 blocks to `used` before the check, fails the check, and leaves
`used = 20 > 12`. -/
theorem arena_capacity_invariant_counterexample :
    (initLazySubdivTree sampleEncoding sampleExternals 20 (samplePatch 5 5 10)
        (sampleArena 12)).isReturned = true ∧
      (initLazySubdivTree sampleEncoding sampleExternals 20 (samplePatch 5 5 10)
          (sampleArena 12)).bvh.lazyMemUsed64BytesBlocks ≤
        (initLazySubdivTree sampleEncoding sampleExternals 20 (samplePatch 5 5 10)
          (sampleArena 12)).bvh.lazyMemAllocated64BytesBlocks ∧
      (initLazySubdivTree sampleEncoding sampleExternals 20 (samplePatch 5 5 10)
        (initLazySubdivTree sampleEncoding sampleExternals 20 (samplePatch 5 5 10)
          (sampleArena 12)).bvh).isFatal = true ∧
      ¬ ((initLazySubdivTree sampleEncoding sampleExternals 20 (samplePatch 5 5 10)
          (initLazySubdivTree sampleEncoding sampleExternals 20 (samplePatch 5 5 10)
            (sampleArena 12)).bvh).bvh.lazyMemUsed64BytesBlocks ≤
        (initLazySubdivTree sampleEncoding sampleExternals 20 (samplePatch 5 5 10)
          (initLazySubdivTree sampleEncoding sampleExternals 20 (samplePatch 5 5 10)
            (sampleArena 12)).bvh).bvh.lazyMemAllocated64BytesBlocks) := by
  decide

/-- C7 (amended). The capacity of the arena never changes. After a call that made a
build (its reservation passed the capacity check), `used <= capacity` holds; once it
holds it keeps holding across every later call that does not end in `FATAL`; a call
that ends in `FATAL` has added its blocks to `used` before the check and leaves
`used` above the capacity. -/
theorem arena_capacity_invariant {α γ : Type} [Lattice γ] [BoundedOrder γ]
    (K : BVH4iEncoding) (E : Externals α) (fuel : Nat)
    (patch : SubdivPatch1 α γ) (bvh : BVH4i α γ) :
    (initLazySubdivTree K E fuel patch bvh).bvh.lazyMemAllocated64BytesBlocks =
        bvh.lazyMemAllocated64BytesBlocks ∧
      ((initLazySubdivTree K E fuel patch bvh).built.isSome = true →
        (initLazySubdivTree K E fuel patch bvh).bvh.lazyMemUsed64BytesBlocks ≤
          (initLazySubdivTree K E fuel patch bvh).bvh.lazyMemAllocated64BytesBlocks) ∧
      (bvh.lazyMemUsed64BytesBlocks ≤ bvh.lazyMemAllocated64BytesBlocks →
        (initLazySubdivTree K E fuel patch bvh).isFatal = false →
        (initLazySubdivTree K E fuel patch bvh).bvh.lazyMemUsed64BytesBlocks ≤
          (initLazySubdivTree K E fuel patch bvh).bvh.lazyMemAllocated64BytesBlocks) ∧
      ((initLazySubdivTree K E fuel patch bvh).isFatal = true →
        (initLazySubdivTree K E fuel patch bvh).bvh.lazyMemUsed64BytesBlocks =
            bvh.lazyMemUsed64BytesBlocks + patch.grid_size_64b_blocks ∧
          (initLazySubdivTree K E fuel patch bvh).bvh.lazyMemAllocated64BytesBlocks <
            (initLazySubdivTree K E fuel patch bvh).bvh.lazyMemUsed64BytesBlocks) := by
  obtain ⟨h1, h2, h3, h4⟩ := initLazySubdivTree_counters K E fuel patch bvh
  refine ⟨h1, ?_, ?_, ?_⟩
  · intro hs
    obtain ⟨e, hle⟩ := h4 hs
    rw [h1, e]; exact hle
  · intro hinv hnf
    rw [h1]
    rcases h3 hnf with e | ⟨e, hle⟩
    · rw [e]; exact hinv
    · rw [e]; exact hle
  · intro hf
    obtain ⟨e, hgt⟩ := h2 hf
    rw [h1, e]
    exact ⟨rfl, hgt⟩

/-! ## Leaves -/

theorem grid_index_no_wrap (g us ue vs ve x y : Nat) (hu : us ≤ ue) (hv : vs ≤ ve)
    (hidx : ve * g + ue < 4294967296) :
    u32 ((vs + min y (ve - vs)) * g + (us + min x (ue - us))) =
      (vs + min y (ve - vs)) * g + (us + min x (ue - us)) := by
  apply u32_of_lt
  have h1 : vs + min y (ve - vs) ≤ ve := by omega
  have h2 : us + min x (ue - us) ≤ ue := by omega
  have h3 : (vs + min y (ve - vs)) * g ≤ ve * g := Nat.mul_le_mul_right g h1
  omega

/-- C8. Leaf packing with border replication: a call of `createSubTree` on an ordered
range with `u_size <= 4` and `v_size <= 4`, whose ends are below the largest
`unsigned int` (so that the copy loops end), creates a leaf whose two blocks, at the cursor
and the block after it, hold the u lanes and the v lanes, and for every lane
`(x, y)` with `x, y <= 3` the sample at lane `4*y + x` is the grid sample at index
`(v_start + min(y, v_size-1)) * grid_u_res + (u_start + min(x, u_size-1))`. -/
theorem createSubTree_leaf_packing {α γ : Type} [Lattice γ] [BoundedOrder γ]
    (K : BVH4iEncoding) (E : Externals α) (patch : SubdivPatch1 α γ)
    (grid_u_array grid_v_array : Nat → α) (fuel u_start u_end v_start v_end : Nat)
    (lazymem : Nat → Block α γ) (localCounter : Nat)
    (hu : u_start ≤ u_end) (hv : v_start ≤ v_end)
    (hu32 : u_end < 4294967295) (hv32 : v_end < 4294967295)
    (husize : u_end - u_start + 1 ≤ 4) (hvsize : v_end - v_start + 1 ≤ 4)
    (hidx : v_end * patch.grid_u_res + u_end < 4294967296) :
    ∃ r leaf_u_array leaf_v_array,
      createSubTree K E patch grid_u_array grid_v_array (fuel + 1)
        u_start u_end v_start v_end lazymem localCounter = some r ∧
      r.tree = SubTree.leaf (u32 localCounter) u_start u_end v_start v_end r.curNode r.bounds ∧
      r.lazymem (u32 localCounter) = Block.lanes leaf_u_array ∧
      r.lazymem (u32 (u32 localCounter + 1)) = Block.lanes leaf_v_array ∧
      ∀ x y, x ≤ 3 → y ≤ 3 →
        leaf_u_array (4 * y + x) =
            grid_u_array ((v_start + min y (v_end - v_start + 1 - 1)) * patch.grid_u_res +
              (u_start + min x (u_end - u_start + 1 - 1))) ∧
          leaf_v_array (4 * y + x) =
            grid_v_array ((v_start + min y (v_end - v_start + 1 - 1)) * patch.grid_u_res +
              (u_start + min x (u_end - u_start + 1 - 1))) := by
  have hsu : u32 (u32sub u_end u_start + 1) = (u_end - u_start) + 1 := by
    unfold u32 u32sub; omega
  have hsv : u32 (u32sub v_end v_start + 1) = (v_end - v_start) + 1 := by
    unfold u32 u32sub; omega
  have hleaf : u32 (u32sub u_end u_start + 1) ≤ 4 ∧ u32 (u32sub v_end v_start + 1) ≤ 4 := by
    rw [hsu, hsv]; exact ⟨husize, hvsize⟩
  have hc0 : u32 (u32 localCounter + 0) = u32 localCounter := by unfold u32; omega
  have hc1 : u32 (u32 localCounter + 1) ≠ u32 localCounter := by unfold u32; omega
  have hue : u_end = u_start + (u_end - u_start) := by omega
  have hve : v_end = v_start + (v_end - v_start) := by omega
  have hlane : ∀ (grid : Nat → α) (x y : Nat), x ≤ 3 → y ≤ 3 →
      packLeaf E.inf grid patch.grid_u_res u_start u_end v_start v_end
          (u32 (u32sub u_end u_start + 1)) (u32 (u32sub v_end v_start + 1)) (4 * y + x) =
        grid ((v_start + min y (v_end - v_start + 1 - 1)) * patch.grid_u_res +
          (u_start + min x (u_end - u_start + 1 - 1))) := by
    intro grid x y hx hy
    rw [hsu, hsv]
    have h := packLeaf_lane E.inf grid patch.grid_u_res u_start v_start (u_end - u_start)
      (v_end - v_start) (by omega) (by omega) (by omega) (by omega) x y hx hy
    rw [← hue, ← hve] at h
    rw [h, grid_index_no_wrap patch.grid_u_res u_start u_end v_start v_end x y hu hv hidx]
    simp only [Nat.add_sub_cancel]
  refine ⟨createLeaf K E patch grid_u_array grid_v_array u_start u_end v_start v_end lazymem
      localCounter,
    packLeaf E.inf grid_u_array patch.grid_u_res u_start u_end v_start v_end
      (u32 (u32sub u_end u_start + 1)) (u32 (u32sub v_end v_start + 1)),
    packLeaf E.inf grid_v_array patch.grid_u_res u_start u_end v_start v_end
      (u32 (u32sub u_end u_start + 1)) (u32 (u32sub v_end v_start + 1)),
    createSubTree_leaf K E patch grid_u_array grid_v_array fuel u_start u_end
      v_start v_end lazymem localCounter hleaf (copyLoopsEnd_of_lt hu32 hv32), rfl, ?_, ?_, ?_⟩
  · simp only [createLeaf, hc0]
    rw [Function.update_noteq (Ne.symm hc1), Function.update_same]
  · simp only [createLeaf]
    rw [Function.update_same]
  · intro x y hx hy
    exact ⟨hlane grid_u_array x y hx hy, hlane grid_v_array x y hx hy⟩

theorem createSubTree_leaf_packing_witness :
    ∃ r leaf_u_array leaf_v_array,
      createSubTree sampleEncoding sampleExternals (samplePatch 5 5 10)
        (fun i => i) (fun i => 2 * i) (0 + 1) 2 4 2 3 (sampleArena 16).lazymem 4 = some r ∧
      r.tree = SubTree.leaf (u32 4) 2 4 2 3 r.curNode r.bounds ∧
      r.lazymem (u32 4) = Block.lanes leaf_u_array ∧
      r.lazymem (u32 (u32 4 + 1)) = Block.lanes leaf_v_array ∧
      ∀ x y, x ≤ 3 → y ≤ 3 →
        leaf_u_array (4 * y + x) =
            (fun i => i) ((2 + min y (3 - 2 + 1 - 1)) * (samplePatch 5 5 10).grid_u_res +
              (2 + min x (4 - 2 + 1 - 1))) ∧
          leaf_v_array (4 * y + x) =
            (fun i => 2 * i) ((2 + min y (3 - 2 + 1 - 1)) * (samplePatch 5 5 10).grid_u_res +
              (2 + min x (4 - 2 + 1 - 1))) :=
  createSubTree_leaf_packing sampleEncoding sampleExternals (samplePatch 5 5 10)
    (fun i => i) (fun i => 2 * i) 0 2 4 2 3 (sampleArena 16).lazymem 4
    (by decide) (by decide) (by decide) (by decide) (by decide) (by decide) (by decide)

/-! ## Depth of the quad-tree -/

theorem specDepth_le_iff (u v d : Nat) : specDepth u v ≤ d ↔ u * v ≤ 16 * 4 ^ d := by
  unfold specDepth
  rw [← Nat.le_pow_iff_clog_le (by decide : 1 < 4)]
  generalize u * v = n
  generalize 4 ^ d = m
  omega

theorem lt_specDepth_iff (u v d : Nat) : d < specDepth u v ↔ 16 * 4 ^ d < u * v := by
  have := specDepth_le_iff u v d
  omega

theorem depth_lower_bound_step (du dv a1 a2 b1 b2 d0 d1 d2 d3 : Nat)
    (ha : du + 1 ≤ a1 + a2) (hb : dv + 1 ≤ b1 + b2)
    (h0 : a1 * b1 ≤ 16 * 4 ^ d0) (h1 : a2 * b1 ≤ 16 * 4 ^ d1)
    (h2 : a2 * b2 ≤ 16 * 4 ^ d2) (h3 : a1 * b2 ≤ 16 * 4 ^ d3) :
    (du + 1) * (dv + 1) ≤ 16 * 4 ^ (1 + max (max d0 d1) (max d2 d3)) := by
  have hm : ∀ d, d ≤ max (max d0 d1) (max d2 d3) →
      16 * 4 ^ d ≤ 16 * 4 ^ (max (max d0 d1) (max d2 d3)) := fun d hd =>
    Nat.mul_le_mul_left 16 (Nat.pow_le_pow_right (by decide) hd)
  have e0 := hm d0 (by omega)
  have e1 := hm d1 (by omega)
  have e2 := hm d2 (by omega)
  have e3 := hm d3 (by omega)
  have hprod : (du + 1) * (dv + 1) ≤ (a1 + a2) * (b1 + b2) := Nat.mul_le_mul ha hb
  have hexp : (a1 + a2) * (b1 + b2) = a1 * b1 + a2 * b1 + a2 * b2 + a1 * b2 := by ring
  have hpow : 16 * 4 ^ (1 + max (max d0 d1) (max d2 d3)) =
      4 * (16 * 4 ^ (max (max d0 d1) (max d2 d3))) := by ring
  rw [hpow]
  omega

/-- A tree of depth `d` covers at most `16 * 4^d` samples. -/
theorem createSubTree_area_le {α γ : Type} [Lattice γ] [BoundedOrder γ]
    (K : BVH4iEncoding) (E : Externals α) (patch : SubdivPatch1 α γ) (gu gv : Nat → α)
    (fuel us ue vs ve : Nat) (mem : Nat → Block α γ) (c : Nat)
    (hok : RangeOK us ue vs ve) (hfuel : (ue - us) + (ve - vs) < fuel) :
    ∃ r, createSubTree K E patch gu gv fuel us ue vs ve mem c = some r ∧
      (ue - us + 1) * (ve - vs + 1) ≤ 16 * 4 ^ r.tree.depth := by
  refine createSubTree_induction K E patch gu gv
    (fun us ue vs ve _ _ r => (ue - us + 1) * (ve - vs + 1) ≤ 16 * 4 ^ r.tree.depth)
    ?_ ?_ fuel us ue vs ve mem c hok hfuel
  · intro us ue vs ve mem c _ hu hv
    have : (ue - us + 1) * (ve - vs + 1) ≤ 4 * 4 := Nat.mul_le_mul (by omega) (by omega)
    simpa [createLeaf, SubTree.depth] using this
  · intro us ue vs ve mem c r0 r1 r2 r3 hok _ p0 p1 p2 p3
    obtain ⟨hu, hv, hue, hve⟩ := hok
    simp only [createNode, SubTree.depth]
    exact depth_lower_bound_step (ue - us) (ve - vs) ((us + ue) / 2 - us + 1)
      (ue - (us + ue) / 2 + 1) ((vs + ve) / 2 - vs + 1) (ve - (vs + ve) / 2 + 1)
      _ _ _ _ (by omega) (by omega) p0 p1 p2 p3

/-- On a square range of `2^k + 1` samples a side every leaf is at depth `k - 1`. -/
theorem createSubTree_depth_pow2 {α γ : Type} [Lattice γ] [BoundedOrder γ]
    (K : BVH4iEncoding) (E : Externals α) (patch : SubdivPatch1 α γ) (gu gv : Nat → α)
    (fuel us ue vs ve : Nat) (mem : Nat → Block α γ) (c : Nat)
    (hok : RangeOK us ue vs ve) (hfuel : (ue - us) + (ve - vs) < fuel) :
    ∃ r, createSubTree K E patch gu gv fuel us ue vs ve mem c = some r ∧
      ∀ k, ue - us = 2 ^ k → ve - vs = 2 ^ k →
        r.tree.depth = k - 1 ∧ r.tree.minDepth = k - 1 := by
  refine createSubTree_induction K E patch gu gv
    (fun us ue vs ve _ _ r => ∀ k, ue - us = 2 ^ k → ve - vs = 2 ^ k →
      r.tree.depth = k - 1 ∧ r.tree.minDepth = k - 1)
    ?_ ?_ fuel us ue vs ve mem c hok hfuel
  · intro us ue vs ve mem c _ hu hv k hk _
    have hk1 : k ≤ 1 := by
      by_contra hc
      have : 2 ^ 2 ≤ 2 ^ k := Nat.pow_le_pow_right (by decide) (by omega)
      omega
    simp only [createLeaf, SubTree.depth, SubTree.minDepth]
    omega
  · intro us ue vs ve mem c r0 r1 r2 r3 hok hnl p0 p1 p2 p3 k hku hkv
    obtain ⟨hu, hv, hue, hve⟩ := hok
    have hk2 : 2 ≤ k := by
      by_contra hc
      have : 2 ^ k ≤ 2 ^ 1 := Nat.pow_le_pow_right (by decide) (by omega)
      omega
    obtain ⟨j, rfl⟩ : ∃ j, k = j + 1 := ⟨k - 1, by omega⟩
    have hpow : 2 ^ (j + 1) = 2 * 2 ^ j := by ring
    rw [hpow] at hku hkv
    have q0 := p0 j (by omega) (by omega)
    have q1 := p1 j (by omega) (by omega)
    have q2 := p2 j (by omega) (by omega)
    have q3 := p3 j (by omega) (by omega)
    simp only [createNode, SubTree.depth, SubTree.minDepth]
    omega

theorem specDepth_pow2 (k : Nat) (hk : 2 ≤ k) : specDepth (2 ^ k + 1) (2 ^ k + 1) = k - 1 := by
  obtain ⟨j, rfl⟩ : ∃ j, k = j + 2 := ⟨k - 2, by omega⟩
  have h4 : (4 : Nat) ^ (j + 1) = 4 * (2 ^ j * 2 ^ j) := by
    rw [pow_succ, show (4 : Nat) = 2 * 2 from rfl, Nat.mul_pow]; ring
  have h4' : (4 : Nat) ^ j = 2 ^ j * 2 ^ j := by
    rw [show (4 : Nat) = 2 * 2 from rfl, Nat.mul_pow]
  have hprod : (2 ^ (j + 2) + 1) * (2 ^ (j + 2) + 1) = 16 * (2 ^ j * 2 ^ j) + 8 * 2 ^ j + 1 := by
    ring
  have ht : 1 ≤ 2 ^ j := Nat.one_le_two_pow
  have hsq : 2 ^ j ≤ 2 ^ j * 2 ^ j := Nat.le_mul_of_pos_left _ (by omega)
  have hle : specDepth (2 ^ (j + 2) + 1) (2 ^ (j + 2) + 1) ≤ j + 1 := by
    rw [specDepth_le_iff, hprod, h4]
    omega
  have hgt : j < specDepth (2 ^ (j + 2) + 1) (2 ^ (j + 2) + 1) := by
    rw [lt_specDepth_iff, hprod, h4']
    omega
  omega

/-- C10 (counterexample). The tree over the 8 by 8 grid has a leaf at depth 1 and
leaves at depth 2: it is not balanced, and its depth 2 is not the value 1 of
`ceil(log4(8*8/16))`. -/
theorem createSubTree_depth_counterexample :
    (createSubTree sampleEncoding sampleExternals (samplePatch 8 8 34) (fun i => i)
        (fun i => 2 * i) 20 0 7 0 7 (sampleArena 64).lazymem 0).map
        (fun r => (r.tree.depth, r.tree.minDepth)) = some (2, 1) ∧
      16 < 8 * 8 ∧ specDepth 8 8 = 1 := by
  refine ⟨by decide, by decide, ?_⟩
  have h1 : specDepth 8 8 ≤ 1 := (specDepth_le_iff 8 8 1).2 (by decide)
  have h2 : 0 < specDepth 8 8 := (lt_specDepth_iff 8 8 0).2 (by decide)
  omega

/-- C10 (amended). The tree `createSubTree` builds over the full range of a grid of
`u_size x v_size` samples has depth at least `ceil(log4(u_size*v_size/16))`; over a
square grid of `2^k + 1` samples a side (`k >= 2`) it is balanced and its depth is
exactly `ceil(log4(u_size*v_size/16)) = k - 1`. -/
theorem createSubTree_depth {α γ : Type} [Lattice γ] [BoundedOrder γ]
    (K : BVH4iEncoding) (E : Externals α) (patch : SubdivPatch1 α γ) (gu gv : Nat → α)
    (mem : Nat → Block α γ) (c : Nat) :
    (∀ u_size v_size fuel, 1 ≤ u_size → 1 ≤ v_size → u_size ≤ 2147483648 →
        v_size ≤ 2147483648 → u_size + v_size ≤ fuel →
        ∃ r, createSubTree K E patch gu gv fuel 0 (u_size - 1) 0 (v_size - 1) mem c = some r ∧
          specDepth u_size v_size ≤ r.tree.depth) ∧
      (∀ k fuel, 2 ≤ k → k ≤ 30 → 2 ^ k + 2 ^ k + 2 ≤ fuel →
        ∃ r, createSubTree K E patch gu gv fuel 0 (2 ^ k + 1 - 1) 0 (2 ^ k + 1 - 1) mem c
            = some r ∧
          r.tree.balanced ∧ r.tree.depth = specDepth (2 ^ k + 1) (2 ^ k + 1)) := by
  constructor
  · intro u_size v_size fuel hu hv hu31 hv31 hfuel
    obtain ⟨r, hr, h⟩ := createSubTree_area_le K E patch gu gv fuel 0 (u_size - 1) 0
      (v_size - 1) mem c ⟨by omega, by omega, by omega, by omega⟩ (by omega)
    refine ⟨r, hr, (specDepth_le_iff _ _ _).2 ?_⟩
    have e1 : u_size - 1 - 0 + 1 = u_size := by omega
    have e2 : v_size - 1 - 0 + 1 = v_size := by omega
    rwa [e1, e2] at h
  · intro k fuel hk2 hk30 hfuel
    have hlt : 2 ^ k < 2147483648 := by
      have : 2 ^ k ≤ 2 ^ 30 := Nat.pow_le_pow_right (by decide) hk30
      omega
    obtain ⟨n, hn⟩ : ∃ n, n = 2 ^ k := ⟨_, rfl⟩
    obtain ⟨r, hr, h⟩ := createSubTree_depth_pow2 K E patch gu gv fuel 0 (2 ^ k + 1 - 1) 0
      (2 ^ k + 1 - 1) mem c ⟨by omega, by omega, by omega, by omega⟩ (by omega)
    obtain ⟨hd, hm⟩ := h k (by omega) (by omega)
    refine ⟨r, hr, ?_, ?_⟩
    · unfold SubTree.balanced; omega
    · rw [specDepth_pow2 k hk2]; exact hd

theorem createSubTree_depth_witness :
    (∃ r, createSubTree sampleEncoding sampleExternals (samplePatch 8 8 34) (fun i => i)
          (fun i => 2 * i) 20 0 (8 - 1) 0 (8 - 1) (sampleArena 64).lazymem 0 = some r ∧
        specDepth 8 8 ≤ r.tree.depth) ∧
      (∃ r, createSubTree sampleEncoding sampleExternals (samplePatch 5 5 10) (fun i => i)
          (fun i => 2 * i) 10 0 (2 ^ 2 + 1 - 1) 0 (2 ^ 2 + 1 - 1) (sampleArena 64).lazymem 0
            = some r ∧
        r.tree.balanced ∧ r.tree.depth = specDepth (2 ^ 2 + 1) (2 ^ 2 + 1)) :=
  ⟨(createSubTree_depth sampleEncoding sampleExternals (samplePatch 8 8 34) (fun i => i)
      (fun i => 2 * i) (sampleArena 64).lazymem 0).1 8 8 20 (by decide) (by decide)
      (by decide) (by decide) (by decide),
    (createSubTree_depth sampleEncoding sampleExternals (samplePatch 5 5 10) (fun i => i)
      (fun i => 2 * i) (sampleArena 64).lazymem 0).2 2 10 (by decide) (by decide)
      (by decide)⟩

/-! ## Bounding boxes -/

theorem BBox3fa.contains_of_subset {γ : Type} [Lattice γ] {b c : BBox3fa γ} {p : Vec3 γ}
    (h : b.subset c) (hp : b.contains p) : c.contains p :=
  ⟨le_trans h.1 hp.1, le_trans hp.2 h.2⟩

theorem BBox3fa.subset_refl {γ : Type} [Lattice γ] (b : BBox3fa γ) : b.subset b :=
  ⟨le_refl _, le_refl _⟩

theorem BBox3fa.subset_trans {γ : Type} [Lattice γ] {a b c : BBox3fa γ}
    (h1 : a.subset b) (h2 : b.subset c) : a.subset c :=
  ⟨le_trans h2.1 h1.1, le_trans h1.2 h2.2⟩

theorem BBox3fa.subset_extend_left {γ : Type} [Lattice γ] (b c : BBox3fa γ) :
    b.subset (b.extend c) :=
  ⟨inf_le_left, le_sup_left⟩

theorem BBox3fa.subset_extend_right {γ : Type} [Lattice γ] (b c : BBox3fa γ) :
    c.subset (b.extend c) :=
  ⟨inf_le_right, le_sup_right⟩

theorem BBox3fa.contains_extendPoint {γ : Type} [Lattice γ] (b : BBox3fa γ) (p : Vec3 γ) :
    (b.extendPoint p).contains p :=
  ⟨inf_le_right, le_sup_right⟩

theorem BBox3fa.subset_extendPoint {γ : Type} [Lattice γ] (b : BBox3fa γ) (p : Vec3 γ) :
    b.subset (b.extendPoint p) :=
  ⟨inf_le_left, le_sup_left⟩

theorem foldl_extendPoint_subset {γ : Type} [Lattice γ] (vtx : Nat → Vec3 γ) (mask : Nat)
    (l : List Nat) (b : BBox3fa γ) :
    b.subset (l.foldl (fun b i => if mask.testBit i then b.extendPoint (vtx i) else b) b) := by
  induction l generalizing b with
  | nil => exact BBox3fa.subset_refl b
  | cons a l ih =>
    simp only [List.foldl_cons]
    refine BBox3fa.subset_trans ?_ (ih _)
    split
    · exact BBox3fa.subset_extendPoint b _
    · exact BBox3fa.subset_refl b

theorem foldl_extendPoint_contains {γ : Type} [Lattice γ] (vtx : Nat → Vec3 γ) (mask : Nat)
    (l : List Nat) (b : BBox3fa γ) (i : Nat) (hi : i ∈ l) (hbit : mask.testBit i = true) :
    (l.foldl (fun b i => if mask.testBit i then b.extendPoint (vtx i) else b) b).contains
      (vtx i) := by
  induction l generalizing b with
  | nil => cases hi
  | cons a l ih =>
    simp only [List.foldl_cons]
    rcases List.mem_cons.mp hi with rfl | hil
    · rw [if_pos hbit]
      exact BBox3fa.contains_of_subset (foldl_extendPoint_subset vtx mask l _)
        (BBox3fa.contains_extendPoint b _)
    · exact ih _ hil

/-- The box of `getBBox3fa` with the full mask contains each of the 16 positions. -/
theorem getBBox3fa_contains {γ : Type} [Lattice γ] [BoundedOrder γ] (vtx : Nat → Vec3 γ)
    (lane : Nat) (h : lane < 16) : (getBBox3fa vtx 0xffff).contains (vtx lane) := by
  unfold getBBox3fa
  refine foldl_extendPoint_contains vtx 0xffff (List.range 16) BBox3fa.empty lane
    (List.mem_range.mpr h) ?_
  interval_cases lane <;> decide

/-- The box of `getBBox3fa` lies in every box that contains the selected positions. -/
theorem getBBox3fa_least {γ : Type} [Lattice γ] [BoundedOrder γ] (vtx : Nat → Vec3 γ)
    (mask : Nat) (box : BBox3fa γ)
    (h : ∀ lane, lane < 16 → mask.testBit lane = true → box.contains (vtx lane)) :
    (getBBox3fa vtx mask).subset box := by
  unfold getBBox3fa
  have key : ∀ (l : List Nat) (b : BBox3fa γ), (∀ i ∈ l, i < 16) → b.subset box →
      (l.foldl (fun b i => if mask.testBit i then b.extendPoint (vtx i) else b) b).subset
        box := by
    intro l
    induction l with
    | nil => intro b _ hb; exact hb
    | cons a l ih =>
      intro b hl hb
      simp only [List.foldl_cons]
      refine ih _ (fun i hi => hl i (List.mem_cons_of_mem _ hi)) ?_
      split
      · rename_i hbit
        have hc := h a (hl a (List.mem_cons_self _ _)) hbit
        exact ⟨le_inf hb.1 hc.1, sup_le hb.2 hc.2⟩
      · exact hb
  exact key _ _ (fun i hi => List.mem_range.mp hi) ⟨le_top, bot_le⟩

theorem SubTree.InBlocks_mono {γ : Type} (t : SubTree γ) (lo hi lo' hi' : Nat)
    (hlo : lo' ≤ lo) (hhi : hi ≤ hi') (h : t.InBlocks lo hi) : t.InBlocks lo' hi' := by
  induction t with
  | leaf index us ue vs ve ref b =>
    simp only [SubTree.InBlocks] at h ⊢; omega
  | node index us ue vs ve ref c0 c1 c2 c3 b ih0 ih1 ih2 ih3 =>
    simp only [SubTree.InBlocks] at h ⊢
    exact ⟨by omega, by omega, ih0 h.2.2.1, ih1 h.2.2.2.1, ih2 h.2.2.2.2.1, ih3 h.2.2.2.2.2⟩

theorem BoxesStored_congr {α γ : Type} [Lattice γ] [BoundedOrder γ]
    (patch : SubdivPatch1 α γ) (mem mem' : Nat → Block α γ) (lo hi : Nat)
    (hmem : ∀ i, lo ≤ i → i < hi → mem' i = mem i) (t : SubTree γ)
    (hin : t.InBlocks lo hi) (h : BoxesStored patch mem t) : BoxesStored patch mem' t := by
  induction t with
  | leaf index us ue vs ve ref b =>
    simp only [SubTree.InBlocks] at hin
    simp only [BoxesStored] at h ⊢
    obtain ⟨u, v, h1, h2, h3⟩ := h
    exact ⟨u, v, by rw [hmem index (by omega) (by omega)]; exact h1,
      by rw [hmem (index + 1) (by omega) (by omega)]; exact h2, h3⟩
  | node index us ue vs ve ref c0 c1 c2 c3 b ih0 ih1 ih2 ih3 =>
    simp only [SubTree.InBlocks] at hin
    simp only [BoxesStored] at h ⊢
    obtain ⟨⟨n, hn, hrest⟩, hb, s0, s1, s2, s3⟩ := h
    exact ⟨⟨n, by rw [hmem index (by omega) (by omega)]; exact hn, hrest⟩, hb,
      ih0 hin.2.2.1 s0, ih1 hin.2.2.2.1 s1, ih2 hin.2.2.2.2.1 s2, ih3 hin.2.2.2.2.2 s3⟩

theorem nodeAfter_four {α γ : Type} [Lattice γ] [BoundedOrder γ] (K : BVH4iEncoding)
    (r0 r1 r2 r3 : SubTreeResult α γ) :
    (nodeAfter K [r0, r1, r2, r3]).bounds 0 = r0.bounds ∧
      (nodeAfter K [r0, r1, r2, r3]).bounds 1 = r1.bounds ∧
      (nodeAfter K [r0, r1, r2, r3]).bounds 2 = r2.bounds ∧
      (nodeAfter K [r0, r1, r2, r3]).bounds 3 = r3.bounds ∧
      (nodeAfter K [r0, r1, r2, r3]).child 0 = r0.curNode ∧
      (nodeAfter K [r0, r1, r2, r3]).child 1 = r1.curNode ∧
      (nodeAfter K [r0, r1, r2, r3]).child 2 = r2.curNode ∧
      (nodeAfter K [r0, r1, r2, r3]).child 3 = r3.curNode := by
  simp [nodeAfter, List.enum, List.enumFrom, Node.setSlot, Function.update_apply]

theorem createLeaf_stored {α γ : Type} [Lattice γ] [BoundedOrder γ]
    (K : BVH4iEncoding) (E : Externals α) (patch : SubdivPatch1 α γ) (gu gv : Nat → α)
    (us ue vs ve : Nat) (mem : Nat → Block α γ) (c : Nat) :
    StoredSpec patch mem c (createLeaf K E patch gu gv us ue vs ve mem c) := by
  refine ⟨by simp [createLeaf], rfl, rfl, ?_⟩
  intro hlc
  have hc : c + 2 ≤ 4294967296 := by simpa [createLeaf] using hlc
  have e0 : u32 c = c := u32_of_lt (by omega)
  have e1 : u32 (c + 1) = c + 1 := u32_of_lt (by omega)
  simp only [createLeaf, e0, e1, Nat.add_zero]
  refine ⟨?_, ?_, ?_⟩
  · intro i hi
    rw [Function.update_noteq (by omega), Function.update_noteq (by omega)]
  · simp only [SubTree.InBlocks]; omega
  · simp only [BoxesStored]
    refine ⟨_, _, ?_, ?_, rfl⟩
    · rw [Function.update_noteq (by omega), Function.update_same]
    · rw [Function.update_same]

theorem createNode_stored {α γ : Type} [Lattice γ] [BoundedOrder γ]
    (K : BVH4iEncoding) (patch : SubdivPatch1 α γ)
    (us ue vs ve : Nat) (mem : Nat → Block α γ) (c : Nat) (r0 r1 r2 r3 : SubTreeResult α γ)
    (p0 : StoredSpec patch (memNode K mem c) (c + 2) r0)
    (p1 : StoredSpec patch (memAfter K c [r0] r0) r0.localCounter r1)
    (p2 : StoredSpec patch (memAfter K c [r0, r1] r1) r1.localCounter r2)
    (p3 : StoredSpec patch (memAfter K c [r0, r1, r2] r2) r2.localCounter r3) :
    StoredSpec patch mem c (createNode K us ue vs ve c r0 r1 r2 r3) := by
  obtain ⟨hc0, hb0, hr0, hm0⟩ := p0
  obtain ⟨hc1, hb1, hr1, hm1⟩ := p1
  obtain ⟨hc2, hb2, hr2, hm2⟩ := p2
  obtain ⟨hc3, hb3, hr3, hm3⟩ := p3
  refine ⟨by simp only [createNode]; omega, rfl, rfl, ?_⟩
  intro hlc
  have hlc3 : r3.localCounter ≤ 4294967296 := hlc
  obtain ⟨f0, i0, s0⟩ := hm0 (by omega)
  obtain ⟨f1, i1, s1⟩ := hm1 (by omega)
  obtain ⟨f2, i2, s2⟩ := hm2 (by omega)
  obtain ⟨f3, i3, s3⟩ := hm3 (by omega)
  -- the pool after the last round, block by block
  have A3 : ∀ i, i ≠ c → (createNode K us ue vs ve c r0 r1 r2 r3).lazymem i = r3.lazymem i :=
    fun i hi => Function.update_noteq hi _ _
  have B3 : ∀ i, (i < r2.localCounter ∨ r3.localCounter ≤ i) → i ≠ c →
      r3.lazymem i = r2.lazymem i := fun i hi hic => by
    rw [f3 i hi]; exact Function.update_noteq hic _ _
  have B2 : ∀ i, (i < r1.localCounter ∨ r2.localCounter ≤ i) → i ≠ c →
      r2.lazymem i = r1.lazymem i := fun i hi hic => by
    rw [f2 i hi]; exact Function.update_noteq hic _ _
  have B1 : ∀ i, (i < r0.localCounter ∨ r1.localCounter ≤ i) → i ≠ c →
      r1.lazymem i = r0.lazymem i := fun i hi hic => by
    rw [f1 i hi]; exact Function.update_noteq hic _ _
  have B0 : ∀ i, (i < c + 2 ∨ r0.localCounter ≤ i) → i ≠ c → i ≠ c + 1 →
      r0.lazymem i = mem i := fun i hi hic hic1 => by
    rw [f0 i hi]
    unfold memNode
    rw [Function.update_noteq hic1, Function.update_noteq hic]
  refine ⟨?_, ?_, ?_⟩
  · intro i hi
    have hi' : i < c ∨ r3.localCounter ≤ i := hi
    rw [A3 i (by omega), B3 i (by omega) (by omega), B2 i (by omega) (by omega),
      B1 i (by omega) (by omega), B0 i (by omega) (by omega) (by omega)]
  · simp only [createNode, SubTree.InBlocks]
    exact ⟨le_refl _, by omega,
      SubTree.InBlocks_mono _ _ _ _ _ (by omega) (by omega) i0,
      SubTree.InBlocks_mono _ _ _ _ _ (by omega) (by omega) i1,
      SubTree.InBlocks_mono _ _ _ _ _ (by omega) (by omega) i2,
      SubTree.InBlocks_mono _ _ _ _ _ (by omega) (by omega) i3⟩
  · obtain ⟨n0, n1, n2, n3, k0, k1, k2, k3⟩ := nodeAfter_four K r0 r1 r2 r3
    have hfin : BoxesStored patch (createNode K us ue vs ve c r0 r1 r2 r3).lazymem
        (SubTree.node c us ue vs ve (K.createBVH4iNode c) r0.tree r1.tree r2.tree r3.tree
          (boundsAfter [r0, r1, r2, r3])) := by
      simp only [BoxesStored]
      refine ⟨⟨nodeAfter K [r0, r1, r2, r3], Function.update_same _ _ _,
        by rw [n0, hb0], by rw [n1, hb1], by rw [n2, hb2], by rw [n3, hb3],
        by rw [k0, hr0], by rw [k1, hr1], by rw [k2, hr2], by rw [k3, hr3]⟩, ?_, ?_, ?_, ?_, ?_⟩
      · simp only [boundsAfter, List.foldl_cons, List.foldl_nil, hb0, hb1, hb2, hb3]
      · refine BoxesStored_congr patch r0.lazymem _ (c + 2) r0.localCounter ?_ _ i0 s0
        intro i h1 h2
        rw [A3 i (by omega), B3 i (by omega) (by omega), B2 i (by omega) (by omega),
          B1 i (by omega) (by omega)]
      · refine BoxesStored_congr patch r1.lazymem _ r0.localCounter r1.localCounter ?_ _ i1 s1
        intro i h1 h2
        rw [A3 i (by omega), B3 i (by omega) (by omega), B2 i (by omega) (by omega)]
      · refine BoxesStored_congr patch r2.lazymem _ r1.localCounter r2.localCounter ?_ _ i2 s2
        intro i h1 h2
        rw [A3 i (by omega), B3 i (by omega) (by omega)]
      · refine BoxesStored_congr patch r3.lazymem _ r2.localCounter r3.localCounter ?_ _ i3 s3
        intro i h1 h2
        rw [A3 i (by omega)]
    exact hfin

/-- Every call of `createSubTree` on a well-formed range returns, given the fuel,
and leaves the block pool as `StoredSpec` says. -/
theorem createSubTree_stored {α γ : Type} [Lattice γ] [BoundedOrder γ]
    (K : BVH4iEncoding) (E : Externals α) (patch : SubdivPatch1 α γ) (gu gv : Nat → α)
    (fuel us ue vs ve : Nat) (mem : Nat → Block α γ) (c : Nat)
    (hok : RangeOK us ue vs ve) (hfuel : (ue - us) + (ve - vs) < fuel) :
    ∃ r, createSubTree K E patch gu gv fuel us ue vs ve mem c = some r ∧
      StoredSpec patch mem c r :=
  createSubTree_induction K E patch gu gv (fun _ _ _ _ mem c r => StoredSpec patch mem c r)
    (fun us ue vs ve mem c _ _ _ => createLeaf_stored K E patch gu gv us ue vs ve mem c)
    (fun us ue vs ve mem c r0 r1 r2 r3 _ _ p0 p1 p2 p3 =>
      createNode_stored K patch us ue vs ve mem c r0 r1 r2 r3 p0 p1 p2 p3)
    fuel us ue vs ve mem c hok hfuel

theorem positions_in_bounds {α γ : Type} [Lattice γ] [BoundedOrder γ]
    (patch : SubdivPatch1 α γ) (mem : Nat → Block α γ) (t : SubTree γ)
    (h : BoxesStored patch mem t) (p : Vec3 γ) (hp : t.positions patch mem p) :
    t.bounds.contains p := by
  induction t with
  | leaf index us ue vs ve ref b =>
    simp only [BoxesStored] at h
    simp only [SubTree.positions] at hp
    obtain ⟨u, v, h1, h2, rfl⟩ := h
    obtain ⟨u', v', lane, h1', h2', hl, rfl⟩ := hp
    rw [h1] at h1'
    rw [h2] at h2'
    cases h1'
    cases h2'
    exact getBBox3fa_contains _ lane hl
  | node index us ue vs ve ref c0 c1 c2 c3 b ih0 ih1 ih2 ih3 =>
    simp only [BoxesStored] at h
    simp only [SubTree.positions] at hp
    obtain ⟨-, rfl, s0, s1, s2, s3⟩ := h
    simp only [SubTree.bounds]
    rcases hp with hp | hp | hp | hp
    · exact BBox3fa.contains_of_subset
        (BBox3fa.subset_trans (BBox3fa.subset_trans (BBox3fa.subset_trans
          (BBox3fa.subset_extend_right _ _) (BBox3fa.subset_extend_left _ _))
          (BBox3fa.subset_extend_left _ _)) (BBox3fa.subset_extend_left _ _)) (ih0 s0 hp)
    · exact BBox3fa.contains_of_subset
        (BBox3fa.subset_trans (BBox3fa.subset_trans
          (BBox3fa.subset_extend_right _ _) (BBox3fa.subset_extend_left _ _))
          (BBox3fa.subset_extend_left _ _)) (ih1 s1 hp)
    · exact BBox3fa.contains_of_subset
        (BBox3fa.subset_trans
          (BBox3fa.subset_extend_right _ _) (BBox3fa.subset_extend_left _ _)) (ih2 s2 hp)
    · exact BBox3fa.contains_of_subset (BBox3fa.subset_extend_right _ _) (ih3 s3 hp)

theorem sound_of_stored {α γ : Type} [Lattice γ] [BoundedOrder γ]
    (patch : SubdivPatch1 α γ) (mem : Nat → Block α γ) (t : SubTree γ)
    (h : BoxesStored patch mem t) : t.Sound patch mem := by
  induction t with
  | leaf index us ue vs ve ref b =>
    simp only [SubTree.Sound]
    intro p hp
    exact positions_in_bounds patch mem _ h p hp
  | node index us ue vs ve ref c0 c1 c2 c3 b ih0 ih1 ih2 ih3 =>
    have hall := positions_in_bounds patch mem _ h
    simp only [BoxesStored] at h
    obtain ⟨⟨n, hn, n0, n1, n2, n3, -⟩, -, s0, s1, s2, s3⟩ := h
    simp only [SubTree.Sound]
    refine ⟨hall, ⟨n, hn, fun p => ⟨?_, ?_, ?_, ?_⟩⟩, ih0 s0, ih1 s1, ih2 s2, ih3 s3⟩
    · intro hp; rw [n0]; exact positions_in_bounds patch mem _ s0 p hp
    · intro hp; rw [n1]; exact positions_in_bounds patch mem _ s1 p hp
    · intro hp; rw [n2]; exact positions_in_bounds patch mem _ s2 p hp
    · intro hp; rw [n3]; exact positions_in_bounds patch mem _ s3 p hp

/-- C9. Bounding-box soundness: every call of `createSubTree` on a well-formed range
returns; the box it returns is the one of its call record; and, the block cursor
having stayed within 32 bits, the block pool stores the record box by box
(`BoxesStored`: a leaf's box is `getBBox3fa` of the 16 positions at its stored
lanes, child slot `i` of a node stores the box the call for child `i` returned, a
node's box is the union from the empty box of its four children's boxes), hence
(`Sound`) every returned box and every stored child box contains every position
evaluated at any lane of any leaf of its subtree. -/
theorem createSubTree_bounds_sound {α γ : Type} [Lattice γ] [BoundedOrder γ]
    (K : BVH4iEncoding) (E : Externals α) (patch : SubdivPatch1 α γ)
    (grid_u_array grid_v_array : Nat → α) (fuel u_start u_end v_start v_end : Nat)
    (lazymem : Nat → Block α γ) (localCounter : Nat)
    (hok : RangeOK u_start u_end v_start v_end)
    (hfuel : (u_end - u_start) + (v_end - v_start) < fuel) :
    ∃ r, createSubTree K E patch grid_u_array grid_v_array fuel u_start u_end v_start v_end
          lazymem localCounter = some r ∧
      r.bounds = r.tree.bounds ∧
      (r.localCounter ≤ 4294967296 →
        BoxesStored patch r.lazymem r.tree ∧ r.tree.Sound patch r.lazymem ∧
          ∀ p, r.tree.positions patch r.lazymem p → r.bounds.contains p) := by
  obtain ⟨r, hr, -, hb, -, hm⟩ := createSubTree_stored K E patch grid_u_array grid_v_array
    fuel u_start u_end v_start v_end lazymem localCounter hok hfuel
  refine ⟨r, hr, hb, fun hlc => ?_⟩
  obtain ⟨-, -, hs⟩ := hm hlc
  refine ⟨hs, sound_of_stored patch r.lazymem r.tree hs, fun p hp => ?_⟩
  rw [hb]
  exact positions_in_bounds patch r.lazymem r.tree hs p hp

theorem createSubTree_bounds_sound_witness :
    ∃ r, createSubTree sampleEncoding sampleExternals (samplePatch 8 8 34) (fun i => i)
          (fun i => 2 * i) 20 0 7 0 7 (sampleArena 64).lazymem 0 = some r ∧
      r.bounds = r.tree.bounds ∧
      (r.localCounter ≤ 4294967296 →
        BoxesStored (samplePatch 8 8 34) r.lazymem r.tree ∧
          r.tree.Sound (samplePatch 8 8 34) r.lazymem ∧
          ∀ p, r.tree.positions (samplePatch 8 8 34) r.lazymem p → r.bounds.contains p) :=
  createSubTree_bounds_sound sampleEncoding sampleExternals (samplePatch 8 8 34)
    (fun i => i) (fun i => 2 * i) 20 0 7 0 7 (sampleArena 64).lazymem 0 (by decide)
    (by decide)

/-! ## Concurrent callers: exactly-once build -/

theorem inv_init {α γ : Type} (K : BVH4iEncoding) (patch : SubdivPatch1 α γ)
    (bvh : BVH4i α γ) (hroot : patch.bvh4i_subtree_root = K.invalidNode)
    (hcnt : patch.under_construction = 0) : Inv K (Config.init patch bvh) := by
  constructor
  · intro _
    simp [Config.init, hcnt, PC.claimed]
  · intro h
    exact absurd hroot h

theorem unique_update_of_claimed (pc : Nat → PC) (t : Nat) (Y : PC)
    (hC : ∀ t1 t2, (pc t1).claimed = true → (pc t2).claimed = true → t1 = t2)
    (ht : (pc t).claimed = true) :
    ∀ t1 t2, (Function.update pc t Y t1).claimed = true →
      (Function.update pc t Y t2).claimed = true → t1 = t2 := by
  have key : ∀ t1, (Function.update pc t Y t1).claimed = true → t1 = t := by
    intro t1 h1
    by_cases h : t1 = t
    · exact h
    · rw [Function.update_noteq h] at h1
      exact hC t1 t h1 ht
  intro t1 t2 h1 h2
  rw [key t1 h1, key t2 h2]

theorem unique_update_of_unclaimed (pc : Nat → PC) (t : Nat) (Y : PC)
    (hC : ∀ t1 t2, (pc t1).claimed = true → (pc t2).claimed = true → t1 = t2)
    (hY : Y.claimed = false) :
    ∀ t1 t2, (Function.update pc t Y t1).claimed = true →
      (Function.update pc t Y t2).claimed = true → t1 = t2 := by
  have key : ∀ t1, (Function.update pc t Y t1).claimed = true → (pc t1).claimed = true := by
    intro t1 h1
    by_cases h : t1 = t
    · subst h; rw [Function.update_same, hY] at h1; cases h1
    · rwa [Function.update_noteq h] at h1
  intro t1 t2 h1 h2
  exact hC t1 t2 (key t1 h1) (key t2 h2)

theorem unique_update_of_none (pc : Nat → PC) (t : Nat) (Y : PC)
    (hnone : ∀ t', (pc t').claimed = false) :
    ∀ t1 t2, (Function.update pc t Y t1).claimed = true →
      (Function.update pc t Y t2).claimed = true → t1 = t2 := by
  have key : ∀ t1, (Function.update pc t Y t1).claimed = true → t1 = t := by
    intro t1 h1
    by_cases h : t1 = t
    · exact h
    · rw [Function.update_noteq h, hnone t1] at h1; cases h1
  intro t1 t2 h1 h2
  rw [key t1 h1, key t2 h2]

/-- A property of single threads that held everywhere and holds of the new point
of thread `t` holds everywhere after the step. -/
theorem forall_update (P : PC → Prop) (pc : Nat → PC) (t : Nat) (Y : PC)
    (hold : ∀ t', t' ≠ t → P (pc t')) (hY : P Y) : ∀ t', P (Function.update pc t Y t') := by
  intro t'
  by_cases h : t' = t
  · subst h; rw [Function.update_same]; exact hY
  · rw [Function.update_noteq h]; exact hold t' h

/-- The part of the invariant for an invalid root is kept by a step that moves a
claimed thread to another claimed point that is not `publish`, and changes neither
the root, the counter nor the number of builds. -/
theorem inv_invalid_claimed_move {α γ : Type} (K : BVH4iEncoding) (s s' : Config α γ)
    (t : Nat) (Y : PC)
    (hroot : s'.patch.bvh4i_subtree_root = s.patch.bvh4i_subtree_root)
    (hcnt : s'.patch.under_construction = s.patch.under_construction)
    (hbuilds : s'.builds = s.builds)
    (hpc : s'.pc = Function.update s.pc t Y)
    (hold : (s.pc t).claimed = true) (holdp : ∀ r, s.pc t ≠ PC.publish r)
    (hYp : ∀ r, Y ≠ PC.publish r)
    (hYw : Y ≠ PC.waiterRelease ∧ Y ≠ PC.release ∧ Y ≠ PC.returned)
    (hexcl : s.patch.bvh4i_subtree_root = K.invalidNode ∨ s.pc t = PC.reserve ∨
      ∃ c, s.pc t = PC.build c)
    (h : Inv K s) : Inv K s' := by
  obtain ⟨hI, hV⟩ := h
  have hstart : s.pc t ≠ PC.start := by
    intro h0; rw [h0] at hold; cases hold
  constructor
  · intro hr
    rw [hroot] at hr
    obtain ⟨a1, a2, b, c, d, f⟩ := hI hr
    rw [hcnt, hbuilds, hpc]
    refine ⟨a1, fun _ => a2 ⟨t, hstart⟩, ?_, unique_update_of_claimed s.pc t Y c hold, ?_, ?_⟩
    · exact forall_update (fun x => x ≠ PC.waiterRelease ∧ x ≠ PC.release ∧ x ≠ PC.returned)
        s.pc t Y (fun t' _ => b t') hYw
    · intro hno
      apply d
      intro t' r
      by_cases htt : t' = t
      · subst htt; exact holdp r
      · have := hno t' r
        rwa [Function.update_noteq htt] at this
    · intro t' r hp
      by_cases htt : t' = t
      · subst htt; rw [Function.update_same] at hp; exact absurd hp (hYp r)
      · rw [Function.update_noteq htt] at hp; exact f t' r hp
  · intro hr
    rw [hroot] at hr
    obtain ⟨-, hh⟩ := hV hr
    rcases hexcl with h0 | h0 | ⟨c, h0⟩
    · exact absurd h0 hr
    · exact absurd h0 (hh t).1
    · exact absurd h0 ((hh t).2.1 c)

/-- The part of the invariant for a valid root is kept by a step that moves a thread
to a point other than `reserve`, `build` and `publish`, and changes neither the root
nor the number of builds. -/
theorem inv_valid_move {α γ : Type} (K : BVH4iEncoding) (s s' : Config α γ)
    (t : Nat) (Y : PC)
    (hroot : s'.patch.bvh4i_subtree_root = s.patch.bvh4i_subtree_root)
    (hbuilds : s'.builds = s.builds)
    (hpc : s'.pc = Function.update s.pc t Y)
    (hY : Y ≠ PC.reserve ∧ (∀ c, Y ≠ PC.build c) ∧ (∀ r, Y ≠ PC.publish r))
    (hvalid : s.patch.bvh4i_subtree_root ≠ K.invalidNode)
    (h : Inv K s) : Inv K s' := by
  obtain ⟨-, hV⟩ := h
  obtain ⟨g, hh⟩ := hV hvalid
  constructor
  · intro hr
    rw [hroot] at hr
    exact absurd hr hvalid
  · intro _
    rw [hbuilds, hpc]
    exact ⟨g, forall_update
      (fun x => x ≠ PC.reserve ∧ (∀ c, x ≠ PC.build c) ∧ (∀ r, x ≠ PC.publish r))
      s.pc t Y (fun t' _ => hh t') hY⟩

theorem stepThread_inv {α γ : Type} [Lattice γ] [BoundedOrder γ]
    (K : BVH4iEncoding) (hK : K.Valid) (E : Externals α) (fuel : Nat)
    (s : Config α γ) (t : Nat) (h : Inv K s) : Inv K (stepThread K E fuel s t) := by
  have hI := h.1
  have hV := h.2
  unfold stepThread
  split
  · -- start: line 160
    rename_i hpc
    by_cases hroot : s.patch.bvh4i_subtree_root = K.invalidNode
    · obtain ⟨a1, a2, b, c, d, f⟩ := hI hroot
      constructor
      · intro _
        dsimp only [atomic_add]
        refine ⟨by omega, fun _ => by omega, ?_, ?_, ?_, ?_⟩
        · refine forall_update
            (fun x => x ≠ PC.waiterRelease ∧ x ≠ PC.release ∧ x ≠ PC.returned)
            s.pc t _ (fun t' _ => b t') ?_
          split <;> simp
        · by_cases hc : s.patch.under_construction = 0
          · refine unique_update_of_none s.pc t _ ?_
            intro t'
            have : s.pc t' = PC.start := by
              by_contra hne
              have := a2 ⟨t', hne⟩
              omega
            rw [this]; rfl
          · refine unique_update_of_unclaimed s.pc t _ c ?_
            rw [if_pos hc]; rfl
        · intro hno
          apply d
          intro t' r
          by_cases htt : t' = t
          · subst htt; rw [hpc]; simp
          · have := hno t' r
            rwa [Function.update_noteq htt] at this
        · intro t' r hp
          by_cases htt : t' = t
          · subst htt
            rw [Function.update_same] at hp
            split at hp <;> cases hp
          · rw [Function.update_noteq htt] at hp; exact f t' r hp
      · intro hr
        exact absurd hroot hr
    · refine inv_valid_move K s _ t _ rfl rfl rfl ?_ hroot h
      split <;> simp
  · -- spin: line 163
    rename_i hpc
    split
    · exact h
    · rename_i hroot
      exact inv_valid_move K s _ t _ rfl rfl rfl (by simp) hroot h
  · -- waiterRelease: line 166
    rename_i hpc
    by_cases hroot : s.patch.bvh4i_subtree_root = K.invalidNode
    · exact absurd hpc ((hI hroot).2.2.1 t).1
    · exact inv_valid_move K s _ t _ rfl rfl rfl (by simp) hroot h
  · -- check: line 170
    rename_i hpc
    split
    · rename_i hroot
      exact inv_valid_move K s _ t _ rfl rfl rfl (by simp) hroot h
    · rename_i hroot
      have hroot' : s.patch.bvh4i_subtree_root = K.invalidNode := by
        by_contra hne; exact hroot hne
      exact inv_invalid_claimed_move K s _ t _ rfl rfl rfl rfl (by rw [hpc]; rfl)
        (by rw [hpc]; simp) (by simp) (by simp) (Or.inl hroot') h
  · -- reserve: line 186
    rename_i hpc
    exact inv_invalid_claimed_move K s _ t _ rfl rfl rfl rfl (by rw [hpc]; rfl)
      (by rw [hpc]; simp) (by simp) (by simp) (Or.inr (Or.inl hpc)) h
  · -- build: lines 188-206
    rename_i localCounter hpc
    split
    · exact inv_invalid_claimed_move K s _ t _ rfl rfl rfl rfl (by rw [hpc]; rfl)
        (by rw [hpc]; simp) (by simp) (by simp) (Or.inr (Or.inr ⟨_, hpc⟩)) h
    · split
      · exact inv_invalid_claimed_move K s _ t _ rfl rfl rfl rfl (by rw [hpc]; rfl)
          (by rw [hpc]; simp) (by simp) (by simp) (Or.inr (Or.inr ⟨_, hpc⟩)) h
      · rename_i r hr
        have hclaimed : (s.pc t).claimed = true := by rw [hpc]; rfl
        constructor
        · intro hroot
          have hroot' : s.patch.bvh4i_subtree_root = K.invalidNode := hroot
          obtain ⟨a1, a2, b, c, d, f⟩ := hI hroot'
          have hnopub : ∀ t' r', s.pc t' ≠ PC.publish r' := by
            intro t' r' hp
            have ht : t' = t := c t' t (by rw [hp]; rfl) hclaimed
            subst ht
            rw [hpc] at hp
            cases hp
          refine ⟨a1, fun _ => a2 ⟨t, by rw [hpc]; simp⟩, ?_,
            unique_update_of_claimed s.pc t _ c hclaimed, ?_, ?_⟩
          · exact forall_update
              (fun x => x ≠ PC.waiterRelease ∧ x ≠ PC.release ∧ x ≠ PC.returned)
              s.pc t _ (fun t' _ => b t') (by simp)
          · intro hno
            have := hno t r.curNode
            simp at this
          · intro t' r' hp
            by_cases htt : t' = t
            · subst htt
              simp only [Function.update_same, PC.publish.injEq] at hp
              subst hp
              exact ⟨by simp [d hnopub],
                createSubTree_curNode_ne K hK E _ _ _ fuel _ _ _ _ _ _ r hr⟩
            · simp only [Function.update_noteq htt] at hp
              exact absurd hp (hnopub t' r')
        · intro hroot
          have hroot' : s.patch.bvh4i_subtree_root ≠ K.invalidNode := hroot
          exact absurd hpc (((hV hroot').2 t).2.1 _)
  · -- publish: line 225
    rename_i subtree_root hpc
    by_cases hroot : s.patch.bvh4i_subtree_root = K.invalidNode
    · obtain ⟨a1, a2, b, c, d, f⟩ := hI hroot
      obtain ⟨f1, f2⟩ := f t subtree_root hpc
      have hclaimed : (s.pc t).claimed = true := by rw [hpc]; rfl
      constructor
      · intro hr
        exact absurd hr f2
      · intro _
        refine ⟨f1, ?_⟩
        refine forall_update
          (fun x => x ≠ PC.reserve ∧ (∀ c, x ≠ PC.build c) ∧ (∀ r, x ≠ PC.publish r))
          s.pc t _ ?_ (by simp)
        intro t' htt
        have hun : (s.pc t').claimed = false := by
          by_contra hcl
          exact htt (c t' t (by simpa using hcl) hclaimed)
        revert hun
        cases s.pc t' <;> simp [PC.claimed]
    · exact absurd hpc (((hV hroot).2 t).2.2 _)
  · -- release: line 228
    rename_i hpc
    by_cases hroot : s.patch.bvh4i_subtree_root = K.invalidNode
    · exact absurd hpc ((hI hroot).2.2.1 t).2.1
    · exact inv_valid_move K s _ t _ rfl rfl rfl (by simp) hroot h
  · exact h
  · exact h
  · exact h

theorem step_inv {α γ : Type} [Lattice γ] [BoundedOrder γ]
    (K : BVH4iEncoding) (hK : K.Valid) (E : Externals α) (fuel N : Nat)
    (s : Config α γ) (t : Nat) (h : Inv K s) : Inv K (step K E fuel N s t) := by
  unfold step
  split
  · exact stepThread_inv K hK E fuel s t h
  · exact h

theorem run_inv {α γ : Type} [Lattice γ] [BoundedOrder γ]
    (K : BVH4iEncoding) (hK : K.Valid) (E : Externals α) (fuel N : Nat)
    (schedule : List Nat) (s : Config α γ) (h : Inv K s) :
    Inv K (run K E fuel N s schedule) := by
  induction schedule generalizing s with
  | nil => exact h
  | cons t l ih => exact ih _ (step_inv K hK E fuel N s t h)

/-- Once the root is valid no step changes it, and no step runs `createSubTree`. -/
theorem step_stable {α γ : Type} [Lattice γ] [BoundedOrder γ]
    (K : BVH4iEncoding) (E : Externals α) (fuel N : Nat)
    (s : Config α γ) (t : Nat) (h : Inv K s)
    (hvalid : s.patch.bvh4i_subtree_root ≠ K.invalidNode) :
    (step K E fuel N s t).patch.bvh4i_subtree_root = s.patch.bvh4i_subtree_root ∧
      (step K E fuel N s t).builds = s.builds := by
  obtain ⟨-, hh⟩ := h.2 hvalid
  unfold step
  split
  · unfold stepThread
    split
    · exact ⟨rfl, rfl⟩
    · split <;> exact ⟨rfl, rfl⟩
    · exact ⟨rfl, rfl⟩
    · split <;> exact ⟨rfl, rfl⟩
    · exact ⟨rfl, rfl⟩
    · rename_i c hpc
      exact absurd hpc ((hh t).2.1 c)
    · rename_i r hpc
      exact absurd hpc ((hh t).2.2 r)
    · exact ⟨rfl, rfl⟩
    · exact ⟨rfl, rfl⟩
    · exact ⟨rfl, rfl⟩
    · exact ⟨rfl, rfl⟩
  · exact ⟨rfl, rfl⟩

theorem run_stable {α γ : Type} [Lattice γ] [BoundedOrder γ]
    (K : BVH4iEncoding) (hK : K.Valid) (E : Externals α) (fuel N : Nat)
    (schedule : List Nat) (s : Config α γ) (h : Inv K s)
    (hvalid : s.patch.bvh4i_subtree_root ≠ K.invalidNode) :
    (run K E fuel N s schedule).patch.bvh4i_subtree_root = s.patch.bvh4i_subtree_root ∧
      (run K E fuel N s schedule).builds = s.builds := by
  induction schedule generalizing s with
  | nil => exact ⟨rfl, rfl⟩
  | cons t l ih =>
    obtain ⟨e1, e2⟩ := step_stable K E fuel N s t h hvalid
    obtain ⟨e3, e4⟩ := ih (step K E fuel N s t) (step_inv K hK E fuel N s t h)
      (by rw [e1]; exact hvalid)
    exact ⟨e3.trans e1, e4.trans e2⟩

theorem inv_builds_le_one {α γ : Type} (K : BVH4iEncoding) (s : Config α γ) (h : Inv K s) :
    s.builds ≤ 1 := by
  by_cases hroot : s.patch.bvh4i_subtree_root = K.invalidNode
  · obtain ⟨-, -, -, -, d, f⟩ := h.1 hroot
    by_cases hp : ∃ t r, s.pc t = PC.publish r
    · obtain ⟨t, r, hp⟩ := hp
      exact le_of_eq (f t r hp).1
    · have := d (fun t r hpr => hp ⟨t, r, hpr⟩)
      omega
  · exact le_of_eq (h.2 hroot).1

theorem stepThread_builds {α γ : Type} [Lattice γ] [BoundedOrder γ]
    (K : BVH4iEncoding) (E : Externals α) (fuel : Nat) (s : Config α γ) (t : Nat) :
    (stepThread K E fuel s t).builds =
      s.builds + if runsBuild K E fuel s t = true then 1 else 0 := by
  unfold stepThread runsBuild
  cases hpc : s.pc t with
  | build c =>
    dsimp only
    split
    · rename_i hcap
      simp [hcap]
    · rename_i hcap
      split
      · rename_i hnone
        simp [hnone]
      · rename_i r hr
        simp [hcap, hr]
  | spin => dsimp only; split <;> simp
  | check => dsimp only; split <;> simp
  | _ => simp

/-- The second invariant is kept by a step that moves thread `t` to a point other than
`build` and `publish`, leaves the arena and the root alone, and does not take the
thread back before its reservation. -/
theorem invBuild_move {α γ : Type} [Lattice γ] [BoundedOrder γ]
    (K : BVH4iEncoding) (E : Externals α) (fuel : Nat)
    (patch : SubdivPatch1 α γ) (bvh : BVH4i α γ) (s s' : Config α γ) (t : Nat) (Y : PC)
    (hgrid : s.patch.SameGrid s'.patch)
    (hroot : s'.patch.bvh4i_subtree_root = s.patch.bvh4i_subtree_root)
    (hbvh : s'.bvh = s.bvh)
    (hpc : s'.pc = Function.update s.pc t Y)
    (hYb : ∀ c, Y ≠ PC.build c) (hYp : ∀ r, Y ≠ PC.publish r)
    (hearly : Y.early = true → (s.pc t).early = true)
    (h : InvBuild K E fuel patch bvh s) : InvBuild K E fuel patch bvh s' := by
  obtain ⟨p1, p2, p3, p4, p5, p6⟩ := h
  have hother : ∀ t', t' ≠ t → s'.pc t' = s.pc t' := by
    intro t' htt
    rw [hpc, Function.update_noteq htt]
  have hself : s'.pc t = Y := by rw [hpc, Function.update_same]
  refine ⟨?_, by rw [hbvh]; exact p2, ?_, ?_, ?_, ?_⟩
  · obtain ⟨r1, c1, e1⟩ := p1
    obtain ⟨r2, c2, e2⟩ := hgrid
    rw [e2, e1]
    exact ⟨r2, c2, rfl⟩
  · intro hr hall
    rw [hbvh]
    rw [hroot] at hr
    apply p3 hr
    intro t'
    by_cases htt : t' = t
    · subst htt
      apply hearly
      rw [← hself]
      exact hall t'
    · rw [← hother t' htt]
      exact hall t'
  · intro t' c hc
    rw [hbvh]
    by_cases htt : t' = t
    · subst htt
      rw [hself] at hc
      exact absurd hc (hYb c)
    · rw [hother t' htt] at hc
      exact p4 t' c hc
  · intro t' r hr
    rw [hbvh]
    by_cases htt : t' = t
    · subst htt
      rw [hself] at hr
      exact absurd hr (hYp r)
    · rw [hother t' htt] at hr
      exact p5 t' r hr
  · intro hv
    rw [hroot] at hv
    rw [hbvh, hroot]
    exact p6 hv

theorem theBuild_sameGrid {α γ : Type} [Lattice γ] [BoundedOrder γ]
    (K : BVH4iEncoding) (E : Externals α) (fuel : Nat)
    (patch p : SubdivPatch1 α γ) (bvh b : BVH4i α γ) (c : Nat) (hp : patch.SameGrid p)
    (hmem : b.lazymem = bvh.lazymem)
    (hc : c = (AtomicCounter.add bvh.lazyMemUsed64BytesBlocks patch.grid_size_64b_blocks).1) :
    createSubTree K E p (E.gridUVTessellator p.level p.grid_u_res p.grid_v_res).1
        (E.gridUVTessellator p.level p.grid_u_res p.grid_v_res).2
        fuel 0 (u32sub p.grid_u_res 1) 0 (u32sub p.grid_v_res 1) b.lazymem c =
      theBuild K E fuel patch bvh := by
  obtain ⟨r1, c1, rfl⟩ := hp
  rw [hmem, hc]
  exact createSubTree_patch_congr K E
    { patch with bvh4i_subtree_root := r1, under_construction := c1 } patch rfl rfl _ _ _ _ _ _
    _ _ _

theorem stepThread_invBuild {α γ : Type} [Lattice γ] [BoundedOrder γ]
    (K : BVH4iEncoding) (E : Externals α) (fuel : Nat)
    (patch : SubdivPatch1 α γ) (bvh : BVH4i α γ)
    (s : Config α γ) (t : Nat) (hinv : Inv K s) (h : InvBuild K E fuel patch bvh s) :
    InvBuild K E fuel patch bvh (stepThread K E fuel s t) := by
  have hI := hinv.1
  have hV := hinv.2
  -- a thread at a claimed point is the only one, and the root is then invalid
  have hinvalid : (s.pc t).claimed = true → (s.pc t = PC.reserve ∨ (∃ c, s.pc t = PC.build c) ∨
      ∃ r, s.pc t = PC.publish r) → s.patch.bvh4i_subtree_root = K.invalidNode := by
    intro _ hat
    by_contra hv
    obtain ⟨-, hh⟩ := hV hv
    rcases hat with h0 | ⟨c, h0⟩ | ⟨r, h0⟩
    · exact (hh t).1 h0
    · exact (hh t).2.1 c h0
    · exact (hh t).2.2 r h0
  have honly : s.patch.bvh4i_subtree_root = K.invalidNode → (s.pc t).claimed = true →
      ∀ t', t' ≠ t → (s.pc t').claimed = false := by
    intro hr hc t' htt
    by_contra hcl
    exact htt ((hI hr).2.2.2.1 t' t (by simpa using hcl) hc)
  unfold stepThread
  split
  · -- start
    rename_i hpc
    exact invBuild_move K E fuel patch bvh s _ t _ ⟨_, _, rfl⟩ rfl rfl rfl
      (by intro c; split <;> simp) (by intro r; split <;> simp) (by intro _; rw [hpc]; rfl) h
  · -- spin
    rename_i hpc
    split
    · exact h
    · exact invBuild_move K E fuel patch bvh s _ t _ ⟨_, _, rfl⟩ rfl rfl rfl
        (by simp) (by simp) (by intro _; rw [hpc]; rfl) h
  · -- waiterRelease
    rename_i hpc
    exact invBuild_move K E fuel patch bvh s _ t _ ⟨_, _, rfl⟩ rfl rfl rfl
      (by simp) (by simp) (by intro _; rw [hpc]; rfl) h
  · -- check
    rename_i hpc
    split
    · exact invBuild_move K E fuel patch bvh s _ t _ ⟨_, _, rfl⟩ rfl rfl rfl
        (by simp) (by simp) (by intro _; rw [hpc]; rfl) h
    · exact invBuild_move K E fuel patch bvh s _ t _ ⟨_, _, rfl⟩ rfl rfl rfl
        (by simp) (by simp) (by intro _; rw [hpc]; rfl) h
  · -- reserve
    rename_i hpc
    have hcl : (s.pc t).claimed = true := by rw [hpc]; rfl
    have hr := hinvalid hcl (Or.inl hpc)
    have hot := honly hr hcl
    obtain ⟨p1, p2, p3, p4, p5, p6⟩ := h
    have hall : ∀ t', (s.pc t').early = true := by
      intro t'
      by_cases htt : t' = t
      · subst htt; rw [hpc]; rfl
      · have := hot t' htt
        revert this
        cases s.pc t' <;> simp [PC.claimed, PC.early]
    obtain ⟨e1, e2⟩ := p3 hr hall
    refine ⟨p1, p2, ?_, ?_, ?_, ?_⟩
    · intro _ hall'
      have := hall' t
      simp [PC.early] at this
    · intro t' c hc
      by_cases htt : t' = t
      · subst htt
        simp only [Function.update_same, PC.build.injEq] at hc
        obtain ⟨r1, c1, ep⟩ := p1
        subst hc
        dsimp only
        rw [e1, ep]
        exact ⟨rfl, rfl, e2⟩
      · simp only [Function.update_noteq htt] at hc
        have := hot t' htt
        rw [hc] at this
        cases this
    · intro t' r hp
      by_cases htt : t' = t
      · subst htt
        simp at hp
      · simp only [Function.update_noteq htt] at hp
        have := hot t' htt
        rw [hp] at this
        cases this
    · intro hv
      exact absurd hr hv
  · -- build
    rename_i c hpc
    have hcl : (s.pc t).claimed = true := by rw [hpc]; rfl
    have hr := hinvalid hcl (Or.inr (Or.inl ⟨c, hpc⟩))
    have hot := honly hr hcl
    split
    · exact invBuild_move K E fuel patch bvh s _ t _ ⟨_, _, rfl⟩ rfl rfl rfl
        (by simp) (by simp) (by intro hy; cases hy) h
    · rename_i hcap
      split
      · exact invBuild_move K E fuel patch bvh s _ t _ ⟨_, _, rfl⟩ rfl rfl rfl
          (by simp) (by simp) (by intro hy; cases hy) h
      · rename_i r hrun
        obtain ⟨p1, p2, p3, p4, p5, p6⟩ := h
        obtain ⟨ec, eu, em⟩ := p4 t c hpc
        have hbuild := theBuild_sameGrid K E fuel patch s.patch bvh s.bvh c p1 em ec
        rw [hrun] at hbuild
        have hsize : s.patch.grid_size_64b_blocks = patch.grid_size_64b_blocks := by
          obtain ⟨r1, c1, ep⟩ := p1
          rw [ep]
        have hfit : bvh.lazyMemUsed64BytesBlocks + patch.grid_size_64b_blocks ≤
            bvh.lazyMemAllocated64BytesBlocks := by
          rw [hsize, p2, ec] at hcap
          simp only [AtomicCounter.add] at hcap
          omega
        refine ⟨p1, p2, ?_, ?_, ?_, ?_⟩
        · intro _ hall'
          have := hall' t
          simp [PC.early] at this
        · intro t' c' hc
          by_cases htt : t' = t
          · subst htt
            simp at hc
          · simp only [Function.update_noteq htt] at hc
            have := hot t' htt
            rw [hc] at this
            cases this
        · intro t' r' hp
          by_cases htt : t' = t
          · subst htt
            simp only [Function.update_same, PC.publish.injEq] at hp
            exact ⟨r, hbuild.symm, hp.symm, rfl, eu, hfit, p2⟩
          · simp only [Function.update_noteq htt] at hp
            have := hot t' htt
            rw [hp] at this
            cases this
        · intro hv
          exact absurd hr hv
  · -- publish
    rename_i r hpc
    have hcl : (s.pc t).claimed = true := by rw [hpc]; rfl
    have hr := hinvalid hcl (Or.inr (Or.inr ⟨r, hpc⟩))
    have hot := honly hr hcl
    obtain ⟨p1, p2, p3, p4, p5, p6⟩ := h
    have hne : r ≠ K.invalidNode := ((hI hr).2.2.2.2.2 t r hpc).2
    refine ⟨?_, p2, ?_, ?_, ?_, ?_⟩
    · obtain ⟨r1, c1, ep⟩ := p1
      rw [ep]
      exact ⟨_, _, rfl⟩
    · intro hinv' _
      exact absurd hinv' hne
    · intro t' c' hc
      by_cases htt : t' = t
      · subst htt
        simp at hc
      · simp only [Function.update_noteq htt] at hc
        have := hot t' htt
        rw [hc] at this
        cases this
    · intro t' r' hp
      by_cases htt : t' = t
      · subst htt
        simp at hp
      · simp only [Function.update_noteq htt] at hp
        have := hot t' htt
        rw [hp] at this
        cases this
    · intro _
      exact p5 t r hpc
  · -- release
    rename_i hpc
    exact invBuild_move K E fuel patch bvh s _ t _ ⟨_, _, rfl⟩ rfl rfl rfl
      (by simp) (by simp) (by intro _; rw [hpc]; rfl) h
  · exact h
  · exact h
  · exact h

theorem step_invBuild {α γ : Type} [Lattice γ] [BoundedOrder γ]
    (K : BVH4iEncoding) (E : Externals α) (fuel N : Nat)
    (patch : SubdivPatch1 α γ) (bvh : BVH4i α γ)
    (s : Config α γ) (t : Nat) (hinv : Inv K s) (h : InvBuild K E fuel patch bvh s) :
    InvBuild K E fuel patch bvh (step K E fuel N s t) := by
  unfold step
  split
  · exact stepThread_invBuild K E fuel patch bvh s t hinv h
  · exact h

theorem run_invBuild {α γ : Type} [Lattice γ] [BoundedOrder γ]
    (K : BVH4iEncoding) (hK : K.Valid) (E : Externals α) (fuel N : Nat)
    (patch : SubdivPatch1 α γ) (bvh : BVH4i α γ)
    (schedule : List Nat) (s : Config α γ) (hinv : Inv K s)
    (h : InvBuild K E fuel patch bvh s) :
    InvBuild K E fuel patch bvh (run K E fuel N s schedule) := by
  induction schedule generalizing s with
  | nil => exact h
  | cons t l ih =>
    exact ih _ (step_inv K hK E fuel N s t hinv) (step_invBuild K E fuel N patch bvh s t hinv h)

theorem invBuild_init {α γ : Type} [Lattice γ] [BoundedOrder γ]
    (K : BVH4iEncoding) (E : Externals α) (fuel : Nat)
    (patch : SubdivPatch1 α γ) (bvh : BVH4i α γ)
    (hroot : patch.bvh4i_subtree_root = K.invalidNode) :
    InvBuild K E fuel patch bvh (Config.init patch bvh) := by
  refine ⟨⟨_, _, rfl⟩, rfl, fun _ _ => ⟨rfl, rfl⟩, ?_, ?_, ?_⟩
  · intro t c hc
    simp [Config.init] at hc
  · intro t r hp
    simp [Config.init] at hp
  · intro hv
    exact absurd hroot hv

/-- The count `builds` counts the steps that run `createSubTree` to its end. -/
theorem run_builders {α γ : Type} [Lattice γ] [BoundedOrder γ]
    (K : BVH4iEncoding) (E : Externals α) (fuel N : Nat) (schedule : List Nat) :
    ∀ s : Config α γ, (run K E fuel N s schedule).builds =
      s.builds + (builders K E fuel N s schedule).length := by
  induction schedule with
  | nil => intro s; rfl
  | cons t rest ih =>
    intro s
    have hstep : (step K E fuel N s t).builds =
        s.builds + if t < N ∧ runsBuild K E fuel s t = true then 1 else 0 := by
      unfold step
      by_cases ht : t < N
      · rw [if_pos ht, stepThread_builds]
        by_cases hb : runsBuild K E fuel s t = true
        · rw [if_pos hb, if_pos ⟨ht, hb⟩]
        · rw [if_neg hb, if_neg (fun h => hb h.2)]
      · rw [if_neg ht, if_neg (fun h => ht h.1)]
        rfl
    have e : run K E fuel N s (t :: rest) = run K E fuel N (step K E fuel N s t) rest := rfl
    have eb : builders K E fuel N s (t :: rest) =
        if t < N ∧ runsBuild K E fuel s t = true then
          t :: builders K E fuel N (step K E fuel N s t) rest
        else builders K E fuel N (step K E fuel N s t) rest := rfl
    rw [e, ih, hstep, eb]
    by_cases hb : t < N ∧ runsBuild K E fuel s t = true
    · rw [if_pos hb, if_pos hb, List.length_cons]
      omega
    · rw [if_neg hb, if_neg hb]
      omega

/-- C1. Exactly-once build: on a patch whose root is the unbuilt sentinel and whose
build counter is 0, in every interleaving of `N` concurrent calls of
`initLazySubdivTree` (each step one atomic access to shared memory, in a
sequentially consistent order), `createSubTree` is run to its end by at most one
caller, once (`builders` lists the steps that pass the capacity check and have
`createSubTree` return on the reserved blocks; the count `builds` grows exactly at
these steps); and as soon as some caller has returned, exactly one caller has made
one run, the root is not the sentinel, the root is the reference that the run of
`createSubTree` over the full grid, on the one reservation made on the arena the
callers started with, wrote to its `curNode`, the pool of the arena is the pool that
run left, the patch has changed in its root and build counter only, and in every
continuation of the execution the root and the arena stay what they are and no caller
runs `createSubTree` again: every caller that returns observes the same root
reference. -/
theorem exactly_once_build {α γ : Type} [Lattice γ] [BoundedOrder γ]
    (K : BVH4iEncoding) (E : Externals α) (fuel N : Nat)
    (patch : SubdivPatch1 α γ) (bvh : BVH4i α γ)
    (hK : K.Valid)
    (hroot : patch.bvh4i_subtree_root = K.invalidNode)
    (hcnt : patch.under_construction = 0)
    (schedule schedule' : List Nat) :
    (∀ (s : Config α γ) t, (stepThread K E fuel s t).builds =
      s.builds + if runsBuild K E fuel s t = true then 1 else 0) ∧
    (builders K E fuel N (Config.init patch bvh) schedule).length ≤ 1 ∧
    (run K E fuel N (Config.init patch bvh) schedule).builds ≤ 1 ∧
      ∀ t, (run K E fuel N (Config.init patch bvh) schedule).pc t = PC.returned →
        (∃ b, builders K E fuel N (Config.init patch bvh) schedule = [b]) ∧
        builders K E fuel N (run K E fuel N (Config.init patch bvh) schedule) schedule' = [] ∧
        (run K E fuel N (Config.init patch bvh) schedule).builds = 1 ∧
        (run K E fuel N (Config.init patch bvh) schedule).patch.bvh4i_subtree_root ≠
          K.invalidNode ∧
        Built K E fuel patch bvh (run K E fuel N (Config.init patch bvh) schedule).bvh
          (run K E fuel N (Config.init patch bvh) schedule).patch.bvh4i_subtree_root ∧
        patch.SameGrid (run K E fuel N (Config.init patch bvh) schedule).patch ∧
        (run K E fuel N (run K E fuel N (Config.init patch bvh) schedule)
            schedule').patch.bvh4i_subtree_root =
          (run K E fuel N (Config.init patch bvh) schedule).patch.bvh4i_subtree_root ∧
        (run K E fuel N (run K E fuel N (Config.init patch bvh) schedule)
            schedule').builds = 1 ∧
        Built K E fuel patch bvh
          (run K E fuel N (run K E fuel N (Config.init patch bvh) schedule) schedule').bvh
          (run K E fuel N (Config.init patch bvh) schedule).patch.bvh4i_subtree_root := by
  have hinv := run_inv K hK E fuel N schedule _ (inv_init K patch bvh hroot hcnt)
  have hinvb := run_invBuild K hK E fuel N patch bvh schedule _
    (inv_init K patch bvh hroot hcnt) (invBuild_init K E fuel patch bvh hroot)
  have hcount := run_builders K E fuel N schedule (Config.init patch bvh)
  have hzero : (Config.init patch bvh).builds = 0 := rfl
  rw [hzero, Nat.zero_add] at hcount
  refine ⟨stepThread_builds K E fuel, by rw [← hcount]; exact inv_builds_le_one K _ hinv,
    inv_builds_le_one K _ hinv, ?_⟩
  intro t ht
  have hvalid : (run K E fuel N (Config.init patch bvh) schedule).patch.bvh4i_subtree_root ≠
      K.invalidNode := by
    intro hr
    exact ((hinv.1 hr).2.2.1 t).2.2 ht
  obtain ⟨e1, e2⟩ := run_stable K hK E fuel N schedule' _ hinv hvalid
  have hb := (hinv.2 hvalid).1
  have hinvb' := run_invBuild K hK E fuel N patch bvh schedule' _ hinv hinvb
  have hbuilt' := hinvb'.2.2.2.2.2 (by rw [e1]; exact hvalid)
  rw [e1] at hbuilt'
  have hcount' := run_builders K E fuel N schedule' (run K E fuel N (Config.init patch bvh)
    schedule)
  rw [e2] at hcount'
  have hone : ∃ b, builders K E fuel N (Config.init patch bvh) schedule = [b] := by
    rw [hb] at hcount
    match hl : builders K E fuel N (Config.init patch bvh) schedule with
    | [] => rw [hl] at hcount; cases hcount
    | [b] => exact ⟨b, rfl⟩
    | _ :: _ :: _ => rw [hl] at hcount; simp at hcount
  have hnone : builders K E fuel N (run K E fuel N (Config.init patch bvh) schedule)
      schedule' = [] := List.eq_nil_of_length_eq_zero (by omega)
  exact ⟨hone, hnone, hb, hvalid, hinvb.2.2.2.2.2 hvalid, hinvb.1, e1, e2.trans hb, hbuilt'⟩

theorem exactly_once_build_witness :
    (run sampleEncoding sampleExternals 10 2 (Config.init (samplePatch 5 5 10)
        (sampleArena 16)) [0, 1, 0, 1, 0, 0, 1, 0, 1, 0, 0, 1, 1]).pc 0 = PC.returned ∧
      (run sampleEncoding sampleExternals 10 2 (Config.init (samplePatch 5 5 10)
        (sampleArena 16)) [0, 1, 0, 1, 0, 0, 1, 0, 1, 0, 0, 1, 1]).pc 1 = PC.returned ∧
      (∀ (s : Config Nat (Fin 4)) t,
        (stepThread sampleEncoding sampleExternals 10 s t).builds =
          s.builds + if runsBuild sampleEncoding sampleExternals 10 s t = true then 1 else 0) ∧
      (builders sampleEncoding sampleExternals 10 2 (Config.init (samplePatch 5 5 10)
          (sampleArena 16)) [0, 1, 0, 1, 0, 0, 1, 0, 1, 0, 0, 1, 1]).length ≤ 1 ∧
      (run sampleEncoding sampleExternals 10 2 (Config.init (samplePatch 5 5 10) (sampleArena 16))
          [0, 1, 0, 1, 0, 0, 1, 0, 1, 0, 0, 1, 1]).builds ≤ 1 ∧
      ∀ t, (run sampleEncoding sampleExternals 10 2 (Config.init (samplePatch 5 5 10)
          (sampleArena 16)) [0, 1, 0, 1, 0, 0, 1, 0, 1, 0, 0, 1, 1]).pc t = PC.returned →
        (∃ b, builders sampleEncoding sampleExternals 10 2 (Config.init (samplePatch 5 5 10)
          (sampleArena 16)) [0, 1, 0, 1, 0, 0, 1, 0, 1, 0, 0, 1, 1] = [b]) ∧
        builders sampleEncoding sampleExternals 10 2
          (run sampleEncoding sampleExternals 10 2 (Config.init (samplePatch 5 5 10)
            (sampleArena 16)) [0, 1, 0, 1, 0, 0, 1, 0, 1, 0, 0, 1, 1]) [1, 0, 1] = [] ∧
        (run sampleEncoding sampleExternals 10 2 (Config.init (samplePatch 5 5 10)
          (sampleArena 16)) [0, 1, 0, 1, 0, 0, 1, 0, 1, 0, 0, 1, 1]).builds = 1 ∧
        (run sampleEncoding sampleExternals 10 2 (Config.init (samplePatch 5 5 10)
          (sampleArena 16)) [0, 1, 0, 1, 0, 0, 1, 0, 1, 0, 0, 1, 1]).patch.bvh4i_subtree_root ≠
          sampleEncoding.invalidNode ∧
        Built sampleEncoding sampleExternals 10 (samplePatch 5 5 10) (sampleArena 16)
          (run sampleEncoding sampleExternals 10 2 (Config.init (samplePatch 5 5 10)
            (sampleArena 16)) [0, 1, 0, 1, 0, 0, 1, 0, 1, 0, 0, 1, 1]).bvh
          (run sampleEncoding sampleExternals 10 2 (Config.init (samplePatch 5 5 10)
            (sampleArena 16))
            [0, 1, 0, 1, 0, 0, 1, 0, 1, 0, 0, 1, 1]).patch.bvh4i_subtree_root ∧
        (samplePatch 5 5 10).SameGrid
          (run sampleEncoding sampleExternals 10 2 (Config.init (samplePatch 5 5 10)
            (sampleArena 16)) [0, 1, 0, 1, 0, 0, 1, 0, 1, 0, 0, 1, 1]).patch ∧
        (run sampleEncoding sampleExternals 10 2
            (run sampleEncoding sampleExternals 10 2 (Config.init (samplePatch 5 5 10)
              (sampleArena 16)) [0, 1, 0, 1, 0, 0, 1, 0, 1, 0, 0, 1, 1])
            [1, 0, 1]).patch.bvh4i_subtree_root =
          (run sampleEncoding sampleExternals 10 2 (Config.init (samplePatch 5 5 10)
            (sampleArena 16))
            [0, 1, 0, 1, 0, 0, 1, 0, 1, 0, 0, 1, 1]).patch.bvh4i_subtree_root ∧
        (run sampleEncoding sampleExternals 10 2
            (run sampleEncoding sampleExternals 10 2 (Config.init (samplePatch 5 5 10)
              (sampleArena 16)) [0, 1, 0, 1, 0, 0, 1, 0, 1, 0, 0, 1, 1])
            [1, 0, 1]).builds = 1 ∧
        Built sampleEncoding sampleExternals 10 (samplePatch 5 5 10) (sampleArena 16)
          (run sampleEncoding sampleExternals 10 2
            (run sampleEncoding sampleExternals 10 2 (Config.init (samplePatch 5 5 10)
              (sampleArena 16)) [0, 1, 0, 1, 0, 0, 1, 0, 1, 0, 0, 1, 1]) [1, 0, 1]).bvh
          (run sampleEncoding sampleExternals 10 2 (Config.init (samplePatch 5 5 10)
            (sampleArena 16))
            [0, 1, 0, 1, 0, 0, 1, 0, 1, 0, 0, 1, 1]).patch.bvh4i_subtree_root :=
  ⟨by decide, by decide,
    exactly_once_build sampleEncoding sampleExternals 10 2 (samplePatch 5 5 10)
      (sampleArena 16) sampleEncoding_valid rfl rfl [0, 1, 0, 1, 0, 0, 1, 0, 1, 0, 0, 1, 1]
      [1, 0, 1]⟩

/-! ## Grid partitioner: the quadrant split -/

theorem createSubTree_tree_range {α γ : Type} [Lattice γ] [BoundedOrder γ]
    (K : BVH4iEncoding) (E : Externals α) (patch : SubdivPatch1 α γ)
    (gu gv : Nat → α) (fuel us ue vs ve : Nat) (mem : Nat → Block α γ) (c : Nat)
    (r : SubTreeResult α γ)
    (hr : createSubTree K E patch gu gv fuel us ue vs ve mem c = some r) :
    r.tree.range = (us, ue, vs, ve) := by
  cases fuel with
  | zero => simp [createSubTree] at hr
  | succ fuel =>
    by_cases h : u32 (u32sub ue us + 1) ≤ 4 ∧ u32 (u32sub ve vs + 1) ≤ 4
    · obtain ⟨-, rfl⟩ := createSubTree_leaf_inv K E patch gu gv fuel us ue vs ve mem c r h hr
      rfl
    · obtain ⟨r0, r1, r2, r3, -, -, -, -, rfl⟩ :=
        createSubTree_node_inv K E patch gu gv fuel us ue vs ve mem c r h hr
      rfl

theorem createSubTree_tree_index {α γ : Type} [Lattice γ] [BoundedOrder γ]
    (K : BVH4iEncoding) (E : Externals α) (patch : SubdivPatch1 α γ)
    (gu gv : Nat → α) (fuel us ue vs ve : Nat) (mem : Nat → Block α γ) (c : Nat)
    (r : SubTreeResult α γ)
    (hr : createSubTree K E patch gu gv fuel us ue vs ve mem c = some r) :
    r.tree.index = c ∨ r.tree.index = u32 c := by
  cases fuel with
  | zero => simp [createSubTree] at hr
  | succ fuel =>
    by_cases h : u32 (u32sub ue us + 1) ≤ 4 ∧ u32 (u32sub ve vs + 1) ≤ 4
    · obtain ⟨-, rfl⟩ := createSubTree_leaf_inv K E patch gu gv fuel us ue vs ve mem c r h hr
      exact Or.inr rfl
    · obtain ⟨r0, r1, r2, r3, -, -, -, -, rfl⟩ :=
        createSubTree_node_inv K E patch gu gv fuel us ue vs ve mem c r h hr
      exact Or.inl rfl

theorem SubTree.index_of_InBlocks {γ : Type} (t : SubTree γ) (lo hi : Nat)
    (h : t.InBlocks lo hi) : lo ≤ t.index ∧ t.index + 2 ≤ hi := by
  cases t with
  | leaf index us ue vs ve ref b => exact h
  | node index us ue vs ve ref c0 c1 c2 c3 b => exact ⟨h.1, h.2.1⟩

/-- C20. Quadrant split: a call of `createSubTree` on a well-formed range that is not
a leaf (`u_size > 4` or `v_size > 4`) creates a node whose child slots 0, 1, 2, 3
are built, in that order, by the calls over the ranges
`[u_start..u_mid] x [v_start..v_mid]`, `[u_mid..u_end] x [v_start..v_mid]`,
`[u_mid..u_end] x [v_mid..v_end]` and `[u_start..u_mid] x [v_mid..v_end]`, with
`u_mid = (u_start+u_end)/2` and `v_mid = (v_start+v_end)/2`; the block cursor
having stayed within 32 bits, the node record at the cursor holds in slot `i` the
reference of the call for child `i`, and the four children were created at
increasing cursor values after the node. -/
theorem createSubTree_quadrants {α γ : Type} [Lattice γ] [BoundedOrder γ]
    (K : BVH4iEncoding) (E : Externals α) (patch : SubdivPatch1 α γ)
    (grid_u_array grid_v_array : Nat → α) (fuel u_start u_end v_start v_end : Nat)
    (lazymem : Nat → Block α γ) (localCounter : Nat)
    (hok : RangeOK u_start u_end v_start v_end)
    (hnode : 4 < u_end - u_start + 1 ∨ 4 < v_end - v_start + 1)
    (hfuel : (u_end - u_start) + (v_end - v_start) < fuel) :
    ∃ r c0 c1 c2 c3,
      createSubTree K E patch grid_u_array grid_v_array fuel u_start u_end v_start v_end
        lazymem localCounter = some r ∧
      r.tree = SubTree.node localCounter u_start u_end v_start v_end r.curNode
        c0 c1 c2 c3 r.bounds ∧
      c0.range = (u_start, (u_start + u_end) / 2, v_start, (v_start + v_end) / 2) ∧
      c1.range = ((u_start + u_end) / 2, u_end, v_start, (v_start + v_end) / 2) ∧
      c2.range = ((u_start + u_end) / 2, u_end, (v_start + v_end) / 2, v_end) ∧
      c3.range = (u_start, (u_start + u_end) / 2, (v_start + v_end) / 2, v_end) ∧
      (r.localCounter ≤ 4294967296 →
        (∃ n, r.lazymem localCounter = Block.node n ∧ n.child 0 = c0.ref ∧
          n.child 1 = c1.ref ∧ n.child 2 = c2.ref ∧ n.child 3 = c3.ref) ∧
        localCounter + 2 = c0.index ∧ c0.index < c1.index ∧ c1.index < c2.index ∧
          c2.index < c3.index) := by
  obtain ⟨hu, hv, hue, hve⟩ := hok
  obtain ⟨f, rfl⟩ : ∃ f, fuel = f + 1 := ⟨fuel - 1, by omega⟩
  have hsu := size_of_range hu hue
  have hsv := size_of_range hv hve
  have hmu := mid_of_range hu hue
  have hmv := mid_of_range hv hve
  have hl' : ¬ (u32 (u32sub u_end u_start + 1) ≤ 4 ∧ u32 (u32sub v_end v_start + 1) ≤ 4) := by
    rw [hsu, hsv]; omega
  obtain ⟨r0, h0, p0⟩ := createSubTree_stored K E patch grid_u_array grid_v_array f
    u_start ((u_start + u_end) / 2) v_start ((v_start + v_end) / 2)
    (memNode K lazymem localCounter) (localCounter + 2)
    ⟨by omega, by omega, by omega, by omega⟩ (by omega)
  obtain ⟨r1, h1, p1⟩ := createSubTree_stored K E patch grid_u_array grid_v_array f
    ((u_start + u_end) / 2) u_end v_start ((v_start + v_end) / 2)
    (memAfter K localCounter [r0] r0) r0.localCounter
    ⟨by omega, by omega, by omega, by omega⟩ (by omega)
  obtain ⟨r2, h2, p2⟩ := createSubTree_stored K E patch grid_u_array grid_v_array f
    ((u_start + u_end) / 2) u_end ((v_start + v_end) / 2) v_end
    (memAfter K localCounter [r0, r1] r1) r1.localCounter
    ⟨by omega, by omega, by omega, by omega⟩ (by omega)
  obtain ⟨r3, h3, p3⟩ := createSubTree_stored K E patch grid_u_array grid_v_array f
    u_start ((u_start + u_end) / 2) ((v_start + v_end) / 2) v_end
    (memAfter K localCounter [r0, r1, r2] r2) r2.localCounter
    ⟨by omega, by omega, by omega, by omega⟩ (by omega)
  have hnodeEq := createSubTree_node K E patch grid_u_array grid_v_array f u_start u_end
    v_start v_end lazymem localCounter r0 r1 r2 r3 hl'
    (by rw [hmu, hmv]; exact h0) (by rw [hmu, hmv]; exact h1)
    (by rw [hmu, hmv]; exact h2) (by rw [hmu, hmv]; exact h3)
  have pn := createNode_stored K patch u_start u_end v_start v_end lazymem localCounter
    r0 r1 r2 r3 p0 p1 p2 p3
  refine ⟨_, r0.tree, r1.tree, r2.tree, r3.tree, hnodeEq, rfl,
    createSubTree_tree_range K E patch _ _ _ _ _ _ _ _ _ r0 h0,
    createSubTree_tree_range K E patch _ _ _ _ _ _ _ _ _ r1 h1,
    createSubTree_tree_range K E patch _ _ _ _ _ _ _ _ _ r2 h2,
    createSubTree_tree_range K E patch _ _ _ _ _ _ _ _ _ r3 h3, ?_⟩
  intro hlc
  have hlc3 : r3.localCounter ≤ 4294967296 := hlc
  obtain ⟨-, -, hst⟩ := pn.2.2.2 hlc
  have hst' : BoxesStored patch (createNode K u_start u_end v_start v_end localCounter
      r0 r1 r2 r3).lazymem
      (SubTree.node localCounter u_start u_end v_start v_end (K.createBVH4iNode localCounter)
        r0.tree r1.tree r2.tree r3.tree (boundsAfter [r0, r1, r2, r3])) := hst
  simp only [BoxesStored] at hst'
  obtain ⟨⟨n, hn, -, -, -, -, k0, k1, k2, k3⟩, -⟩ := hst'
  have q0 := SubTree.index_of_InBlocks _ _ _ (p0.2.2.2 (by have := p1.1; have := p2.1; have := p3.1; omega)).2.1
  have q1 := SubTree.index_of_InBlocks _ _ _ (p1.2.2.2 (by have := p2.1; have := p3.1; omega)).2.1
  have q2 := SubTree.index_of_InBlocks _ _ _ (p2.2.2.2 (by have := p3.1; omega)).2.1
  have q3 := SubTree.index_of_InBlocks _ _ _ (p3.2.2.2 hlc3).2.1
  refine ⟨⟨n, hn, k0, k1, k2, k3⟩, ?_, by omega, by omega, by omega⟩
  rcases createSubTree_tree_index K E patch _ _ _ _ _ _ _ _ _ r0 h0 with e | e
  · exact e.symm
  · rw [e, u32_of_lt (by have := p0.1; have := p1.1; have := p2.1; have := p3.1; omega)]
theorem createSubTree_quadrants_witness :
    ∃ r c0 c1 c2 c3,
      createSubTree sampleEncoding sampleExternals (samplePatch 8 8 34) (fun i => i)
          (fun i => 2 * i) 20 0 7 0 7 (sampleArena 64).lazymem 0 = some r ∧
      r.tree = SubTree.node 0 0 7 0 7 r.curNode c0 c1 c2 c3 r.bounds ∧
      c0.range = (0, (0 + 7) / 2, 0, (0 + 7) / 2) ∧
      c1.range = ((0 + 7) / 2, 7, 0, (0 + 7) / 2) ∧
      c2.range = ((0 + 7) / 2, 7, (0 + 7) / 2, 7) ∧
      c3.range = (0, (0 + 7) / 2, (0 + 7) / 2, 7) ∧
      (r.localCounter ≤ 4294967296 →
        (∃ n, r.lazymem 0 = Block.node n ∧ n.child 0 = c0.ref ∧
          n.child 1 = c1.ref ∧ n.child 2 = c2.ref ∧ n.child 3 = c3.ref) ∧
        0 + 2 = c0.index ∧ c0.index < c1.index ∧ c1.index < c2.index ∧
          c2.index < c3.index) :=
  createSubTree_quadrants sampleEncoding sampleExternals (samplePatch 8 8 34)
    (fun i => i) (fun i => 2 * i) 20 0 7 0 7 (sampleArena 64).lazymem 0 (by decide)
    (by decide) (by decide)

/-! ## Traversal engines: the record of the calls of the traversal primitive -/

theorem yields_append {α : Type} (a b : List (TravEvent α)) :
    yields (a ++ b) = yields a ++ yields b := by
  induction a with
  | nil => rfl
  | cons e rest ih => cases e <;> simp [yields, ih]

theorem poppedLanes_append {α : Type} (a b : List (TravEvent α)) :
    poppedLanes (a ++ b) = poppedLanes a ++ poppedLanes b := by
  induction a with
  | nil => rfl
  | cons e rest ih =>
    cases e with
    | pop sub i m t y => cases sub <;> simp [poppedLanes, ih]
    | build p => simp [poppedLanes, ih]
    | leafTest g i p b a => simp [poppedLanes, ih]

/-- The mask `terminated` of the packet `occluded` is never written. -/
theorem occludedLoop_spec {α γ : Type} (K : BVH4iEncoding) (X : Traversal α γ) (root : Nat)
    (lanes : List Nat) (s : OccState α)
    (hterm : ∃ l ∈ List.range 16, s.terminated l = false) :
    (occludedLoop K X root lanes s).1.ray16 = s.ray16 ∧
    (occludedLoop K X root lanes s).1.terminated = s.terminated ∧
    (∃ ys, yields (occludedLoop K X root lanes s).1.log = yields s.log ++ ys ∧
      ((occludedLoop K X root lanes s).2 = Status.fatal ↔ ∃ y ∈ ys, y ≠ K.invalidNode) ∧
      ((occludedLoop K X root lanes s).2 = Status.returned ↔ ∀ y ∈ ys, y = K.invalidNode)) ∧
    ((occludedLoop K X root lanes s).2 = Status.returned →
      poppedLanes (occludedLoop K X root lanes s).1.log = poppedLanes s.log ++ lanes) := by
  induction lanes generalizing s with
  | nil => simp [occludedLoop]
  | cons i rest ih =>
    have hall : ∀ t : Nat → Bool, (∃ l ∈ List.range 16, t l = false) →
        (List.range 16).all t = false := by
      intro t ⟨l, hl, ht⟩
      rw [List.all_eq_false]
      exact ⟨l, hl, by simp [ht]⟩
    have h21 : (2 : Nat) - 1 = 1 := rfl
    by_cases hy : (X.traverse_single_occluded NodeBase.top
        root 1 (s.ray16.org i) (s.ray16.dir i)
        (s.ray16.tnear i) (s.ray16.tfar i) (Function.update s.stack_node 1 root)
        K.leaf_mask).1 = K.invalidNode
    · have hstep := ih
        { s with
          stack_node := (X.traverse_single_occluded NodeBase.top
            root 1 (s.ray16.org i)
            (s.ray16.dir i) (s.ray16.tnear i) (s.ray16.tfar i)
            (Function.update s.stack_node 1 root) K.leaf_mask).2.2
          sindex := (X.traverse_single_occluded NodeBase.top
            root 1 (s.ray16.org i)
            (s.ray16.dir i) (s.ray16.tnear i) (s.ray16.tfar i)
            (Function.update s.stack_node 1 root) K.leaf_mask).2.1
          log := s.log ++ [TravEvent.pop false i (s.ray16.tfar i) (s.ray16.tfar i)
            K.invalidNode] } hterm
      simp only [occludedLoop, occludedWalk, h21, Function.update_same, hy, if_true,
        hall _ hterm, Bool.false_eq_true, if_false]
      obtain ⟨h1, h2, ⟨ys, h3, h4, h5⟩, h6⟩ := hstep
      refine ⟨h1, h2, ⟨K.invalidNode :: ys, ?_, ?_, ?_⟩, ?_⟩
      · rw [h3]; simp [yields_append, yields]
      · rw [h4]; simp
      · rw [h5]; simp
      · intro hr
        rw [h6 hr]; simp [poppedLanes_append, poppedLanes]
    · simp only [occludedLoop, occludedWalk, h21, Function.update_same, hy, if_false]
      refine ⟨rfl, rfl, ⟨[(X.traverse_single_occluded NodeBase.top
        root 1 (s.ray16.org i) (s.ray16.dir i)
        (s.ray16.tnear i) (s.ray16.tfar i) (Function.update s.stack_node 1 root)
        K.leaf_mask).1], ?_, ?_, ?_⟩, ?_⟩
      · simp [yields_append, yields]
      · simp [hy]
      · simp [hy]
      · simp
theorem ray16_geomID_eta {α : Type} (r : Ray16 α) : { r with geomID := r.geomID } = r := by
  cases r; rfl

theorem mem_maskLanes {m : Nat → Bool} {l : Nat} :
    l ∈ maskLanes m ↔ l < 16 ∧ m l = true := by
  simp [maskLanes]

/-- The packet `occluded` writes nothing: the packet and the mask `terminated` end as
they began, and the call is fatal exactly when some call of the traversal primitive
yields a reference other than the sentinel. -/
theorem occluded_packet_spec {α γ : Type} (K : BVH4iEncoding) (X : Traversal α γ)
    (U : Uninit α) (valid_i : Nat → Nat) (bvh : BVH4i α γ) (ray16 : Ray16 α) :
    (BVH4iIntersector16Subdiv.occluded K X U valid_i bvh ray16).1.ray16 = ray16 ∧
    (BVH4iIntersector16Subdiv.occluded K X U valid_i bvh ray16).1.terminated =
      (fun l => !validMask valid_i l) ∧
    ((BVH4iIntersector16Subdiv.occluded K X U valid_i bvh ray16).2 = Status.fatal ↔
      ∃ y ∈ yields (BVH4iIntersector16Subdiv.occluded K X U valid_i bvh ray16).1.log,
        y ≠ K.invalidNode) ∧
    ((BVH4iIntersector16Subdiv.occluded K X U valid_i bvh ray16).2 = Status.returned ↔
      ∀ y ∈ yields (BVH4iIntersector16Subdiv.occluded K X U valid_i bvh ray16).1.log,
        y = K.invalidNode) ∧
    ((BVH4iIntersector16Subdiv.occluded K X U valid_i bvh ray16).2 = Status.returned →
      poppedLanes (BVH4iIntersector16Subdiv.occluded K X U valid_i bvh ray16).1.log =
        maskLanes (validMask valid_i)) := by
  have key : ∀ s : OccState α, s.ray16 = ray16 →
      s.terminated = (fun l => !validMask valid_i l) → s.log = [] →
      (occludedLoop K X bvh.root (maskLanes (validMask valid_i)) s).1.ray16 = ray16 ∧
      (occludedLoop K X bvh.root (maskLanes (validMask valid_i)) s).1.terminated =
        (fun l => !validMask valid_i l) ∧
      ((occludedLoop K X bvh.root (maskLanes (validMask valid_i)) s).2 = Status.fatal ↔
        ∃ y ∈ yields (occludedLoop K X bvh.root (maskLanes (validMask valid_i)) s).1.log,
          y ≠ K.invalidNode) ∧
      ((occludedLoop K X bvh.root (maskLanes (validMask valid_i)) s).2 = Status.returned ↔
        ∀ y ∈ yields (occludedLoop K X bvh.root (maskLanes (validMask valid_i)) s).1.log,
          y = K.invalidNode) ∧
      ((occludedLoop K X bvh.root (maskLanes (validMask valid_i)) s).2 = Status.returned →
        poppedLanes (occludedLoop K X bvh.root (maskLanes (validMask valid_i)) s).1.log =
          maskLanes (validMask valid_i)) := by
    intro s hs ht hl
    cases hm : maskLanes (validMask valid_i) with
    | nil => simp [occludedLoop, hs, ht, hl, yields, poppedLanes]
    | cons i rest =>
      have hi : i ∈ maskLanes (validMask valid_i) := by rw [hm]; simp
      rw [mem_maskLanes] at hi
      have hterm : ∃ l ∈ List.range 16, s.terminated l = false :=
        ⟨i, List.mem_range.2 hi.1, by rw [ht]; simp [hi.2]⟩
      obtain ⟨h1, h2, ⟨ys, h3, h4, h5⟩, h6⟩ :=
        occludedLoop_spec K X bvh.root (i :: rest) s hterm
      rw [hl] at h3 h6
      simp only [yields, poppedLanes, List.nil_append] at h3 h6
      rw [h3]
      exact ⟨h1.trans hs, h2.trans ht, h4, h5, h6⟩
  obtain ⟨h1, h2, h3, h4, h5⟩ := key
    { ray16 := ray16
      stack_node := Function.update U.stack_node 0 K.invalidNode
      sindex := 0
      terminated := fun l => !validMask valid_i l
      log := [] } rfl rfl rfl
  unfold BVH4iIntersector16Subdiv.occluded
  dsimp only
  split
  · rename_i hret
    refine ⟨?_, h2, ?_, ?_, fun _ => h5 hret⟩
    · simp only [h2, Bool.and_not_self, Bool.false_eq_true, if_false]
      rw [ray16_geomID_eta, h1]
    · constructor
      · intro h; cases h
      · intro h
        rw [← h3] at h
        rw [hret] at h
        cases h
    · exact ⟨fun _ => h4.1 hret, fun _ => rfl⟩
  · exact ⟨h1, h2, h3, h4, h5⟩

/-- The single-ray `intersect` with `SubdivLeafIntersector` runs one round: it
returns if the traversal primitive yields the sentinel and is fatal otherwise. -/
theorem scalarWalk_subdiv {α γ : Type} (K : BVH4iEncoding) (X : Traversal α γ)
    (accel : Nat → SubdivPatch1 α γ) (dir_xyz org_xyz : Vec3 α) (min_dist_xyz : α)
    (fuel : Nat) (s : ScalarState α) :
    scalarWalk K X (SubdivLeafIntersector α γ) accel dir_xyz org_xyz min_dist_xyz (fuel + 1) s =
      ({ s with
          stack_node := (X.traverse_single_intersect NodeBase.top
            (s.stack_node (s.sindex - 1)) (s.sindex - 1) org_xyz dir_xyz min_dist_xyz
            s.max_dist_xyz s.stack_node s.stack_dist K.leaf_mask).stack_node
          stack_dist := (X.traverse_single_intersect NodeBase.top
            (s.stack_node (s.sindex - 1)) (s.sindex - 1) org_xyz dir_xyz min_dist_xyz
            s.max_dist_xyz s.stack_node s.stack_dist K.leaf_mask).stack_dist
          sindex := (X.traverse_single_intersect NodeBase.top
            (s.stack_node (s.sindex - 1)) (s.sindex - 1) org_xyz dir_xyz min_dist_xyz
            s.max_dist_xyz s.stack_node s.stack_dist K.leaf_mask).sindex
          log := s.log ++ [TravEvent.pop false 0 s.max_dist_xyz s.ray.tfar
            (X.traverse_single_intersect NodeBase.top
              (s.stack_node (s.sindex - 1)) (s.sindex - 1) org_xyz dir_xyz min_dist_xyz
              s.max_dist_xyz s.stack_node s.stack_dist K.leaf_mask).curNode] },
        if (X.traverse_single_intersect NodeBase.top
            (s.stack_node (s.sindex - 1)) (s.sindex - 1) org_xyz dir_xyz min_dist_xyz
            s.max_dist_xyz s.stack_node s.stack_dist K.leaf_mask).curNode = K.invalidNode
        then Status.returned else Status.fatal) := by
  simp only [scalarWalk, SubdivLeafIntersector]
  split <;> rfl

/-- The single-ray `occluded` with `SubdivLeafIntersector` runs one round. -/
theorem scalarOccludedWalk_subdiv {α γ : Type} (K : BVH4iEncoding) (X : Traversal α γ)
    (accel : Nat → SubdivPatch1 α γ) (dir_xyz org_xyz : Vec3 α)
    (min_dist_xyz max_dist_xyz : α) (fuel : Nat) (s : ScalarOccState α) :
    scalarOccludedWalk K X (SubdivLeafIntersector α γ) accel dir_xyz org_xyz min_dist_xyz
        max_dist_xyz (fuel + 1) s =
      ({ s with
          stack_node := (X.traverse_single_occluded NodeBase.top
            (s.stack_node (s.sindex - 1)) (s.sindex - 1) org_xyz dir_xyz min_dist_xyz
            max_dist_xyz s.stack_node K.leaf_mask).2.2
          sindex := (X.traverse_single_occluded NodeBase.top
            (s.stack_node (s.sindex - 1)) (s.sindex - 1) org_xyz dir_xyz min_dist_xyz
            max_dist_xyz s.stack_node K.leaf_mask).2.1
          log := s.log ++ [TravEvent.pop false 0 max_dist_xyz s.ray.tfar
            (X.traverse_single_occluded NodeBase.top
              (s.stack_node (s.sindex - 1)) (s.sindex - 1) org_xyz dir_xyz min_dist_xyz
              max_dist_xyz s.stack_node K.leaf_mask).1] },
        if (X.traverse_single_occluded NodeBase.top
            (s.stack_node (s.sindex - 1)) (s.sindex - 1) org_xyz dir_xyz min_dist_xyz
            max_dist_xyz s.stack_node K.leaf_mask).1 = K.invalidNode
        then Status.returned else Status.fatal) := by
  simp only [scalarOccludedWalk, SubdivLeafIntersector]
  split <;> rfl

/-- C17. Unimplemented leaf handler: the single-ray `intersect` and `occluded` with
`SubdivLeafIntersector` (given fuel for one round) and the packet `occluded` end
fatally if and only if some call of the stack-traversal primitive for a processed ray
yields a reference other than the sentinel `invalidNode`; they return if and only if
every such call yields the sentinel (no other ending occurs), and then the ray or
packet is as it was on entry, the packet form having called the primitive exactly for
the valid lanes. -/
theorem unimplemented_leaf_handler_fatal {α γ : Type} (K : BVH4iEncoding)
    (X : Traversal α γ) (E : Externals α) (U : Uninit α) (fuel : Nat)
    (accel : Nat → SubdivPatch1 α γ) (bvh : BVH4i α γ) (ray : Ray α)
    (valid_i : Nat → Nat) (ray16 : Ray16 α) :
    (((BVH4iIntersector1Subdiv.intersect K X E U (SubdivLeafIntersector α γ) (fuel + 1) accel
          bvh ray).2 = Status.fatal ↔
        ∃ y ∈ yields (BVH4iIntersector1Subdiv.intersect K X E U (SubdivLeafIntersector α γ)
          (fuel + 1) accel bvh ray).1.log, y ≠ K.invalidNode) ∧
      ((BVH4iIntersector1Subdiv.intersect K X E U (SubdivLeafIntersector α γ) (fuel + 1) accel
          bvh ray).2 = Status.returned ↔
        ∀ y ∈ yields (BVH4iIntersector1Subdiv.intersect K X E U (SubdivLeafIntersector α γ)
          (fuel + 1) accel bvh ray).1.log, y = K.invalidNode) ∧
      yields (BVH4iIntersector1Subdiv.intersect K X E U (SubdivLeafIntersector α γ)
        (fuel + 1) accel bvh ray).1.log ≠ [] ∧
      ((BVH4iIntersector1Subdiv.intersect K X E U (SubdivLeafIntersector α γ) (fuel + 1) accel
          bvh ray).2 = Status.returned →
        (BVH4iIntersector1Subdiv.intersect K X E U (SubdivLeafIntersector α γ) (fuel + 1)
          accel bvh ray).1.ray = ray)) ∧
    (((BVH4iIntersector1Subdiv.occluded K X U (SubdivLeafIntersector α γ) (fuel + 1) accel
          bvh ray).2 = Status.fatal ↔
        ∃ y ∈ yields (BVH4iIntersector1Subdiv.occluded K X U (SubdivLeafIntersector α γ)
          (fuel + 1) accel bvh ray).1.log, y ≠ K.invalidNode) ∧
      ((BVH4iIntersector1Subdiv.occluded K X U (SubdivLeafIntersector α γ) (fuel + 1) accel
          bvh ray).2 = Status.returned ↔
        ∀ y ∈ yields (BVH4iIntersector1Subdiv.occluded K X U (SubdivLeafIntersector α γ)
          (fuel + 1) accel bvh ray).1.log, y = K.invalidNode) ∧
      yields (BVH4iIntersector1Subdiv.occluded K X U (SubdivLeafIntersector α γ)
        (fuel + 1) accel bvh ray).1.log ≠ [] ∧
      ((BVH4iIntersector1Subdiv.occluded K X U (SubdivLeafIntersector α γ) (fuel + 1) accel
          bvh ray).2 = Status.returned →
        (BVH4iIntersector1Subdiv.occluded K X U (SubdivLeafIntersector α γ) (fuel + 1)
          accel bvh ray).1.ray = ray)) ∧
    (((BVH4iIntersector16Subdiv.occluded K X U valid_i bvh ray16).2 = Status.fatal ↔
        ∃ y ∈ yields (BVH4iIntersector16Subdiv.occluded K X U valid_i bvh ray16).1.log,
          y ≠ K.invalidNode) ∧
      ((BVH4iIntersector16Subdiv.occluded K X U valid_i bvh ray16).2 = Status.returned ↔
        ∀ y ∈ yields (BVH4iIntersector16Subdiv.occluded K X U valid_i bvh ray16).1.log,
          y = K.invalidNode) ∧
      ((BVH4iIntersector16Subdiv.occluded K X U valid_i bvh ray16).2 = Status.returned →
        (BVH4iIntersector16Subdiv.occluded K X U valid_i bvh ray16).1.ray16 = ray16 ∧
          poppedLanes (BVH4iIntersector16Subdiv.occluded K X U valid_i bvh ray16).1.log =
            maskLanes (validMask valid_i))) := by
  refine ⟨?_, ?_, ?_⟩
  · unfold BVH4iIntersector1Subdiv.intersect
    rw [scalarWalk_subdiv]
    simp only [show (2 : Nat) - 1 = 1 from rfl, Function.update_same]
    split <;> rename_i h <;> simp [yields, h]
  · unfold BVH4iIntersector1Subdiv.occluded
    rw [scalarOccludedWalk_subdiv]
    simp only [show (2 : Nat) - 1 = 1 from rfl, Function.update_same]
    split <;> rename_i h <;> simp [yields, h]
  · obtain ⟨h1, -, h3, h4, h5⟩ := occluded_packet_spec K X U valid_i bvh ray16
    exact ⟨h3, h4, fun h => ⟨h1, h5 h⟩⟩

/-! ## Occlusion queries -/

/-- The single-ray `occluded` writes at most the blocked marker, provided the leaf
intersector leaves the ray alone. -/
theorem scalarOccludedWalk_ray {α γ : Type} (K : BVH4iEncoding) (X : Traversal α γ)
    (L : LeafIntersector α γ) (accel : Nat → SubdivPatch1 α γ) (dir_xyz org_xyz : Vec3 α)
    (min_dist_xyz max_dist_xyz : α)
    (hL : ∀ cur d o mn mx ray a r, L.occluded cur d o mn mx ray a = some r → r.2 = ray)
    (fuel : Nat) (s : ScalarOccState α) :
    (scalarOccludedWalk K X L accel dir_xyz org_xyz min_dist_xyz max_dist_xyz fuel s).1.ray =
        s.ray ∨
      (scalarOccludedWalk K X L accel dir_xyz org_xyz min_dist_xyz max_dist_xyz fuel s).1.ray =
        { s.ray with geomID := 0 } := by
  induction fuel generalizing s with
  | zero => exact Or.inl rfl
  | succ fuel ih =>
    simp only [scalarOccludedWalk]
    split
    · exact Or.inl rfl
    · split
      · exact Or.inl rfl
      · rename_i r hr
        have hray := hL _ _ _ _ _ _ _ _ hr
        split
        · right
          dsimp only
          rw [hray]
        · have h := ih
            { s with
              stack_node := (X.traverse_single_occluded NodeBase.top
                (s.stack_node (s.sindex - 1)) (s.sindex - 1) org_xyz dir_xyz min_dist_xyz
                max_dist_xyz s.stack_node K.leaf_mask).2.2
              sindex := (X.traverse_single_occluded NodeBase.top
                (s.stack_node (s.sindex - 1)) (s.sindex - 1) org_xyz dir_xyz min_dist_xyz
                max_dist_xyz s.stack_node K.leaf_mask).2.1
              log := s.log ++ [TravEvent.pop false 0 max_dist_xyz s.ray.tfar
                (X.traverse_single_occluded NodeBase.top
                  (s.stack_node (s.sindex - 1)) (s.sindex - 1) org_xyz dir_xyz min_dist_xyz
                  max_dist_xyz s.stack_node K.leaf_mask).1]
              ray := r.2 }
          dsimp only at h ⊢
          rw [hray] at h ⊢
          exact h

/-- C14. Occlusion touches only the blocked marker: the packet `occluded` leaves the
whole packet as it was on entry (so every field other than `geomID` is unchanged, no
`geomID` is changed, and no lane that is not valid is written), and the single-ray
`occluded`, with a leaf intersector that leaves the ray alone, leaves the ray as it was
or as it was but for `geomID = 0`; both hold however the call ends. -/
theorem occluded_touches_only_geomID {α γ : Type} (K : BVH4iEncoding) (X : Traversal α γ)
    (U : Uninit α) (L : LeafIntersector α γ)
    (hL : ∀ cur d o mn mx ray a r, L.occluded cur d o mn mx ray a = some r → r.2 = ray)
    (valid_i : Nat → Nat) (bvh16 : BVH4i α γ) (ray16 : Ray16 α)
    (fuel : Nat) (accel : Nat → SubdivPatch1 α γ) (bvh : BVH4i α γ) (ray : Ray α) :
    (BVH4iIntersector16Subdiv.occluded K X U valid_i bvh16 ray16).1.ray16 = ray16 ∧
    ((BVH4iIntersector1Subdiv.occluded K X U L fuel accel bvh ray).1.ray = ray ∨
      (BVH4iIntersector1Subdiv.occluded K X U L fuel accel bvh ray).1.ray =
        { ray with geomID := 0 }) :=
  ⟨(occluded_packet_spec K X U valid_i bvh16 ray16).1,
    scalarOccludedWalk_ray K X L accel ray.dir ray.org ray.tnear ray.tfar hL fuel _⟩

theorem occluded_touches_only_geomID_witness :
    ((BVH4iIntersector16Subdiv.occluded sampleEncoding sampleTraversal sampleUninit laneZero
          (sampleScene 0 4294967295) (samplePacket 100)).2 = Status.returned ∧
      (BVH4iIntersector1Subdiv.occluded sampleEncoding sampleTraversal sampleUninit
          sampleLeafIntersector 4 smallPatches (sampleScene 0 8) (sampleRay 100)).2 =
        Status.returned) ∧
    (BVH4iIntersector16Subdiv.occluded sampleEncoding sampleTraversal sampleUninit laneZero
        (sampleScene 0 4294967295) (samplePacket 100)).1.ray16 = samplePacket 100 ∧
    ((BVH4iIntersector1Subdiv.occluded sampleEncoding sampleTraversal sampleUninit
          sampleLeafIntersector 4 smallPatches (sampleScene 0 8) (sampleRay 100)).1.ray =
        sampleRay 100 ∨
      (BVH4iIntersector1Subdiv.occluded sampleEncoding sampleTraversal sampleUninit
          sampleLeafIntersector 4 smallPatches (sampleScene 0 8) (sampleRay 100)).1.ray =
        { sampleRay 100 with geomID := 0 }) :=
  ⟨⟨by decide, by decide⟩,
    occluded_touches_only_geomID sampleEncoding sampleTraversal sampleUninit
      sampleLeafIntersector (fun _ _ _ _ _ _ _ _ h => by cases h; rfl) laneZero
      (sampleScene 0 4294967295) (samplePacket 100) 4 smallPatches (sampleScene 0 8)
      (sampleRay 100)⟩

/-- C15 (the code at the failing input). On a packet whose lane 0 hits the patch under
the root at distance 5, within its interval from 0 to 100 (`intersect` returns with
that hit), `occluded` ends in `FATAL`, with lane 0 not marked terminated and its
`geomID` still 11, not 0. -/
theorem packet_occluded_marks_blocked_counterexample :
    (BVH4iIntersector16Subdiv.intersect sampleEncoding sampleTraversal sampleExternals
        sampleUninit 4 4 20 laneZero smallPatches (sampleScene 0 8) (samplePacket 100)).2 =
      Status.returned ∧
    (BVH4iIntersector16Subdiv.intersect sampleEncoding sampleTraversal sampleExternals
        sampleUninit 4 4 20 laneZero smallPatches (sampleScene 0 8)
        (samplePacket 100)).1.ray16.tfar 0 = 5 ∧
    (BVH4iIntersector16Subdiv.occluded sampleEncoding sampleTraversal sampleUninit laneZero
        (sampleScene 0 8) (samplePacket 100)).2 = Status.fatal ∧
    (BVH4iIntersector16Subdiv.occluded sampleEncoding sampleTraversal sampleUninit laneZero
        (sampleScene 0 8) (samplePacket 100)).1.terminated 0 = false ∧
    (BVH4iIntersector16Subdiv.occluded sampleEncoding sampleTraversal sampleUninit laneZero
        (sampleScene 0 8) (samplePacket 100)).1.ray16.geomID 0 = 11 := by
  refine ⟨by decide, by decide, by decide, by decide, by decide⟩

/-- C15 (amended). The packet `occluded` has no leaf test: it ends in `FATAL` exactly
when the traversal of some valid lane yields a leaf reference, and returns exactly
when every call of the traversal primitive yields the sentinel; however it ends, no
valid lane has been marked terminated and the packet, `geomID` included, is as it was
on entry. -/
theorem packet_occluded_marks_nothing {α γ : Type} (K : BVH4iEncoding) (X : Traversal α γ)
    (U : Uninit α) (valid_i : Nat → Nat) (bvh : BVH4i α γ) (ray16 : Ray16 α) :
    ((BVH4iIntersector16Subdiv.occluded K X U valid_i bvh ray16).2 = Status.fatal ↔
      ∃ y ∈ yields (BVH4iIntersector16Subdiv.occluded K X U valid_i bvh ray16).1.log,
        y ≠ K.invalidNode) ∧
    ((BVH4iIntersector16Subdiv.occluded K X U valid_i bvh ray16).2 = Status.returned ↔
      ∀ y ∈ yields (BVH4iIntersector16Subdiv.occluded K X U valid_i bvh ray16).1.log,
        y = K.invalidNode) ∧
    (∀ l, validMask valid_i l = true →
      (BVH4iIntersector16Subdiv.occluded K X U valid_i bvh ray16).1.terminated l = false) ∧
    (BVH4iIntersector16Subdiv.occluded K X U valid_i bvh ray16).1.ray16 = ray16 := by
  obtain ⟨h1, h2, h3, h4, -⟩ := occluded_packet_spec K X U valid_i bvh ray16
  refine ⟨h3, h4, fun l hl => ?_, h1⟩
  rw [h2]
  simp [hl]

/-! ## Packet traversal: what every step keeps -/

/-- A call of `initLazySubdivTree` writes two fields of the patch at most: the root and
the build counter. -/
theorem initLazySubdivTree_patch_fields {α γ : Type} [Lattice γ] [BoundedOrder γ]
    (K : BVH4iEncoding) (E : Externals α) (fuel : Nat)
    (patch : SubdivPatch1 α γ) (bvh : BVH4i α γ) :
    ∃ root cnt, (initLazySubdivTree K E fuel patch bvh).patch =
      { patch with bvh4i_subtree_root := root, under_construction := cnt } := by
  have hb : ∀ p : SubdivPatch1 α γ, ∃ root cnt, (buildLazySubdivTree K E fuel p bvh).patch =
      { p with bvh4i_subtree_root := root, under_construction := cnt } := by
    intro p
    unfold buildLazySubdivTree
    dsimp only
    split
    · exact ⟨_, _, rfl⟩
    · split
      · exact ⟨_, _, rfl⟩
      · exact ⟨_, _, rfl⟩
  unfold initLazySubdivTree
  dsimp only
  split_ifs <;> first | exact ⟨_, _, rfl⟩ | exact hb _

theorem initLazySubdivTree_grid_size {α γ : Type} [Lattice γ] [BoundedOrder γ]
    (K : BVH4iEncoding) (E : Externals α) (fuel : Nat)
    (patch : SubdivPatch1 α γ) (bvh : BVH4i α γ) :
    (initLazySubdivTree K E fuel patch bvh).patch.grid_size_64b_blocks =
      patch.grid_size_64b_blocks := by
  obtain ⟨root, cnt, h⟩ := initLazySubdivTree_patch_fields K E fuel patch bvh
  rw [h]

theorem subWalk_inv {α γ : Type} [Lattice γ] [BoundedOrder γ] (K : BVH4iEncoding)
    (X : Traversal α γ) (E : Externals α) (buildFuel : Nat)
    (I : (Nat → SubdivPatch1 α γ) → BVH4i α γ → Ray16 α → List (TravEvent α) → Prop)
    (hI : TravInv K X E buildFuel I) (a : Nat → SubdivPatch1 α γ) (b : BVH4i α γ)
    (subdiv_patch : SubdivPatch1 α γ) (patchIndex : Nat) (lazymem : Nat → Block α γ)
    (rayIndex : Nat) (dir_xyz org_xyz : Vec3 α) (min_dist_xyz max_dist_xyz : α)
    (hp : (a patchIndex).grid_size_64b_blocks ≠ 1) (fuel : Nat) (s : SubState α)
    (h : I a b s.ray16 s.log) :
    I a b
      (subWalk K X subdiv_patch patchIndex lazymem rayIndex dir_xyz org_xyz min_dist_xyz
        max_dist_xyz fuel s).1.ray16
      (subWalk K X subdiv_patch patchIndex lazymem rayIndex dir_xyz org_xyz min_dist_xyz
        max_dist_xyz fuel s).1.log := by
  induction fuel generalizing s with
  | zero => exact h
  | succ fuel ih =>
    simp only [subWalk]
    split
    · exact hI.pop _ _ _ _ _ _ _ _ h
    · apply ih
      exact hI.leaf _ _ _ _ false _ _ _ _ _ _ _ _ _ (by simp [hp])
        (hI.pop _ _ _ _ _ _ _ _ h)

theorem ensureBuilt_inv {α γ : Type} [Lattice γ] [BoundedOrder γ] (K : BVH4iEncoding)
    (X : Traversal α γ) (E : Externals α) (buildFuel : Nat)
    (I : (Nat → SubdivPatch1 α γ) → BVH4i α γ → Ray16 α → List (TravEvent α) → Prop)
    (hI : TravInv K X E buildFuel I) (patchIndex : Nat) (st : TravState α γ)
    (hp : (st.accel patchIndex).grid_size_64b_blocks ≠ 1)
    (h : I st.accel st.bvh st.ray16 st.log) :
    I (ensureBuilt K E buildFuel patchIndex st).1.accel
        (ensureBuilt K E buildFuel patchIndex st).1.bvh
        (ensureBuilt K E buildFuel patchIndex st).1.ray16
        (ensureBuilt K E buildFuel patchIndex st).1.log ∧
      ((ensureBuilt K E buildFuel patchIndex st).1.accel patchIndex).grid_size_64b_blocks ≠ 1 := by
  unfold ensureBuilt
  split
  · rename_i hroot
    refine ⟨hI.build _ _ _ _ patchIndex hp hroot h, ?_⟩
    dsimp only
    rw [Function.update_same, initLazySubdivTree_grid_size]
    exact hp
  · exact ⟨h, hp⟩

theorem visitLargePatch_inv {α γ : Type} [Lattice γ] [BoundedOrder γ] (K : BVH4iEncoding)
    (X : Traversal α γ) (E : Externals α) (U : Uninit α) (subFuel buildFuel : Nat)
    (I : (Nat → SubdivPatch1 α γ) → BVH4i α γ → Ray16 α → List (TravEvent α) → Prop)
    (hI : TravInv K X E buildFuel I) (patchIndex rayIndex : Nat) (dir_xyz org_xyz : Vec3 α)
    (min_dist_xyz max_dist_xyz : α) (st : TravState α γ)
    (hp : (st.accel patchIndex).grid_size_64b_blocks ≠ 1)
    (h : I st.accel st.bvh st.ray16 st.log) :
    I (visitLargePatch K X E U subFuel buildFuel patchIndex rayIndex dir_xyz org_xyz
        min_dist_xyz max_dist_xyz st).1.accel
      (visitLargePatch K X E U subFuel buildFuel patchIndex rayIndex dir_xyz org_xyz
        min_dist_xyz max_dist_xyz st).1.bvh
      (visitLargePatch K X E U subFuel buildFuel patchIndex rayIndex dir_xyz org_xyz
        min_dist_xyz max_dist_xyz st).1.ray16
      (visitLargePatch K X E U subFuel buildFuel patchIndex rayIndex dir_xyz org_xyz
        min_dist_xyz max_dist_xyz st).1.log := by
  obtain ⟨h1, h2⟩ := ensureBuilt_inv K X E buildFuel I hI patchIndex st hp h
  unfold visitLargePatch
  dsimp only
  split
  · apply subWalk_inv K X E buildFuel I hI _ _ _ patchIndex _ rayIndex dir_xyz org_xyz
      min_dist_xyz max_dist_xyz h2 subFuel
    exact h1
  · exact h1

theorem visitLeaf_inv {α γ : Type} [Lattice γ] [BoundedOrder γ] (K : BVH4iEncoding)
    (X : Traversal α γ) (E : Externals α) (U : Uninit α) (subFuel buildFuel : Nat)
    (I : (Nat → SubdivPatch1 α γ) → BVH4i α γ → Ray16 α → List (TravEvent α) → Prop)
    (hI : TravInv K X E buildFuel I) (patchIndex rayIndex : Nat) (dir_xyz org_xyz : Vec3 α)
    (min_dist_xyz max_dist_xyz : α) (st : TravState α γ)
    (h : I st.accel st.bvh st.ray16 st.log) :
    I (visitLeaf K X E U subFuel buildFuel patchIndex rayIndex dir_xyz org_xyz
        min_dist_xyz max_dist_xyz st).1.accel
      (visitLeaf K X E U subFuel buildFuel patchIndex rayIndex dir_xyz org_xyz
        min_dist_xyz max_dist_xyz st).1.bvh
      (visitLeaf K X E U subFuel buildFuel patchIndex rayIndex dir_xyz org_xyz
        min_dist_xyz max_dist_xyz st).1.ray16
      (visitLeaf K X E U subFuel buildFuel patchIndex rayIndex dir_xyz org_xyz
        min_dist_xyz max_dist_xyz st).1.log := by
  unfold visitLeaf
  split
  · rename_i hsmall
    simp only [intersectEvalGrid1, if_pos hsmall]
    exact hI.leaf _ _ _ _ true _ _ _ _ _ _ _ _ _ (by simp [hsmall]) h
  · rename_i hlarge
    exact visitLargePatch_inv K X E U subFuel buildFuel I hI patchIndex rayIndex dir_xyz
      org_xyz min_dist_xyz max_dist_xyz st hlarge h

theorem topWalk_inv {α γ : Type} [Lattice γ] [BoundedOrder γ] (K : BVH4iEncoding)
    (X : Traversal α γ) (E : Externals α) (U : Uninit α) (subFuel buildFuel : Nat)
    (I : (Nat → SubdivPatch1 α γ) → BVH4i α γ → Ray16 α → List (TravEvent α) → Prop)
    (hI : TravInv K X E buildFuel I) (rayIndex : Nat) (dir_xyz org_xyz : Vec3 α)
    (min_dist_xyz max_dist_xyz : α) (fuel : Nat) (st : TravState α γ)
    (h : I st.accel st.bvh st.ray16 st.log) :
    I (topWalk K X E U subFuel buildFuel rayIndex dir_xyz org_xyz min_dist_xyz max_dist_xyz
        fuel st).1.accel
      (topWalk K X E U subFuel buildFuel rayIndex dir_xyz org_xyz min_dist_xyz max_dist_xyz
        fuel st).1.bvh
      (topWalk K X E U subFuel buildFuel rayIndex dir_xyz org_xyz min_dist_xyz max_dist_xyz
        fuel st).1.ray16
      (topWalk K X E U subFuel buildFuel rayIndex dir_xyz org_xyz min_dist_xyz max_dist_xyz
        fuel st).1.log := by
  induction fuel generalizing st with
  | zero => exact h
  | succ fuel ih =>
    have hpop := hI.pop _ _ _ _ false rayIndex max_dist_xyz
      (X.traverse_single_intersect NodeBase.top (st.stack_node (st.sindex - 1))
        (st.sindex - 1) org_xyz dir_xyz min_dist_xyz max_dist_xyz st.stack_node st.stack_dist
        K.leaf_mask).curNode h
    simp only [topWalk]
    split
    · exact hpop
    · have hv := visitLeaf_inv K X E U subFuel buildFuel I hI
        (offsetIndex K (X.traverse_single_intersect NodeBase.top
          (st.stack_node (st.sindex - 1)) (st.sindex - 1) org_xyz dir_xyz min_dist_xyz
          max_dist_xyz st.stack_node st.stack_dist K.leaf_mask).curNode)
        rayIndex dir_xyz org_xyz min_dist_xyz max_dist_xyz
        { st with
          stack_node := (X.traverse_single_intersect NodeBase.top
            (st.stack_node (st.sindex - 1)) (st.sindex - 1) org_xyz dir_xyz min_dist_xyz
            max_dist_xyz st.stack_node st.stack_dist K.leaf_mask).stack_node
          stack_dist := (X.traverse_single_intersect NodeBase.top
            (st.stack_node (st.sindex - 1)) (st.sindex - 1) org_xyz dir_xyz min_dist_xyz
            max_dist_xyz st.stack_node st.stack_dist K.leaf_mask).stack_dist
          sindex := (X.traverse_single_intersect NodeBase.top
            (st.stack_node (st.sindex - 1)) (st.sindex - 1) org_xyz dir_xyz min_dist_xyz
            max_dist_xyz st.stack_node st.stack_dist K.leaf_mask).sindex
          log := st.log ++ [TravEvent.pop false rayIndex max_dist_xyz (st.ray16.tfar rayIndex)
            (X.traverse_single_intersect NodeBase.top
              (st.stack_node (st.sindex - 1)) (st.sindex - 1) org_xyz dir_xyz min_dist_xyz
              max_dist_xyz st.stack_node st.stack_dist K.leaf_mask).curNode] }
        hpop
      split
      · apply ih
        exact hv
      · exact hv

theorem rayLoop_inv {α γ : Type} [Lattice γ] [BoundedOrder γ] (K : BVH4iEncoding)
    (X : Traversal α γ) (E : Externals α) (U : Uninit α) (fuel subFuel buildFuel : Nat)
    (I : (Nat → SubdivPatch1 α γ) → BVH4i α γ → Ray16 α → List (TravEvent α) → Prop)
    (hI : TravInv K X E buildFuel I) (lanes : List Nat) (st : TravState α γ)
    (h : I st.accel st.bvh st.ray16 st.log) :
    I (rayLoop K X E U fuel subFuel buildFuel lanes st).1.accel
      (rayLoop K X E U fuel subFuel buildFuel lanes st).1.bvh
      (rayLoop K X E U fuel subFuel buildFuel lanes st).1.ray16
      (rayLoop K X E U fuel subFuel buildFuel lanes st).1.log := by
  induction lanes generalizing st with
  | nil => exact h
  | cons i rest ih =>
    have hw := topWalk_inv K X E U subFuel buildFuel I hI i (st.ray16.dir i) (st.ray16.org i)
      (st.ray16.tnear i) (st.ray16.tfar i) fuel
      { st with stack_node := Function.update st.stack_node 1 st.bvh.root, sindex := 2 } h
    simp only [rayLoop]
    split
    · exact ih _ hw
    · exact hw

/-- A property that holds of the packet after the set-up, with an empty record, and that
every step keeps, holds of the state the traversal ends in, however it ends. -/
theorem traversePacket_inv {α γ : Type} [Lattice γ] [BoundedOrder γ] (K : BVH4iEncoding)
    (X : Traversal α γ) (E : Externals α) (U : Uninit α) (fuel subFuel buildFuel : Nat)
    (I : (Nat → SubdivPatch1 α γ) → BVH4i α γ → Ray16 α → List (TravEvent α) → Prop)
    (hI : TravInv K X E buildFuel I) (valid_i : Nat → Nat)
    (accel : Nat → SubdivPatch1 α γ) (bvh : BVH4i α γ) (ray16 : Ray16 α)
    (h : I accel bvh (setupPacket K E U valid_i accel bvh ray16).ray16 []) :
    I (traversePacket K X E U fuel subFuel buildFuel valid_i accel bvh ray16).1.accel
      (traversePacket K X E U fuel subFuel buildFuel valid_i accel bvh ray16).1.bvh
      (traversePacket K X E U fuel subFuel buildFuel valid_i accel bvh ray16).1.ray16
      (traversePacket K X E U fuel subFuel buildFuel valid_i accel bvh ray16).1.log :=
  rayLoop_inv K X E U fuel subFuel buildFuel I hI _ _ h

/-! ## Packet traversal: small patches -/

theorem builds_append {α : Type} (a b : List (TravEvent α)) :
    builds (a ++ b) = builds a ++ builds b := by
  induction a with
  | nil => rfl
  | cons e rest ih => cases e <;> simp [builds, ih]

theorem initLazySubdivTree_used_le {α γ : Type} [Lattice γ] [BoundedOrder γ]
    (K : BVH4iEncoding) (E : Externals α) (fuel : Nat)
    (patch : SubdivPatch1 α γ) (bvh : BVH4i α γ) :
    (initLazySubdivTree K E fuel patch bvh).bvh.lazyMemUsed64BytesBlocks ≤
      bvh.lazyMemUsed64BytesBlocks + patch.grid_size_64b_blocks := by
  obtain ⟨-, h1, h2, -⟩ := initLazySubdivTree_counters K E fuel patch bvh
  cases hf : (initLazySubdivTree K E fuel patch bvh).isFatal with
  | true => exact le_of_eq (h1 hf).1
  | false =>
    rcases h2 hf with h | h
    · omega
    · exact le_of_eq h.1

/-- What the packet traversal keeps about the patch table and the arena: the grid sizes,
the records of the patches it called no build for, that it calls a build only for
patches of more than one block and tests a patch through `intersectEvalGrid1` exactly
if it is of one block, and that the arena changes by builds only. -/
theorem traversePacket_builds {α γ : Type} [Lattice γ] [BoundedOrder γ] (K : BVH4iEncoding)
    (X : Traversal α γ) (E : Externals α) (U : Uninit α) (fuel subFuel buildFuel : Nat)
    (valid_i : Nat → Nat) (accel : Nat → SubdivPatch1 α γ) (bvh : BVH4i α γ)
    (ray16 : Ray16 α) :
    (∀ q, ((traversePacket K X E U fuel subFuel buildFuel valid_i accel bvh ray16).1.accel
        q).grid_size_64b_blocks = (accel q).grid_size_64b_blocks) ∧
    (∀ q, q ∉ builds (traversePacket K X E U fuel subFuel buildFuel valid_i accel bvh
        ray16).1.log →
      (traversePacket K X E U fuel subFuel buildFuel valid_i accel bvh ray16).1.accel q =
        accel q) ∧
    (∀ q ∈ builds (traversePacket K X E U fuel subFuel buildFuel valid_i accel bvh
        ray16).1.log, (accel q).grid_size_64b_blocks ≠ 1) ∧
    (∀ g i q bf af, TravEvent.leafTest g i q bf af ∈
        (traversePacket K X E U fuel subFuel buildFuel valid_i accel bvh ray16).1.log →
      (g = true ↔ (accel q).grid_size_64b_blocks = 1)) ∧
    (traversePacket K X E U fuel subFuel buildFuel valid_i accel bvh
        ray16).1.bvh.lazyMemUsed64BytesBlocks ≤
      bvh.lazyMemUsed64BytesBlocks +
        ((builds (traversePacket K X E U fuel subFuel buildFuel valid_i accel bvh
          ray16).1.log).map (fun q => (accel q).grid_size_64b_blocks)).sum ∧
    (builds (traversePacket K X E U fuel subFuel buildFuel valid_i accel bvh ray16).1.log =
        [] →
      (traversePacket K X E U fuel subFuel buildFuel valid_i accel bvh ray16).1.bvh = bvh) := by
  apply traversePacket_inv K X E U fuel subFuel buildFuel
    (fun a b _ lg =>
      (∀ q, (a q).grid_size_64b_blocks = (accel q).grid_size_64b_blocks) ∧
      (∀ q, q ∉ builds lg → a q = accel q) ∧
      (∀ q ∈ builds lg, (accel q).grid_size_64b_blocks ≠ 1) ∧
      (∀ g i q bf af, TravEvent.leafTest g i q bf af ∈ lg →
        (g = true ↔ (accel q).grid_size_64b_blocks = 1)) ∧
      b.lazyMemUsed64BytesBlocks ≤ bvh.lazyMemUsed64BytesBlocks +
        ((builds lg).map (fun q => (accel q).grid_size_64b_blocks)).sum ∧
      (builds lg = [] → b = bvh))
  · constructor
    · rintro a b r lg sub i m y ⟨h1, h2, h3, h4, h5, h6⟩
      simp only [builds_append, builds, List.append_nil]
      refine ⟨h1, h2, h3, ?_, h5, h6⟩
      intro g i q bf af hmem
      simp only [List.mem_append, List.mem_singleton] at hmem
      rcases hmem with hmem | hmem
      · exact h4 g i q bf af hmem
      · cases hmem
    · rintro a b r lg p hp hroot ⟨h1, h2, h3, h4, h5, h6⟩
      simp only [builds_append, builds]
      refine ⟨?_, ?_, ?_, ?_, ?_, ?_⟩
      · intro q
        by_cases hq : q = p
        · subst hq
          rw [Function.update_same, initLazySubdivTree_grid_size]
          exact h1 q
        · rw [Function.update_noteq hq]
          exact h1 q
      · intro q hq
        simp only [List.mem_append, List.mem_singleton, not_or] at hq
        rw [Function.update_noteq hq.2]
        exact h2 q hq.1
      · intro q hq
        simp only [List.mem_append, List.mem_singleton] at hq
        rcases hq with hq | hq
        · exact h3 q hq
        · subst hq
          rw [← h1 q]
          exact hp
      · intro g i q bf af hmem
        simp only [List.mem_append, List.mem_singleton] at hmem
        rcases hmem with hmem | hmem
        · exact h4 g i q bf af hmem
        · cases hmem
      · have hu := initLazySubdivTree_used_le K E buildFuel (a p) b
        rw [h1 p] at hu
        simp only [List.map_append, List.sum_append, List.map_cons, List.map_nil,
          List.sum_cons, List.sum_nil]
        omega
      · intro h
        simp at h
    · rintro a b r lg g i p d o vtx uu vv res m hg ⟨h1, h2, h3, h4, h5, h6⟩
      simp only [builds_append, builds, List.append_nil]
      refine ⟨h1, h2, h3, ?_, h5, h6⟩
      intro g' i' q bf af hmem
      simp only [List.mem_append, List.mem_singleton] at hmem
      rcases hmem with hmem | hmem
      · exact h4 g' i' q bf af hmem
      · rw [h1 p] at hg
        cases hmem
        exact hg
  · exact ⟨fun _ => rfl, fun _ _ => rfl, fun q hq => by simp [builds] at hq,
      fun g i q bf af hmem => by simp at hmem, by simp [builds], fun _ => rfl⟩

/-- The post-pass leaves the patch table, the arena and the record alone. -/
theorem intersect_state {α γ : Type} [Lattice γ] [BoundedOrder γ]
    [One α] [Add α] [Sub α] [Mul α]
    (K : BVH4iEncoding) (X : Traversal α γ) (E : Externals α) (U : Uninit α)
    (fuel subFuel buildFuel : Nat) (valid_i : Nat → Nat)
    (accel : Nat → SubdivPatch1 α γ) (bvh : BVH4i α γ) (ray16 : Ray16 α) :
    (BVH4iIntersector16Subdiv.intersect K X E U fuel subFuel buildFuel valid_i accel bvh
        ray16).1.accel =
      (traversePacket K X E U fuel subFuel buildFuel valid_i accel bvh ray16).1.accel ∧
    (BVH4iIntersector16Subdiv.intersect K X E U fuel subFuel buildFuel valid_i accel bvh
        ray16).1.bvh =
      (traversePacket K X E U fuel subFuel buildFuel valid_i accel bvh ray16).1.bvh ∧
    (BVH4iIntersector16Subdiv.intersect K X E U fuel subFuel buildFuel valid_i accel bvh
        ray16).1.log =
      (traversePacket K X E U fuel subFuel buildFuel valid_i accel bvh ray16).1.log ∧
    (BVH4iIntersector16Subdiv.intersect K X E U fuel subFuel buildFuel valid_i accel bvh
        ray16).2 =
      (traversePacket K X E U fuel subFuel buildFuel valid_i accel bvh ray16).2 ∧
    (BVH4iIntersector16Subdiv.intersect K X E U fuel subFuel buildFuel valid_i accel bvh
        ray16).1.ray16 =
      if (traversePacket K X E U fuel subFuel buildFuel valid_i accel bvh ray16).2 =
          Status.returned then
        postPass valid_i
          (traversePacket K X E U fuel subFuel buildFuel valid_i accel bvh ray16).1.accel
          (traversePacket K X E U fuel subFuel buildFuel valid_i accel bvh ray16).1.ray16
      else (traversePacket K X E U fuel subFuel buildFuel valid_i accel bvh ray16).1.ray16 := by
  unfold BVH4iIntersector16Subdiv.intersect
  dsimp only
  split
  · rename_i h
    exact ⟨rfl, rfl, rfl, h.symm, rfl⟩
  · exact ⟨rfl, rfl, rfl, rfl, rfl⟩

/-- C11. Small patches never trigger the lazy build: for a patch `p` of one block
(`grid_size_64b_blocks = 1`), however `intersect` ends, `initLazySubdivTree` has not
been called for `p`, every leaf test on `p` went through `intersectEvalGrid1`, and the
record of `p` (its root and its build counter included) is as on entry; the arena's
`used` counter has advanced by no more than the block counts of the patches a build
was called for, none of them `p`, and with no build at all the arena is as on entry. -/
theorem small_patches_never_build {α γ : Type} [Lattice γ] [BoundedOrder γ]
    [One α] [Add α] [Sub α] [Mul α]
    (K : BVH4iEncoding) (X : Traversal α γ) (E : Externals α) (U : Uninit α)
    (fuel subFuel buildFuel : Nat) (valid_i : Nat → Nat)
    (accel : Nat → SubdivPatch1 α γ) (bvh : BVH4i α γ) (ray16 : Ray16 α) (p : Nat)
    (hsmall : (accel p).grid_size_64b_blocks = 1) :
    p ∉ builds (BVH4iIntersector16Subdiv.intersect K X E U fuel subFuel buildFuel valid_i
      accel bvh ray16).1.log ∧
    (∀ g i bf af, TravEvent.leafTest g i p bf af ∈
        (BVH4iIntersector16Subdiv.intersect K X E U fuel subFuel buildFuel valid_i accel bvh
          ray16).1.log → g = true) ∧
    (BVH4iIntersector16Subdiv.intersect K X E U fuel subFuel buildFuel valid_i accel bvh
      ray16).1.accel p = accel p ∧
    (BVH4iIntersector16Subdiv.intersect K X E U fuel subFuel buildFuel valid_i accel bvh
        ray16).1.bvh.lazyMemUsed64BytesBlocks ≤
      bvh.lazyMemUsed64BytesBlocks +
        ((builds (BVH4iIntersector16Subdiv.intersect K X E U fuel subFuel buildFuel valid_i
          accel bvh ray16).1.log).map (fun q => (accel q).grid_size_64b_blocks)).sum ∧
    (builds (BVH4iIntersector16Subdiv.intersect K X E U fuel subFuel buildFuel valid_i
        accel bvh ray16).1.log = [] →
      (BVH4iIntersector16Subdiv.intersect K X E U fuel subFuel buildFuel valid_i accel bvh
        ray16).1.bvh = bvh) := by
  obtain ⟨ha, hb, hl, -, -⟩ :=
    intersect_state K X E U fuel subFuel buildFuel valid_i accel bvh ray16
  obtain ⟨-, h2, h3, h4, h5, h6⟩ :=
    traversePacket_builds K X E U fuel subFuel buildFuel valid_i accel bvh ray16
  rw [ha, hb, hl]
  have hp : p ∉ builds
      (traversePacket K X E U fuel subFuel buildFuel valid_i accel bvh ray16).1.log :=
    fun hmem => h3 p hmem hsmall
  exact ⟨hp, fun g i bf af hmem => (h4 g i p bf af hmem).2 hsmall, h2 p hp, h5, h6⟩

theorem small_patches_never_build_witness :
    0 ∉ builds (BVH4iIntersector16Subdiv.intersect sampleEncoding sampleTraversal
      sampleExternals sampleUninit 4 4 20 laneZero smallPatches (sampleScene 0 8)
      (samplePacket 100)).1.log ∧
    (∀ g i bf af, TravEvent.leafTest g i 0 bf af ∈
        (BVH4iIntersector16Subdiv.intersect sampleEncoding sampleTraversal sampleExternals
          sampleUninit 4 4 20 laneZero smallPatches (sampleScene 0 8)
          (samplePacket 100)).1.log → g = true) ∧
    (BVH4iIntersector16Subdiv.intersect sampleEncoding sampleTraversal sampleExternals
      sampleUninit 4 4 20 laneZero smallPatches (sampleScene 0 8)
      (samplePacket 100)).1.accel 0 = smallPatches 0 ∧
    (BVH4iIntersector16Subdiv.intersect sampleEncoding sampleTraversal sampleExternals
        sampleUninit 4 4 20 laneZero smallPatches (sampleScene 0 8)
        (samplePacket 100)).1.bvh.lazyMemUsed64BytesBlocks ≤
      (sampleScene 0 8).lazyMemUsed64BytesBlocks +
        ((builds (BVH4iIntersector16Subdiv.intersect sampleEncoding sampleTraversal
          sampleExternals sampleUninit 4 4 20 laneZero smallPatches (sampleScene 0 8)
          (samplePacket 100)).1.log).map
            (fun q => (smallPatches q).grid_size_64b_blocks)).sum ∧
    (builds (BVH4iIntersector16Subdiv.intersect sampleEncoding sampleTraversal
        sampleExternals sampleUninit 4 4 20 laneZero smallPatches (sampleScene 0 8)
        (samplePacket 100)).1.log = [] →
      (BVH4iIntersector16Subdiv.intersect sampleEncoding sampleTraversal sampleExternals
        sampleUninit 4 4 20 laneZero smallPatches (sampleScene 0 8)
        (samplePacket 100)).1.bvh = sampleScene 0 8) :=
  small_patches_never_build sampleEncoding sampleTraversal sampleExternals sampleUninit
    4 4 20 laneZero smallPatches (sampleScene 0 8) (samplePacket 100) 0 rfl

/-! ## Packet traversal: the post-pass -/

theorem postPassLane_lane_ne {α γ : Type} [One α] [Add α] [Sub α] [Mul α]
    (accel : Nat → SubdivPatch1 α γ) (r : Ray16 α) (j l : Nat) (h : l ≠ j) :
    (postPassLane accel r j).lane l = r.lane l := by
  simp [postPassLane, Ray16.lane, Function.update_noteq h]

theorem postPassLane_lane_congr {α γ : Type} [One α] [Add α] [Sub α] [Mul α]
    (accel : Nat → SubdivPatch1 α γ) (r r' : Ray16 α) (l : Nat) (h : r'.lane l = r.lane l) :
    (postPassLane accel r' l).lane l = (postPassLane accel r l).lane l := by
  simp only [Ray16.lane, Ray.mk.injEq] at h
  obtain ⟨h1, h2, h3, h4, h5, h6, h7, h8, h9⟩ := h
  simp [postPassLane, Ray16.lane, h1, h2, h3, h4, h5, h6, h7, h8, h9]

theorem foldl_postPassLane_not_mem {α γ : Type} [One α] [Add α] [Sub α] [Mul α]
    (accel : Nat → SubdivPatch1 α γ) (lanes : List Nat) (r : Ray16 α) (l : Nat)
    (h : l ∉ lanes) : (lanes.foldl (postPassLane accel) r).lane l = r.lane l := by
  induction lanes generalizing r with
  | nil => rfl
  | cons j rest ih =>
    simp only [List.mem_cons, not_or] at h
    rw [List.foldl_cons, ih _ h.2, postPassLane_lane_ne accel r j l h.1]

theorem foldl_postPassLane_mem {α γ : Type} [One α] [Add α] [Sub α] [Mul α]
    (accel : Nat → SubdivPatch1 α γ) (lanes : List Nat) (r : Ray16 α) (l : Nat)
    (hnd : lanes.Nodup) (h : l ∈ lanes) :
    (lanes.foldl (postPassLane accel) r).lane l = (postPassLane accel r l).lane l := by
  induction lanes generalizing r with
  | nil => cases h
  | cons j rest ih =>
    rw [List.nodup_cons] at hnd
    rw [List.foldl_cons]
    by_cases hj : l = j
    · subst hj
      exact foldl_postPassLane_not_mem accel rest _ l hnd.1
    · have hmem : l ∈ rest := by
        rcases List.mem_cons.1 h with h | h
        · exact absurd h hj
        · exact h
      rw [ih _ hnd.2 hmem]
      exact postPassLane_lane_congr accel _ _ l (postPassLane_lane_ne accel r j l hj)

theorem foldl_postPassLane_tfar {α γ : Type} [One α] [Add α] [Sub α] [Mul α]
    (accel : Nat → SubdivPatch1 α γ) (lanes : List Nat) (r : Ray16 α) :
    (lanes.foldl (postPassLane accel) r).tfar = r.tfar := by
  induction lanes generalizing r with
  | nil => rfl
  | cons j rest ih => rw [List.foldl_cons, ih]; rfl

theorem maskLanes_nodup (m : Nat → Bool) : (maskLanes m).Nodup :=
  (List.nodup_range 16).filter _

/-- The post-pass on one lane: a lane of `m_hit` gets the identifiers of the patch its
`primID` points at, the remapped parameters and the normal there; any other lane is
left as it is. -/
theorem postPass_lane {α γ : Type} [One α] [Add α] [Sub α] [Mul α]
    (valid_i : Nat → Nat) (accel : Nat → SubdivPatch1 α γ) (r : Ray16 α) (l : Nat) :
    (postPass valid_i accel r).lane l =
      if l < 16 ∧ valid_i l ≠ 0 ∧ r.primID l ≠ minusOne then (postPassLane accel r l).lane l
      else r.lane l := by
  unfold postPass
  split
  · rename_i h
    apply foldl_postPassLane_mem accel _ r l (maskLanes_nodup _)
    rw [mem_maskLanes]
    simp [validMask, h.1, h.2.1, h.2.2]
  · rename_i h
    apply foldl_postPassLane_not_mem
    rw [mem_maskLanes]
    intro hc
    simp only [validMask, Bool.and_eq_true, decide_eq_true_eq] at hc
    exact h ⟨hc.1, hc.2.2.2, hc.2.1⟩

theorem postPass_tfar {α γ : Type} [One α] [Add α] [Sub α] [Mul α]
    (valid_i : Nat → Nat) (accel : Nat → SubdivPatch1 α γ) (r : Ray16 α) :
    (postPass valid_i accel r).tfar = r.tfar :=
  foldl_postPassLane_tfar accel _ r

/-- The packet traversal writes two fields of a patch record at most: the root and the
build counter. -/
theorem traversePacket_patch_fields {α γ : Type} [Lattice γ] [BoundedOrder γ]
    (K : BVH4iEncoding) (X : Traversal α γ) (E : Externals α) (U : Uninit α)
    (fuel subFuel buildFuel : Nat) (valid_i : Nat → Nat) (accel : Nat → SubdivPatch1 α γ)
    (bvh : BVH4i α γ) (ray16 : Ray16 α) (q : Nat) :
    ∃ root cnt,
      (traversePacket K X E U fuel subFuel buildFuel valid_i accel bvh ray16).1.accel q =
        { accel q with bvh4i_subtree_root := root, under_construction := cnt } := by
  apply traversePacket_inv K X E U fuel subFuel buildFuel
    (fun a _ _ _ => ∃ root cnt,
      a q = { accel q with bvh4i_subtree_root := root, under_construction := cnt })
  · constructor
    · intro a b r lg sub i m y h
      exact h
    · rintro a b r lg p - - ⟨root, cnt, h⟩
      by_cases hq : q = p
      · subst hq
        obtain ⟨root', cnt', h'⟩ := initLazySubdivTree_patch_fields K E buildFuel (a q) b
        rw [Function.update_same, h', h]
        exact ⟨root', cnt', rfl⟩
      · rw [Function.update_noteq hq]
        exact ⟨root, cnt, h⟩
    · intro a b r lg g i p d o vtx uu vv res m _ h
      exact h
  · exact ⟨_, _, rfl⟩

/-- C12. Hit post-pass: for a valid lane that the traversal leaves with a hit, its
`primID` holding the placeholder patch index `p` and its `u`, `v` the patch-local
parameters `u0`, `v0`, `intersect` returns with the lane's `primID` and `geomID`
those of patch `p`, its `u` equal to `(1 - u0) * u_range.x + u0 * u_range.y`, its `v`
likewise from `v_range`, and its `Ng` the normal of patch `p` at the remapped
parameters; `tfar` is as the traversal left it. In exact arithmetic `u0 = 0` gives the
start of the range and `u0 = 1` its end. -/
theorem hit_post_pass {α γ : Type} [Lattice γ] [BoundedOrder γ] [Ring α]
    (K : BVH4iEncoding) (X : Traversal α γ) (E : Externals α) (U : Uninit α)
    (fuel subFuel buildFuel : Nat) (valid_i : Nat → Nat)
    (accel : Nat → SubdivPatch1 α γ) (bvh : BVH4i α γ) (ray16 : Ray16 α) (l p : Nat)
    (u0 v0 : α) (hl : l < 16) (hv : valid_i l ≠ 0)
    (hret : (traversePacket K X E U fuel subFuel buildFuel valid_i accel bvh ray16).2 =
      Status.returned)
    (hp : (traversePacket K X E U fuel subFuel buildFuel valid_i accel bvh
      ray16).1.ray16.primID l = p)
    (hhit : p ≠ minusOne)
    (hu : (traversePacket K X E U fuel subFuel buildFuel valid_i accel bvh
      ray16).1.ray16.u l = u0)
    (hv0 : (traversePacket K X E U fuel subFuel buildFuel valid_i accel bvh
      ray16).1.ray16.v l = v0) :
    (BVH4iIntersector16Subdiv.intersect K X E U fuel subFuel buildFuel valid_i accel bvh
        ray16).2 = Status.returned ∧
    (BVH4iIntersector16Subdiv.intersect K X E U fuel subFuel buildFuel valid_i accel bvh
        ray16).1.ray16.primID l = (accel p).primID ∧
    (BVH4iIntersector16Subdiv.intersect K X E U fuel subFuel buildFuel valid_i accel bvh
        ray16).1.ray16.geomID l = (accel p).geomID ∧
    (BVH4iIntersector16Subdiv.intersect K X E U fuel subFuel buildFuel valid_i accel bvh
        ray16).1.ray16.u l = (1 - u0) * (accel p).u_range.1 + u0 * (accel p).u_range.2 ∧
    (BVH4iIntersector16Subdiv.intersect K X E U fuel subFuel buildFuel valid_i accel bvh
        ray16).1.ray16.v l = (1 - v0) * (accel p).v_range.1 + v0 * (accel p).v_range.2 ∧
    (BVH4iIntersector16Subdiv.intersect K X E U fuel subFuel buildFuel valid_i accel bvh
        ray16).1.ray16.Ng l =
      (accel p).normal ((1 - u0) * (accel p).u_range.1 + u0 * (accel p).u_range.2)
        ((1 - v0) * (accel p).v_range.1 + v0 * (accel p).v_range.2) ∧
    (BVH4iIntersector16Subdiv.intersect K X E U fuel subFuel buildFuel valid_i accel bvh
        ray16).1.ray16.tfar l =
      (traversePacket K X E U fuel subFuel buildFuel valid_i accel bvh ray16).1.ray16.tfar l ∧
    (u0 = 0 → (BVH4iIntersector16Subdiv.intersect K X E U fuel subFuel buildFuel valid_i
        accel bvh ray16).1.ray16.u l = (accel p).u_range.1) ∧
    (u0 = 1 → (BVH4iIntersector16Subdiv.intersect K X E U fuel subFuel buildFuel valid_i
        accel bvh ray16).1.ray16.u l = (accel p).u_range.2) ∧
    (v0 = 0 → (BVH4iIntersector16Subdiv.intersect K X E U fuel subFuel buildFuel valid_i
        accel bvh ray16).1.ray16.v l = (accel p).v_range.1) ∧
    (v0 = 1 → (BVH4iIntersector16Subdiv.intersect K X E U fuel subFuel buildFuel valid_i
        accel bvh ray16).1.ray16.v l = (accel p).v_range.2) := by
  obtain ⟨-, -, -, hs, hr⟩ :=
    intersect_state K X E U fuel subFuel buildFuel valid_i accel bvh ray16
  obtain ⟨root, cnt, hf⟩ :=
    traversePacket_patch_fields K X E U fuel subFuel buildFuel valid_i accel bvh ray16 p
  rw [if_pos hret] at hr
  have hlane := postPass_lane valid_i
    (traversePacket K X E U fuel subFuel buildFuel valid_i accel bvh ray16).1.accel
    (traversePacket K X E U fuel subFuel buildFuel valid_i accel bvh ray16).1.ray16 l
  rw [if_pos ⟨hl, hv, by rw [hp]; exact hhit⟩, ← hr] at hlane
  simp only [Ray16.lane, postPassLane, Function.update_same, hp, hu, hv0, hf,
    Ray.mk.injEq] at hlane
  obtain ⟨-, -, -, -, h5, h6, h7, h8, h9⟩ := hlane
  have htf : (BVH4iIntersector16Subdiv.intersect K X E U fuel subFuel buildFuel valid_i accel
      bvh ray16).1.ray16.tfar l =
      (traversePacket K X E U fuel subFuel buildFuel valid_i accel bvh ray16).1.ray16.tfar l := by
    rw [hr, postPass_tfar]
  refine ⟨hs.trans hret, h9, h8, h5, h6, h7, htf, ?_, ?_, ?_, ?_⟩
  · intro h0; rw [h5, h0]; simp
  · intro h1; rw [h5, h1]; simp
  · intro h0; rw [h6, h0]; simp
  · intro h1; rw [h6, h1]; simp
theorem hit_post_pass_witness :
    (BVH4iIntersector16Subdiv.intersect sampleEncoding intTraversal intExternals intUninit
        4 4 20 laneZero intPatches (intScene 8) (intPacket 100)).2 = Status.returned ∧
    (BVH4iIntersector16Subdiv.intersect sampleEncoding intTraversal intExternals intUninit
        4 4 20 laneZero intPatches (intScene 8) (intPacket 100)).1.ray16.primID 0 =
      (intPatches 0).primID ∧
    (BVH4iIntersector16Subdiv.intersect sampleEncoding intTraversal intExternals intUninit
        4 4 20 laneZero intPatches (intScene 8) (intPacket 100)).1.ray16.geomID 0 =
      (intPatches 0).geomID ∧
    (BVH4iIntersector16Subdiv.intersect sampleEncoding intTraversal intExternals intUninit
        4 4 20 laneZero intPatches (intScene 8) (intPacket 100)).1.ray16.u 0 =
      (1 - 1) * (intPatches 0).u_range.1 + 1 * (intPatches 0).u_range.2 ∧
    (BVH4iIntersector16Subdiv.intersect sampleEncoding intTraversal intExternals intUninit
        4 4 20 laneZero intPatches (intScene 8) (intPacket 100)).1.ray16.v 0 =
      (1 - 0) * (intPatches 0).v_range.1 + 0 * (intPatches 0).v_range.2 ∧
    (BVH4iIntersector16Subdiv.intersect sampleEncoding intTraversal intExternals intUninit
        4 4 20 laneZero intPatches (intScene 8) (intPacket 100)).1.ray16.Ng 0 =
      (intPatches 0).normal
        ((1 - 1) * (intPatches 0).u_range.1 + 1 * (intPatches 0).u_range.2)
        ((1 - 0) * (intPatches 0).v_range.1 + 0 * (intPatches 0).v_range.2) ∧
    (BVH4iIntersector16Subdiv.intersect sampleEncoding intTraversal intExternals intUninit
        4 4 20 laneZero intPatches (intScene 8) (intPacket 100)).1.ray16.tfar 0 =
      (traversePacket sampleEncoding intTraversal intExternals intUninit 4 4 20 laneZero
        intPatches (intScene 8) (intPacket 100)).1.ray16.tfar 0 ∧
    ((1 : Int) = 0 → (BVH4iIntersector16Subdiv.intersect sampleEncoding intTraversal
        intExternals intUninit 4 4 20 laneZero intPatches (intScene 8)
        (intPacket 100)).1.ray16.u 0 = (intPatches 0).u_range.1) ∧
    ((1 : Int) = 1 → (BVH4iIntersector16Subdiv.intersect sampleEncoding intTraversal
        intExternals intUninit 4 4 20 laneZero intPatches (intScene 8)
        (intPacket 100)).1.ray16.u 0 = (intPatches 0).u_range.2) ∧
    ((0 : Int) = 0 → (BVH4iIntersector16Subdiv.intersect sampleEncoding intTraversal
        intExternals intUninit 4 4 20 laneZero intPatches (intScene 8)
        (intPacket 100)).1.ray16.v 0 = (intPatches 0).v_range.1) ∧
    ((0 : Int) = 1 → (BVH4iIntersector16Subdiv.intersect sampleEncoding intTraversal
        intExternals intUninit 4 4 20 laneZero intPatches (intScene 8)
        (intPacket 100)).1.ray16.v 0 = (intPatches 0).v_range.2) :=
  hit_post_pass sampleEncoding intTraversal intExternals intUninit 4 4 20 laneZero
    intPatches (intScene 8) (intPacket 100) 0 0 1 0 (by decide) (by decide) (by decide)
    (by decide) (by decide) (by decide) (by decide)

/-! ## Packet traversal: what the leaf tests write -/

/-- Whatever is read off the packet changes at leaf tests only: if no leaf test of the
record changed it, it is as after the set-up. -/
theorem traversePacket_chain {α γ β : Type} [Lattice γ] [BoundedOrder γ]
    (K : BVH4iEncoding) (X : Traversal α γ) (E : Externals α) (U : Uninit α)
    (fuel subFuel buildFuel : Nat) (valid_i : Nat → Nat) (accel : Nat → SubdivPatch1 α γ)
    (bvh : BVH4i α γ) (ray16 : Ray16 α) (f : Ray16 α → β)
    (h : ∀ g i p bf af, TravEvent.leafTest g i p bf af ∈
        (traversePacket K X E U fuel subFuel buildFuel valid_i accel bvh ray16).1.log →
      f af = f bf) :
    f (traversePacket K X E U fuel subFuel buildFuel valid_i accel bvh ray16).1.ray16 =
      f (setupPacket K E U valid_i accel bvh ray16).ray16 := by
  revert h
  apply traversePacket_inv K X E U fuel subFuel buildFuel
    (fun _ _ r lg => (∀ g i p bf af, TravEvent.leafTest g i p bf af ∈ lg → f af = f bf) →
      f r = f (setupPacket K E U valid_i accel bvh ray16).ray16)
  · constructor
    · intro a b r lg sub i m y h hall
      exact h fun g i p bf af hmem => hall g i p bf af (List.mem_append_left _ hmem)
    · intro a b r lg p _ _ h hall
      exact h fun g i p bf af hmem => hall g i p bf af (List.mem_append_left _ hmem)
    · intro a b r lg g i p d o vtx uu vv res m _ h hall
      rw [hall g i p r _ (List.mem_append_right _ (List.mem_singleton.2 rfl))]
      exact h fun g i p bf af hmem => hall g i p bf af (List.mem_append_left _ hmem)
  · intro _
    rfl

/-- C13. No-hit sentinel: when `intersect` returns, a valid lane whose ray record no
leaf test changed (no leaf test recorded a hit for it) has `primID = -1` and
`geomID = -1`, whatever these held on entry, is skipped by the post-pass (the lane is
as the traversal left it) and all its other fields are as on entry; and a valid lane
that ends with `primID` other than `-1` had its record changed by some leaf test. -/
theorem no_hit_sentinel {α γ : Type} [Lattice γ] [BoundedOrder γ]
    [One α] [Add α] [Sub α] [Mul α]
    (K : BVH4iEncoding) (X : Traversal α γ) (E : Externals α) (U : Uninit α)
    (fuel subFuel buildFuel : Nat) (valid_i : Nat → Nat)
    (accel : Nat → SubdivPatch1 α γ) (bvh : BVH4i α γ) (ray16 : Ray16 α) (l : Nat)
    (hl : l < 16) (hv : valid_i l ≠ 0)
    (hret : (BVH4iIntersector16Subdiv.intersect K X E U fuel subFuel buildFuel valid_i
      accel bvh ray16).2 = Status.returned) :
    ((∀ g i p bf af, TravEvent.leafTest g i p bf af ∈
          (BVH4iIntersector16Subdiv.intersect K X E U fuel subFuel buildFuel valid_i accel
            bvh ray16).1.log → af.lane l = bf.lane l) →
      (BVH4iIntersector16Subdiv.intersect K X E U fuel subFuel buildFuel valid_i accel bvh
          ray16).1.ray16.lane l =
        (traversePacket K X E U fuel subFuel buildFuel valid_i accel bvh
          ray16).1.ray16.lane l ∧
      (BVH4iIntersector16Subdiv.intersect K X E U fuel subFuel buildFuel valid_i accel bvh
          ray16).1.ray16.lane l =
        { ray16.lane l with geomID := minusOne, primID := minusOne }) ∧
    ((BVH4iIntersector16Subdiv.intersect K X E U fuel subFuel buildFuel valid_i accel bvh
          ray16).1.ray16.primID l ≠ minusOne →
      ∃ g i p bf af, TravEvent.leafTest g i p bf af ∈
          (BVH4iIntersector16Subdiv.intersect K X E U fuel subFuel buildFuel valid_i accel
            bvh ray16).1.log ∧ af.lane l ≠ bf.lane l) := by
  obtain ⟨-, -, hlog, hs, hr⟩ :=
    intersect_state K X E U fuel subFuel buildFuel valid_i accel bvh ray16
  rw [hs] at hret
  rw [if_pos hret] at hr
  rw [hlog, hr]
  have hvalid : validMask valid_i l = true := by simp [validMask, hl, hv]
  have hfirst : (∀ g i p bf af, TravEvent.leafTest g i p bf af ∈
        (traversePacket K X E U fuel subFuel buildFuel valid_i accel bvh ray16).1.log →
        af.lane l = bf.lane l) →
      (postPass valid_i
          (traversePacket K X E U fuel subFuel buildFuel valid_i accel bvh ray16).1.accel
          (traversePacket K X E U fuel subFuel buildFuel valid_i accel bvh
            ray16).1.ray16).lane l =
        (traversePacket K X E U fuel subFuel buildFuel valid_i accel bvh
          ray16).1.ray16.lane l ∧
      (postPass valid_i
          (traversePacket K X E U fuel subFuel buildFuel valid_i accel bvh ray16).1.accel
          (traversePacket K X E U fuel subFuel buildFuel valid_i accel bvh
            ray16).1.ray16).lane l =
        { ray16.lane l with geomID := minusOne, primID := minusOne } := by
    intro hno
    have hlane := traversePacket_chain K X E U fuel subFuel buildFuel valid_i accel bvh ray16
      (fun r => r.lane l) hno
    have hset : (setupPacket K E U valid_i accel bvh ray16).ray16.lane l =
        { ray16.lane l with geomID := minusOne, primID := minusOne } := by
      simp [setupPacket, Ray16.lane, hvalid]
    dsimp only at hlane
    rw [hset] at hlane
    have hprim : (traversePacket K X E U fuel subFuel buildFuel valid_i accel bvh
        ray16).1.ray16.primID l = minusOne := by
      have := congrArg Ray.primID hlane
      simpa [Ray16.lane] using this
    rw [postPass_lane, if_neg (fun hc => hc.2.2 hprim)]
    exact ⟨rfl, hlane⟩
  refine ⟨hfirst, fun hne => ?_⟩
  by_contra hcon
  have hno : ∀ g i p bf af, TravEvent.leafTest g i p bf af ∈
      (traversePacket K X E U fuel subFuel buildFuel valid_i accel bvh ray16).1.log →
      af.lane l = bf.lane l := by
    intro g i p bf af hmem
    by_contra hd
    exact hcon ⟨g, i, p, bf, af, hmem, hd⟩
  have h2 := congrArg Ray.primID (hfirst hno).2
  simp only [Ray16.lane] at h2
  exact hne h2

theorem no_hit_sentinel_witness :
    ((∀ g i p bf af, TravEvent.leafTest g i p bf af ∈
          (BVH4iIntersector16Subdiv.intersect sampleEncoding sampleTraversal sampleExternals
            sampleUninit 4 4 20 laneZero smallPatches (sampleScene 0 8)
            (samplePacket 3)).1.log → af.lane 0 = bf.lane 0) →
      (BVH4iIntersector16Subdiv.intersect sampleEncoding sampleTraversal sampleExternals
          sampleUninit 4 4 20 laneZero smallPatches (sampleScene 0 8)
          (samplePacket 3)).1.ray16.lane 0 =
        (traversePacket sampleEncoding sampleTraversal sampleExternals sampleUninit 4 4 20
          laneZero smallPatches (sampleScene 0 8) (samplePacket 3)).1.ray16.lane 0 ∧
      (BVH4iIntersector16Subdiv.intersect sampleEncoding sampleTraversal sampleExternals
          sampleUninit 4 4 20 laneZero smallPatches (sampleScene 0 8)
          (samplePacket 3)).1.ray16.lane 0 =
        { (samplePacket 3).lane 0 with geomID := minusOne, primID := minusOne }) ∧
    ((BVH4iIntersector16Subdiv.intersect sampleEncoding sampleTraversal sampleExternals
          sampleUninit 4 4 20 laneZero smallPatches (sampleScene 0 8)
          (samplePacket 3)).1.ray16.primID 0 ≠ minusOne →
      ∃ g i p bf af, TravEvent.leafTest g i p bf af ∈
          (BVH4iIntersector16Subdiv.intersect sampleEncoding sampleTraversal sampleExternals
            sampleUninit 4 4 20 laneZero smallPatches (sampleScene 0 8)
            (samplePacket 3)).1.log ∧ af.lane 0 ≠ bf.lane 0) :=
  no_hit_sentinel sampleEncoding sampleTraversal sampleExternals sampleUninit 4 4 20
    laneZero smallPatches (sampleScene 0 8) (samplePacket 3) 0 (by decide) (by decide)
    (by decide)

theorem linked_append {α γ β : Type} (X : Traversal α γ) (f : Ray16 α → β)
    (l1 l2 : List (TravEvent α)) : ∀ a m b, Linked X f a l1 m → Linked X f m l2 b →
    Linked X f a (l1 ++ l2) b := by
  induction l1 with
  | nil =>
    intro a m b h1 h2
    have e : a = m := h1
    subst e
    exact h2
  | cons e rest ih =>
    intro a m b h1 h2
    cases e with
    | pop sub i mx tf y => exact ih a m b h1 h2
    | build p => exact ih a m b h1 h2
    | leafTest g i p bf af =>
      obtain ⟨e1, e2, e3⟩ := h1
      exact ⟨e1, e2, ih _ m b e3 h2⟩

/-- What is read off the packet is carried from the set-up to the end of the traversal
by the leaf tests of the record alone. -/
theorem traversePacket_linked {α γ β : Type} [Lattice γ] [BoundedOrder γ]
    (K : BVH4iEncoding) (X : Traversal α γ) (E : Externals α) (U : Uninit α)
    (fuel subFuel buildFuel : Nat) (valid_i : Nat → Nat) (accel : Nat → SubdivPatch1 α γ)
    (bvh : BVH4i α γ) (ray16 : Ray16 α) (f : Ray16 α → β) :
    Linked X f (f (setupPacket K E U valid_i accel bvh ray16).ray16)
      (traversePacket K X E U fuel subFuel buildFuel valid_i accel bvh ray16).1.log
      (f (traversePacket K X E U fuel subFuel buildFuel valid_i accel bvh ray16).1.ray16) := by
  apply traversePacket_inv K X E U fuel subFuel buildFuel
    (fun _ _ r lg => Linked X f (f (setupPacket K E U valid_i accel bvh ray16).ray16) lg (f r))
  · constructor
    · intro a b r lg sub i m y h
      exact linked_append X f lg _ _ _ _ h rfl
    · intro a b r lg p _ _ h
      exact linked_append X f lg _ _ _ _ h rfl
    · intro a b r lg g i p d o vtx uu vv res m _ h
      exact linked_append X f lg _ _ _ _ h ⟨rfl, ⟨d, o, vtx, uu, vv, res, m, rfl⟩, rfl⟩
  · rfl

/-- C18. Best-distance monotonicity: during `intersect`, the `tfar` of the packet is
written by leaf tests only: in the record of the run the first leaf test starts from
the `tfar` the packet entered with, every later leaf test from the `tfar` the leaf test
before it left, the `tfar` on return is the one the last leaf test left (the one on
entry if there was none), and every leaf test is a call of `intersect1_quad16`, so that
neither the traversal loops, nor the stack compaction, nor the post-pass write it; so,
given that no call of `intersect1_quad16` raises the lane's `tfar`, `tfar` after every
leaf test is at most its value before that test, and its value on return is at most
its value on entry. -/
theorem best_distance_monotone {α γ : Type} [Lattice γ] [BoundedOrder γ]
    [One α] [Add α] [Sub α] [Mul α] [Preorder α]
    (K : BVH4iEncoding) (X : Traversal α γ) (E : Externals α) (U : Uninit α)
    (fuel subFuel buildFuel : Nat) (valid_i : Nat → Nat)
    (accel : Nat → SubdivPatch1 α γ) (bvh : BVH4i α γ) (ray16 : Ray16 α) (l : Nat)
    (hleaf : ∀ i d o r vtx uu vv res m p,
      (X.intersect1_quad16 i d o r vtx uu vv res m p).tfar l ≤ r.tfar l) :
    Linked X (fun r => r.tfar) ray16.tfar
      (BVH4iIntersector16Subdiv.intersect K X E U fuel subFuel buildFuel valid_i accel
        bvh ray16).1.log
      (BVH4iIntersector16Subdiv.intersect K X E U fuel subFuel buildFuel valid_i accel bvh
        ray16).1.ray16.tfar ∧
    (∀ g i p bf af, TravEvent.leafTest g i p bf af ∈
        (BVH4iIntersector16Subdiv.intersect K X E U fuel subFuel buildFuel valid_i accel
          bvh ray16).1.log → af.tfar l ≤ bf.tfar l) ∧
    (BVH4iIntersector16Subdiv.intersect K X E U fuel subFuel buildFuel valid_i accel bvh
        ray16).1.ray16.tfar l ≤ ray16.tfar l := by
  obtain ⟨-, -, hlog, -, hr⟩ :=
    intersect_state K X E U fuel subFuel buildFuel valid_i accel bvh ray16
  have htf : (BVH4iIntersector16Subdiv.intersect K X E U fuel subFuel buildFuel valid_i accel
      bvh ray16).1.ray16.tfar =
      (traversePacket K X E U fuel subFuel buildFuel valid_i accel bvh ray16).1.ray16.tfar := by
    rw [hr]
    split
    · exact postPass_tfar _ _ _
    · rfl
  rw [hlog, htf]
  have hmono : (∀ g i p bf af, TravEvent.leafTest g i p bf af ∈
        (traversePacket K X E U fuel subFuel buildFuel valid_i accel bvh ray16).1.log →
        af.tfar l ≤ bf.tfar l) ∧
      (traversePacket K X E U fuel subFuel buildFuel valid_i accel bvh ray16).1.ray16.tfar l ≤
        ray16.tfar l := by
    apply traversePacket_inv K X E U fuel subFuel buildFuel
      (fun _ _ r lg => (∀ g i p bf af, TravEvent.leafTest g i p bf af ∈ lg →
        af.tfar l ≤ bf.tfar l) ∧ r.tfar l ≤ ray16.tfar l)
    · constructor
      · rintro a b r lg sub i m y ⟨h1, h2⟩
        refine ⟨fun g i p bf af hmem => ?_, h2⟩
        simp only [List.mem_append, List.mem_singleton] at hmem
        rcases hmem with hmem | hmem
        · exact h1 g i p bf af hmem
        · cases hmem
      · rintro a b r lg p - - ⟨h1, h2⟩
        refine ⟨fun g i p bf af hmem => ?_, h2⟩
        simp only [List.mem_append, List.mem_singleton] at hmem
        rcases hmem with hmem | hmem
        · exact h1 g i p bf af hmem
        · cases hmem
      · rintro a b r lg g i p d o vtx uu vv res m - ⟨h1, h2⟩
        refine ⟨fun g' i' p' bf af hmem => ?_, le_trans (hleaf _ _ _ _ _ _ _ _ _ _) h2⟩
        simp only [List.mem_append, List.mem_singleton] at hmem
        rcases hmem with hmem | hmem
        · exact h1 g' i' p' bf af hmem
        · cases hmem
          exact hleaf _ _ _ _ _ _ _ _ _ _
    · exact ⟨fun g i p bf af hmem => by simp at hmem, le_refl _⟩
  exact ⟨traversePacket_linked K X E U fuel subFuel buildFuel valid_i accel bvh ray16
    (fun r => r.tfar), hmono.1, hmono.2⟩

theorem best_distance_monotone_witness :
    Linked sampleTraversal (fun r => r.tfar) (samplePacket 100).tfar
      (BVH4iIntersector16Subdiv.intersect sampleEncoding sampleTraversal sampleExternals
        sampleUninit 4 4 20 laneZero smallPatches (sampleScene 0 8)
        (samplePacket 100)).1.log
      (BVH4iIntersector16Subdiv.intersect sampleEncoding sampleTraversal sampleExternals
        sampleUninit 4 4 20 laneZero smallPatches (sampleScene 0 8)
        (samplePacket 100)).1.ray16.tfar ∧
    (∀ g i p bf af, TravEvent.leafTest g i p bf af ∈
        (BVH4iIntersector16Subdiv.intersect sampleEncoding sampleTraversal sampleExternals
          sampleUninit 4 4 20 laneZero smallPatches (sampleScene 0 8)
          (samplePacket 100)).1.log → af.tfar 0 ≤ bf.tfar 0) ∧
    (BVH4iIntersector16Subdiv.intersect sampleEncoding sampleTraversal sampleExternals
        sampleUninit 4 4 20 laneZero smallPatches (sampleScene 0 8)
        (samplePacket 100)).1.ray16.tfar 0 ≤ (samplePacket 100).tfar 0 :=
  best_distance_monotone sampleEncoding sampleTraversal sampleExternals sampleUninit 4 4 20
    laneZero smallPatches (sampleScene 0 8) (samplePacket 100) 0
    (fun i d o r vtx uu vv res m p => by
      simp only [sampleTraversal]
      split
      · rename_i h
        by_cases hi : i = 0
        · subst hi
          simp only [Function.update_same]
          exact Nat.le_of_lt h
        · simp only [Function.update_noteq (Ne.symm hi)]
          exact Nat.le_refl _
      · exact Nat.le_refl _)

/-! ## Single-ray and packet traversal -/

theorem maskLanes_single (valid_i : Nat → Nat) (l : Nat) (hl : l < 16)
    (hv : ∀ j, valid_i j ≠ 0 ↔ j = l) : maskLanes (validMask valid_i) = [l] := by
  have h : maskLanes (validMask valid_i) = (List.range 16).filter (fun j => decide (j = l)) := by
    unfold maskLanes
    apply List.filter_congr
    intro j hj
    simp only [validMask, List.mem_range.1 hj, true_and, hv j]
  rw [h]
  interval_cases l <;> rfl

/-- With a mask of no hit lane the post-pass does nothing. -/
theorem postPass_of_no_hit {α γ : Type} [One α] [Add α] [Sub α] [Mul α]
    (valid_i : Nat → Nat) (accel : Nat → SubdivPatch1 α γ) (r : Ray16 α)
    (h : ∀ l, validMask valid_i l = true → r.primID l = minusOne) :
    postPass valid_i accel r = r := by
  unfold postPass
  have hnil : maskLanes (fun l => decide (r.primID l ≠ minusOne) && validMask valid_i l) =
      [] := by
    unfold maskLanes
    rw [List.filter_eq_nil_iff]
    intro l _ hc
    simp only [Bool.and_eq_true, decide_eq_true_eq] at hc
    exact hc.1 (h l hc.2)
  rw [hnil]
  rfl

/-- C16 (the code at the failing input). For the sample ray, which hits the patch under
the root at distance 5, the packet `intersect` on the packet that holds the ray in its
only valid lane returns with the hit (`tfar = 5`, identifiers 32 and 3), while the
single-ray `intersect` with `SubdivLeafIntersector` ends in `FATAL` with the ray
untouched; and over a root that is the sentinel both return, the single ray with the
identifiers 12 and 11 it entered with, the packet lane with `-1` and `-1`. -/
theorem scalar_packet_agree_counterexample :
    ((BVH4iIntersector16Subdiv.intersect sampleEncoding sampleTraversal sampleExternals
          sampleUninit 4 4 20 laneZero smallPatches (sampleScene 0 8)
          (samplePacket 100)).2 = Status.returned ∧
      (BVH4iIntersector16Subdiv.intersect sampleEncoding sampleTraversal sampleExternals
          sampleUninit 4 4 20 laneZero smallPatches (sampleScene 0 8)
          (samplePacket 100)).1.ray16.tfar 0 = 5 ∧
      (BVH4iIntersector16Subdiv.intersect sampleEncoding sampleTraversal sampleExternals
          sampleUninit 4 4 20 laneZero smallPatches (sampleScene 0 8)
          (samplePacket 100)).1.ray16.primID 0 = 32 ∧
      (BVH4iIntersector16Subdiv.intersect sampleEncoding sampleTraversal sampleExternals
          sampleUninit 4 4 20 laneZero smallPatches (sampleScene 0 8)
          (samplePacket 100)).1.ray16.geomID 0 = 3 ∧
      (samplePacket 100).lane 0 = sampleRay 100 ∧
      (BVH4iIntersector1Subdiv.intersect sampleEncoding sampleTraversal sampleExternals
          sampleUninit (SubdivLeafIntersector Nat (Fin 4)) 4 smallPatches (sampleScene 0 8)
          (sampleRay 100)).2 = Status.fatal ∧
      (BVH4iIntersector1Subdiv.intersect sampleEncoding sampleTraversal sampleExternals
          sampleUninit (SubdivLeafIntersector Nat (Fin 4)) 4 smallPatches (sampleScene 0 8)
          (sampleRay 100)).1.ray.tfar = 100) ∧
    ((BVH4iIntersector16Subdiv.intersect sampleEncoding sampleTraversal sampleExternals
          sampleUninit 4 4 20 laneZero smallPatches (sampleScene 0 4294967295)
          (samplePacket 100)).2 = Status.returned ∧
      (BVH4iIntersector16Subdiv.intersect sampleEncoding sampleTraversal sampleExternals
          sampleUninit 4 4 20 laneZero smallPatches (sampleScene 0 4294967295)
          (samplePacket 100)).1.ray16.primID 0 = 4294967295 ∧
      (BVH4iIntersector1Subdiv.intersect sampleEncoding sampleTraversal sampleExternals
          sampleUninit (SubdivLeafIntersector Nat (Fin 4)) 4 smallPatches
          (sampleScene 0 4294967295) (sampleRay 100)).2 = Status.returned ∧
      (BVH4iIntersector1Subdiv.intersect sampleEncoding sampleTraversal sampleExternals
          sampleUninit (SubdivLeafIntersector Nat (Fin 4)) 4 smallPatches
          (sampleScene 0 4294967295) (sampleRay 100)).1.ray.primID = 12) := by
  refine ⟨⟨by decide, by decide, by decide, by decide, rfl, by decide, by decide⟩,
    by decide, by decide, by decide, by decide⟩

theorem travInv_prefix {α γ : Type} [Lattice γ] [BoundedOrder γ] (K : BVH4iEncoding)
    (X : Traversal α γ) (E : Externals α) (buildFuel : Nat) (lg0 : List (TravEvent α)) :
    TravInv K X E buildFuel (fun _ _ _ lg => ∃ rest, lg = lg0 ++ rest) := by
  constructor
  · rintro a b r lg sub i m y ⟨rest, rfl⟩
    exact ⟨rest ++ [_], List.append_assoc _ _ _⟩
  · rintro a b r lg p - - ⟨rest, rfl⟩
    exact ⟨rest ++ [_], List.append_assoc _ _ _⟩
  · rintro a b r lg g i p d o vtx uu vv res m - ⟨rest, rfl⟩
    exact ⟨rest ++ [_], List.append_assoc _ _ _⟩

/-- A round of the top-level loop records the call of the traversal primitive it begins
with, and what follows only adds to the record. -/
theorem topWalk_succ_log {α γ : Type} [Lattice γ] [BoundedOrder γ] (K : BVH4iEncoding)
    (X : Traversal α γ) (E : Externals α) (U : Uninit α) (subFuel buildFuel : Nat)
    (rayIndex : Nat) (dir_xyz org_xyz : Vec3 α) (min_dist_xyz max_dist_xyz : α)
    (fuel : Nat) (st : TravState α γ) :
    ∃ rest, (topWalk K X E U subFuel buildFuel rayIndex dir_xyz org_xyz min_dist_xyz
        max_dist_xyz (fuel + 1) st).1.log =
      (st.log ++ [TravEvent.pop false rayIndex max_dist_xyz (st.ray16.tfar rayIndex)
        (X.traverse_single_intersect NodeBase.top (st.stack_node (st.sindex - 1))
          (st.sindex - 1) org_xyz dir_xyz min_dist_xyz max_dist_xyz st.stack_node
          st.stack_dist K.leaf_mask).curNode]) ++ rest := by
  have hI := travInv_prefix K X E buildFuel
    (st.log ++ [TravEvent.pop false rayIndex max_dist_xyz (st.ray16.tfar rayIndex)
      (X.traverse_single_intersect NodeBase.top (st.stack_node (st.sindex - 1))
        (st.sindex - 1) org_xyz dir_xyz min_dist_xyz max_dist_xyz st.stack_node
        st.stack_dist K.leaf_mask).curNode])
  simp only [topWalk]
  split
  · exact ⟨[], (List.append_nil _).symm⟩
  · have hv := visitLeaf_inv K X E U subFuel buildFuel _ hI
      (offsetIndex K (X.traverse_single_intersect NodeBase.top
        (st.stack_node (st.sindex - 1)) (st.sindex - 1) org_xyz dir_xyz min_dist_xyz
        max_dist_xyz st.stack_node st.stack_dist K.leaf_mask).curNode)
      rayIndex dir_xyz org_xyz min_dist_xyz max_dist_xyz
      { st with
        stack_node := (X.traverse_single_intersect NodeBase.top
          (st.stack_node (st.sindex - 1)) (st.sindex - 1) org_xyz dir_xyz min_dist_xyz
          max_dist_xyz st.stack_node st.stack_dist K.leaf_mask).stack_node
        stack_dist := (X.traverse_single_intersect NodeBase.top
          (st.stack_node (st.sindex - 1)) (st.sindex - 1) org_xyz dir_xyz min_dist_xyz
          max_dist_xyz st.stack_node st.stack_dist K.leaf_mask).stack_dist
        sindex := (X.traverse_single_intersect NodeBase.top
          (st.stack_node (st.sindex - 1)) (st.sindex - 1) org_xyz dir_xyz min_dist_xyz
          max_dist_xyz st.stack_node st.stack_dist K.leaf_mask).sindex
        log := st.log ++ [TravEvent.pop false rayIndex max_dist_xyz (st.ray16.tfar rayIndex)
          (X.traverse_single_intersect NodeBase.top
            (st.stack_node (st.sindex - 1)) (st.sindex - 1) org_xyz dir_xyz min_dist_xyz
            max_dist_xyz st.stack_node st.stack_dist K.leaf_mask).curNode] }
      ⟨[], (List.append_nil _).symm⟩
    split
    · apply topWalk_inv K X E U subFuel buildFuel _ hI
      exact hv
    · exact hv

theorem rayLoop_single {α γ : Type} [Lattice γ] [BoundedOrder γ]
    (K : BVH4iEncoding) (X : Traversal α γ) (E : Externals α) (U : Uninit α)
    (fuel subFuel buildFuel : Nat) (i : Nat) (st : TravState α γ) :
    rayLoop K X E U fuel subFuel buildFuel [i] st =
      topWalk K X E U subFuel buildFuel i (st.ray16.dir i) (st.ray16.org i)
        (st.ray16.tnear i) (st.ray16.tfar i) fuel
        { st with stack_node := Function.update st.stack_node 1 st.bvh.root, sindex := 2 } := by
  simp only [rayLoop]
  split
  · rename_i h
    exact Prod.ext rfl h.symm
  · rfl

/-- C16 (amended). The single-ray `intersect` with `SubdivLeafIntersector` and the
packet `intersect` on a packet that holds the ray in its only valid lane make the same
first call of the stack-traversal primitive. If that call yields the sentinel, both
return, the single ray as it entered and the packet lane equal to the ray but for
`primID = geomID = -1`, every other lane as it entered. If it yields a leaf reference,
the single-ray engine ends in `FATAL` with the ray as it entered, and the packet
engine goes on (the yield is the first entry of its record). -/
theorem scalar_packet_first_pop {α γ : Type} [Lattice γ] [BoundedOrder γ]
    [One α] [Add α] [Sub α] [Mul α]
    (K : BVH4iEncoding) (X : Traversal α γ) (E : Externals α) (U : Uninit α)
    (fuel subFuel buildFuel : Nat) (valid_i : Nat → Nat)
    (accel : Nat → SubdivPatch1 α γ) (bvh : BVH4i α γ) (ray16 : Ray16 α) (ray : Ray α)
    (l : Nat) (hl : l < 16) (hv : ∀ j, valid_i j ≠ 0 ↔ j = l) (hray : ray16.lane l = ray) :
    (yields (BVH4iIntersector1Subdiv.intersect K X E U (SubdivLeafIntersector α γ)
        (fuel + 1) accel bvh ray).1.log).head? =
      some (X.traverse_single_intersect NodeBase.top bvh.root 1 ray.org ray.dir ray.tnear
        ray.tfar (Function.update (Function.update U.stack_node 0 K.invalidNode) 1 bvh.root)
        (store16f U.stack_dist E.inf) K.leaf_mask).curNode ∧
    (yields (BVH4iIntersector16Subdiv.intersect K X E U (fuel + 1) subFuel buildFuel valid_i
        accel bvh ray16).1.log).head? =
      some (X.traverse_single_intersect NodeBase.top bvh.root 1 ray.org ray.dir ray.tnear
        ray.tfar (Function.update (Function.update U.stack_node 0 K.invalidNode) 1 bvh.root)
        (store16f U.stack_dist E.inf) K.leaf_mask).curNode ∧
    ((X.traverse_single_intersect NodeBase.top bvh.root 1 ray.org ray.dir ray.tnear
          ray.tfar (Function.update (Function.update U.stack_node 0 K.invalidNode) 1 bvh.root)
          (store16f U.stack_dist E.inf) K.leaf_mask).curNode = K.invalidNode →
      (BVH4iIntersector1Subdiv.intersect K X E U (SubdivLeafIntersector α γ) (fuel + 1)
          accel bvh ray).2 = Status.returned ∧
      (BVH4iIntersector1Subdiv.intersect K X E U (SubdivLeafIntersector α γ) (fuel + 1)
          accel bvh ray).1.ray = ray ∧
      (BVH4iIntersector16Subdiv.intersect K X E U (fuel + 1) subFuel buildFuel valid_i
          accel bvh ray16).2 = Status.returned ∧
      (BVH4iIntersector16Subdiv.intersect K X E U (fuel + 1) subFuel buildFuel valid_i
          accel bvh ray16).1.ray16.lane l =
        { ray with geomID := minusOne, primID := minusOne } ∧
      ∀ j, j ≠ l →
        (BVH4iIntersector16Subdiv.intersect K X E U (fuel + 1) subFuel buildFuel valid_i
          accel bvh ray16).1.ray16.lane j = ray16.lane j) ∧
    ((X.traverse_single_intersect NodeBase.top bvh.root 1 ray.org ray.dir ray.tnear
          ray.tfar (Function.update (Function.update U.stack_node 0 K.invalidNode) 1 bvh.root)
          (store16f U.stack_dist E.inf) K.leaf_mask).curNode ≠ K.invalidNode →
      (BVH4iIntersector1Subdiv.intersect K X E U (SubdivLeafIntersector α γ) (fuel + 1)
          accel bvh ray).2 = Status.fatal ∧
      (BVH4iIntersector1Subdiv.intersect K X E U (SubdivLeafIntersector α γ) (fuel + 1)
          accel bvh ray).1.ray = ray) := by
  have hdir : ray16.dir l = ray.dir := by rw [← hray]; rfl
  have horg : ray16.org l = ray.org := by rw [← hray]; rfl
  have htn : ray16.tnear l = ray.tnear := by rw [← hray]; rfl
  have htf : ray16.tfar l = ray.tfar := by rw [← hray]; rfl
  have hvalid : ∀ j, validMask valid_i j = true ↔ j = l := by
    intro j
    simp only [validMask, decide_eq_true_eq, hv j]
    exact ⟨fun h => h.2, fun h => ⟨h ▸ hl, h⟩⟩
  obtain ⟨-, -, hlog, hs, hr⟩ :=
    intersect_state K X E U (fuel + 1) subFuel buildFuel valid_i accel bvh ray16
  have htrav : traversePacket K X E U (fuel + 1) subFuel buildFuel valid_i accel bvh ray16 =
      topWalk K X E U subFuel buildFuel l ray.dir ray.org ray.tnear ray.tfar (fuel + 1)
        { setupPacket K E U valid_i accel bvh ray16 with
          stack_node := Function.update (Function.update U.stack_node 0 K.invalidNode) 1
            bvh.root
          sindex := 2 } := by
    unfold traversePacket
    rw [maskLanes_single valid_i l hl hv, rayLoop_single]
    simp only [setupPacket, hdir, horg, htn, htf]
  have h21 : (2 : Nat) - 1 = 1 := rfl
  refine ⟨?_, ?_, ?_, ?_⟩
  · unfold BVH4iIntersector1Subdiv.intersect
    rw [scalarWalk_subdiv]
    simp [h21, yields]
  · rw [hlog, htrav]
    obtain ⟨rest, hrest⟩ := topWalk_succ_log K X E U subFuel buildFuel l ray.dir ray.org
      ray.tnear ray.tfar fuel
      { setupPacket K E U valid_i accel bvh ray16 with
        stack_node := Function.update (Function.update U.stack_node 0 K.invalidNode) 1
          bvh.root
        sindex := 2 }
    rw [hrest]
    simp [setupPacket, h21, yields, yields_append, htf]
  · intro hy
    have hw : topWalk K X E U subFuel buildFuel l ray.dir ray.org ray.tnear ray.tfar
        (fuel + 1)
        { setupPacket K E U valid_i accel bvh ray16 with
          stack_node := Function.update (Function.update U.stack_node 0 K.invalidNode) 1
            bvh.root
          sindex := 2 } =
        ({ setupPacket K E U valid_i accel bvh ray16 with
            stack_node := (X.traverse_single_intersect NodeBase.top bvh.root 1 ray.org
              ray.dir ray.tnear ray.tfar
              (Function.update (Function.update U.stack_node 0 K.invalidNode) 1 bvh.root)
              (store16f U.stack_dist E.inf) K.leaf_mask).stack_node
            stack_dist := (X.traverse_single_intersect NodeBase.top bvh.root 1 ray.org
              ray.dir ray.tnear ray.tfar
              (Function.update (Function.update U.stack_node 0 K.invalidNode) 1 bvh.root)
              (store16f U.stack_dist E.inf) K.leaf_mask).stack_dist
            sindex := (X.traverse_single_intersect NodeBase.top bvh.root 1 ray.org
              ray.dir ray.tnear ray.tfar
              (Function.update (Function.update U.stack_node 0 K.invalidNode) 1 bvh.root)
              (store16f U.stack_dist E.inf) K.leaf_mask).sindex
            log := [TravEvent.pop false l ray.tfar ray.tfar K.invalidNode] },
          Status.returned) := by
      simp only [topWalk, setupPacket, h21, Function.update_same, hy, if_true, htf,
        List.nil_append]
    have hpp : postPass valid_i accel (setupPacket K E U valid_i accel bvh ray16).ray16 =
        (setupPacket K E U valid_i accel bvh ray16).ray16 := by
      apply postPass_of_no_hit
      intro j hj
      simp [setupPacket, hj]
    rw [htrav, hw] at hr hs
    simp only [if_true] at hr
    rw [hr, hs]
    refine ⟨?_, ?_, rfl, ?_, ?_⟩
    · unfold BVH4iIntersector1Subdiv.intersect
      rw [scalarWalk_subdiv]
      simp [h21, hy]
    · unfold BVH4iIntersector1Subdiv.intersect
      rw [scalarWalk_subdiv]
    · rw [show (setupPacket K E U valid_i accel bvh ray16).accel = accel from rfl, hpp,
        ← hray]
      simp [setupPacket, Ray16.lane, (hvalid l).2 rfl]
    · intro j hj
      rw [show (setupPacket K E U valid_i accel bvh ray16).accel = accel from rfl, hpp]
      have hjv : validMask valid_i j = false := by
        rw [Bool.eq_false_iff]
        exact fun h => hj ((hvalid j).1 h)
      simp [setupPacket, Ray16.lane, hjv]
  · intro hy
    unfold BVH4iIntersector1Subdiv.intersect
    rw [scalarWalk_subdiv]
    simp [h21, hy]
theorem scalar_packet_first_pop_witness :
    (BVH4iIntersector1Subdiv.intersect sampleEncoding sampleTraversal sampleExternals
        sampleUninit (SubdivLeafIntersector Nat (Fin 4)) (3 + 1) smallPatches
        (sampleScene 0 4294967295) (sampleRay 100)).2 = Status.returned ∧
    (BVH4iIntersector1Subdiv.intersect sampleEncoding sampleTraversal sampleExternals
        sampleUninit (SubdivLeafIntersector Nat (Fin 4)) (3 + 1) smallPatches
        (sampleScene 0 4294967295) (sampleRay 100)).1.ray = sampleRay 100 ∧
    (BVH4iIntersector16Subdiv.intersect sampleEncoding sampleTraversal sampleExternals
        sampleUninit (3 + 1) 4 20 laneZero smallPatches (sampleScene 0 4294967295)
        (samplePacket 100)).2 = Status.returned ∧
    (BVH4iIntersector16Subdiv.intersect sampleEncoding sampleTraversal sampleExternals
        sampleUninit (3 + 1) 4 20 laneZero smallPatches (sampleScene 0 4294967295)
        (samplePacket 100)).1.ray16.lane 0 =
      { sampleRay 100 with geomID := minusOne, primID := minusOne } ∧
    ∀ j, j ≠ 0 →
      (BVH4iIntersector16Subdiv.intersect sampleEncoding sampleTraversal sampleExternals
        sampleUninit (3 + 1) 4 20 laneZero smallPatches (sampleScene 0 4294967295)
        (samplePacket 100)).1.ray16.lane j = (samplePacket 100).lane j :=
  (scalar_packet_first_pop sampleEncoding sampleTraversal sampleExternals sampleUninit 3 4 20
    laneZero smallPatches (sampleScene 0 4294967295) (samplePacket 100) (sampleRay 100) 0
    (by decide) (fun j => by simp [laneZero]) rfl).2.2.1 (by decide)

/-! ## Regions of the arena: what a build leaves -/

theorem RefIn.mono {K : BVH4iEncoding} {S T : Nat → Prop} {ref : Nat}
    (h : ∀ j, S j → T j) (hr : RefIn K S ref) : RefIn K T ref := by
  rcases hr with hr | ⟨i, hi, h1, h2⟩ | ⟨i, hi, h1⟩
  · exact Or.inl hr
  · exact Or.inr (Or.inl ⟨i, hi, h _ h1, h _ h2⟩)
  · exact Or.inr (Or.inr ⟨i, hi, h _ h1⟩)

theorem createLeaf_closed {α γ : Type} [Lattice γ] [BoundedOrder γ]
    (K : BVH4iEncoding) (E : Externals α) (patch : SubdivPatch1 α γ) (gu gv : Nat → α)
    (us ue vs ve : Nat) (mem : Nat → Block α γ) (c : Nat) :
    ClosedSpec K c (createLeaf K E patch gu gv us ue vs ve mem c) := by
  intro hlc
  have hc : c + 2 ≤ 4294967296 := by simpa [createLeaf] using hlc
  have e0 : u32 c = c := u32_of_lt (by omega)
  have e1 : u32 (c + 1) = c + 1 := u32_of_lt (by omega)
  simp only [createLeaf, e0, e1, Nat.add_zero]
  refine ⟨Or.inr (Or.inl ⟨c, rfl, ⟨by omega, by omega⟩, ⟨by omega, by omega⟩⟩), ?_⟩
  intro i n h1 h2 hm
  have hi : i = c ∨ i = c + 1 := by omega
  rcases hi with hi | hi
  · subst hi
    rw [Function.update_noteq (by omega), Function.update_same] at hm
    cases hm
  · subst hi
    rw [Function.update_same] at hm
    cases hm

theorem createNode_closed {α γ : Type} [Lattice γ] [BoundedOrder γ]
    (K : BVH4iEncoding) (patch : SubdivPatch1 α γ)
    (us ue vs ve : Nat) (mem : Nat → Block α γ) (c : Nat) (r0 r1 r2 r3 : SubTreeResult α γ)
    (p0 : StoredSpec patch (memNode K mem c) (c + 2) r0)
    (p1 : StoredSpec patch (memAfter K c [r0] r0) r0.localCounter r1)
    (p2 : StoredSpec patch (memAfter K c [r0, r1] r1) r1.localCounter r2)
    (p3 : StoredSpec patch (memAfter K c [r0, r1, r2] r2) r2.localCounter r3)
    (q0 : ClosedSpec K (c + 2) r0) (q1 : ClosedSpec K r0.localCounter r1)
    (q2 : ClosedSpec K r1.localCounter r2) (q3 : ClosedSpec K r2.localCounter r3) :
    ClosedSpec K c (createNode K us ue vs ve c r0 r1 r2 r3) := by
  obtain ⟨hc0, -, -, hm0⟩ := p0
  obtain ⟨hc1, -, -, hm1⟩ := p1
  obtain ⟨hc2, -, -, hm2⟩ := p2
  obtain ⟨hc3, -, -, hm3⟩ := p3
  intro hlc
  have hlc3 : r3.localCounter ≤ 4294967296 := hlc
  obtain ⟨f0, -, -⟩ := hm0 (by omega)
  obtain ⟨f1, -, -⟩ := hm1 (by omega)
  obtain ⟨f2, -, -⟩ := hm2 (by omega)
  obtain ⟨f3, -, -⟩ := hm3 (by omega)
  obtain ⟨t0, g0⟩ := q0 (by omega)
  obtain ⟨t1, g1⟩ := q1 (by omega)
  obtain ⟨t2, g2⟩ := q2 (by omega)
  obtain ⟨t3, g3⟩ := q3 (by omega)
  have A3 : ∀ i, i ≠ c → (createNode K us ue vs ve c r0 r1 r2 r3).lazymem i = r3.lazymem i :=
    fun i hi => Function.update_noteq hi _ _
  have B3 : ∀ i, (i < r2.localCounter ∨ r3.localCounter ≤ i) → i ≠ c →
      r3.lazymem i = r2.lazymem i := fun i hi hic => by
    rw [f3 i hi]; exact Function.update_noteq hic _ _
  have B2 : ∀ i, (i < r1.localCounter ∨ r2.localCounter ≤ i) → i ≠ c →
      r2.lazymem i = r1.lazymem i := fun i hi hic => by
    rw [f2 i hi]; exact Function.update_noteq hic _ _
  have B1 : ∀ i, (i < r0.localCounter ∨ r1.localCounter ≤ i) → i ≠ c →
      r1.lazymem i = r0.lazymem i := fun i hi hic => by
    rw [f1 i hi]; exact Function.update_noteq hic _ _
  have hlcn : (createNode K us ue vs ve c r0 r1 r2 r3).localCounter = r3.localCounter := rfl
  have m0 : ∀ ref, RefIn K (fun j => c + 2 ≤ j ∧ j < r0.localCounter) ref →
      RefIn K (fun j => c ≤ j ∧ j < r3.localCounter) ref :=
    fun ref => RefIn.mono (fun j hj => ⟨by omega, by omega⟩)
  have m1 : ∀ ref, RefIn K (fun j => r0.localCounter ≤ j ∧ j < r1.localCounter) ref →
      RefIn K (fun j => c ≤ j ∧ j < r3.localCounter) ref :=
    fun ref => RefIn.mono (fun j hj => ⟨by omega, by omega⟩)
  have m2 : ∀ ref, RefIn K (fun j => r1.localCounter ≤ j ∧ j < r2.localCounter) ref →
      RefIn K (fun j => c ≤ j ∧ j < r3.localCounter) ref :=
    fun ref => RefIn.mono (fun j hj => ⟨by omega, by omega⟩)
  have m3 : ∀ ref, RefIn K (fun j => r2.localCounter ≤ j ∧ j < r3.localCounter) ref →
      RefIn K (fun j => c ≤ j ∧ j < r3.localCounter) ref :=
    fun ref => RefIn.mono (fun j hj => ⟨by omega, by omega⟩)
  rw [hlcn]
  refine ⟨Or.inr (Or.inr ⟨c, rfl, by omega, by omega⟩), ?_⟩
  intro i n h1 h2 hm k hk
  obtain ⟨-, -, -, -, k0, k1, k2, k3⟩ := nodeAfter_four K r0 r1 r2 r3
  by_cases hic : i = c
  · subst hic
    have hn : n = nodeAfter K [r0, r1, r2, r3] := by
      have : (createNode K us ue vs ve i r0 r1 r2 r3).lazymem i =
          Block.node (nodeAfter K [r0, r1, r2, r3]) := Function.update_same _ _ _
      rw [this] at hm
      cases hm
      rfl
    subst hn
    interval_cases k
    · rw [k0]; exact m0 _ t0
    · rw [k1]; exact m1 _ t1
    · rw [k2]; exact m2 _ t2
    · rw [k3]; exact m3 _ t3
  · rw [A3 i hic] at hm
    by_cases hic1 : i = c + 1
    · subst hic1
      rw [B3 _ (by omega) (by omega), B2 _ (by omega) (by omega),
        B1 _ (by omega) (by omega), f0 _ (by omega)] at hm
      unfold memNode at hm
      rw [Function.update_same] at hm
      cases hm
    · by_cases h0 : i < r0.localCounter
      · rw [B3 _ (by omega) (by omega), B2 _ (by omega) (by omega),
          B1 _ (by omega) (by omega)] at hm
        exact m0 _ (g0 i n (by omega) h0 hm k hk)
      · by_cases h1' : i < r1.localCounter
        · rw [B3 _ (by omega) (by omega), B2 _ (by omega) (by omega)] at hm
          exact m1 _ (g1 i n (by omega) h1' hm k hk)
        · by_cases h2' : i < r2.localCounter
          · rw [B3 _ (by omega) (by omega)] at hm
            exact m2 _ (g2 i n (by omega) h2' hm k hk)
          · exact m3 _ (g3 i n (by omega) h2 hm k hk)

/-- Every call of `createSubTree` on a well-formed range returns, given the fuel, and
leaves a block range that is closed under following child references. -/
theorem createSubTree_closed {α γ : Type} [Lattice γ] [BoundedOrder γ]
    (K : BVH4iEncoding) (E : Externals α) (patch : SubdivPatch1 α γ) (gu gv : Nat → α)
    (fuel us ue vs ve : Nat) (mem : Nat → Block α γ) (c : Nat)
    (hok : RangeOK us ue vs ve) (hfuel : (ue - us) + (ve - vs) < fuel) :
    ∃ r, createSubTree K E patch gu gv fuel us ue vs ve mem c = some r ∧
      StoredSpec patch mem c r ∧ ClosedSpec K c r :=
  createSubTree_induction K E patch gu gv
    (fun _ _ _ _ mem c r => StoredSpec patch mem c r ∧ ClosedSpec K c r)
    (fun us ue vs ve mem c _ _ _ =>
      ⟨createLeaf_stored K E patch gu gv us ue vs ve mem c,
        createLeaf_closed K E patch gu gv us ue vs ve mem c⟩)
    (fun us ue vs ve mem c r0 r1 r2 r3 _ _ p0 p1 p2 p3 =>
      ⟨createNode_stored K patch us ue vs ve mem c r0 r1 r2 r3 p0.1 p1.1 p2.1 p3.1,
        createNode_closed K patch us ue vs ve mem c r0 r1 r2 r3 p0.1 p1.1 p2.1 p3.1
          p0.2 p1.2 p2.2 p3.2⟩)
    fuel us ue vs ve mem c hok hfuel
/-! ## Repeated packet traversal: what a lazy build leaves -/

theorem SubdivPatch1.SameGrid.same {α γ : Type} (p : SubdivPatch1 α γ) : p.SameGrid p :=
  ⟨p.bvh4i_subtree_root, p.under_construction, rfl⟩

theorem SubdivPatch1.SameGrid.comp {α γ : Type} {p q r : SubdivPatch1 α γ}
    (h1 : p.SameGrid q) (h2 : q.SameGrid r) : p.SameGrid r := by
  obtain ⟨r1, c1, rfl⟩ := h1
  obtain ⟨r2, c2, rfl⟩ := h2
  exact ⟨r2, c2, rfl⟩

theorem Grows.self {α γ : Type} (K : BVH4iEncoding) (a : Nat → SubdivPatch1 α γ)
    (b : BVH4i α γ) : Grows K a b a b :=
  ⟨rfl, rfl, le_refl _, fun _ _ => rfl, fun q => SubdivPatch1.SameGrid.same (a q),
    fun _ _ => rfl⟩

theorem Grows.andThen {α γ : Type} {K : BVH4iEncoding} {a a' a'' : Nat → SubdivPatch1 α γ}
    {b b' b'' : BVH4i α γ} (h1 : Grows K a b a' b') (h2 : Grows K a' b' a'' b'') :
    Grows K a b a'' b'' := by
  obtain ⟨x1, x2, x3, x4, x5, x6⟩ := h1
  obtain ⟨y1, y2, y3, y4, y5, y6⟩ := h2
  refine ⟨y1.trans x1, y2.trans x2, le_trans x3 y3, fun i hi => ?_,
    fun q => (x5 q).comp (y5 q), fun q hq => ?_⟩
  · rw [y4 i (lt_of_lt_of_le hi x3), x4 i hi]
  · have h := x6 q hq
    rw [y6 q (by rw [h]; exact hq), h]

theorem BuildOK.sameGrid {α γ : Type} [Lattice γ] [BoundedOrder γ] {K : BVH4iEncoding}
    {E : Externals α} {buildFuel : Nat} {p p' : SubdivPatch1 α γ}
    (h : BuildOK K E buildFuel p) (hs : p.SameGrid p') : BuildOK K E buildFuel p' := by
  obtain ⟨root, cnt, rfl⟩ := hs
  obtain ⟨h1, h2, h3⟩ := h
  refine ⟨h1, h2, fun mem c r hr => ?_⟩
  apply h3 mem c r
  rw [← hr]
  exact createSubTree_patch_congr K E p
    { p with bvh4i_subtree_root := root, under_construction := cnt } rfl rfl _ _ _ _ _ _ _ _ _

/-- A call of `initLazySubdivTree` on an unbuilt patch that returns has run the build:
it found the build counter at 0 and room in the arena. -/
theorem initLazySubdivTree_of_returned {α γ : Type} [Lattice γ] [BoundedOrder γ]
    (K : BVH4iEncoding) (E : Externals α) (fuel : Nat)
    (patch : SubdivPatch1 α γ) (bvh : BVH4i α γ)
    (hgrid : patch.GridOK) (hfuel : patch.grid_u_res + patch.grid_v_res ≤ fuel)
    (hroot : patch.bvh4i_subtree_root = K.invalidNode)
    (hret : (initLazySubdivTree K E fuel patch bvh).isReturned = true) :
    bvh.lazyMemUsed64BytesBlocks + patch.grid_size_64b_blocks ≤
        bvh.lazyMemAllocated64BytesBlocks ∧
      ∃ r,
        createSubTree K E patch
          (E.gridUVTessellator patch.level patch.grid_u_res patch.grid_v_res).1
          (E.gridUVTessellator patch.level patch.grid_u_res patch.grid_v_res).2
          fuel 0 (patch.grid_u_res - 1) 0 (patch.grid_v_res - 1)
          bvh.lazymem bvh.lazyMemUsed64BytesBlocks = some r ∧
        initLazySubdivTree K E fuel patch bvh =
          Outcome.returned
            { patch with bvh4i_subtree_root := r.curNode, under_construction := 0 }
            { bvh with
              lazymem := r.lazymem
              lazyMemUsed64BytesBlocks :=
                bvh.lazyMemUsed64BytesBlocks + patch.grid_size_64b_blocks }
            (some r) := by
  by_cases hcnt : patch.under_construction = 0
  · by_cases hcap : bvh.lazyMemUsed64BytesBlocks + patch.grid_size_64b_blocks ≤
        bvh.lazyMemAllocated64BytesBlocks
    · exact ⟨hcap, initLazySubdivTree_build_eq K E fuel patch bvh hgrid hfuel hroot hcnt hcap⟩
    · exfalso
      rw [initLazySubdivTree_builder K E fuel patch bvh hcnt hroot] at hret
      have hf := (buildLazySubdivTree_counters K E fuel
        { patch with under_construction := 1 } bvh).2.2.2 (by
          show bvh.lazyMemUsed64BytesBlocks + patch.grid_size_64b_blocks >
            bvh.lazyMemAllocated64BytesBlocks
          omega)
      cases ho : buildLazySubdivTree K E fuel { patch with under_construction := 1 } bvh <;>
        rw [ho] at hret hf <;> simp [Outcome.isReturned, Outcome.isFatal] at hret hf
  · exfalso
    rw [initLazySubdivTree_spin K E fuel patch bvh hcnt hroot] at hret
    simp [Outcome.isReturned] at hret

/-- The check of the root and the lazy build of lines 544-548 keep a well-formed arena
well-formed and continue it, when the build returns; the patch then has a valid
root. -/
theorem ensureBuilt_grows {α γ : Type} [Lattice γ] [BoundedOrder γ]
    (K : BVH4iEncoding) (E : Externals α) (buildFuel : Nat) (patchIndex : Nat)
    (st : TravState α γ) (hK : K.Valid)
    (hcap : st.bvh.lazyMemAllocated64BytesBlocks ≤ 4294967296)
    (hwf : ArenaOK K st.accel st.bvh)
    (hb : BuildOK K E buildFuel (st.accel patchIndex))
    (hret : (ensureBuilt K E buildFuel patchIndex st).2 = Status.returned) :
    ArenaOK K (ensureBuilt K E buildFuel patchIndex st).1.accel
        (ensureBuilt K E buildFuel patchIndex st).1.bvh ∧
      Grows K st.accel st.bvh (ensureBuilt K E buildFuel patchIndex st).1.accel
        (ensureBuilt K E buildFuel patchIndex st).1.bvh ∧
      ((ensureBuilt K E buildFuel patchIndex st).1.accel patchIndex).bvh4i_subtree_root ≠
        K.invalidNode ∧
      SameRays st (ensureBuilt K E buildFuel patchIndex st).1 := by
  unfold ensureBuilt at hret ⊢
  by_cases hroot : (st.accel patchIndex).bvh4i_subtree_root = K.invalidNode
  · rw [if_pos hroot] at hret ⊢
    have hisret : (initLazySubdivTree K E buildFuel (st.accel patchIndex) st.bvh).isReturned =
        true := by
      cases ho : initLazySubdivTree K E buildFuel (st.accel patchIndex) st.bvh <;>
        rw [ho] at hret <;> simp [Outcome.isReturned] at hret ⊢
    obtain ⟨hg, hf, hblocks⟩ := hb
    obtain ⟨hroom, r, hr, ho⟩ := initLazySubdivTree_of_returned K E buildFuel
      (st.accel patchIndex) st.bvh hg hf hroot hisret
    obtain ⟨-, -, hrange⟩ := gridOK_range (st.accel patchIndex) hg
    obtain ⟨r', hr', hstored, hclosed⟩ := createSubTree_closed K E (st.accel patchIndex)
      (E.gridUVTessellator (st.accel patchIndex).level (st.accel patchIndex).grid_u_res
        (st.accel patchIndex).grid_v_res).1
      (E.gridUVTessellator (st.accel patchIndex).level (st.accel patchIndex).grid_u_res
        (st.accel patchIndex).grid_v_res).2
      buildFuel 0 ((st.accel patchIndex).grid_u_res - 1) 0
      ((st.accel patchIndex).grid_v_res - 1) st.bvh.lazymem st.bvh.lazyMemUsed64BytesBlocks
      hrange (by obtain ⟨h1, -, h3, -⟩ := hg; simp only [Nat.sub_zero]; omega)
    rw [hr] at hr'
    cases hr'
    have hlc := hblocks _ _ _ hr
    obtain ⟨hc2, -, -, hm⟩ := hstored
    have hlc32 : r.localCounter ≤ 4294967296 := by omega
    obtain ⟨hframe, -, -⟩ := hm hlc32
    obtain ⟨hrootIn, hchildren⟩ := hclosed hlc32
    obtain ⟨w1, w2, w3, w4⟩ := hwf
    simp only [ho, Outcome.patch, Outcome.bvh]
    refine ⟨⟨hroom, ?_, ?_, ?_⟩, ⟨rfl, rfl, by simp, ?_, ?_, ?_⟩, ?_, ⟨rfl, rfl, rfl, rfl⟩⟩
    · intro i hi
      dsimp only at hi ⊢
      rw [hframe i (Or.inr (by omega))]
      exact w2 i (by omega)
    · intro i n hi hn k hk
      dsimp only at hi hn ⊢
      by_cases h1 : i < st.bvh.lazyMemUsed64BytesBlocks
      · rw [hframe i (Or.inl h1)] at hn
        exact RefIn.mono (fun j hj => by
          try dsimp only at hj
          try dsimp only
          omega) (w3 i n h1 hn k hk)
      · by_cases h2 : i < r.localCounter
        · exact RefIn.mono (fun j hj => by
          try dsimp only at hj
          try dsimp only
          omega)
            (hchildren i n (by omega) h2 hn k hk)
        · rw [hframe i (Or.inr (by omega)), w2 i (by omega)] at hn
          cases hn
    · intro q
      by_cases hq : q = patchIndex
      · subst hq
        rw [Function.update_same]
        exact RefIn.mono (fun j hj => by
          try dsimp only at hj
          try dsimp only
          omega) hrootIn
      · rw [Function.update_noteq hq]
        exact RefIn.mono (fun j hj => by
          try dsimp only at hj
          try dsimp only
          omega) (w4 q)
    · intro i hi
      exact hframe i (Or.inl hi)
    · intro q
      by_cases hq : q = patchIndex
      · subst hq
        rw [Function.update_same]
        exact ⟨_, _, rfl⟩
      · rw [Function.update_noteq hq]
        exact SubdivPatch1.SameGrid.same _
    · intro q hq
      have hne : q ≠ patchIndex := fun h => hq (h ▸ hroot)
      rw [Function.update_noteq hne]
    · rw [Function.update_same]
      exact createSubTree_curNode_ne K hK E _ _ _ _ _ _ _ _ _ _ r hr
  · rw [if_neg hroot]
    exact ⟨hwf, Grows.self K _ _, hroot, ⟨rfl, rfl, rfl, rfl⟩⟩
/-! ## Repeated packet traversal: the walk of a built micro-hierarchy -/

/-- The walk of a patch's micro-hierarchy reads only the used blocks of a well-formed
arena: on an arena that continues it, with a patch record of the same evaluator, it
ends the same way with the same packet. -/
theorem subWalk_agree {α γ : Type} (K : BVH4iEncoding) (X : Traversal α γ)
    (N : Nat) (hX : X.Local K N) (hoff : K.LeafOffsetOK N)
    (patch patch' : SubdivPatch1 α γ) (heval : patch'.eval16 = patch.eval16)
    (q : Nat) (m m' : Nat → Block α γ) (used : Nat) (hused : used ≤ N)
    (hclosed : Closed K m (fun i => i < used)) (hagree : ∀ i, i < used → m' i = m i)
    (rayIndex : Nat) (d o : Vec3 α) (mn mx : α) (fuel : Nat) (s s' : SubState α)
    (h1 : s'.ray16 = s.ray16) (h2 : s'.sub_stack_node = s.sub_stack_node)
    (h3 : s'.sub_stack_dist = s.sub_stack_dist) (h4 : s'.sub_sindex = s.sub_sindex)
    (h0 : s.sub_stack_node 0 = K.invalidNode) (hpos : 1 ≤ s.sub_sindex)
    (hrefs : ∀ k, k < s.sub_sindex → RefIn K (fun i => i < used) (s.sub_stack_node k)) :
    (subWalk K X patch' q m' rayIndex d o mn mx fuel s').2 =
        (subWalk K X patch q m rayIndex d o mn mx fuel s).2 ∧
      (subWalk K X patch' q m' rayIndex d o mn mx fuel s').1.ray16 =
        (subWalk K X patch q m rayIndex d o mn mx fuel s).1.ray16 := by
  induction fuel generalizing s s' with
  | zero => exact ⟨rfl, h1⟩
  | succ fuel ih =>
    obtain ⟨ray16, sn, sd, si, lg⟩ := s
    obtain ⟨ray16', sn', sd', si', lg'⟩ := s'
    dsimp only at h1 h2 h3 h4 h0 hpos hrefs
    subst h1 h2 h3 h4
    have hcur : RefIn K (fun i => i < used) (sn' (si' - 1)) := hrefs _ (by omega)
    have hpre : 1 ≤ si' - 1 ∨ sn' (si' - 1) = K.invalidNode := by
      by_cases h : si' = 1
      · right; rw [h]; exact h0
      · left; omega
    obtain ⟨heq, hyield, hbot, hstack⟩ := hX (fun i => i < used) m m' (sn' (si' - 1))
      (si' - 1) o d mn mx sn' sd' K.leaf_mask (fun i hi => lt_of_lt_of_le hi hused) hclosed
      hagree hcur hpre h0
      (fun k hk => hrefs k (by omega))
    simp only [subWalk, heq]
    by_cases hy : (X.traverse_single_intersect (NodeBase.lazy m) (sn' (si' - 1)) (si' - 1) o d
        mn mx sn' sd' K.leaf_mask).curNode = K.invalidNode
    · simp [hy]
    · simp only [hy, if_false]
      rcases hyield with hyield | ⟨⟨i0, hi0, hs0, hs1⟩, hge⟩
      · exact absurd hyield hy
      · have hoffset : offsetIndex K (X.traverse_single_intersect (NodeBase.lazy m)
            (sn' (si' - 1)) (si' - 1) o d mn mx sn' sd' K.leaf_mask).curNode = i0 := by
          rw [hi0]
          exact hoff i0 (by omega)
        rw [hoffset]
        simp only [Nat.add_zero]
        rw [hagree i0 hs0, hagree (i0 + 1) hs1, heval]
        apply ih
        · rfl
        · rfl
        · rfl
        · rfl
        · exact hbot
        · exact hge
        · exact hstack
/-! ## Repeated packet traversal: the second run follows the first -/

theorem SubdivPatch1.SameGrid.grid_size {α γ : Type} {p p' : SubdivPatch1 α γ}
    (h : p.SameGrid p') : p'.grid_size_64b_blocks = p.grid_size_64b_blocks := by
  obtain ⟨root, cnt, rfl⟩ := h
  rfl

theorem SceneOK.grows {α γ : Type} [Lattice γ] [BoundedOrder γ] {K : BVH4iEncoding}
    {E : Externals α} {buildFuel N : Nat} {a a' : Nat → SubdivPatch1 α γ} {b b' : BVH4i α γ}
    (h : SceneOK K E buildFuel N a b) (hg : Grows K a b a' b') (hwf : ArenaOK K a' b') :
    SceneOK K E buildFuel N a' b' := by
  obtain ⟨-, h2, h3, h4, h5⟩ := h
  obtain ⟨g1, -, -, -, g5, -⟩ := hg
  refine ⟨hwf, by rw [g1]; exact h2, h3, h4, fun q hq => ?_⟩
  exact (h5 q (by rw [← (g5 q).grid_size]; exact hq)).sameGrid (g5 q)

/-- The leaf of a patch of more than one block, first and second run. The first run,
if it returns, leaves a well-formed scene that continues the one it began with; a run
from the same packet and stack on any scene that continues the one the first run
left returns with the same packet and stack, and without a build. -/
theorem visitLargePatch_agree {α γ : Type} [Lattice γ] [BoundedOrder γ]
    (K : BVH4iEncoding) (X : Traversal α γ) (E : Externals α) (U : Uninit α)
    (subFuel buildFuel N : Nat) (hK : K.Valid) (hX : X.Local K N)
    (q rayIndex : Nat) (d o : Vec3 α) (mn mx : α) (st1 : TravState α γ)
    (hq : (st1.accel q).grid_size_64b_blocks ≠ 1)
    (hscene : SceneOK K E buildFuel N st1.accel st1.bvh) :
    Repeatable K E buildFuel N
      (visitLargePatch K X E U subFuel buildFuel q rayIndex d o mn mx) st1 := by
  intro hret
  have he : (ensureBuilt K E buildFuel q st1).2 = Status.returned := by
    by_contra hne
    unfold visitLargePatch at hret
    simp only [if_neg hne] at hret
    exact hne hret
  obtain ⟨hwf, hcap, hN, hoff, hbuild⟩ := hscene
  obtain ⟨e1, e2, e3, e4, e5, e6, e7⟩ :=
    ensureBuilt_grows K E buildFuel q st1 hK (le_trans hcap hN) hwf (hbuild q hq) he
  have hscene1 : SceneOK K E buildFuel N (ensureBuilt K E buildFuel q st1).1.accel
      (ensureBuilt K E buildFuel q st1).1.bvh :=
    SceneOK.grows ⟨hwf, hcap, hN, hoff, hbuild⟩ e2 e1
  have hv : visitLargePatch K X E U subFuel buildFuel q rayIndex d o mn mx st1 =
      ({ (ensureBuilt K E buildFuel q st1).1 with
          ray16 := (subWalk K X ((ensureBuilt K E buildFuel q st1).1.accel q) q
            (ensureBuilt K E buildFuel q st1).1.bvh.lazymem rayIndex d o mn mx subFuel
            { ray16 := (ensureBuilt K E buildFuel q st1).1.ray16
              sub_stack_node :=
                Function.update (Function.update U.sub_stack_node 0 K.invalidNode) 1
                  ((ensureBuilt K E buildFuel q st1).1.accel q).bvh4i_subtree_root
              sub_stack_dist := store16f U.sub_stack_dist E.inf
              sub_sindex := 2
              log := (ensureBuilt K E buildFuel q st1).1.log }).1.ray16
          log := (subWalk K X ((ensureBuilt K E buildFuel q st1).1.accel q) q
            (ensureBuilt K E buildFuel q st1).1.bvh.lazymem rayIndex d o mn mx subFuel
            { ray16 := (ensureBuilt K E buildFuel q st1).1.ray16
              sub_stack_node :=
                Function.update (Function.update U.sub_stack_node 0 K.invalidNode) 1
                  ((ensureBuilt K E buildFuel q st1).1.accel q).bvh4i_subtree_root
              sub_stack_dist := store16f U.sub_stack_dist E.inf
              sub_sindex := 2
              log := (ensureBuilt K E buildFuel q st1).1.log }).1.log },
        (subWalk K X ((ensureBuilt K E buildFuel q st1).1.accel q) q
          (ensureBuilt K E buildFuel q st1).1.bvh.lazymem rayIndex d o mn mx subFuel
          { ray16 := (ensureBuilt K E buildFuel q st1).1.ray16
            sub_stack_node :=
              Function.update (Function.update U.sub_stack_node 0 K.invalidNode) 1
                ((ensureBuilt K E buildFuel q st1).1.accel q).bvh4i_subtree_root
            sub_stack_dist := store16f U.sub_stack_dist E.inf
            sub_sindex := 2
            log := (ensureBuilt K E buildFuel q st1).1.log }).2) := by
    unfold visitLargePatch
    simp only [if_pos he]
  rw [hv] at hret ⊢
  refine ⟨hscene1, e2, ?_⟩
  intro st2 hsame hgrow
  obtain ⟨g1, g2, g3, g4, g5, g6⟩ := hgrow
  dsimp only at g1 g2 g3 g4 g5 g6 hret
  obtain ⟨s1, s2, s3, s4⟩ := hsame
  have hroot2 : (st2.accel q).bvh4i_subtree_root =
      ((ensureBuilt K E buildFuel q st1).1.accel q).bvh4i_subtree_root := g6 q e3
  have he2 : ensureBuilt K E buildFuel q st2 = (st2, Status.returned) := by
    unfold ensureBuilt
    rw [if_neg (by rw [hroot2]; exact e3)]
  have heval : (st2.accel q).eval16 =
      ((ensureBuilt K E buildFuel q st1).1.accel q).eval16 := by
    obtain ⟨root, cnt, h⟩ := g5 q
    rw [h]
  obtain ⟨w1, w2, w3, w4⟩ := e1
  have hag := subWalk_agree K X N hX hoff
    ((ensureBuilt K E buildFuel q st1).1.accel q) (st2.accel q) heval q
    (ensureBuilt K E buildFuel q st1).1.bvh.lazymem st2.bvh.lazymem
    (ensureBuilt K E buildFuel q st1).1.bvh.lazyMemUsed64BytesBlocks
    (le_trans w1 hscene1.2.1) w3 g4
    rayIndex d o mn mx subFuel
    { ray16 := (ensureBuilt K E buildFuel q st1).1.ray16
      sub_stack_node :=
        Function.update (Function.update U.sub_stack_node 0 K.invalidNode) 1
          ((ensureBuilt K E buildFuel q st1).1.accel q).bvh4i_subtree_root
      sub_stack_dist := store16f U.sub_stack_dist E.inf
      sub_sindex := 2
      log := (ensureBuilt K E buildFuel q st1).1.log }
    { ray16 := st2.ray16
      sub_stack_node :=
        Function.update (Function.update U.sub_stack_node 0 K.invalidNode) 1
          (st2.accel q).bvh4i_subtree_root
      sub_stack_dist := store16f U.sub_stack_dist E.inf
      sub_sindex := 2
      log := st2.log }
    (by rw [s1]; exact e4.symm) (by rw [hroot2]) rfl rfl
    (by simp [Function.update]) (Nat.le_succ 1)
    (fun k hk => by
      dsimp only at hk ⊢
      have hk' : k = 0 ∨ k = 1 := by omega
      rcases hk' with rfl | rfl
      · exact Or.inl (by simp [Function.update])
      · rw [Function.update_same]
        exact w4 q)
  have hv2 : visitLargePatch K X E U subFuel buildFuel q rayIndex d o mn mx st2 =
      ({ st2 with
          ray16 := (subWalk K X (st2.accel q) q st2.bvh.lazymem rayIndex d o mn mx subFuel
            { ray16 := st2.ray16
              sub_stack_node :=
                Function.update (Function.update U.sub_stack_node 0 K.invalidNode) 1
                  (st2.accel q).bvh4i_subtree_root
              sub_stack_dist := store16f U.sub_stack_dist E.inf
              sub_sindex := 2
              log := st2.log }).1.ray16
          log := (subWalk K X (st2.accel q) q st2.bvh.lazymem rayIndex d o mn mx subFuel
            { ray16 := st2.ray16
              sub_stack_node :=
                Function.update (Function.update U.sub_stack_node 0 K.invalidNode) 1
                  (st2.accel q).bvh4i_subtree_root
              sub_stack_dist := store16f U.sub_stack_dist E.inf
              sub_sindex := 2
              log := st2.log }).1.log },
        (subWalk K X (st2.accel q) q st2.bvh.lazymem rayIndex d o mn mx subFuel
          { ray16 := st2.ray16
            sub_stack_node :=
              Function.update (Function.update U.sub_stack_node 0 K.invalidNode) 1
                (st2.accel q).bvh4i_subtree_root
            sub_stack_dist := store16f U.sub_stack_dist E.inf
            sub_sindex := 2
            log := st2.log }).2) := by
    unfold visitLargePatch
    simp only [he2, if_true]
  rw [hv2]
  refine ⟨hag.1.trans hret, ⟨hag.2, ?_, ?_, ?_⟩, rfl, rfl⟩
  · exact s2.trans e5.symm
  · exact s3.trans e6.symm
  · exact s4.trans e7.symm

theorem Repeatable.congr {α γ : Type} [Lattice γ] [BoundedOrder γ] {K : BVH4iEncoding}
    {E : Externals α} {buildFuel N : Nat} {F G : TravState α γ → TravState α γ × Status}
    {st1 : TravState α γ} (h1 : F st1 = G st1)
    (h2 : ∀ st2, SameRays st1 st2 → Grows K st1.accel st1.bvh st2.accel st2.bvh →
      F st2 = G st2)
    (hG : Repeatable K E buildFuel N G st1) : Repeatable K E buildFuel N F st1 := by
  intro hret
  rw [h1] at hret ⊢
  obtain ⟨x1, x2, x3⟩ := hG hret
  refine ⟨x1, x2, fun st2 hs hg => ?_⟩
  rw [h2 st2 hs (x2.andThen hg)]
  exact x3 st2 hs hg

/-- A step that only rewrites the packet and the stack, the same way from the same
packet and stack, and returns. -/
theorem Repeatable.of_pure {α γ : Type} [Lattice γ] [BoundedOrder γ] {K : BVH4iEncoding}
    {E : Externals α} {buildFuel N : Nat} (post : TravState α γ → TravState α γ)
    (st1 : TravState α γ) (hscene : SceneOK K E buildFuel N st1.accel st1.bvh)
    (ha : ∀ st, (post st).accel = st.accel) (hb : ∀ st, (post st).bvh = st.bvh)
    (hs : ∀ st2, SameRays st1 st2 → SameRays (post st1) (post st2)) :
    Repeatable K E buildFuel N (fun st => (post st, Status.returned)) st1 := by
  intro _
  dsimp only
  rw [ha, hb]
  exact ⟨hscene, Grows.self K _ _, fun st2 hsame _ => ⟨rfl, hs st2 hsame, ha st2, hb st2⟩⟩

/-- A step that rewrites the stack only, followed by a repeatable step. -/
theorem Repeatable.pre {α γ : Type} [Lattice γ] [BoundedOrder γ] {K : BVH4iEncoding}
    {E : Externals α} {buildFuel N : Nat} (pre : TravState α γ → TravState α γ)
    (F : TravState α γ → TravState α γ × Status) (st1 : TravState α γ)
    (ha : ∀ st, (pre st).accel = st.accel) (hb : ∀ st, (pre st).bvh = st.bvh)
    (hs : ∀ st2, SameRays st1 st2 → st2.bvh.root = st1.bvh.root →
      SameRays (pre st1) (pre st2))
    (hF : Repeatable K E buildFuel N F (pre st1)) :
    Repeatable K E buildFuel N (fun st => F (pre st)) st1 := by
  intro hret
  obtain ⟨x1, x2, x3⟩ := hF hret
  rw [ha, hb] at x2
  refine ⟨x1, x2, fun st2 hsame hg => ?_⟩
  have h := x3 (pre st2) (hs st2 hsame (hg.2.1.trans x2.2.1)) (by rw [ha, hb]; exact hg)
  rw [ha, hb] at h
  exact h

/-- A repeatable step followed, if it returns, by a step that is repeatable from the
state the first one leaves. -/
theorem Repeatable.seq {α γ : Type} [Lattice γ] [BoundedOrder γ] {K : BVH4iEncoding}
    {E : Externals α} {buildFuel N : Nat} (F G : TravState α γ → TravState α γ × Status)
    (st1 : TravState α γ) (hF : Repeatable K E buildFuel N F st1)
    (hG : SceneOK K E buildFuel N (F st1).1.accel (F st1).1.bvh →
      Repeatable K E buildFuel N G (F st1).1) :
    Repeatable K E buildFuel N
      (fun st => if (F st).2 = Status.returned then G (F st).1 else F st) st1 := by
  intro hret
  dsimp only at hret ⊢
  by_cases h : (F st1).2 = Status.returned
  · rw [if_pos h] at hret ⊢
    obtain ⟨x1, x2, x3⟩ := hF h
    obtain ⟨y1, y2, y3⟩ := hG x1 hret
    refine ⟨y1, x2.andThen y2, fun st2 hsame hg => ?_⟩
    obtain ⟨z1, z2, z3, z4⟩ := x3 st2 hsame (y2.andThen hg)
    rw [if_pos z1]
    obtain ⟨w1, w2, w3, w4⟩ := y3 (F st2).1 z2 (by rw [z3, z4]; exact hg)
    exact ⟨w1, w2, w3.trans z3, w4.trans z4⟩
  · rw [if_neg h] at hret
    exact absurd hret h
theorem intersectEvalGrid1_sameGrid {α γ : Type} (X : Traversal α γ) (E : Externals α)
    (rayIndex : Nat) (d o : Vec3 α) (r : Ray16 α) (p p' : SubdivPatch1 α γ) (q : Nat)
    (h : p.SameGrid p') :
    intersectEvalGrid1 X E rayIndex d o r p' q = intersectEvalGrid1 X E rayIndex d o r p q := by
  obtain ⟨root, cnt, rfl⟩ := h
  rfl

theorem visitLeaf_small {α γ : Type} [Lattice γ] [BoundedOrder γ]
    (K : BVH4iEncoding) (X : Traversal α γ) (E : Externals α) (U : Uninit α)
    (subFuel buildFuel : Nat) (q rayIndex : Nat) (d o : Vec3 α) (mn mx : α)
    (st : TravState α γ) (hq : (st.accel q).grid_size_64b_blocks = 1) :
    ∃ r, intersectEvalGrid1 X E rayIndex d o st.ray16 (st.accel q) q = some (true, r) ∧
      visitLeaf K X E U subFuel buildFuel q rayIndex d o mn mx st =
        ({ st with
            ray16 := r
            log := st.log ++ [TravEvent.leafTest true rayIndex q st.ray16 r] },
          Status.returned) := by
  refine ⟨X.intersect1_quad16 rayIndex d o st.ray16
    ((st.accel q).eval16
      (E.gridUVTessellator (st.accel q).level (st.accel q).grid_u_res
        (st.accel q).grid_v_res).1
      (E.gridUVTessellator (st.accel q).level (st.accel q).grid_u_res
        (st.accel q).grid_v_res).2)
    (E.gridUVTessellator (st.accel q).level (st.accel q).grid_u_res
      (st.accel q).grid_v_res).1
    (E.gridUVTessellator (st.accel q).level (st.accel q).grid_u_res
      (st.accel q).grid_v_res).2
    (st.accel q).grid_u_res (st.accel q).grid_mask q, ?_, ?_⟩
  · simp only [intersectEvalGrid1, if_pos hq]
  · simp only [visitLeaf, if_pos hq, intersectEvalGrid1]

theorem visitLeaf_agree {α γ : Type} [Lattice γ] [BoundedOrder γ]
    (K : BVH4iEncoding) (X : Traversal α γ) (E : Externals α) (U : Uninit α)
    (subFuel buildFuel N : Nat) (hK : K.Valid) (hX : X.Local K N)
    (q rayIndex : Nat) (d o : Vec3 α) (mn mx : α) (st1 : TravState α γ)
    (hscene : SceneOK K E buildFuel N st1.accel st1.bvh) :
    Repeatable K E buildFuel N (visitLeaf K X E U subFuel buildFuel q rayIndex d o mn mx) st1 := by
  by_cases hq : (st1.accel q).grid_size_64b_blocks = 1
  · intro hret
    obtain ⟨r, hr, h1⟩ := visitLeaf_small K X E U subFuel buildFuel q rayIndex d o mn mx st1 hq
    rw [h1]
    refine ⟨hscene, Grows.self K _ _, fun st2 hsame hg => ?_⟩
    obtain ⟨s1, s2, s3, s4⟩ := hsame
    have hsg : (st1.accel q).SameGrid (st2.accel q) := hg.2.2.2.2.1 q
    have hq2 : (st2.accel q).grid_size_64b_blocks = 1 := by rw [hsg.grid_size]; exact hq
    obtain ⟨r2, hr2, h2⟩ :=
      visitLeaf_small K X E U subFuel buildFuel q rayIndex d o mn mx st2 hq2
    rw [s1, intersectEvalGrid1_sameGrid X E rayIndex d o st1.ray16 _ _ q hsg, hr] at hr2
    cases hr2
    rw [h2]
    exact ⟨rfl, ⟨rfl, s2, s3, s4⟩, rfl, rfl⟩
  · have h := visitLargePatch_agree K X E U subFuel buildFuel N hK hX q rayIndex d o mn mx
      st1 hq hscene
    refine Repeatable.congr ?_ ?_ h
    · simp only [visitLeaf, if_neg hq]
    · intro st2 _ hg
      have hsg : (st1.accel q).SameGrid (st2.accel q) := hg.2.2.2.2.1 q
      have hq2 : ¬ (st2.accel q).grid_size_64b_blocks = 1 := by rw [hsg.grid_size]; exact hq
      simp only [visitLeaf, if_neg hq2]
/-- Every run of the top-level loop for one ray can be repeated. -/
theorem topWalk_agree {α γ : Type} [Lattice γ] [BoundedOrder γ]
    (K : BVH4iEncoding) (X : Traversal α γ) (E : Externals α) (U : Uninit α)
    (subFuel buildFuel N : Nat) (hK : K.Valid) (hX : X.Local K N)
    (rayIndex : Nat) (d o : Vec3 α) (mn mx : α) (fuel : Nat) (st1 : TravState α γ)
    (hscene : SceneOK K E buildFuel N st1.accel st1.bvh) :
    Repeatable K E buildFuel N (topWalk K X E U subFuel buildFuel rayIndex d o mn mx fuel)
      st1 := by
  induction fuel generalizing st1 with
  | zero =>
    intro hret
    simp [topWalk] at hret
  | succ fuel ih =>
    -- the pop and the call of the traversal primitive, and the stack compaction
    obtain ⟨yield, hyield⟩ : ∃ f : TravState α γ → Nat, ∀ st, f st =
        (X.traverse_single_intersect NodeBase.top (st.stack_node (st.sindex - 1))
          (st.sindex - 1) o d mn mx st.stack_node st.stack_dist K.leaf_mask).curNode :=
      ⟨_, fun _ => rfl⟩
    obtain ⟨popS, hpop⟩ : ∃ f : TravState α γ → TravState α γ, ∀ st, f st =
        { st with
          stack_node := (X.traverse_single_intersect NodeBase.top
            (st.stack_node (st.sindex - 1)) (st.sindex - 1) o d mn mx st.stack_node
            st.stack_dist K.leaf_mask).stack_node
          stack_dist := (X.traverse_single_intersect NodeBase.top
            (st.stack_node (st.sindex - 1)) (st.sindex - 1) o d mn mx st.stack_node
            st.stack_dist K.leaf_mask).stack_dist
          sindex := (X.traverse_single_intersect NodeBase.top
            (st.stack_node (st.sindex - 1)) (st.sindex - 1) o d mn mx st.stack_node
            st.stack_dist K.leaf_mask).sindex
          log := st.log ++ [TravEvent.pop false rayIndex mx (st.ray16.tfar rayIndex)
            (X.traverse_single_intersect NodeBase.top
              (st.stack_node (st.sindex - 1)) (st.sindex - 1) o d mn mx st.stack_node
              st.stack_dist K.leaf_mask).curNode] } := ⟨_, fun _ => rfl⟩
    obtain ⟨compS, hcomp⟩ : ∃ f : TravState α γ → TravState α γ, ∀ v, f v =
        { v with
          stack_node := (X.compactStack v.stack_node v.stack_dist v.sindex
            (v.ray16.tfar rayIndex)).1
          stack_dist := (X.compactStack v.stack_node v.stack_dist v.sindex
            (v.ray16.tfar rayIndex)).2.1
          sindex := (X.compactStack v.stack_node v.stack_dist v.sindex
            (v.ray16.tfar rayIndex)).2.2 } := ⟨_, fun _ => rfl⟩
    have hstep : ∀ st, topWalk K X E U subFuel buildFuel rayIndex d o mn mx (fuel + 1) st =
        if yield st = K.invalidNode then (popS st, Status.returned)
        else if (visitLeaf K X E U subFuel buildFuel (offsetIndex K (yield st)) rayIndex d o
            mn mx (popS st)).2 = Status.returned then
          topWalk K X E U subFuel buildFuel rayIndex d o mn mx fuel
            (compS (visitLeaf K X E U subFuel buildFuel (offsetIndex K (yield st)) rayIndex
              d o mn mx (popS st)).1)
        else visitLeaf K X E U subFuel buildFuel (offsetIndex K (yield st)) rayIndex d o
          mn mx (popS st) := by
      intro st
      simp only [topWalk, hyield, hpop, hcomp]
    have hyieldS : ∀ st2, SameRays st1 st2 → yield st2 = yield st1 := by
      rintro st2 ⟨s1, s2, s3, s4⟩
      rw [hyield, hyield, s2, s3, s4]
    have hpopA : ∀ st, (popS st).accel = st.accel := fun st => by rw [hpop]
    have hpopB : ∀ st, (popS st).bvh = st.bvh := fun st => by rw [hpop]
    have hpopS : ∀ st2, SameRays st1 st2 → SameRays (popS st1) (popS st2) := by
      rintro st2 ⟨s1, s2, s3, s4⟩
      rw [hpop, hpop]
      exact ⟨s1, by dsimp only; rw [s2, s3, s4], by dsimp only; rw [s2, s3, s4],
        by dsimp only; rw [s2, s3, s4]⟩
    have hcompA : ∀ st, (compS st).accel = st.accel := fun st => by rw [hcomp]
    have hcompB : ∀ st, (compS st).bvh = st.bvh := fun st => by rw [hcomp]
    have hcompS : ∀ v1 v2 : TravState α γ, SameRays v1 v2 → SameRays (compS v1) (compS v2) := by
      rintro v1 v2 ⟨s1, s2, s3, s4⟩
      rw [hcomp, hcomp]
      exact ⟨s1, by dsimp only; rw [s1, s2, s3, s4], by dsimp only; rw [s1, s2, s3, s4],
        by dsimp only; rw [s1, s2, s3, s4]⟩
    by_cases hy : yield st1 = K.invalidNode
    · refine Repeatable.congr (G := fun st => (popS st, Status.returned)) ?_ ?_
        (Repeatable.of_pure popS st1 hscene hpopA hpopB hpopS)
      · rw [hstep, if_pos hy]
      · intro st2 hs _
        rw [hstep, if_pos (by rw [hyieldS st2 hs]; exact hy)]
    · have hscene' : SceneOK K E buildFuel N (popS st1).accel (popS st1).bvh := by
        rw [hpopA, hpopB]; exact hscene
      have hseq := Repeatable.seq
        (visitLeaf K X E U subFuel buildFuel (offsetIndex K (yield st1)) rayIndex d o mn mx)
        (fun v => topWalk K X E U subFuel buildFuel rayIndex d o mn mx fuel (compS v))
        (popS st1)
        (visitLeaf_agree K X E U subFuel buildFuel N hK hX _ rayIndex d o mn mx _ hscene')
        (fun hs => Repeatable.pre compS
          (topWalk K X E U subFuel buildFuel rayIndex d o mn mx fuel) _ hcompA hcompB
          (fun st2 h _ => hcompS _ st2 h) (ih _ (by rw [hcompA, hcompB]; exact hs)))
      have hpre := Repeatable.pre popS _ st1 hpopA hpopB (fun st2 h _ => hpopS st2 h) hseq
      refine Repeatable.congr ?_ ?_ hpre
      · rw [hstep, if_neg hy]
      · intro st2 hs _
        rw [hstep, hyieldS st2 hs, if_neg hy]

/-- Every run of the loop over the valid lanes can be repeated. -/
theorem rayLoop_agree {α γ : Type} [Lattice γ] [BoundedOrder γ]
    (K : BVH4iEncoding) (X : Traversal α γ) (E : Externals α) (U : Uninit α)
    (fuel subFuel buildFuel N : Nat) (hK : K.Valid) (hX : X.Local K N)
    (lanes : List Nat) (st1 : TravState α γ)
    (hscene : SceneOK K E buildFuel N st1.accel st1.bvh) :
    Repeatable K E buildFuel N (rayLoop K X E U fuel subFuel buildFuel lanes) st1 := by
  induction lanes generalizing st1 with
  | nil =>
    exact Repeatable.congr (G := fun st => (st, Status.returned)) rfl (fun _ _ _ => rfl)
      (Repeatable.of_pure (fun st => st) st1 hscene (fun _ => rfl) (fun _ => rfl)
        (fun _ h => h))
  | cons i rest ih =>
    obtain ⟨resetS, hreset⟩ : ∃ f : TravState α γ → TravState α γ, ∀ st, f st =
        { st with stack_node := Function.update st.stack_node 1 st.bvh.root, sindex := 2 } :=
      ⟨_, fun _ => rfl⟩
    have hstep : ∀ st, rayLoop K X E U fuel subFuel buildFuel (i :: rest) st =
        if (topWalk K X E U subFuel buildFuel i (st.ray16.dir i) (st.ray16.org i)
            (st.ray16.tnear i) (st.ray16.tfar i) fuel (resetS st)).2 = Status.returned then
          rayLoop K X E U fuel subFuel buildFuel rest
            (topWalk K X E U subFuel buildFuel i (st.ray16.dir i) (st.ray16.org i)
              (st.ray16.tnear i) (st.ray16.tfar i) fuel (resetS st)).1
        else topWalk K X E U subFuel buildFuel i (st.ray16.dir i) (st.ray16.org i)
          (st.ray16.tnear i) (st.ray16.tfar i) fuel (resetS st) := by
      intro st
      simp only [rayLoop, hreset]
    have hresetA : ∀ st, (resetS st).accel = st.accel := fun st => by rw [hreset]
    have hresetB : ∀ st, (resetS st).bvh = st.bvh := fun st => by rw [hreset]
    have hscene' : SceneOK K E buildFuel N (resetS st1).accel (resetS st1).bvh := by
      rw [hresetA, hresetB]; exact hscene
    have hseq := Repeatable.seq
      (topWalk K X E U subFuel buildFuel i (st1.ray16.dir i) (st1.ray16.org i)
        (st1.ray16.tnear i) (st1.ray16.tfar i) fuel)
      (rayLoop K X E U fuel subFuel buildFuel rest) (resetS st1)
      (topWalk_agree K X E U subFuel buildFuel N hK hX i _ _ _ _ fuel _ hscene')
      (fun hs => ih _ hs)
    have hpre := Repeatable.pre resetS _ st1 hresetA hresetB
      (fun st2 h hroot => by
        obtain ⟨s1, s2, s3, s4⟩ := h
        rw [hreset, hreset]
        exact ⟨s1, by dsimp only; rw [s2, hroot], s3, rfl⟩) hseq
    refine Repeatable.congr ?_ ?_ hpre
    · rw [hstep]
    · intro st2 hs _
      rw [hstep, hs.1]
/-! ## Repeated packet traversal -/

/-- C19. Idempotent re-intersection: on a well-formed scene, with a stack-traversal
primitive that reads only the micro-hierarchy it walks, if `intersect` returns on a
packet, then `intersect` run again on an identical copy of the packet, with the patch
roots and the arena the first run left, returns too, with the same packet in every
field of every lane (`tfar`, `u`, `v`, `Ng`, `primID`, `geomID` among them), and
leaves the patch records and the arena as the first run left them. -/
theorem idempotent_reintersection {α γ : Type} [Lattice γ] [BoundedOrder γ]
    [One α] [Add α] [Sub α] [Mul α]
    (K : BVH4iEncoding) (X : Traversal α γ) (E : Externals α) (U : Uninit α)
    (fuel subFuel buildFuel N : Nat) (valid_i : Nat → Nat)
    (accel : Nat → SubdivPatch1 α γ) (bvh : BVH4i α γ) (ray16 : Ray16 α)
    (hK : K.Valid) (hX : X.Local K N) (hscene : SceneOK K E buildFuel N accel bvh)
    (hret : (BVH4iIntersector16Subdiv.intersect K X E U fuel subFuel buildFuel valid_i accel
      bvh ray16).2 = Status.returned) :
    (BVH4iIntersector16Subdiv.intersect K X E U fuel subFuel buildFuel valid_i
        (BVH4iIntersector16Subdiv.intersect K X E U fuel subFuel buildFuel valid_i accel bvh
          ray16).1.accel
        (BVH4iIntersector16Subdiv.intersect K X E U fuel subFuel buildFuel valid_i accel bvh
          ray16).1.bvh ray16).2 = Status.returned ∧
    (BVH4iIntersector16Subdiv.intersect K X E U fuel subFuel buildFuel valid_i
        (BVH4iIntersector16Subdiv.intersect K X E U fuel subFuel buildFuel valid_i accel bvh
          ray16).1.accel
        (BVH4iIntersector16Subdiv.intersect K X E U fuel subFuel buildFuel valid_i accel bvh
          ray16).1.bvh ray16).1.ray16 =
      (BVH4iIntersector16Subdiv.intersect K X E U fuel subFuel buildFuel valid_i accel bvh
        ray16).1.ray16 ∧
    (BVH4iIntersector16Subdiv.intersect K X E U fuel subFuel buildFuel valid_i
        (BVH4iIntersector16Subdiv.intersect K X E U fuel subFuel buildFuel valid_i accel bvh
          ray16).1.accel
        (BVH4iIntersector16Subdiv.intersect K X E U fuel subFuel buildFuel valid_i accel bvh
          ray16).1.bvh ray16).1.accel =
      (BVH4iIntersector16Subdiv.intersect K X E U fuel subFuel buildFuel valid_i accel bvh
        ray16).1.accel ∧
    (BVH4iIntersector16Subdiv.intersect K X E U fuel subFuel buildFuel valid_i
        (BVH4iIntersector16Subdiv.intersect K X E U fuel subFuel buildFuel valid_i accel bvh
          ray16).1.accel
        (BVH4iIntersector16Subdiv.intersect K X E U fuel subFuel buildFuel valid_i accel bvh
          ray16).1.bvh ray16).1.bvh =
      (BVH4iIntersector16Subdiv.intersect K X E U fuel subFuel buildFuel valid_i accel bvh
        ray16).1.bvh := by
  obtain ⟨ha, hb, -, hs, hr⟩ :=
    intersect_state K X E U fuel subFuel buildFuel valid_i accel bvh ray16
  rw [hs] at hret
  rw [if_pos hret] at hr
  rw [ha, hb, hr]
  obtain ⟨ha2, hb2, -, hs2, hr2⟩ := intersect_state K X E U fuel subFuel buildFuel valid_i
    (traversePacket K X E U fuel subFuel buildFuel valid_i accel bvh ray16).1.accel
    (traversePacket K X E U fuel subFuel buildFuel valid_i accel bvh ray16).1.bvh ray16
  rw [ha2, hb2, hs2, hr2]
  have hrep := rayLoop_agree K X E U fuel subFuel buildFuel N hK hX
    (maskLanes (validMask valid_i)) (setupPacket K E U valid_i accel bvh ray16) hscene
  obtain ⟨-, -, x3⟩ := hrep hret
  obtain ⟨z1, z2, z3, z4⟩ := x3
    (setupPacket K E U valid_i
      (traversePacket K X E U fuel subFuel buildFuel valid_i accel bvh ray16).1.accel
      (traversePacket K X E U fuel subFuel buildFuel valid_i accel bvh ray16).1.bvh ray16)
    ⟨rfl, rfl, rfl, rfl⟩ (Grows.self K _ _)
  have w1 : (traversePacket K X E U fuel subFuel buildFuel valid_i
      (traversePacket K X E U fuel subFuel buildFuel valid_i accel bvh ray16).1.accel
      (traversePacket K X E U fuel subFuel buildFuel valid_i accel bvh ray16).1.bvh ray16).2 =
      Status.returned := z1
  have w2 : (traversePacket K X E U fuel subFuel buildFuel valid_i
      (traversePacket K X E U fuel subFuel buildFuel valid_i accel bvh ray16).1.accel
      (traversePacket K X E U fuel subFuel buildFuel valid_i accel bvh ray16).1.bvh
      ray16).1.ray16 =
      (traversePacket K X E U fuel subFuel buildFuel valid_i accel bvh ray16).1.ray16 :=
    z2.1
  have w3 : (traversePacket K X E U fuel subFuel buildFuel valid_i
      (traversePacket K X E U fuel subFuel buildFuel valid_i accel bvh ray16).1.accel
      (traversePacket K X E U fuel subFuel buildFuel valid_i accel bvh ray16).1.bvh
      ray16).1.accel =
      (traversePacket K X E U fuel subFuel buildFuel valid_i accel bvh ray16).1.accel := z3
  have w4 : (traversePacket K X E U fuel subFuel buildFuel valid_i
      (traversePacket K X E U fuel subFuel buildFuel valid_i accel bvh ray16).1.accel
      (traversePacket K X E U fuel subFuel buildFuel valid_i accel bvh ray16).1.bvh
      ray16).1.bvh =
      (traversePacket K X E U fuel subFuel buildFuel valid_i accel bvh ray16).1.bvh := z4
  rw [if_pos w1, w2, w3]
  exact ⟨w1, rfl, rfl, w4⟩
/-! ## Repeated packet traversal: the sample scene -/

theorem sampleEncoding_leaf (i : Nat) (h : i < 134217728) :
    createSubPatchBVH4iLeaf sampleEncoding i = 16 * i + 8 := by
  have e : u32 (i <<< 4) = i <<< 4 := by
    simp only [u32, Nat.shiftLeft_eq]
    omega
  simp only [createSubPatchBVH4iLeaf, sampleEncoding, e]
  rw [Nat.shiftLeft_eq, Nat.mul_comm i (2 ^ 4),
    ← Nat.mul_add_lt_is_or (by decide : 8 < 2 ^ 4) i]

theorem sampleEncoding_node (i : Nat) (h : i < 134217728) :
    sampleEncoding.createBVH4iNode i = 32 * i := by
  simp only [sampleEncoding, u32, Nat.shiftLeft_eq]
  omega

theorem sampleEncoding_leafOffset : sampleEncoding.LeafOffsetOK 16 := by
  intro i hi
  rw [sampleEncoding_leaf i (by omega)]
  simp only [offsetIndex, sampleEncoding, Nat.shiftRight_eq_div_pow]
  omega

/-- The walk down the first child slots reads only the blocks of a closed region, and
ends at the sentinel or at a leaf of the region. -/
theorem firstLeaf_local (S : Nat → Prop) (m m' : Nat → Block Nat (Fin 4))
    (hS : ∀ i, S i → i < 16) (hclosed : Closed sampleEncoding m S)
    (hagree : ∀ i, S i → m' i = m i) (fuel : Nat) :
    ∀ ref, RefIn sampleEncoding S ref →
      firstLeaf m' fuel ref = firstLeaf m fuel ref ∧
      (firstLeaf m fuel ref = 4294967295 ∨ LeafIn sampleEncoding S (firstLeaf m fuel ref)) := by
  induction fuel with
  | zero => intro ref _; exact ⟨rfl, Or.inl rfl⟩
  | succ f ih =>
    intro ref href
    rcases href with h | ⟨i, hi, h1, h2⟩ | ⟨i, hi, h1⟩
    · have h' : ref = 4294967295 := h
      have e : ∀ mm : Nat → Block Nat (Fin 4), firstLeaf mm (f + 1) ref = 4294967295 :=
        fun mm => by simp only [firstLeaf, if_pos h']
      rw [e m, e m']
      exact ⟨rfl, Or.inl rfl⟩
    · have hlt := hS i h1
      have e : ref = 16 * i + 8 := by rw [hi, sampleEncoding_leaf i (by omega)]
      have n1 : ¬ ref = 4294967295 := by omega
      have n2 : ref % 16 = 8 := by omega
      have e : ∀ mm : Nat → Block Nat (Fin 4), firstLeaf mm (f + 1) ref = ref :=
        fun mm => by simp only [firstLeaf, if_neg n1, if_pos n2]
      rw [e m, e m']
      exact ⟨rfl, Or.inr ⟨i, hi, h1, h2⟩⟩
    · have hlt := hS i h1
      have e : ref = 32 * i := by rw [hi, sampleEncoding_node i (by omega)]
      have n1 : ¬ ref = 4294967295 := by omega
      have n2 : ¬ ref % 16 = 8 := by omega
      have n3 : ref / 32 = i := by omega
      simp only [firstLeaf, if_neg n1, if_neg n2, n3, hagree i h1]
      cases hb : m i with
      | node n => exact ih _ (hclosed i n h1 hb 0 (by decide))
      | _ => exact ⟨rfl, Or.inl rfl⟩

theorem localTraversal_local : localTraversal.Local sampleEncoding 16 := by
  intro S m m' curNode sindex org dir mn mx sn sd lm hS hclosed hagree href hpos h0 hstack
  obtain ⟨e1, e2⟩ := firstLeaf_local S m m' hS hclosed hagree 8 curNode href
  refine ⟨?_, ?_, h0, hstack⟩
  · simp only [localTraversal, e1]
  · show firstLeaf m 8 curNode = 4294967295 ∨ (LeafIn sampleEncoding S (firstLeaf m 8 curNode) ∧
      1 ≤ sindex)
    rcases e2 with e2 | e2
    · exact Or.inl e2
    · rcases hpos with hpos | hpos
      · exact Or.inr ⟨e2, hpos⟩
      · left
        have h' : curNode = 4294967295 := hpos
        simp only [firstLeaf, if_pos h']

theorem samplePatch_buildOK :
    BuildOK sampleEncoding sampleExternals 20 (samplePatch 5 5 10) := by
  refine ⟨by decide, by decide, ?_⟩
  intro mem c r h
  simp [createSubTree, createNode, createLeaf, u32, u32sub, samplePatch, sampleExternals,
    copyLoopsEnd] at h
  subst h
  simp [samplePatch]

theorem largePatches_sceneOK :
    SceneOK sampleEncoding sampleExternals 20 16 largePatches (sampleScene 16 8) := by
  refine ⟨⟨by decide, fun _ _ => rfl, ?_, fun _ => Or.inl rfl⟩, by decide, by decide,
    sampleEncoding_leafOffset, fun _ _ => samplePatch_buildOK⟩
  intro i n hi
  exact absurd hi (Nat.not_lt_zero i)

theorem idempotent_reintersection_witness :
    sampleEncoding.Valid ∧ localTraversal.Local sampleEncoding 16 ∧
    SceneOK sampleEncoding sampleExternals 20 16 largePatches (sampleScene 16 8) ∧
    (BVH4iIntersector16Subdiv.intersect sampleEncoding localTraversal sampleExternals
      sampleUninit 4 4 20 laneZero largePatches (sampleScene 16 8)
      (samplePacket 100)).2 = Status.returned ∧
    (BVH4iIntersector16Subdiv.intersect sampleEncoding localTraversal sampleExternals
      sampleUninit 4 4 20 laneZero
      (BVH4iIntersector16Subdiv.intersect sampleEncoding localTraversal sampleExternals
        sampleUninit 4 4 20 laneZero largePatches (sampleScene 16 8)
        (samplePacket 100)).1.accel
      (BVH4iIntersector16Subdiv.intersect sampleEncoding localTraversal sampleExternals
        sampleUninit 4 4 20 laneZero largePatches (sampleScene 16 8)
        (samplePacket 100)).1.bvh (samplePacket 100)).2 = Status.returned ∧
    (BVH4iIntersector16Subdiv.intersect sampleEncoding localTraversal sampleExternals
      sampleUninit 4 4 20 laneZero
      (BVH4iIntersector16Subdiv.intersect sampleEncoding localTraversal sampleExternals
        sampleUninit 4 4 20 laneZero largePatches (sampleScene 16 8)
        (samplePacket 100)).1.accel
      (BVH4iIntersector16Subdiv.intersect sampleEncoding localTraversal sampleExternals
        sampleUninit 4 4 20 laneZero largePatches (sampleScene 16 8)
        (samplePacket 100)).1.bvh (samplePacket 100)).1.ray16 =
    (BVH4iIntersector16Subdiv.intersect sampleEncoding localTraversal sampleExternals
      sampleUninit 4 4 20 laneZero largePatches (sampleScene 16 8)
      (samplePacket 100)).1.ray16 :=
  ⟨sampleEncoding_valid, localTraversal_local, largePatches_sceneOK, rfl,
    (idempotent_reintersection sampleEncoding localTraversal sampleExternals sampleUninit
      4 4 20 16 laneZero largePatches (sampleScene 16 8) (samplePacket 100)
      sampleEncoding_valid localTraversal_local largePatches_sceneOK rfl).1,
    (idempotent_reintersection sampleEncoding localTraversal sampleExternals sampleUninit
      4 4 20 16 laneZero largePatches (sampleScene 16 8) (samplePacket 100)
      sampleEncoding_valid localTraversal_local largePatches_sceneOK rfl).2.1⟩

/-! ## Block accounting -/

theorem range'_two_append (s m t n : Nat) (h : t = s + 2 * m) :
    List.range' s m 2 ++ List.range' t n 2 = List.range' s (m + n) 2 := by
  subst h
  rw [List.range'_append, Nat.add_comm]

/-- What a call leaves for the accounting of blocks: the cursor has advanced by two
blocks for every leaf and node created, the leaves are one more than three times the
nodes, and with the cursor within 32 bits the calls were created at the cursor values
`c`, `c + 2`, `c + 4`, ... in this order. -/
theorem createSubTree_counts {α γ : Type} [Lattice γ] [BoundedOrder γ]
    (K : BVH4iEncoding) (E : Externals α) (patch : SubdivPatch1 α γ) (gu gv : Nat → α)
    (fuel us ue vs ve : Nat) (mem : Nat → Block α γ) (c : Nat)
    (hok : RangeOK us ue vs ve) (hfuel : (ue - us) + (ve - vs) < fuel) :
    ∃ r, createSubTree K E patch gu gv fuel us ue vs ve mem c = some r ∧
      r.localCounter = c + 2 * (r.tree.leaves + r.tree.nodes) ∧
      r.tree.leaves = 3 * r.tree.nodes + 1 ∧
      (r.localCounter ≤ 4294967296 →
        r.tree.indices = List.range' c (r.tree.leaves + r.tree.nodes) 2) := by
  refine createSubTree_induction K E patch gu gv
    (fun _ _ _ _ _ c r => r.localCounter = c + 2 * (r.tree.leaves + r.tree.nodes) ∧
      r.tree.leaves = 3 * r.tree.nodes + 1 ∧
      (r.localCounter ≤ 4294967296 →
        r.tree.indices = List.range' c (r.tree.leaves + r.tree.nodes) 2))
    ?_ ?_ fuel us ue vs ve mem c hok hfuel
  · intro us ue vs ve mem c _ _ _
    refine ⟨rfl, rfl, ?_⟩
    intro h
    have hc : c + 2 ≤ 4294967296 := h
    simp only [createLeaf, SubTree.indices, SubTree.leaves, SubTree.nodes,
      u32_of_lt (show c < 4294967296 by omega)]
    rfl
  · intro us ue vs ve mem c r0 r1 r2 r3 _ _ p0 p1 p2 p3
    obtain ⟨a0, b0, i0⟩ := p0
    obtain ⟨a1, b1, i1⟩ := p1
    obtain ⟨a2, b2, i2⟩ := p2
    obtain ⟨a3, b3, i3⟩ := p3
    refine ⟨?_, ?_, ?_⟩
    · simp only [createNode, SubTree.leaves, SubTree.nodes]
      omega
    · simp only [createNode, SubTree.leaves, SubTree.nodes]
      omega
    · intro h
      have h3 : r3.localCounter ≤ 4294967296 := h
      simp only [createNode, SubTree.indices, SubTree.leaves, SubTree.nodes]
      rw [i0 (by omega), i1 (by omega), i2 (by omega), i3 h3, a0, a1, a0, a2, a1, a0]
      have e : r0.tree.leaves + r1.tree.leaves + r2.tree.leaves + r3.tree.leaves +
          (1 + r0.tree.nodes + r1.tree.nodes + r2.tree.nodes + r3.tree.nodes) =
          (r0.tree.leaves + r0.tree.nodes) + (r1.tree.leaves + r1.tree.nodes) +
            (r2.tree.leaves + r2.tree.nodes) + (r3.tree.leaves + r3.tree.nodes) + 1 := by
        omega
      rw [e, List.range'_succ,
        range'_two_append (c + 2) (r0.tree.leaves + r0.tree.nodes) _
          (r1.tree.leaves + r1.tree.nodes) rfl,
        range'_two_append (c + 2) _ _ (r2.tree.leaves + r2.tree.nodes) (by omega),
        range'_two_append (c + 2) _ _ (r3.tree.leaves + r3.tree.nodes) (by omega)]

/-- Among the cursor values `c`, `c + 2`, ..., `c + 2 * (n - 1)` exactly one is `b` or
`b - 1`, for every block `b` of `[c, c + 2 * n)`. -/
theorem range'_two_count (n : Nat) : ∀ c b, c ≤ b → b < c + 2 * n →
    ((List.range' c n 2).filter (fun i => decide (i = b ∨ i + 1 = b))).length = 1 := by
  induction n with
  | zero => intro c b h1 h2; omega
  | succ n ih =>
    intro c b h1 h2
    rw [List.range'_succ]
    by_cases hb : c = b ∨ c + 1 = b
    · rw [List.filter_cons_of_pos (by simpa using hb)]
      have hnil : (List.range' (c + 2) n 2).filter (fun i => decide (i = b ∨ i + 1 = b)) = [] := by
        rw [List.filter_eq_nil_iff]
        intro i hi
        rw [List.mem_range'] at hi
        obtain ⟨k, -, rfl⟩ := hi
        simp only [decide_eq_true_eq]
        omega
      rw [hnil]
      rfl
    · rw [List.filter_cons_of_neg (by simpa using hb)]
      exact ih (c + 2) b (by omega) (by omega)

/-- C21. Block accounting: a call of `createSubTree` on a well-formed range, entered
with the block cursor at `c0`, returns with the cursor at
`c1 = c0 + 2 * (leaves + nodes) = c0 + 8 * nodes + 2`; only blocks of `[c0, c1)` were
written; and, the cursor having stayed within 32 bits, the leaves and nodes were
created at the cursor values `c0`, `c0 + 2`, `c0 + 4`, ... (each was given the blocks
`c` and `c + 1` at the cursor value `c` current at its creation, and the pool holds
its lanes or its node record there), so that every block of `[c0, c1)` belongs to
exactly one of them. -/
theorem block_accounting {α γ : Type} [Lattice γ] [BoundedOrder γ]
    (K : BVH4iEncoding) (E : Externals α) (patch : SubdivPatch1 α γ)
    (grid_u_array grid_v_array : Nat → α) (fuel u_start u_end v_start v_end : Nat)
    (lazymem : Nat → Block α γ) (c0 : Nat)
    (hok : RangeOK u_start u_end v_start v_end)
    (hfuel : (u_end - u_start) + (v_end - v_start) < fuel) :
    ∃ r, createSubTree K E patch grid_u_array grid_v_array fuel u_start u_end v_start v_end
        lazymem c0 = some r ∧
      r.localCounter - c0 = 2 * (r.tree.leaves + r.tree.nodes) ∧
      r.localCounter - c0 = 8 * r.tree.nodes + 2 ∧
      c0 ≤ r.localCounter ∧
      (r.localCounter ≤ 4294967296 →
        r.tree.indices = List.range' c0 (r.tree.leaves + r.tree.nodes) 2 ∧
        BoxesStored patch r.lazymem r.tree ∧
        (∀ b, b < c0 ∨ r.localCounter ≤ b → r.lazymem b = lazymem b) ∧
        ∀ b, c0 ≤ b → b < r.localCounter →
          (r.tree.indices.filter (fun i => decide (i = b ∨ i + 1 = b))).length = 1) := by
  obtain ⟨r, hr, h1, h2, h3⟩ := createSubTree_counts K E patch grid_u_array grid_v_array fuel
    u_start u_end v_start v_end lazymem c0 hok hfuel
  obtain ⟨r', hr', -, -, -, h4⟩ := createSubTree_stored K E patch grid_u_array grid_v_array fuel
    u_start u_end v_start v_end lazymem c0 hok hfuel
  have e : r' = r := Option.some.inj (hr'.symm.trans hr)
  subst e
  refine ⟨r', hr, by omega, by omega, by omega, ?_⟩
  intro hlc
  obtain ⟨hframe, -, hst⟩ := h4 hlc
  refine ⟨h3 hlc, hst, hframe, ?_⟩
  intro b hb1 hb2
  rw [h3 hlc]
  exact range'_two_count _ c0 b hb1 (by omega)

theorem block_accounting_witness :
    ∃ r, createSubTree sampleEncoding sampleExternals (samplePatch 8 8 34) (fun i => i)
        (fun i => 2 * i) 20 0 7 0 7 (sampleArena 64).lazymem 6 = some r ∧
      r.localCounter - 6 = 2 * (r.tree.leaves + r.tree.nodes) ∧
      r.localCounter - 6 = 8 * r.tree.nodes + 2 ∧
      6 ≤ r.localCounter ∧
      (r.localCounter ≤ 4294967296 →
        r.tree.indices = List.range' 6 (r.tree.leaves + r.tree.nodes) 2 ∧
        BoxesStored (samplePatch 8 8 34) r.lazymem r.tree ∧
        (∀ b, b < 6 ∨ r.localCounter ≤ b → r.lazymem b = (sampleArena 64).lazymem b) ∧
        ∀ b, 6 ≤ b → b < r.localCounter →
          (r.tree.indices.filter (fun i => decide (i = b ∨ i + 1 = b))).length = 1) :=
  block_accounting sampleEncoding sampleExternals (samplePatch 8 8 34) (fun i => i)
    (fun i => 2 * i) 20 0 7 0 7 (sampleArena 64).lazymem 6 (by decide) (by decide)

/-! ## Coverage of the grid cells -/

theorem coversCell_iff (u v us ue vs ve : Nat) :
    coversCell u v (us, ue, vs, ve) = true ↔ us ≤ u ∧ u + 1 ≤ ue ∧ vs ≤ v ∧ v + 1 ≤ ve := by
  simp only [coversCell, inRange, decide_eq_true_eq]
  omega

/-- The leaves of a call on a well-formed range that contain a given unit cell: one if
the range contains the cell, none otherwise. -/
theorem createSubTree_cells {α γ : Type} [Lattice γ] [BoundedOrder γ]
    (K : BVH4iEncoding) (E : Externals α) (patch : SubdivPatch1 α γ) (gu gv : Nat → α)
    (fuel us ue vs ve : Nat) (mem : Nat → Block α γ) (c : Nat)
    (hok : RangeOK us ue vs ve) (hfuel : (ue - us) + (ve - vs) < fuel) :
    ∃ r, createSubTree K E patch gu gv fuel us ue vs ve mem c = some r ∧
      ∀ u v, r.tree.leafRanges.countP (coversCell u v) =
        if coversCell u v (us, ue, vs, ve) = true then 1 else 0 := by
  refine createSubTree_induction K E patch gu gv
    (fun us ue vs ve _ _ r => ∀ u v, r.tree.leafRanges.countP (coversCell u v) =
      if coversCell u v (us, ue, vs, ve) = true then 1 else 0)
    ?_ ?_ fuel us ue vs ve mem c hok hfuel
  · intro us ue vs ve mem c _ _ _ u v
    simp only [createLeaf, SubTree.leafRanges, List.countP_cons, List.countP_nil, Nat.zero_add]
  · intro us ue vs ve mem c r0 r1 r2 r3 hok _ p0 p1 p2 p3 u v
    obtain ⟨hu, hv, hue, hve⟩ := hok
    simp only [createNode, SubTree.leafRanges, List.countP_append, p0 u v, p1 u v, p2 u v,
      p3 u v, coversCell_iff]
    by_cases h1 : us ≤ u ∧ u + 1 ≤ ue <;> by_cases h2 : vs ≤ v ∧ v + 1 ≤ ve <;>
      by_cases h3 : u + 1 ≤ (us + ue) / 2 <;> by_cases h4 : v + 1 ≤ (vs + ve) / 2 <;>
      (repeat' split) <;> omega

/-- C25. Every grid quad is covered exactly once: for a grid of `u_res` by `v_res`
samples (`u_res, v_res >= 1`) and every unit cell `(u, v)` with `u < u_res - 1` and
`v < v_res - 1`, exactly one leaf of the tree `createSubTree` builds over
`[0, u_res-1] x [0, v_res-1]` has a sample range that contains the four corners
`(u, v)`, `(u+1, v)`, `(u+1, v+1)`, `(u, v+1)`. -/
theorem every_quad_covered_once {α γ : Type} [Lattice γ] [BoundedOrder γ]
    (K : BVH4iEncoding) (E : Externals α) (patch : SubdivPatch1 α γ)
    (grid_u_array grid_v_array : Nat → α) (fuel u_res v_res : Nat)
    (lazymem : Nat → Block α γ) (localCounter : Nat)
    (hu : 1 ≤ u_res) (hv : 1 ≤ v_res) (hu31 : u_res ≤ 2147483648) (hv31 : v_res ≤ 2147483648)
    (hfuel : u_res + v_res ≤ fuel) :
    ∃ r, createSubTree K E patch grid_u_array grid_v_array fuel 0 (u_res - 1) 0 (v_res - 1)
        lazymem localCounter = some r ∧
      ∀ u v, u < u_res - 1 → v < v_res - 1 →
        r.tree.leafRanges.countP (coversCell u v) = 1 := by
  obtain ⟨r, hr, h⟩ := createSubTree_cells K E patch grid_u_array grid_v_array fuel 0
    (u_res - 1) 0 (v_res - 1) lazymem localCounter ⟨by omega, by omega, by omega, by omega⟩
    (by omega)
  refine ⟨r, hr, ?_⟩
  intro u v hu' hv'
  rw [h u v, if_pos]
  rw [coversCell_iff]
  omega

theorem every_quad_covered_once_witness :
    ∃ r, createSubTree sampleEncoding sampleExternals (samplePatch 8 8 34) (fun i => i)
        (fun i => 2 * i) 20 0 (8 - 1) 0 (8 - 1) (sampleArena 64).lazymem 0 = some r ∧
      ∀ u v, u < 8 - 1 → v < 8 - 1 → r.tree.leafRanges.countP (coversCell u v) = 1 :=
  every_quad_covered_once sampleEncoding sampleExternals (samplePatch 8 8 34) (fun i => i)
    (fun i => 2 * i) 20 8 8 (sampleArena 64).lazymem 0 (by decide) (by decide) (by decide)
    (by decide) (by decide)

/-! ## Exact depth of the quad-tree -/

theorem specD_le_iff : ∀ d k, specD d ≤ k ↔ d ≤ 3 * 2 ^ k := by
  intro d
  induction d using Nat.strong_induction_on with
  | _ d ih =>
    intro k
    rw [specD]
    by_cases h : d ≤ 3
    · rw [dif_pos h]
      have : 1 ≤ 2 ^ k := Nat.one_le_two_pow
      omega
    · rw [dif_neg h]
      cases k with
      | zero => simp only [Nat.pow_zero]; omega
      | succ k =>
        have := ih ((d + 1) / 2) (by omega) k
        rw [Nat.pow_succ]
        omega

theorem specDmin_le_iff : ∀ d k, specDmin d ≤ k ↔ d < 4 * 2 ^ k := by
  intro d
  induction d using Nat.strong_induction_on with
  | _ d ih =>
    intro k
    rw [specDmin]
    by_cases h : d ≤ 3
    · rw [dif_pos h]
      have : 1 ≤ 2 ^ k := Nat.one_le_two_pow
      omega
    · rw [dif_neg h]
      cases k with
      | zero => simp only [Nat.pow_zero]; omega
      | succ k =>
        have := ih (d / 2) (by omega) k
        rw [Nat.pow_succ]
        omega

theorem specD_mono {a b : Nat} (h : a ≤ b) : specD a ≤ specD b :=
  (specD_le_iff a (specD b)).2 (le_trans h ((specD_le_iff b (specD b)).1 (le_refl _)))

theorem specDmin_mono {a b : Nat} (h : a ≤ b) : specDmin a ≤ specDmin b :=
  (specDmin_le_iff a (specDmin b)).2
    (lt_of_le_of_lt h ((specDmin_le_iff b (specDmin b)).1 (le_refl _)))

theorem specD_le_specDmin_succ (d : Nat) : specD d ≤ specDmin d + 1 := by
  rw [specD_le_iff, Nat.pow_succ]
  have := (specDmin_le_iff d (specDmin d)).1 (le_refl _)
  omega

theorem specDmin_le_specD (d : Nat) : specDmin d ≤ specD d := by
  rw [specDmin_le_iff]
  have := (specD_le_iff d (specD d)).1 (le_refl _)
  have h1 : 1 ≤ 2 ^ specD d := Nat.one_le_two_pow
  omega

/-- Depth of the deepest and of the shallowest leaf of the tree over a well-formed
range, from the larger of its two extents. -/
theorem createSubTree_depths {α γ : Type} [Lattice γ] [BoundedOrder γ]
    (K : BVH4iEncoding) (E : Externals α) (patch : SubdivPatch1 α γ) (gu gv : Nat → α)
    (fuel us ue vs ve : Nat) (mem : Nat → Block α γ) (c : Nat)
    (hok : RangeOK us ue vs ve) (hfuel : (ue - us) + (ve - vs) < fuel) :
    ∃ r, createSubTree K E patch gu gv fuel us ue vs ve mem c = some r ∧
      r.tree.depth = specD (max (ue - us) (ve - vs)) ∧
      r.tree.minDepth = specDmin (max (ue - us) (ve - vs)) := by
  refine createSubTree_induction K E patch gu gv
    (fun us ue vs ve _ _ r => r.tree.depth = specD (max (ue - us) (ve - vs)) ∧
      r.tree.minDepth = specDmin (max (ue - us) (ve - vs)))
    ?_ ?_ fuel us ue vs ve mem c hok hfuel
  · intro us ue vs ve mem c _ hu hv
    have hm : max (ue - us) (ve - vs) ≤ 3 := by omega
    rw [specD, specDmin, dif_pos hm, dif_pos hm]
    exact ⟨rfl, rfl⟩
  · intro us ue vs ve mem c r0 r1 r2 r3 hok hnl p0 p1 p2 p3
    obtain ⟨hu, hv, hue, hve⟩ := hok
    have hm : ¬ max (ue - us) (ve - vs) ≤ 3 := by omega
    rw [specD, specDmin, dif_neg hm, dif_neg hm]
    simp only [createNode, SubTree.depth, SubTree.minDepth, p0.1, p0.2, p1.1, p1.2, p2.1,
      p2.2, p3.1, p3.2]
    have eC : (max (ue - us) (ve - vs) + 1) / 2 =
        max (ue - (us + ue) / 2) (ve - (vs + ve) / 2) := by omega
    have eF : max (ue - us) (ve - vs) / 2 =
        max ((us + ue) / 2 - us) ((vs + ve) / 2 - vs) := by omega
    rw [eC, eF]
    have m0 := specD_mono (show max ((us + ue) / 2 - us) ((vs + ve) / 2 - vs) ≤
      max (ue - (us + ue) / 2) (ve - (vs + ve) / 2) by omega)
    have m1 := specD_mono (show max (ue - (us + ue) / 2) ((vs + ve) / 2 - vs) ≤
      max (ue - (us + ue) / 2) (ve - (vs + ve) / 2) by omega)
    have m3 := specD_mono (show max ((us + ue) / 2 - us) (ve - (vs + ve) / 2) ≤
      max (ue - (us + ue) / 2) (ve - (vs + ve) / 2) by omega)
    have n1 := specDmin_mono (show max ((us + ue) / 2 - us) ((vs + ve) / 2 - vs) ≤
      max (ue - (us + ue) / 2) ((vs + ve) / 2 - vs) by omega)
    have n2 := specDmin_mono (show max ((us + ue) / 2 - us) ((vs + ve) / 2 - vs) ≤
      max (ue - (us + ue) / 2) (ve - (vs + ve) / 2) by omega)
    have n3 := specDmin_mono (show max ((us + ue) / 2 - us) ((vs + ve) / 2 - vs) ≤
      max ((us + ue) / 2 - us) (ve - (vs + ve) / 2) by omega)
    constructor <;> omega

/-- C27. Exact tree depth: the depth (number of internal nodes on the longest path from
the root to a leaf) of the tree `createSubTree` builds over a well-formed range of
`u_size x v_size` samples is `D(max(u_size, v_size) - 1)`, with `D(d) = 0` for
`d <= 3` and `D(d) = 1 + D(ceil(d/2))` for `d > 3`; and the shallowest leaf is at
most one level above the deepest, so that the depths of any two leaves differ by at
most 1. -/
theorem createSubTree_exact_depth {α γ : Type} [Lattice γ] [BoundedOrder γ]
    (K : BVH4iEncoding) (E : Externals α) (patch : SubdivPatch1 α γ)
    (grid_u_array grid_v_array : Nat → α) (fuel u_start u_end v_start v_end : Nat)
    (lazymem : Nat → Block α γ) (localCounter : Nat)
    (hok : RangeOK u_start u_end v_start v_end)
    (hfuel : (u_end - u_start) + (v_end - v_start) < fuel) :
    ∃ r, createSubTree K E patch grid_u_array grid_v_array fuel u_start u_end v_start v_end
        lazymem localCounter = some r ∧
      r.tree.depth = specD (max (u_end - u_start + 1) (v_end - v_start + 1) - 1) ∧
      r.tree.minDepth ≤ r.tree.depth ∧ r.tree.depth ≤ r.tree.minDepth + 1 := by
  obtain ⟨r, hr, h1, h2⟩ := createSubTree_depths K E patch grid_u_array grid_v_array fuel
    u_start u_end v_start v_end lazymem localCounter hok hfuel
  have e : max (u_end - u_start + 1) (v_end - v_start + 1) - 1 =
      max (u_end - u_start) (v_end - v_start) := by omega
  refine ⟨r, hr, by rw [e]; exact h1, ?_, ?_⟩
  · rw [h1, h2]; exact specDmin_le_specD _
  · rw [h1, h2]; exact specD_le_specDmin_succ _

theorem createSubTree_exact_depth_witness :
    ∃ r, createSubTree sampleEncoding sampleExternals (samplePatch 8 8 34) (fun i => i)
        (fun i => 2 * i) 20 0 7 0 7 (sampleArena 64).lazymem 0 = some r ∧
      r.tree.depth = specD (max (7 - 0 + 1) (7 - 0 + 1) - 1) ∧
      r.tree.minDepth ≤ r.tree.depth ∧ r.tree.depth ≤ r.tree.minDepth + 1 :=
  createSubTree_exact_depth sampleEncoding sampleExternals (samplePatch 8 8 34) (fun i => i)
    (fun i => 2 * i) 20 0 7 0 7 (sampleArena 64).lazymem 0 (by decide) (by decide)

/-! ## Range invariant and grid reads -/

/-- The copy loops of a leaf perform the accesses of `leafAccesses`, in this order. -/
theorem fillLeaf_accesses {α : Type} (grid : Nat → α) (g us ue vs ve : Nat) (leaf : mic_f α) :
    fillLeaf grid g us ue vs ve leaf =
      (leafAccesses g us ue vs ve).foldl (fun leaf a => Function.update leaf a.1 (grid a.2))
        leaf := by
  unfold fillLeaf leafAccesses
  rw [List.foldl_flatten, List.foldl_map]
  congr 1
  funext leaf v
  rw [List.foldl_map]

theorem leafAccesses_bounds (g gv us ue vs ve : Nat) (hu : us ≤ ue) (hv : vs ≤ ve)
    (hu4 : ue - us ≤ 3) (hv4 : ve - vs ≤ 3) (hue : ue < g) (hve : ve < gv)
    (hue31 : ue < 2147483648) (hve31 : ve < 2147483648) :
    ∀ a, a ∈ leafAccesses g us ue vs ve → a.1 < 16 ∧ a.2 < g * gv := by
  intro a ha
  simp only [leafAccesses, List.mem_flatten, List.mem_map, List.mem_range'_1] at ha
  obtain ⟨l, ⟨v, ⟨hv1, hv2⟩, rfl⟩, hal⟩ := ha
  simp only [List.mem_map, List.mem_range'_1] at hal
  obtain ⟨u, ⟨hu1, hu2⟩, rfl⟩ := hal
  constructor
  · show u32 (4 * u32sub v vs + u32sub u us) < 16
    unfold u32 u32sub
    omega
  · show u32 (v * g + u) < g * gv
    have h1 : (v + 1) * g ≤ gv * g := Nat.mul_le_mul_right g (by omega)
    rw [Nat.add_mul, Nat.one_mul, Nat.mul_comm gv g] at h1
    have h2 : u32 (v * g + u) ≤ v * g + u := Nat.mod_le _ _
    omega

theorem createSubTree_range_inv {α γ : Type} [Lattice γ] [BoundedOrder γ]
    (K : BVH4iEncoding) (E : Externals α) (patch : SubdivPatch1 α γ) (gu gv : Nat → α)
    (g gvr : Nat) (fuel us ue vs ve : Nat) (mem : Nat → Block α γ) (c : Nat)
    (hok : RangeOK us ue vs ve) (hfuel : (ue - us) + (ve - vs) < fuel) :
    ∃ r, createSubTree K E patch gu gv fuel us ue vs ve mem c = some r ∧
      r.tree.range = (us, ue, vs, ve) ∧ (ue < g → ve < gvr → r.tree.RangeInv g gvr) := by
  refine createSubTree_induction K E patch gu gv
    (fun us ue vs ve _ _ r => r.tree.range = (us, ue, vs, ve) ∧
      (ue < g → ve < gvr → r.tree.RangeInv g gvr))
    ?_ ?_ fuel us ue vs ve mem c hok hfuel
  · intro us ue vs ve mem c hok hu4 hv4
    obtain ⟨hu, hv, hue, hve⟩ := hok
    refine ⟨rfl, ?_⟩
    intro hg hgv
    have hsu := size_of_range hu hue
    have hsv := size_of_range hv hve
    refine ⟨⟨by rw [hsu]; omega, by rw [hsv]; omega, hsu, hsv⟩, by rw [hsu]; omega,
      by rw [hsv]; omega, ?_⟩
    exact leafAccesses_bounds g gvr us ue vs ve hu hv hu4 hv4 hg hgv hue hve
  · intro us ue vs ve mem c r0 r1 r2 r3 hok _ p0 p1 p2 p3
    obtain ⟨hu, hv, hue, hve⟩ := hok
    refine ⟨rfl, ?_⟩
    intro hg hgv
    have hsu := size_of_range hu hue
    have hsv := size_of_range hv hve
    simp only [createNode, SubTree.RangeInv, p0.1, p1.1, p2.1, p3.1, rangeWithin]
    refine ⟨⟨by rw [hsu]; omega, by rw [hsv]; omega, hsu, hsv⟩, ?_, ?_, ?_, ?_,
      p0.2 (by omega) (by omega), p1.2 (by omega) (by omega), p2.2 (by omega) (by omega),
      p3.2 (by omega) (by omega)⟩ <;> omega

/-- C28. Range invariant and in-bounds grid reads: if the root call of `createSubTree`
has `u_start <= u_end < grid_u_res` and `v_start <= v_end < grid_v_res` (on a grid
of at most `2^31` samples in each direction), then in every call of the recursion the
range is ordered and lies within the range of the caller, `u_size >= 1` and
`v_size >= 1` hold and are computed without wrap, every leaf has
`1 <= u_size, v_size <= 4`, every index `v * grid_u_res + u` read from the grid
arrays is below `grid_u_res * grid_v_res`, and every lane index
`4 * local_v + local_u` written is below 16; the copy loops of a leaf perform exactly
the accesses listed. -/
theorem range_invariant {α γ : Type} [Lattice γ] [BoundedOrder γ]
    (K : BVH4iEncoding) (E : Externals α) (patch : SubdivPatch1 α γ)
    (grid_u_array grid_v_array : Nat → α) (fuel u_start u_end v_start v_end : Nat)
    (lazymem : Nat → Block α γ) (localCounter : Nat)
    (hu : u_start ≤ u_end) (hue : u_end < patch.grid_u_res)
    (hv : v_start ≤ v_end) (hve : v_end < patch.grid_v_res)
    (hgu : patch.grid_u_res ≤ 2147483648) (hgv : patch.grid_v_res ≤ 2147483648)
    (hfuel : (u_end - u_start) + (v_end - v_start) < fuel) :
    (∃ r, createSubTree K E patch grid_u_array grid_v_array fuel u_start u_end v_start v_end
        lazymem localCounter = some r ∧
      r.tree.range = (u_start, u_end, v_start, v_end) ∧
      r.tree.RangeInv patch.grid_u_res patch.grid_v_res) ∧
    ∀ (grid : Nat → α) (us ue vs ve : Nat) (leaf : mic_f α),
      fillLeaf grid patch.grid_u_res us ue vs ve leaf =
        (leafAccesses patch.grid_u_res us ue vs ve).foldl
          (fun leaf a => Function.update leaf a.1 (grid a.2)) leaf := by
  obtain ⟨r, hr, h1, h2⟩ := createSubTree_range_inv K E patch grid_u_array grid_v_array
    patch.grid_u_res patch.grid_v_res fuel u_start u_end v_start v_end lazymem localCounter
    ⟨hu, hv, by omega, by omega⟩ hfuel
  exact ⟨⟨r, hr, h1, h2 hue hve⟩, fun grid us ue vs ve leaf =>
    fillLeaf_accesses grid patch.grid_u_res us ue vs ve leaf⟩

theorem range_invariant_witness :
    (∃ r, createSubTree sampleEncoding sampleExternals (samplePatch 8 8 34) (fun i => i)
        (fun i => 2 * i) 20 0 7 0 7 (sampleArena 64).lazymem 0 = some r ∧
      r.tree.range = (0, 7, 0, 7) ∧
      r.tree.RangeInv (samplePatch 8 8 34).grid_u_res (samplePatch 8 8 34).grid_v_res) ∧
    ∀ (grid : Nat → Nat) (us ue vs ve : Nat) (leaf : mic_f Nat),
      fillLeaf grid (samplePatch 8 8 34).grid_u_res us ue vs ve leaf =
        (leafAccesses (samplePatch 8 8 34).grid_u_res us ue vs ve).foldl
          (fun leaf a => Function.update leaf a.1 (grid a.2)) leaf :=
  range_invariant sampleEncoding sampleExternals (samplePatch 8 8 34) (fun i => i)
    (fun i => 2 * i) 20 0 7 0 7 (sampleArena 64).lazymem 0 (by decide) (by decide)
    (by decide) (by decide) (by decide) (by decide) (by decide)

/-! ## Termination of the grid partitioner -/

/-- The relation `Calls` is the recursion of `createSubTree`: a call that returns from
the node branch has made its four calls on the ranges of `subtreeRanges`. -/
theorem createSubTree_calls {α γ : Type} [Lattice γ] [BoundedOrder γ]
    (K : BVH4iEncoding) (E : Externals α) (patch : SubdivPatch1 α γ)
    (gu gv : Nat → α) (fuel us ue vs ve : Nat) (mem : Nat → Block α γ) (c : Nat)
    (r : SubTreeResult α γ)
    (h : ¬ (u32 (u32sub ue us + 1) ≤ 4 ∧ u32 (u32sub ve vs + 1) ≤ 4))
    (hr : createSubTree K E patch gu gv (fuel + 1) us ue vs ve mem c = some r) :
    ∃ c0 c1 c2 c3, r.tree = SubTree.node c us ue vs ve r.curNode c0 c1 c2 c3 r.bounds ∧
      [c0.range, c1.range, c2.range, c3.range] = subtreeRanges (us, ue, vs, ve) ∧
      ∀ q, q ∈ [c0.range, c1.range, c2.range, c3.range] → Calls (us, ue, vs, ve) q := by
  obtain ⟨r0, r1, r2, r3, h0, h1, h2, h3, rfl⟩ :=
    createSubTree_node_inv K E patch gu gv fuel us ue vs ve mem c r h hr
  have e : [r0.tree.range, r1.tree.range, r2.tree.range, r3.tree.range] =
      subtreeRanges (us, ue, vs, ve) := by
    rw [createSubTree_tree_range K E patch _ _ _ _ _ _ _ _ _ r0 h0,
      createSubTree_tree_range K E patch _ _ _ _ _ _ _ _ _ r1 h1,
      createSubTree_tree_range K E patch _ _ _ _ _ _ _ _ _ r2 h2,
      createSubTree_tree_range K E patch _ _ _ _ _ _ _ _ _ r3 h3]
    rfl
  refine ⟨r0.tree, r1.tree, r2.tree, r3.tree, rfl, e, ?_⟩
  intro q hq
  rw [e] at hq
  exact ⟨h, hq⟩

/-- A recursive call of a call on a well-formed range is on a well-formed range of
strictly smaller `u_size + v_size`. -/
theorem calls_of_rangeOK (p q : Nat × Nat × Nat × Nat)
    (hok : RangeOK p.1 p.2.1 p.2.2.1 p.2.2.2) (hc : Calls p q) :
    RangeOK q.1 q.2.1 q.2.2.1 q.2.2.2 ∧ rangeSize q < rangeSize p := by
  obtain ⟨us, ue, vs, ve⟩ := p
  obtain ⟨hu, hv, hue, hve⟩ := hok
  obtain ⟨hnl, hq⟩ := hc
  simp only [subtreeRanges, List.mem_cons, List.mem_singleton, List.mem_nil_iff,
    or_false] at hq
  dsimp only at hu hv hue hve hnl
  have hsu := size_of_range hu hue
  have hsv := size_of_range hv hve
  have hmu := mid_of_range hu hue
  have hmv := mid_of_range hv hve
  rw [hsu, hsv] at hnl
  rw [hmu, hmv] at hq
  have hmu1 : us ≤ (us + ue) / 2 := by omega
  have hmu2 : (us + ue) / 2 ≤ ue := by omega
  have hmv1 : vs ≤ (vs + ve) / 2 := by omega
  have hmv2 : (vs + ve) / 2 ≤ ve := by omega
  rcases hq with rfl | rfl | rfl | rfl
  all_goals
    refine ⟨⟨by assumption, by assumption, by dsimp only; omega, by dsimp only; omega⟩, ?_⟩
    simp only [rangeSize]
    rw [hsu, hsv, size_of_range (by assumption) (by omega),
      size_of_range (by assumption) (by omega)]
    omega

theorem reachable_rangeOK (root p : Nat × Nat × Nat × Nat)
    (hok : RangeOK root.1 root.2.1 root.2.2.1 root.2.2.2)
    (hp : Relation.ReflTransGen Calls root p) : RangeOK p.1 p.2.1 p.2.2.1 p.2.2.2 := by
  induction hp with
  | refl => exact hok
  | tail _ hstep ih => exact (calls_of_rangeOK _ _ ih hstep).1

/-- C26 (the code at the failing input). On the range `[0, 2^32-1] x [0, 7]`, whose
bounds are ordered and whose sums `u_start + u_end = 2^32 - 1` and
`v_start + v_end = 7` do not overflow, `u_size` wraps to 0 and `v_size` is 8, the
call takes the node branch and calls itself on `[0, 2^31-1] x [0, 3]`, whose
`u_size + v_size` is `2^31 + 4`, not smaller than 8. And on `[1, 2^32-2] x [0, 0]`,
where no size wraps, the call on the child `[2^31-1, 2^32-2] x [0, 0]` calls itself
on `[2^31-1, 2^30-2] x [0, 0]`, a range that is not ordered and whose
`u_size + v_size` is larger than that of its caller. -/
theorem createSubTree_decrease_counterexample :
    ((0 : Nat) ≤ 4294967295 ∧ (0 : Nat) ≤ 7 ∧ 0 + 4294967295 < 4294967296 ∧
      0 + 7 < 4294967296 ∧
      Calls (0, 4294967295, 0, 7) (0, 2147483647, 0, 3) ∧
      rangeSize (0, 4294967295, 0, 7) = 8 ∧
      rangeSize (0, 2147483647, 0, 3) = 2147483652 ∧
      ¬ Decreasing (0, 4294967295, 0, 7)) ∧
    ((1 : Nat) ≤ 4294967294 ∧ 1 + 4294967294 < 4294967296 ∧
      Calls (1, 4294967294, 0, 0) (2147483647, 4294967294, 0, 0) ∧
      Calls (2147483647, 4294967294, 0, 0) (2147483647, 1073741822, 0, 0) ∧
      rangeSize (2147483647, 4294967294, 0, 0) = 2147483649 ∧
      rangeSize (2147483647, 1073741822, 0, 0) = 3221225473 ∧
      ¬ Decreasing (1, 4294967294, 0, 0)) := by
  have c1 : Calls (0, 4294967295, 0, 7) (0, 2147483647, 0, 3) := by decide
  have c2 : Calls (1, 4294967294, 0, 0) (2147483647, 4294967294, 0, 0) := by decide
  have c3 : Calls (2147483647, 4294967294, 0, 0) (2147483647, 1073741822, 0, 0) := by decide
  refine ⟨⟨by decide, by decide, by decide, by decide, c1, by decide, by decide, ?_⟩,
    ⟨by decide, by decide, c2, c3, by decide, by decide, ?_⟩⟩
  · intro h
    have := h _ _ Relation.ReflTransGen.refl c1
    revert this
    decide
  · intro h
    have := h _ _ (Relation.ReflTransGen.single c2) c3
    revert this
    decide

/-- C26 (amended). `createSubTree` terminates on every range with
`u_start <= u_end < 2^31` and `v_start <= v_end < 2^31`: in the recursion from such a
range every recursive call is on a range whose `u_size + v_size` is strictly smaller
than that of its caller (also where one dimension has only 1 or 2 samples and the
midpoint coincides with the range start), and the call returns as soon as the fuel
exceeds `(u_end - u_start) + (v_end - v_start)`. -/
theorem createSubTree_terminates {α γ : Type} [Lattice γ] [BoundedOrder γ]
    (K : BVH4iEncoding) (E : Externals α) (patch : SubdivPatch1 α γ)
    (grid_u_array grid_v_array : Nat → α) (u_start u_end v_start v_end : Nat)
    (hok : RangeOK u_start u_end v_start v_end) :
    Decreasing (u_start, u_end, v_start, v_end) ∧
    ∀ fuel lazymem localCounter, (u_end - u_start) + (v_end - v_start) < fuel →
      ∃ r, createSubTree K E patch grid_u_array grid_v_array fuel u_start u_end v_start v_end
        lazymem localCounter = some r := by
  constructor
  · intro p q hp hc
    exact (calls_of_rangeOK p q (reachable_rangeOK _ p hok hp) hc).2
  · intro fuel lazymem localCounter hfuel
    obtain ⟨r, hr, -⟩ := createSubTree_induction K E patch grid_u_array grid_v_array
      (fun _ _ _ _ _ _ _ => True) (fun _ _ _ _ _ _ _ _ _ => trivial)
      (fun _ _ _ _ _ _ _ _ _ _ _ _ _ _ _ _ => trivial)
      fuel u_start u_end v_start v_end lazymem localCounter hok hfuel
    exact ⟨r, hr⟩

theorem createSubTree_terminates_witness :
    RangeOK 0 1 0 7 ∧ Decreasing (0, 1, 0, 7) ∧
    ∀ fuel lazymem localCounter, (1 - 0) + (7 - 0) < fuel →
      ∃ r, createSubTree sampleEncoding sampleExternals (samplePatch 2 8 18) (fun i => i)
        (fun i => 2 * i) fuel 0 1 0 7 lazymem localCounter = some r :=
  ⟨by decide, createSubTree_terminates sampleEncoding sampleExternals (samplePatch 2 8 18)
    (fun i => i) (fun i => 2 * i) 0 1 0 7 (by decide)⟩

/-! ## Leaf references -/

/-- The value of a leaf reference, for a leaf bit below the encoding bits and an
index that the shift does not wrap. -/
theorem createSubPatchBVH4iLeaf_eq (K : BVH4iEncoding) (b i : Nat)
    (hmask : K.leaf_mask = 2 ^ b) (hb : b < K.encodingBits) (heb : K.encodingBits ≤ 32)
    (hi : i < 2 ^ (32 - K.encodingBits)) :
    createSubPatchBVH4iLeaf K i = 2 ^ K.encodingBits * i + 2 ^ b ∧
      u32 (i <<< K.encodingBits) = i <<< K.encodingBits := by
  have hpow : 2 ^ (32 - K.encodingBits) * 2 ^ K.encodingBits = 4294967296 := by
    rw [← Nat.pow_add, Nat.sub_add_cancel heb]
  have hlt : i * 2 ^ K.encodingBits < 4294967296 := by
    rw [← hpow]
    exact Nat.mul_lt_mul_of_pos_right hi (Nat.two_pow_pos _)
  have hu : u32 (i <<< K.encodingBits) = i <<< K.encodingBits := by
    rw [Nat.shiftLeft_eq]
    exact u32_of_lt hlt
  refine ⟨?_, hu⟩
  unfold createSubPatchBVH4iLeaf
  rw [hu, hmask, Nat.shiftLeft_eq, Nat.mul_comm i,
    ← Nat.mul_add_lt_is_or (Nat.pow_lt_pow_right (by decide) hb) i]

theorem loadBlock_lanes {α γ : Type} (X : Traversal α γ) (v : mic_f α) :
    loadBlock X (Block.lanes v : Block α γ) = v := rfl

theorem or_and_self_right (x m : Nat) : (x ||| m) &&& m = m := by
  apply Nat.eq_of_testBit_eq
  intro j
  rw [Nat.testBit_and, Nat.testBit_or]
  cases x.testBit j <;> cases m.testBit j <;> rfl

/-- C23. Leaf reference round trip: `createSubPatchBVH4iLeaf(ref, i)` stores the 32-bit
value `(i << encodingBits) | leaf_mask`. With the leaf bit `leaf_mask = 2^b` below the
encoding bits, for every index `i < 2^(32 - encodingBits)` the shift does not wrap,
the stored reference has its leaf bit set, a zero item count, and `offsetIndex`
(`ref >> encodingBits`) gives back `i`; so the two blocks `lazymem[offsetIndex]` and
`lazymem[offsetIndex + 1]` that the traversal loads for the leaf a call of
`createSubTree` created (on a range whose ends are below the largest `unsigned int`,
so that the copy loops end) are the u and v sample vectors that call wrote. For larger
`i` the shift wraps: the reference is that of `i mod 2^(32 - encodingBits)`. -/
theorem leaf_reference_round_trip {α γ : Type} [Lattice γ] [BoundedOrder γ]
    (K : BVH4iEncoding) (b : Nat)
    (hmask : K.leaf_mask = 2 ^ b) (hb : b < K.encodingBits) (heb : K.encodingBits ≤ 32) :
    (∀ i, createSubPatchBVH4iLeaf K i = u32 (i <<< K.encodingBits) ||| K.leaf_mask) ∧
    (∀ i, i < 2 ^ (32 - K.encodingBits) →
      createSubPatchBVH4iLeaf K i = (i <<< K.encodingBits) ||| K.leaf_mask ∧
      isLeaf K (createSubPatchBVH4iLeaf K i) = K.leaf_mask ∧
      isLeaf K (createSubPatchBVH4iLeaf K i) ≠ 0 ∧
      items K (createSubPatchBVH4iLeaf K i) = 0 ∧
      offsetIndex K (createSubPatchBVH4iLeaf K i) = i) ∧
    (∀ i, createSubPatchBVH4iLeaf K i =
      createSubPatchBVH4iLeaf K (i % 2 ^ (32 - K.encodingBits))) ∧
    (∀ (X : Traversal α γ) (E : Externals α) (patch : SubdivPatch1 α γ)
      (grid_u_array grid_v_array : Nat → α) (fuel u_start u_end v_start v_end : Nat)
      (lazymem : Nat → Block α γ) (localCounter : Nat),
      u_end < 4294967295 → v_end < 4294967295 →
      u32 (u32sub u_end u_start + 1) ≤ 4 → u32 (u32sub v_end v_start + 1) ≤ 4 →
      localCounter + 2 ≤ 2 ^ (32 - K.encodingBits) →
      ∃ r, createSubTree K E patch grid_u_array grid_v_array (fuel + 1) u_start u_end
          v_start v_end lazymem localCounter = some r ∧
        offsetIndex K r.curNode = localCounter ∧
        loadBlock X (r.lazymem (offsetIndex K r.curNode + 0)) =
          packLeaf E.inf grid_u_array patch.grid_u_res u_start u_end v_start v_end
            (u32 (u32sub u_end u_start + 1)) (u32 (u32sub v_end v_start + 1)) ∧
        loadBlock X (r.lazymem (offsetIndex K r.curNode + 1)) =
          packLeaf E.inf grid_v_array patch.grid_u_res u_start u_end v_start v_end
            (u32 (u32sub u_end u_start + 1)) (u32 (u32sub v_end v_start + 1))) := by
  have hround : ∀ i, i < 2 ^ (32 - K.encodingBits) →
      offsetIndex K (createSubPatchBVH4iLeaf K i) = i := by
    intro i hi
    obtain ⟨e, -⟩ := createSubPatchBVH4iLeaf_eq K b i hmask hb heb hi
    rw [e, offsetIndex, Nat.shiftRight_eq_div_pow,
      Nat.mul_add_div (Nat.two_pow_pos _),
      Nat.div_eq_of_lt (Nat.pow_lt_pow_right (by decide) hb), Nat.add_zero]
  refine ⟨fun _ => rfl, ?_, ?_, ?_⟩
  · intro i hi
    obtain ⟨e, hu⟩ := createSubPatchBVH4iLeaf_eq K b i hmask hb heb hi
    have hleaf : isLeaf K (createSubPatchBVH4iLeaf K i) = K.leaf_mask := by
      unfold isLeaf createSubPatchBVH4iLeaf
      exact or_and_self_right _ _
    refine ⟨by unfold createSubPatchBVH4iLeaf; rw [hu], hleaf, ?_, ?_, hround i hi⟩
    · rw [hleaf, hmask]
      exact Nat.pos_iff_ne_zero.1 (Nat.two_pow_pos b)
    · unfold items
      rw [e, hmask, Nat.and_pow_two_sub_one_eq_mod]
      obtain ⟨d, hd⟩ : ∃ d, K.encodingBits = b + d := ⟨K.encodingBits - b, by omega⟩
      rw [hd, Nat.pow_add, Nat.mul_assoc, Nat.mul_add_mod, Nat.mod_self]
  · intro i
    unfold createSubPatchBVH4iLeaf
    congr 1
    simp only [u32, Nat.shiftLeft_eq]
    have hpow : (4294967296 : Nat) = 2 ^ (32 - K.encodingBits) * 2 ^ K.encodingBits := by
      rw [← Nat.pow_add, Nat.sub_add_cancel heb]
    rw [hpow, Nat.mul_mod_mul_right, Nat.mul_mod_mul_right, Nat.mod_mod]
  · intro X E patch gu gv fuel us ue vs ve mem c hue hve h1 h2 hc
    have hpow : 2 ^ (32 - K.encodingBits) ≤ 4294967296 :=
      Nat.pow_le_pow_right (by decide) (Nat.sub_le 32 _)
    have e0 : u32 c = c := u32_of_lt (by omega)
    have e1 : u32 (c + 1) = c + 1 := u32_of_lt (by omega)
    have hoff : offsetIndex K (createSubPatchBVH4iLeaf K c) = c := hround c (by omega)
    refine ⟨_, createSubTree_leaf K E patch gu gv fuel us ue vs ve mem c ⟨h1, h2⟩
      (copyLoopsEnd_of_lt hue hve), ?_, ?_, ?_⟩
    · simp only [createLeaf, e0]
      exact hoff
    · simp only [createLeaf, e0, e1, hoff, Nat.add_zero]
      rw [Function.update_noteq (by omega), Function.update_same]
      exact loadBlock_lanes X _
    · simp only [createLeaf, e0, e1, hoff, Nat.add_zero]
      rw [Function.update_same]
      exact loadBlock_lanes X _

theorem leaf_reference_round_trip_witness :
    sampleEncoding.leaf_mask = 2 ^ 3 ∧ 3 < sampleEncoding.encodingBits ∧
    sampleEncoding.encodingBits ≤ 32 ∧
    ∀ i, i < 2 ^ (32 - sampleEncoding.encodingBits) →
      createSubPatchBVH4iLeaf sampleEncoding i =
        (i <<< sampleEncoding.encodingBits) ||| sampleEncoding.leaf_mask ∧
      isLeaf sampleEncoding (createSubPatchBVH4iLeaf sampleEncoding i) =
        sampleEncoding.leaf_mask ∧
      isLeaf sampleEncoding (createSubPatchBVH4iLeaf sampleEncoding i) ≠ 0 ∧
      items sampleEncoding (createSubPatchBVH4iLeaf sampleEncoding i) = 0 ∧
      offsetIndex sampleEncoding (createSubPatchBVH4iLeaf sampleEncoding i) = i :=
  ⟨by decide, by decide, by decide,
    (leaf_reference_round_trip (α := Nat) (γ := Fin 4) sampleEncoding 3 (by decide)
      (by decide) (by decide)).2.1⟩

/-! ## Scratch arrays of the small-patch path -/

/-- C29 (the code at the failing input). For a 4 by 4 patch on the fast path
(`grid_size_64b_blocks == 1`, 16 samples), the arrays `u_array` and `v_array` of
`intersectEvalGrid1` have 2 elements each, fewer than the 16 elements `load16f` reads
and than the 16 elements the tessellator writes, while the arrays of
`initLazySubdivTree` have 32 elements for the same patch. -/
theorem intersectEvalGrid1_arrays_too_small :
    (samplePatch 4 4 1).grid_size_64b_blocks = 1 ∧
    (samplePatch 4 4 1).grid_u_res * (samplePatch 4 4 1).grid_v_res ≤ 16 ∧
    intersectEvalGrid1.arrayElems (samplePatch 4 4 1) = 2 ∧
    intersectEvalGrid1.arrayElems (samplePatch 4 4 1) < load16f.elems ∧
    intersectEvalGrid1.arrayElems (samplePatch 4 4 1) <
      gridUVTessellator.elems (samplePatch 4 4 1).grid_u_res (samplePatch 4 4 1).grid_v_res ∧
    initLazySubdivTree.arrayElems (samplePatch 4 4 1) = 32 ∧
    load16f.elems ≤ initLazySubdivTree.arrayElems (samplePatch 4 4 1) := by
  refine ⟨by decide, by decide, by decide, by decide, by decide, by decide, by decide⟩

/-! ## The far bound of the packet traversal -/

/-- C22 (the code at the failing input). The packet `intersect` on a packet whose lane 0
enters with `tfar = 100` and hits a leaf of the micro-hierarchy of the patch under the
root at distance 5 returns with `tfar = 5` in lane 0, and hands the far bound 100 to
the stack-traversal primitive at all four pops: at the first pop of the top-level
stack and the first pop of the sub-stack, where the lane's `tfar` is 100, and at the
second pop of the sub-stack and the second pop of the top-level stack, which follow
the hit and where the lane's `tfar` is 5. -/
theorem far_bound_not_refreshed :
    (BVH4iIntersector16Subdiv.intersect sampleEncoding localTraversal sampleExternals
      sampleUninit 4 4 20 laneZero largePatches (sampleScene 16 8)
      (samplePacket 100)).2 = Status.returned ∧
    (BVH4iIntersector16Subdiv.intersect sampleEncoding localTraversal sampleExternals
      sampleUninit 4 4 20 laneZero largePatches (sampleScene 16 8)
      (samplePacket 100)).1.ray16.tfar 0 = 5 ∧
    pops (BVH4iIntersector16Subdiv.intersect sampleEncoding localTraversal sampleExternals
      sampleUninit 4 4 20 laneZero largePatches (sampleScene 16 8)
      (samplePacket 100)).1.log =
      [(false, 0, 100, 100), (true, 0, 100, 100), (true, 0, 100, 5), (false, 0, 100, 5)] := by
  refine ⟨by decide, by decide, by decide⟩

/-! ## Lane-wise select and byte stores of `vuint4` -/

theorem allOnes_and (x : Nat) (h : x < 4294967296) : allOnes &&& x = x := by
  have := Nat.and_pow_two_sub_one_eq_mod x 32
  rw [Nat.and_comm]
  simp only [allOnes]
  rw [show (4294967295 : Nat) = 2 ^ 32 - 1 from rfl, this]
  exact Nat.mod_eq_of_lt h

theorem mm_movepi32_mask_testBit (a : Lanes 4) (i : Fin 4) :
    (mm_movepi32_mask a).testBit i.val = (a i).testBit 31 := by
  unfold mm_movepi32_mask
  cases h0 : (a 0).testBit 31 <;> cases h1 : (a 1).testBit 31 <;>
    cases h2 : (a 2).testBit 31 <;> cases h3 : (a 3).testBit 31 <;>
    fin_cases i <;> simp [h0, h1, h2, h3] <;> decide

/-- C24. Lane-wise select: for a mask `m` whose four lanes are each all ones or all
zeros and vectors `t`, `f` of 32-bit lanes, `select(m, t, f)` has in lane `i` the
value `t[i]` when lane `i` of `m` is set and `f[i]` otherwise, and the AVX-512VL
variant (on the mask register of `m`), the SSE4.1 variant and the SSE2 variant
return the same vector. -/
theorem select_lanewise (m t f : Lanes 4)
    (hm : ∀ i, m i = 0 ∨ m i = allOnes)
    (ht : ∀ i, t i < 4294967296) (hf : ∀ i, f i < 4294967296) :
    (∀ i, vuint4.select_sse2 m t f i = if m i = allOnes then t i else f i) ∧
    vuint4.select_sse41 m t f = vuint4.select_sse2 m t f ∧
    vuint4.select_avx512vl (vuint4.asBool_avx512vl m) t f = vuint4.select_sse2 m t f := by
  have h2 : ∀ i, vuint4.select_sse2 m t f i = if m i = allOnes then t i else f i := by
    intro i
    simp only [vuint4.select_sse2, mm_or_si128, mm_and_si128, mm_andnot_si128]
    rcases hm i with h | h
    · rw [h, if_neg (by decide), Nat.zero_and, Nat.xor_zero, allOnes_and _ (hf i), Nat.zero_or]
    · rw [h, if_pos rfl, allOnes_and _ (ht i), Nat.xor_self, Nat.zero_and, Nat.or_zero]
  have hbit : ∀ i, (m i).testBit 31 = decide (m i = allOnes) := by
    intro i
    rcases hm i with h | h <;> rw [h] <;> decide
  refine ⟨h2, ?_, ?_⟩
  · funext i
    rw [h2 i]
    simp only [vuint4.select_sse41, mm_blendv_ps, hbit i, decide_eq_true_eq]
  · funext i
    rw [h2 i]
    simp only [vuint4.select_avx512vl, vuint4.asBool_avx512vl, mm_mask_blend_epi32,
      mm_movepi32_mask_testBit, hbit i, decide_eq_true_eq]

theorem select_lanewise_witness :
    (∀ i, vuint4.select_sse2 (vuint4.mk4 0 allOnes allOnes 0) (vuint4.mk4 1 2 3 4)
        (vuint4.mk4 50 60 70 80) i =
      if vuint4.mk4 0 allOnes allOnes 0 i = allOnes then vuint4.mk4 1 2 3 4 i
      else vuint4.mk4 50 60 70 80 i) ∧
    vuint4.select_sse41 (vuint4.mk4 0 allOnes allOnes 0) (vuint4.mk4 1 2 3 4)
        (vuint4.mk4 50 60 70 80) =
      vuint4.select_sse2 (vuint4.mk4 0 allOnes allOnes 0) (vuint4.mk4 1 2 3 4)
        (vuint4.mk4 50 60 70 80) ∧
    vuint4.select_avx512vl (vuint4.asBool_avx512vl (vuint4.mk4 0 allOnes allOnes 0))
        (vuint4.mk4 1 2 3 4) (vuint4.mk4 50 60 70 80) =
      vuint4.select_sse2 (vuint4.mk4 0 allOnes allOnes 0) (vuint4.mk4 1 2 3 4)
        (vuint4.mk4 50 60 70 80) :=
  select_lanewise (vuint4.mk4 0 allOnes allOnes 0) (vuint4.mk4 1 2 3 4)
    (vuint4.mk4 50 60 70 80) (by decide) (by decide) (by decide)

/-- C30 (the code at the failing input). On the vector `(40000, 256, 255, 0)` the
aarch64 variant of `store_uint8` writes the bytes `255, 255, 255, 0`, the SSE4.1
variant `0, 255, 255, 0` and the portable variant `64, 0, 255, 0`. -/
theorem store_uint8_variants_counterexample :
    vuint4.store_uint8_aarch64 (vuint4.mk4 40000 256 255 0) = vuint4.mk4 255 255 255 0 ∧
    vuint4.store_uint8_sse41 (vuint4.mk4 40000 256 255 0) = vuint4.mk4 0 255 255 0 ∧
    vuint4.store_uint8_portable (vuint4.mk4 40000 256 255 0) = vuint4.mk4 64 0 255 0 ∧
    vuint4.store_uint8_aarch64 (vuint4.mk4 40000 256 255 0) ≠
      vuint4.store_uint8_sse41 (vuint4.mk4 40000 256 255 0) ∧
    vuint4.store_uint8_aarch64 (vuint4.mk4 40000 256 255 0) ≠
      vuint4.store_uint8_portable (vuint4.mk4 40000 256 255 0) := by
  refine ⟨by decide, by decide, by decide, by decide, by decide⟩

/-- C30 (amended). For every vector whose four lanes are at most 255, the aarch64
variant, the SSE4.1 variant and the portable variant of `store_uint8` write the same
four bytes, byte `i` being lane `i` of the vector. -/
theorem store_uint8_variants (v : Lanes 4) (hv : ∀ i, v i ≤ 255) :
    vuint4.store_uint8_aarch64 v = v ∧ vuint4.store_uint8_sse41 v = v ∧
      vuint4.store_uint8_portable v = v := by
  refine ⟨?_, ?_, ?_⟩
  · funext i
    have := hv i
    have hi : i.val < 4 := i.isLt
    simp only [vuint4.store_uint8_aarch64, vst1_lane_u32, vqmovn_u16, vcombine_u16,
      vqmovn_u32, hi, dite_true, Fin.eta]
    omega
  · funext i
    have := hv i
    have hi : i.val < 4 := i.isLt
    have hi8 : i.val < 8 := by omega
    have e32 : packus32 (v i) = v i := by
      unfold packus32
      rw [if_neg (by omega)]
      omega
    have e16 : packus16 (v i) = v i := by
      unfold packus16
      rw [if_neg (by omega)]
      omega
    simp only [vuint4.store_uint8_sse41, mm_cvtsi128_si32, mm_packus_epi16, mm_packus_epi32,
      hi, hi8, dite_true, Fin.eta, e32, e16]
  · funext i
    have := hv i
    simp only [vuint4.store_uint8_portable]
    omega

theorem store_uint8_variants_witness :
    (∀ i, vuint4.mk4 7 0 255 128 i ≤ 255) ∧
    vuint4.store_uint8_aarch64 (vuint4.mk4 7 0 255 128) = vuint4.mk4 7 0 255 128 ∧
    vuint4.store_uint8_sse41 (vuint4.mk4 7 0 255 128) = vuint4.mk4 7 0 255 128 ∧
    vuint4.store_uint8_portable (vuint4.mk4 7 0 255 128) = vuint4.mk4 7 0 255 128 :=
  ⟨by decide, store_uint8_variants (vuint4.mk4 7 0 255 128) (by decide)⟩

end embree
